import Mathlib

/-!
# EDDD: topology synthesis and traffic generators

A shallow embedding of the numeric and geometric routines of the EDDD ns-3
scenario (`src/eddd`), with theorems about them.

Conventions of the embedding.

* A C++ `double` is an element of a type `K`.  The geometry kernel
  (`CalculateDistance`, `IsGabrielEdge`, `CreateGabrielGraph`, `crossProduct`,
  `FindBorderNodes`) only asks `K` for the operations and comparisons that the
  source uses, so that it runs on `Binary64`, the IEEE 754 numbers with their
  rounded operations, as well as in exact arithmetic.  Elsewhere `K` is a
  linearly ordered field (exact arithmetic); every definition is computable
  and can be run at `K := ℚ`.
* `std::sqrt`, `std::mt19937` and `std::uniform_real_distribution` belong to the
  C++ standard library, and `CalculateDistance` / `CalculateDistanceSquared`
  to ns-3.  The square root and the pseudo-random draws are parameters of the
  definitions that use them.
* A bounds-checked access (`.at`) that would throw makes the function return
  `none`.
-/

namespace EDDD

/-! ## Quantile sampler -/

section Sampler

variable {K : Type} [LinearOrderedField K] [FloorRing K]

/-- The conversion `static_cast<int>(x)` of a `double`: truncation towards zero. -/
def truncToInt (x : K) : Int :=
  if 0 ≤ x then Int.floor x else Int.ceil x

/-- The checked access `std::array<double, 11>::at`: an index outside `0..10`
throws (`none`). -/
def arrayAt {A : Type} (a : Fin 11 → A) (i : Int) : Option A :=
  if h : 0 ≤ i ∧ i < 11 then some (a ⟨i.toNat, by omega⟩) else none

end Sampler

namespace SynFloodAttacker

variable {K : Type} [LinearOrderedField K] [FloorRing K]

/-- The body of `SynFloodAttacker::GetRandomDistributionNumber` after the draw
`u` has been made (`syn-flood-attacker.cc`, lines 215-224). -/
def interpolate (piecewiseProbability : Fin 11 → K) (u : K) : Option K :=
  let minIndex : Int := truncToInt (u * 10)
  let minIndex : Int := if minIndex = 11 then 10 else minIndex
  match arrayAt piecewiseProbability minIndex,
        arrayAt piecewiseProbability (minIndex + 1) with
  | some lo, some hi => some (lo + (hi - lo) * u)
  | _, _ => none

/-- The function `SynFloodAttacker::GetRandomDistributionNumber`.  `firstDraw s`
is the first value that `std::uniform_real_distribution<>(0, 1)` yields on a
`std::mt19937` seeded with `s`; the seed is the 32-bit product
`seed * m_seed`. -/
def GetRandomDistributionNumber (firstDraw : Nat → K) (m_seed : Nat)
    (piecewiseProbability : Fin 11 → K) (seed : Nat) : Option K :=
  let gen : Nat := (seed * m_seed) % 2 ^ 32
  let u : K := firstDraw gen
  interpolate piecewiseProbability u

end SynFloodAttacker

namespace LegitimateTrafficApplication

variable {K : Type} [LinearOrderedField K] [FloorRing K]

/-- The body of `LegitimateTrafficApplication::GetRandomDistributionNumber`
after the draw `u` has been made (`legitimate-traffic-application.cc`,
lines 293-302). -/
def interpolate (piecewiseProbability : Fin 11 → K) (u : K) : Option K :=
  let minIndex : Int := truncToInt (u * 10)
  let minIndex : Int := if minIndex = 11 then 10 else minIndex
  match arrayAt piecewiseProbability minIndex,
        arrayAt piecewiseProbability (minIndex + 1) with
  | some lo, some hi => some (lo + (hi - lo) * u)
  | _, _ => none

/-- The function `LegitimateTrafficApplication::GetRandomDistributionNumber`;
`firstDraw` as for the SYN-flood copy. -/
def GetRandomDistributionNumber (firstDraw : Nat → K) (m_seed : Nat)
    (piecewiseProbability : Fin 11 → K) (seed : Nat) : Option K :=
  let gen : Nat := (seed * m_seed) % 2 ^ 32
  let u : K := firstDraw gen
  interpolate piecewiseProbability u

end LegitimateTrafficApplication

/-- A quantile table with `q i = i`, exactly representable in binary floating
point. -/
def rampTable : Fin 11 → ℚ := fun i => (i.val : ℚ)

/-! ## Geometry kernel -/

/-- The type `ns3::Vector2D`: a point of the plane. -/
structure Vector2D (K : Type) where
  x : K
  y : K
deriving DecidableEq

/-- The struct `NetworkTopologyCreator::PositionedNode`. -/
structure PositionedNode (K : Type) where
  id : Int
  position : Vector2D K
deriving DecidableEq

/-! The definitions of this section use the arithmetic of `K` as it is: with
`K := Binary64` every operation rounds, as in the source, and with a field `K`
none does. -/

section GeometryKernel

variable {K : Type} [Add K] [Sub K] [Mul K] [Div K] [OfNat K 0] [OfNat K 2] [LE K] [LT K]
  [DecidableEq K] [DecidableRel (fun a b : K => a ≤ b)] [DecidableRel (fun a b : K => a < b)]

/-- The ns-3 function `CalculateDistanceSquared`: the squared length of `b - a`. -/
def CalculateDistanceSquared (a b : Vector2D K) : K :=
  (b.x - a.x) * (b.x - a.x) + (b.y - a.y) * (b.y - a.y)

/-- The ns-3 function `CalculateDistance`: `std::sqrt` of the squared length of
`b - a`; the square root is the parameter `sqrt`. -/
def CalculateDistance (sqrt : K → K) (a b : Vector2D K) : K :=
  sqrt (CalculateDistanceSquared a b)

/-- The function `NetworkTopologyCreator::IsGabrielEdge`: no node with an id
other than those of `a` and `b` lies at distance at most `radius` from the
midpoint. -/
def IsGabrielEdge (sqrt : K → K) (a b : PositionedNode K)
    (nodes : List (PositionedNode K)) : Bool :=
  let abDistance := CalculateDistance sqrt a.position b.position
  let midPoint : Vector2D K :=
    ⟨(a.position.x + b.position.x) / 2, (a.position.y + b.position.y) / 2⟩
  let radius := abDistance / 2
  nodes.all fun node =>
    !(node.id != a.id && node.id != b.id
        && decide (CalculateDistance sqrt node.position midPoint ≤ radius))

/-- The two nested loops of `CreateGabrielGraph`, from the outer index that
starts the list `rest` on: `a` runs through `rest` and `b` through the nodes
after `a`. -/
def gabrielLoop (sqrt : K → K) (nodes : List (PositionedNode K)) :
    List (PositionedNode K) → List (Int × Int)
  | [] => []
  | a :: rest =>
      ((rest.filter fun b => IsGabrielEdge sqrt a b nodes).map fun b => (a.id, b.id))
        ++ gabrielLoop sqrt nodes rest

/-- The function `NetworkTopologyCreator::CreateGabrielGraph`. -/
def CreateGabrielGraph (sqrt : K → K) (nodes : List (PositionedNode K)) : List (Int × Int) :=
  gabrielLoop sqrt nodes nodes

/-- The helper `crossProduct`: the cross product of `p1 - p0` and `p2 - p0`. -/
def crossProduct (p0 p1 p2 : Vector2D K) : K :=
  (p1.x - p0.x) * (p2.y - p0.y) - (p1.y - p0.y) * (p2.x - p0.x)

/-- The first loop of `FindBorderNodes`: the lowest, then leftmost node, the
earliest one in the list among equals. -/
def findStart (start : PositionedNode K) : List (PositionedNode K) → PositionedNode K
  | [] => start
  | node :: rest =>
      if node.position.y < start.position.y
          ∨ (node.position.y = start.position.y ∧ node.position.x < start.position.x) then
        findStart node rest
      else
        findStart start rest

/-- The comparator that `FindBorderNodes` gives to `std::sort`: by polar angle
around `start`, the nearer point first on a tie. -/
def polarLess (start : PositionedNode K) (a b : PositionedNode K) : Bool :=
  let cp := crossProduct start.position a.position b.position
  if cp = 0 then
    decide (CalculateDistanceSquared start.position a.position
      < CalculateDistanceSquared start.position b.position)
  else
    decide (cp > 0)

/-- Insertion of one element in a list sorted by `less`, after the elements
that are not greater. -/
def sortInsert (less : PositionedNode K → PositionedNode K → Bool) (a : PositionedNode K) :
    List (PositionedNode K) → List (PositionedNode K)
  | [] => [a]
  | b :: rest => if less a b then a :: b :: rest else b :: sortInsert less a rest

/-- A model of `std::sort` with the comparator `less` (an insertion sort).
The theorems on `FindBorderNodes` hold for every sorted arrangement, see
`grahamScan`. -/
def sortBy (less : PositionedNode K → PositionedNode K → Bool) :
    List (PositionedNode K) → List (PositionedNode K)
  | [] => []
  | a :: rest => sortInsert less a (sortBy less rest)

/-- The inner `while` loop of the scan; the stack `borderNodes` is kept with
its top first. -/
def popWhile (node : PositionedNode K) : List (PositionedNode K) → List (PositionedNode K)
  | top :: below :: rest =>
      if crossProduct below.position top.position node.position ≤ 0 then
        popWhile node (below :: rest)
      else
        top :: below :: rest
  | stack => stack

/-- The scan of `FindBorderNodes` over the sorted nodes; the stack is kept
with its top first. -/
def scanLoop : List (PositionedNode K) → List (PositionedNode K) → List (PositionedNode K)
  | stack, [] => stack
  | stack, node :: rest => scanLoop (node :: popWhile node stack) rest

/-- The part of `FindBorderNodes` that follows `std::sort`, for the sorted
list `sortedNodes`: the result in the order of the source (bottom of the
stack first). -/
def grahamScan (start : PositionedNode K) (sortedNodes : List (PositionedNode K)) :
    List (PositionedNode K) :=
  (scanLoop [start] sortedNodes).reverse

/-- The function `NetworkTopologyCreator::FindBorderNodes`.  On an empty
vector the source reads `nodes[0]` (undefined behaviour): `none`. -/
def FindBorderNodes : List (PositionedNode K) → Option (List (PositionedNode K))
  | [] => none
  | first :: rest =>
      let start := findStart first (first :: rest)
      let sortedNodes := sortBy (polarLess start) (first :: rest)
      some (grahamScan start sortedNodes)

end GeometryKernel

section Geometry

variable {K : Type} [LinearOrderedField K]

/-- What the theorems in exact arithmetic assume of `std::sqrt`: on a
non-negative argument it is the non-negative root. -/
def IsSqrt (sqrt : K → K) : Prop :=
  ∀ x : K, 0 ≤ x → 0 ≤ sqrt x ∧ sqrt x * sqrt x = x

/-- The inner loop of `FindFurthestApartNodes` over the selected nodes: the
least distance from `p` to a selected node.  The initial value
`std::numeric_limits<double>::max()` is `⊤`. -/
def minDistanceTo (sqrt : K → K) (p : Vector2D K) (selectedNodes : List (PositionedNode K)) :
    WithTop K :=
  selectedNodes.foldl
    (fun minDistance selectedNode =>
      let currentDistance := CalculateDistance sqrt p selectedNode.position
      if (currentDistance : WithTop K) < minDistance then (currentDistance : WithTop K)
      else minDistance)
    ⊤

/-- One step of the `for` loop over the border nodes: the new values of
`maxDistance` and `maxIndex` after the node `e.2` of index `e.1`. -/
def maxIndexStep (sqrt : K → K) (used : List Bool) (selectedNodes : List (PositionedNode K))
    (acc : WithTop K × Int) (e : Nat × PositionedNode K) : WithTop K × Int :=
  if used.getD e.1 false = false then
    let minDistance := minDistanceTo sqrt e.2.position selectedNodes
    if minDistance > acc.1 then (minDistance, (e.1 : Int)) else acc
  else acc

/-- The `for` loop over the border nodes of one round of the greedy selection:
the final `maxDistance` and `maxIndex`, which start at `-1`. -/
def findMaxIndex (sqrt : K → K) (borderNodes : List (PositionedNode K)) (used : List Bool)
    (selectedNodes : List (PositionedNode K)) : WithTop K × Int :=
  borderNodes.enum.foldl (maxIndexStep sqrt used selectedNodes) ((((-1 : K)) : WithTop K), -1)

/-- The second `while` loop of `FindFurthestApartNodes`, `numberOfConnections`
rounds.  With `maxIndex = -1` the source writes `used[-1]` (undefined
behaviour): `none`. -/
def greedyLoop (sqrt : K → K) (borderNodes : List (PositionedNode K)) :
    Nat → List Bool → List (PositionedNode K) → Option (List (PositionedNode K))
  | 0, _, selectedNodes => some selectedNodes
  | numberOfConnections + 1, used, selectedNodes =>
      let maxIndex := (findMaxIndex sqrt borderNodes used selectedNodes).2
      if 0 ≤ maxIndex then
        match borderNodes[maxIndex.toNat]? with
        | some node =>
            greedyLoop sqrt borderNodes numberOfConnections (used.set maxIndex.toNat true)
              (selectedNodes ++ [node])
        | none => none
      else none

/-- The first `while` loop of `FindFurthestApartNodes`: all border nodes are
appended while more connections than border nodes remain.  With no border
node the loop of the source never ends: `none`. -/
def selectAllLoop (borderNodes : List (PositionedNode K))
    (selectedNodes : List (PositionedNode K)) (numberOfConnections : Nat) :
    Option (List (PositionedNode K) × Nat) :=
  if h : numberOfConnections > borderNodes.length then
    if h0 : borderNodes.length = 0 then none
    else
      selectAllLoop borderNodes (selectedNodes ++ borderNodes)
        (numberOfConnections - borderNodes.length)
  else some (selectedNodes, numberOfConnections)
termination_by numberOfConnections
decreasing_by omega

/-- The function `NetworkTopologyCreator::FindFurthestApartNodes`. -/
def FindFurthestApartNodes (sqrt : K → K) (borderNodes : List (PositionedNode K))
    (numberOfConnections : Nat) : Option (List (PositionedNode K)) :=
  if numberOfConnections = 0 then some []
  else
    match selectAllLoop borderNodes [] numberOfConnections with
    | none => none
    | some (selectedNodes, numberOfConnections) =>
        match borderNodes with
        | [] => none
        | first :: _ =>
            let used := (List.replicate borderNodes.length false).set 0 true
            greedyLoop sqrt borderNodes (numberOfConnections - 1) used (selectedNodes ++ [first])

end Geometry

/-! ## Topology synthesizer: access nets -/

/-- The struct `NetworkTopologyCreator::NodesCounter`. -/
structure NodesCounter where
  attackingClients : Nat
  legitimateClients : Nat
  localRouters : Nat
  regionalRouters : Nat
  backboneRouters : Nat
deriving DecidableEq

/-- The state that `BuildAccessNet` reads and writes.  A node handle is the
node's ns-3 id; `nodeListSize` is the id that ns-3 gives to the next node
created, and `addressNetwork` counts the `NewNetwork` calls made on the
`Ipv4AddressHelper` that is passed along. -/
structure TopologyState where
  m_legitimateClients : List Nat
  m_attackingClients : List Nat
  m_targetNode : Option Nat
  m_targetAddress : Nat
  nodeListSize : Nat
  addressNetwork : Nat
deriving DecidableEq

section AccessNet

variable {K : Type} [LinearOrderedField K]

/-- The last loop of `BuildAccessNet` over the clients `clientNodes`; `draw j`
is the `j`-th value of `dist(rng)`, and the two counters are `uint32_t`. -/
def classifyClients (attackTrafficFactor : K) (draw : Nat → K) :
    List Nat → Nat → TopologyState → Nat × Nat → TopologyState × (Nat × Nat)
  | [], _, st, counters => (st, counters)
  | client :: rest, j, st, (numberOfAttackingClients, numberOfLegitimateClients) =>
      if draw j < attackTrafficFactor then
        classifyClients attackTrafficFactor draw rest (j + 1)
          { st with m_attackingClients := st.m_attackingClients ++ [client] }
          ((numberOfAttackingClients + 1) % 2 ^ 32, numberOfLegitimateClients)
      else
        classifyClients attackTrafficFactor draw rest (j + 1)
          { st with m_legitimateClients := st.m_legitimateClients ++ [client] }
          (numberOfAttackingClients, (numberOfLegitimateClients + 1) % 2 ^ 32)

/-- The function `NetworkTopologyCreator::BuildAccessNet`.  `draws s j` is the
`j`-th value that `std::uniform_real_distribution<double>(0, 1)` yields on a
`std::mt19937` seeded with `s`, and `firstAddress w` is the address that the
`Ipv4AddressHelper` gives to the first device of its `w`-th network.  With the
target still to be set and no client, the source reads the address of client
`0` of an empty container: `none`.  The devices, the pcap trace and the ping
applications that the source also sets up do not enter the state and are left
out. -/
def BuildAccessNet (draws : Nat → Nat → K) (firstAddress : Nat → Nat)
    (attackTrafficFactor : K) (numberOfClients : Nat) (parentNode : Nat)
    (st : TopologyState) : Option (TopologyState × NodesCounter) :=
  let accessNetIncludesTarget : Bool := st.m_targetAddress = 0
  let clientNodes : List Nat := List.range' st.nodeListSize numberOfClients
  let st1 : TopologyState :=
    { st with nodeListSize := st.nodeListSize + numberOfClients,
              addressNetwork := st.addressNetwork + numberOfClients }
  let withTarget : Option TopologyState :=
    if accessNetIncludesTarget then
      match clientNodes with
      | [] => none
      | client0 :: _ =>
          some { st1 with m_targetAddress := firstAddress st.addressNetwork,
                          m_targetNode := some client0 }
    else some st1
  match withTarget with
  | none => none
  | some st2 =>
      let res := classifyClients attackTrafficFactor (draws parentNode)
        (clientNodes.drop (if accessNetIncludesTarget then 1 else 0)) 0 st2 (0, 0)
      some (res.1, ⟨res.2.1, res.2.2, 0, 0, 0⟩)

end AccessNet

/-! ## Notions used to state the properties -/

section SpecNotions

variable {K : Type} [Add K] [Sub K] [Mul K] [Div K] [OfNat K 2] [LE K]

/-- The midpoint that `IsGabrielEdge` computes for `a` and `b`. -/
def midPointOf (a b : PositionedNode K) : Vector2D K :=
  ⟨(a.position.x + b.position.x) / 2, (a.position.y + b.position.y) / 2⟩

/-- The test that `IsGabrielEdge` makes on a node `c`, in the arithmetic of
`K`: the computed distance of `c` to the computed midpoint is at most half the
computed distance from `a` to `b`.  In exact arithmetic `c` lies in the closed
disc whose diameter is the segment from `a` to `b`. -/
def InDiameterDisc (sqrt : K → K) (a b c : PositionedNode K) : Prop :=
  CalculateDistance sqrt c.position (midPointOf a b)
    ≤ CalculateDistance sqrt a.position b.position / 2

/-- Two node ids are joined by an edge of the list, in either direction. -/
def Linked (edges : List (Int × Int)) (u v : Int) : Prop :=
  (u, v) ∈ edges ∨ (v, u) ∈ edges

/-- The id `v` can be reached from the id `u` along edges of the list. -/
def Reachable (edges : List (Int × Int)) (u v : Int) : Prop :=
  Relation.ReflTransGen (Linked edges) u v

/-- Every node can be reached from every other node along the edges. -/
def GraphConnected (nodes : List (PositionedNode K)) (edges : List (Int × Int)) : Prop :=
  ∀ a ∈ nodes, ∀ b ∈ nodes, Reachable edges a.id b.id

end SpecNotions

/-! ## Sample inputs -/

/-- Two nodes at distance `2`. -/
def twoNodes (K : Type) [LinearOrderedField K] : List (PositionedNode K) :=
  [⟨0, ⟨0, 0⟩⟩, ⟨1, ⟨2, 0⟩⟩]

/-- Three nodes with distinct ids, two of them at the same place. -/
def stackedNodes (K : Type) [LinearOrderedField K] : List (PositionedNode K) :=
  [⟨0, ⟨0, 0⟩⟩, ⟨1, ⟨0, 0⟩⟩, ⟨2, ⟨2, 0⟩⟩]

/-! ## Predicates used in the proofs -/

/-- The pair `(maxDistance, maxIndex)` of `findMaxIndex` is in its initial
state, or `maxIndex` is the index of a border node that is not used. -/
def MaxIndexOk {K : Type} [LinearOrderedField K] (n : Nat) (used : List Bool)
    (acc : WithTop K × Int) : Prop :=
  (acc.2 = -1 ∧ acc.1 = (((-1 : K)) : WithTop K))
    ∨ (0 ≤ acc.2 ∧ acc.2.toNat < n ∧ used.getD acc.2.toNat false = false)

/-- The flags `used` mark exactly the indices of the list `idxs`. -/
def UsedMatches (n : Nat) (used : List Bool) (idxs : List Nat) : Prop :=
  used.length = n ∧ ∀ i : Nat, i < n → (used.getD i false = true ↔ i ∈ idxs)

/-- A state before the first access net: no target yet, ten nodes created. -/
def freshState : TopologyState := ⟨[], [], none, 0, 10, 0⟩

/-! ## Notions used to state and prove the properties of the border scan -/

section HullNotions

variable {K : Type} [LinearOrderedField K]

/-- The point `p` is one of the points `pts` and a line through `p` has all
of `pts` on one side: `p` lies on the boundary of the convex hull of `pts`. -/
def OnHullBoundary (pts : List (Vector2D K)) (p : Vector2D K) : Prop :=
  p ∈ pts ∧ ∃ a b : K, (a ≠ 0 ∨ b ≠ 0)
    ∧ ∀ q ∈ pts, a * (q.x - p.x) + b * (q.y - p.y) ≤ 0

end HullNotions

/-! ## Topology synthesizer: the creator object and its setters -/

/-- The object `NetworkTopologyCreator`: the state that the access nets use
(`state`), the configuration fields and the partition counter. -/
structure Creator (K : Type) where
  state : TopologyState
  m_backbone_speed_km_per_ms : K
  m_regional_speed_km_per_ms : K
  m_local_speed_km_per_ms : K
  m_backbone_bandwidth_gbps : K
  m_regional_bandwidth_gbps : K
  m_local_bandwidth_gbps : K
  m_client_bandwidth_gbps : K
  m_network_representation_factor : K
  m_client_representation_factor : K
  m_graphviz_enabled : Bool
  m_ping_enabled : Bool
  m_current_system_id : Nat

section Setters

variable {K : Type} [LinearOrderedField K]

/-- The constant `MAX_FIBER_SPEED_KM_PER_MS = 0.005`. -/
def MAX_FIBER_SPEED_KM_PER_MS : K := 5 / 1000

/-- The constructor `NetworkTopologyCreator::NetworkTopologyCreator`, with no
node created and no network allocated yet. -/
def Creator.new : Creator K where
  state := ⟨[], [], none, 0, 0, 0⟩
  m_backbone_speed_km_per_ms := 5 / 1000 * (125 / 100)
  m_regional_speed_km_per_ms := 5 / 1000 * (25 / 10)
  m_local_speed_km_per_ms := 5 / 1000 * (375 / 100)
  m_backbone_bandwidth_gbps := 1000
  m_regional_bandwidth_gbps := 100
  m_local_bandwidth_gbps := 10
  m_client_bandwidth_gbps := 1
  m_network_representation_factor := 1
  m_client_representation_factor := 1
  m_graphviz_enabled := false
  m_ping_enabled := false
  m_current_system_id := 0

/-- The function `NetworkTopologyCreator::SetNetworkSpeedFactors`.  A failed
`NS_ASSERT_MSG` aborts the program: `Except.error` holds the object as it is
then. -/
def SetNetworkSpeedFactors (c : Creator K) (backboneFactor regionalFactor localFactor : K) :
    Except (Creator K) (Creator K) :=
  if backboneFactor > 1 ∧ regionalFactor > 1 ∧ localFactor > 1 then
    .ok { c with
      m_backbone_speed_km_per_ms := MAX_FIBER_SPEED_KM_PER_MS * backboneFactor,
      m_regional_speed_km_per_ms := MAX_FIBER_SPEED_KM_PER_MS * regionalFactor,
      m_local_speed_km_per_ms := MAX_FIBER_SPEED_KM_PER_MS * localFactor }
  else .error c

/-- The function `NetworkTopologyCreator::SetNetworkBandwidth`. -/
def SetNetworkBandwidth (c : Creator K) (backboneGbps regionalGbps localGbps clientGbps : K) :
    Except (Creator K) (Creator K) :=
  if backboneGbps > 0 ∧ regionalGbps > 0 ∧ localGbps > 0 ∧ clientGbps > 0 then
    .ok { c with
      m_backbone_bandwidth_gbps := backboneGbps,
      m_regional_bandwidth_gbps := regionalGbps,
      m_local_bandwidth_gbps := localGbps,
      m_client_bandwidth_gbps := clientGbps }
  else .error c

/-- The function `NetworkTopologyCreator::SetRepresentationFactors`. -/
def SetRepresentationFactors (c : Creator K) (networkFactor clientFactor : K) :
    Except (Creator K) (Creator K) :=
  if networkFactor ≤ 1 ∧ networkFactor > 0 ∧ clientFactor ≤ 1 ∧ clientFactor > 0 then
    .ok { c with
      m_network_representation_factor := networkFactor,
      m_client_representation_factor := clientFactor }
  else .error c

end Setters

/-- A run of calls of `BuildAccessNet`, one after the other on the same
creator; each call is given by its attack-traffic fraction, its number of
clients and its parent node. -/
def runAccessNets {K : Type} [LinearOrderedField K] (draws : Nat → Nat → K)
    (firstAddress : Nat → Nat) : List (K × Nat × Nat) → TopologyState → Option TopologyState
  | [], st => some st
  | (attackTrafficFactor, numberOfClients, parentNode) :: rest, st =>
      match BuildAccessNet draws firstAddress attackTrafficFactor numberOfClients parentNode st with
      | none => none
      | some (st', _) => runAccessNets draws firstAddress rest st'

/-! ## Central nodes -/

/-- The conversion `static_cast<int>` of a `size_t`: the value modulo `2 ^ 32`,
read as a signed 32-bit integer. -/
def castToInt32 (n : Nat) : Int :=
  ((n : Int) + 2147483648) % 4294967296 - 2147483648

section Central

variable {K : Type} [LinearOrderedField K]

/-- The comparator of the sort in `FindMostCentralNodes`: strictly closer to
the centroid. -/
def closerTo (sqrt : K → K) (centroid : Vector2D K) (a b : PositionedNode K) : Bool :=
  decide (CalculateDistance sqrt a.position centroid < CalculateDistance sqrt b.position centroid)

/-- The function `NetworkTopologyCreator::FindMostCentralNodes`; `std::sort` is
`sortBy`.  (With a node count of `2 ^ 31` or more the source forms a negative
iterator offset; the model then returns the empty list.) -/
def FindMostCentralNodes (sqrt : K → K) (nodes : List (PositionedNode K)) (k : Int) :
    List (PositionedNode K) :=
  if k ≤ 0 ∨ nodes.isEmpty then []
  else
    let nodeCount : Int := castToInt32 nodes.length
    let k : Int := min k nodeCount
    let centroidX : K := nodes.foldl (fun s node => s + node.position.x) 0
    let centroidY : K := nodes.foldl (fun s node => s + node.position.y) 0
    let centroidX : K := centroidX / (nodeCount : K)
    let centroidY : K := centroidY / (nodeCount : K)
    let centroid : Vector2D K := ⟨centroidX, centroidY⟩
    let sortedNodes := sortBy (closerTo sqrt centroid) nodes
    sortedNodes.take k.toNat

end Central

/-- The number `d` is the minimum of the distances from `p` to the nodes of
`selected`. -/
def IsMinDistance {K : Type} [LinearOrderedField K] (sqrt : K → K) (p : Vector2D K)
    (selected : List (PositionedNode K)) (d : K) : Prop :=
  (∃ s ∈ selected, d = CalculateDistance sqrt p s.position)
    ∧ ∀ s ∈ selected, d ≤ CalculateDistance sqrt p s.position

/-- The pair `(maxDistance, maxIndex)` after the border nodes of index below
`N`: the initial pair when all of them are used, and otherwise the first unused
one among those whose minimum distance to `selected` is largest. -/
def GreedyBest {K : Type} [LinearOrderedField K] (sqrt : K → K)
    (borderNodes : List (PositionedNode K)) (used : List Bool)
    (selected : List (PositionedNode K)) (N : Nat) (acc : WithTop K × Int) : Prop :=
  (acc = ((((-1 : K)) : WithTop K), -1)
      ∧ ∀ i : Nat, i < N → i < borderNodes.length → used.getD i false = true)
    ∨ ∃ (i : Nat) (node : PositionedNode K), i < N ∧ borderNodes[i]? = some node
        ∧ acc.2 = (i : Int) ∧ acc.1 = minDistanceTo sqrt node.position selected
        ∧ used.getD i false = false
        ∧ ∀ (i' : Nat) (node' : PositionedNode K), i' < N → borderNodes[i']? = some node' →
            used.getD i' false = false →
            minDistanceTo sqrt node'.position selected ≤ acc.1
              ∧ (i' < i → minDistanceTo sqrt node'.position selected < acc.1)

/-! ## The event list of the simulator -/

/-- An event of the ns-3 simulator: its time stamp, its uid, the member
function that it calls and whether `Simulator::Cancel` has marked it. -/
structure Event (K C : Type) where
  ts : K
  uid : Nat
  callback : C
  cancelled : Bool

/-- The part of `ns3::Simulator` that the applications use: the virtual time
`Now()`, the uid of the next event scheduled and the events not yet run, in the
order in which they were scheduled.  Time is a number of seconds. -/
structure Simulator (K C : Type) where
  now : K
  uid : Nat
  events : List (Event K C)

namespace Simulator

variable {K C : Type} [LinearOrderedField K]

/-- The call `Simulator::Schedule(delay, callback)`: the new list of events and
the `EventId` of the new event. -/
def Schedule (sim : Simulator K C) (delay : K) (callback : C) : Simulator K C × Option Nat :=
  ({ sim with uid := sim.uid + 1,
              events := sim.events ++ [⟨sim.now + delay, sim.uid, callback, false⟩] },
    some sim.uid)

/-- The call `Simulator::Cancel(id)`: the event of that id, when it is still in
the list, is marked; a default `EventId` is `none`. -/
def Cancel (sim : Simulator K C) (id : Option Nat) : Simulator K C :=
  match id with
  | none => sim
  | some u =>
      { sim with events := sim.events.map fun e =>
                   if e.uid = u then { e with cancelled := true } else e }

/-- The order of the scheduler: earlier time stamp first, and, at equal time
stamps, lower uid first. -/
def before (a b : Event K C) : Bool :=
  decide (a.ts < b.ts ∨ (a.ts = b.ts ∧ a.uid < b.uid))

/-- The first event of a list in the order of the scheduler. -/
def earliest : List (Event K C) → Option (Event K C)
  | [] => none
  | e :: es => some (es.foldl (fun m x => if before x m then x else m) e)

/-- The simulator takes its next event: the event, and the simulator with the
time advanced to the event and the event removed. -/
def next (sim : Simulator K C) : Option (Event K C × Simulator K C) :=
  match earliest sim.events with
  | none => none
  | some e =>
      some (e, { sim with now := e.ts,
                          events := sim.events.filter fun x => decide (x.uid ≠ e.uid) })

end Simulator

/-! ## SYN-flood attacker -/

namespace SynFloodAttacker

/-- The member functions of `SynFloodAttacker` that the simulator calls. -/
inductive Callback where
  | StartApplication
  | StopApplication
  | SendSyn
  | EndPhase1
  | StartPhase2
  | EndPhase2
deriving DecidableEq

/-- The object `SynFloodAttacker` with the simulator it runs in.  `sent` lists
the time and the source port of each packet handed to the socket, and `fired`
the time and the name of each member function that the simulator has called. -/
structure State (K : Type) where
  sim : Simulator K Callback
  m_phase1 : Bool
  m_seed : Nat
  m_pktSent : Nat
  m_sendEvent : Option Nat
  m_startStopEvent : Option Nat
  sent : List (K × Nat)
  fired : List (K × Callback)

variable {K : Type} [LinearOrderedField K] [FloorRing K]

/-- The table `DISTRIBUTION_PHASE1_PACKETS_PER_SECOND`. -/
def DISTRIBUTION_PHASE1_PACKETS_PER_SECOND : Fin 11 → K :=
  ![168, 5928000000000001 / 10 ^ 13, 8438 / 10, 8473 / 10, 15292000000000007 / 10 ^ 13, 2992,
    35374 / 10, 40654999999999995 / 10 ^ 13, 5554000000000001 / 10 ^ 12, 65151 / 10, 7452]

/-- The table `DISTRIBUTION_PHASE2_PACKETS_PER_SECOND`. -/
def DISTRIBUTION_PHASE2_PACKETS_PER_SECOND : Fin 11 → K :=
  ![2, 4800000000000001 / 10 ^ 15, 6, 7, 8, 8, 9, 9599999999999994 / 10 ^ 15, 10, 11, 14]

/-- The constant `ORIGINAL_CLIENTS_ASSUMPTION`. -/
def ORIGINAL_CLIENTS_ASSUMPTION : Nat := 400

/-- The function `SynFloodAttacker::CalculateNextTime`, in seconds.  A rate of
zero, for which the source divides by zero, is `none`. -/
def CalculateNextTime (firstDraw : Nat → K) (packetPerSecondProbability : Fin 11 → K)
    (st : State K) : Option K :=
  match GetRandomDistributionNumber firstDraw st.m_seed packetPerSecondProbability
      st.m_pktSent with
  | none => none
  | some packetsPerSecond =>
      if packetsPerSecond = 0 then none
      else some ((1 / packetsPerSecond) * (ORIGINAL_CLIENTS_ASSUMPTION : K))

/-- The function `SynFloodAttacker::GetRandomPort`.  `portDraw s` is the first
value that `std::uniform_int_distribution<uint16_t>(1024, 65535)` yields on a
`std::mt19937` seeded with `s`; the seed is the 32-bit product
`m_pktSent * m_seed`. -/
def GetRandomPort (portDraw : Nat → Nat) (st : State K) : Nat :=
  portDraw ((st.m_pktSent * st.m_seed) % 2 ^ 32)

/-- The function `SynFloodAttacker::CancelEvents`. -/
def CancelEvents (st : State K) : State K :=
  { st with sim := (st.sim.Cancel st.m_sendEvent).Cancel st.m_startStopEvent }

/-- The function `SynFloodAttacker::ScheduleSend`. -/
def ScheduleSend (firstDraw : Nat → K) (st : State K) : Option (State K) :=
  match CalculateNextTime firstDraw
      (if st.m_phase1 then DISTRIBUTION_PHASE1_PACKETS_PER_SECOND
        else DISTRIBUTION_PHASE2_PACKETS_PER_SECOND) st with
  | none => none
  | some nextTime =>
      some { st with sim := (st.sim.Schedule nextTime Callback.SendSyn).1,
                     m_sendEvent := (st.sim.Schedule nextTime Callback.SendSyn).2 }

/-- The function `SynFloodAttacker::SendSyn`: the packet with the source port
of `GetRandomPort` goes to the socket, `m_pktSent` (a `uint32_t`) is
incremented and the next send is scheduled. -/
def SendSyn (firstDraw : Nat → K) (portDraw : Nat → Nat) (st : State K) : Option (State K) :=
  ScheduleSend firstDraw
    { st with sent := st.sent ++ [(st.sim.now, GetRandomPort portDraw st)],
              m_pktSent := (st.m_pktSent + 1) % 2 ^ 32 }

/-- The function `SynFloodAttacker::StartPhase1`; `firstDraw m_seed` is the
value `waitProgress`. -/
def StartPhase1 (firstDraw : Nat → K) (st : State K) : Option (State K) :=
  match CalculateNextTime firstDraw DISTRIBUTION_PHASE1_PACKETS_PER_SECOND
      { st with m_phase1 := true } with
  | none => none
  | some nextTime =>
      let waitProgress : K := firstDraw st.m_seed
      let s1 := st.sim.Schedule (nextTime * waitProgress) Callback.SendSyn
      let s2 := s1.1.Schedule 5 Callback.EndPhase1
      some { st with m_phase1 := true, sim := s2.1, m_sendEvent := s1.2,
                     m_startStopEvent := s2.2 }

/-- The function `SynFloodAttacker::EndPhase1`. -/
def EndPhase1 (st : State K) : Option (State K) :=
  let st := CancelEvents st
  let s := st.sim.Schedule 10 Callback.StartPhase2
  some { st with m_phase1 := false, sim := s.1, m_startStopEvent := s.2 }

/-- The function `SynFloodAttacker::StartPhase2`. -/
def StartPhase2 (firstDraw : Nat → K) (st : State K) : Option (State K) :=
  let st := CancelEvents st
  match CalculateNextTime firstDraw DISTRIBUTION_PHASE2_PACKETS_PER_SECOND st with
  | none => none
  | some nextTime =>
      let waitProgress : K := firstDraw st.m_seed
      let s1 := st.sim.Schedule (nextTime * waitProgress) Callback.SendSyn
      let s2 := s1.1.Schedule 10 Callback.EndPhase2
      some { st with sim := s2.1, m_sendEvent := s1.2, m_startStopEvent := s2.2 }

/-- The function `SynFloodAttacker::EndPhase2`. -/
def EndPhase2 (st : State K) : Option (State K) :=
  some (CancelEvents st)

/-- The member function that an event calls.  `StartApplication` sets up the
socket and calls `StartPhase1`; `StopApplication` closes the socket and calls
`CancelEvents`. -/
def dispatch (firstDraw : Nat → K) (portDraw : Nat → Nat) :
    Callback → State K → Option (State K)
  | Callback.StartApplication, st => StartPhase1 firstDraw st
  | Callback.StopApplication, st => some (CancelEvents st)
  | Callback.SendSyn, st => SendSyn firstDraw portDraw st
  | Callback.EndPhase1, st => EndPhase1 st
  | Callback.StartPhase2, st => StartPhase2 firstDraw st
  | Callback.EndPhase2, st => EndPhase2 st

/-- One turn of the simulator's loop: the next event is taken from the list
and, unless it is cancelled, its member function runs.  With no event left the
state stays as it is. -/
def step (firstDraw : Nat → K) (portDraw : Nat → Nat) (st : State K) : Option (State K) :=
  match st.sim.next with
  | none => some st
  | some (e, sim) =>
      if e.cancelled then some { st with sim := sim }
      else dispatch firstDraw portDraw e.callback
        { st with sim := sim, fired := st.fired ++ [(e.ts, e.callback)] }

/-- The state after `n` turns of the simulator's loop. -/
def run (firstDraw : Nat → K) (portDraw : Nat → Nat) : Nat → State K → Option (State K)
  | 0, st => some st
  | n + 1, st =>
      match step firstDraw portDraw st with
      | none => none
      | some st' => run firstDraw portDraw n st'

/-- The attacker as the scenario leaves it before the simulation runs: seed
`m_seed`, no packet sent, `m_phase1` not initialised (any value), and the
events that `Application` schedules for the start time and, when one is set,
the stop time. -/
def init (m_seed : Nat) (m_phase1 : Bool) (startTime : K) (stopTime : Option K) : State K where
  sim := ⟨0, 2, ⟨startTime, 0, Callback.StartApplication, false⟩ ::
    (match stopTime with
      | none => []
      | some s => [⟨s, 1, Callback.StopApplication, false⟩])⟩
  m_phase1 := m_phase1
  m_seed := m_seed
  m_pktSent := 0
  m_sendEvent := none
  m_startStopEvent := none
  sent := []
  fired := []

/-- The phase transitions among the member functions called so far. -/
def phaseLog (st : State K) : List (K × Callback) :=
  st.fired.filter fun e =>
    decide (e.2 = Callback.EndPhase1 ∨ e.2 = Callback.StartPhase2 ∨ e.2 = Callback.EndPhase2)

end SynFloodAttacker

/-! ## ICMP-flood attacker -/

namespace IcmpFloodAttacker

/-- The member functions of `IcmpFloodAttacker` that the simulator calls. -/
inductive Callback where
  | StartApplication
  | StopApplication
  | SendIcmp
deriving DecidableEq

/-- The object `IcmpFloodAttacker` with the simulator it runs in; `m_seed` is
a `uint16_t` and `m_pktSent` a `uint32_t`.  `sent` lists the time of each
packet handed to the socket and `intervals` each delay `nextTime` that
`ScheduleSend` has passed to the simulator. -/
structure State (K : Type) where
  sim : Simulator K Callback
  m_startTime : K
  m_endTime : K
  m_remote : Nat
  m_seed : Nat
  m_pktSent : Nat
  m_sendEvent : Option Nat
  sent : List K
  intervals : List K

variable {K : Type} [LinearOrderedField K]

/-- The vector `start_5min_buckets_probabilities` of the constructor. -/
def start_5min_buckets_probabilities : List K :=
  [14069380302867576 / 10 ^ 18, 3221995489206315 / 10 ^ 19, 47255933841692625 / 10 ^ 19,
    429599398560842 / 10 ^ 18, 1073998496402105 / 10 ^ 19, 8921705509612287 / 10 ^ 16,
    235205670712061 / 10 ^ 16, 1073998496402105 / 10 ^ 17, 18580173987756417 / 10 ^ 18,
    6766190527333261 / 10 ^ 18, 6229191279132209 / 10 ^ 18, 1492857909998926 / 10 ^ 17,
    5906991730211577 / 10 ^ 18, 1503597894962947 / 10 ^ 18]

/-- The vector `duration_5min_buckets_probabilities` of the constructor. -/
def duration_5min_buckets_probabilities : List K :=
  [14681559445816775 / 10 ^ 17, 735688970035442 / 10 ^ 16, 3898614541939641 / 10 ^ 17,
    43819138653205886 / 10 ^ 18, 3565675008054989 / 10 ^ 17, 23842766620126733 / 10 ^ 18,
    3017935774889915 / 10 ^ 17, 3705294812587263 / 10 ^ 17, 5690044033938353 / 10 ^ 16,
    1073998496402105 / 10 ^ 18]

/-- The function `IcmpFloodAttacker::SelectProbabilityBucket`.  `bucketDraw p s`
is the first value that `std::discrete_distribution<int>` with the weights `p`
yields on a `std::mt19937` seeded with `s`. -/
def SelectProbabilityBucket (bucketDraw : List K → Nat → Int) (probabilities : List K)
    (seed : Nat) : Int :=
  bucketDraw probabilities seed

/-- The constructor `IcmpFloodAttacker::IcmpFloodAttacker(uint32_t seed)`, in a
simulator `sim`.  The member `m_seed` keeps the low 16 bits of `seed`;
`unitDraws s j` is the `j`-th value that
`std::uniform_real_distribution<double>(0, 1)` yields on a `std::mt19937`
seeded with `s`; `Minutes(5)` is 300 seconds. -/
def new (bucketDraw : List K → Nat → Int) (unitDraws : Nat → Nat → K)
    (sim : Simulator K Callback) (seed : Nat) : State K :=
  let m_seed : Nat := seed % 2 ^ 16
  let startBucket : Int :=
    SelectProbabilityBucket bucketDraw start_5min_buckets_probabilities m_seed
  let gen : Nat := (m_seed * 2) % 2 ^ 32
  let clientStart : K := ((startBucket : K) + unitDraws gen 0) * (5 * 60)
  let durationBucket : Int :=
    SelectProbabilityBucket bucketDraw duration_5min_buckets_probabilities
      ((m_seed * 3) % 2 ^ 32)
  let clientEnd : K := clientStart + ((durationBucket : K) + unitDraws gen 1) * (5 * 60)
  { sim := sim, m_startTime := clientStart, m_endTime := clientEnd, m_remote := 0,
    m_seed := m_seed, m_pktSent := 0, m_sendEvent := none, sent := [], intervals := [] }

/-- The function `IcmpFloodAttacker::SetRemote`. -/
def SetRemote (st : State K) (address : Nat) : State K :=
  { st with m_remote := address }

/-- The function `IcmpFloodAttacker::ScheduleSend`.  `rateDraw s` is the first
value that `std::uniform_real_distribution<>(17, 23)` yields on a
`std::mt19937` seeded with `s`; the seed is the 32-bit product
`m_seed * m_pktSent`.  A rate of zero, for which the source divides by zero, is
`none`. -/
def ScheduleSend (rateDraw : Nat → K) (st : State K) : Option (State K) :=
  let gen : Nat := (st.m_seed * st.m_pktSent) % 2 ^ 32
  let attackRate : K := rateDraw gen
  if attackRate = 0 then none
  else
    let nextTime : K := 1 / attackRate
    some { st with sim := (st.sim.Schedule nextTime Callback.SendIcmp).1,
                   m_sendEvent := (st.sim.Schedule nextTime Callback.SendIcmp).2,
                   intervals := st.intervals ++ [nextTime] }

/-- The function `IcmpFloodAttacker::SendIcmp`. -/
def SendIcmp (rateDraw : Nat → K) (st : State K) : Option (State K) :=
  ScheduleSend rateDraw
    { st with sent := st.sent ++ [st.sim.now], m_pktSent := (st.m_pktSent + 1) % 2 ^ 32 }

/-- The function `IcmpFloodAttacker::StopApplication`. -/
def StopApplication (st : State K) : State K :=
  { st with sim := st.sim.Cancel st.m_sendEvent }

/-- The member function that an event calls; `StartApplication` sets up the
socket and calls `SendIcmp`. -/
def dispatch (rateDraw : Nat → K) : Callback → State K → Option (State K)
  | Callback.StartApplication, st => SendIcmp rateDraw st
  | Callback.StopApplication, st => some (StopApplication st)
  | Callback.SendIcmp, st => SendIcmp rateDraw st

/-- One turn of the simulator's loop, as for the SYN-flood attacker. -/
def step (rateDraw : Nat → K) (st : State K) : Option (State K) :=
  match st.sim.next with
  | none => some st
  | some (e, sim) =>
      if e.cancelled then some { st with sim := sim }
      else dispatch rateDraw e.callback { st with sim := sim }

/-- The state after `n` turns of the simulator's loop. -/
def run (rateDraw : Nat → K) : Nat → State K → Option (State K)
  | 0, st => some st
  | n + 1, st =>
      match step rateDraw st with
      | none => none
      | some st' => run rateDraw n st'

/-- The simulator before it runs, with the events that `Application` schedules
for the start time and, when one is set, the stop time. -/
def initialSimulator (startTime : K) (stopTime : Option K) : Simulator K Callback :=
  ⟨0, 2, ⟨startTime, 0, Callback.StartApplication, false⟩ ::
    (match stopTime with
      | none => []
      | some s => [⟨s, 1, Callback.StopApplication, false⟩])⟩

end IcmpFloodAttacker

/-! ## Predicates used in the proofs on the SYN-flood attacker -/

namespace SynFloodAttacker

section Stages

variable {K : Type} [LinearOrderedField K]

/-- The stop event of the application, when it is still in the list. -/
def IsStopList (stopL : List (Event K Callback)) : Prop :=
  stopL = [] ∨ ∃ s : K, stopL = [⟨s, 1, Callback.StopApplication, false⟩]

/-- Every packet sent so far was sent in the first phase, `[t0, t0 + 5)`. -/
def SentEarly (t0 : K) (sent : List (K × Nat)) : Prop :=
  ∀ p ∈ sent, t0 ≤ p.1 ∧ p.1 < t0 + 5

/-- The packets sent so far: packets of the first phase, in `[t0, t0 + 5)`,
then at most one packet of the second phase, in `[t0 + 15, t0 + 25]`. -/
def SentOk (t0 : K) (sent : List (K × Nat)) : Prop :=
  ∃ early late : List (K × Nat), sent = early ++ late ∧ SentEarly t0 early
    ∧ late.length ≤ 1 ∧ ∀ p ∈ late, t0 + 15 ≤ p.1 ∧ p.1 ≤ t0 + 25

/-- No event of the list will call a member function other than
`StopApplication`. -/
def Quiet (events : List (Event K Callback)) : Prop :=
  ∀ e ∈ events, e.cancelled = true ∨ e.callback = Callback.StopApplication

/-- The calls of `EndPhase2`, and those of `StopApplication` from the activation
time on, among the member functions called so far. -/
def quietLog (t0 : K) (st : State K) : List (K × Callback) :=
  st.fired.filter fun e =>
    decide (e.2 = Callback.EndPhase2 ∨ (e.2 = Callback.StopApplication ∧ t0 ≤ e.1))

/-- No live event of the list is a send event or a phase event. -/
def NoSendOrPhasePending (events : List (Event K Callback)) : Prop :=
  ∀ e ∈ events, e.cancelled = false →
    e.callback = Callback.StartApplication ∨ e.callback = Callback.StopApplication

/-- Before the activation: the start event is pending. -/
def AtStart (t0 : K) (stopL : List (Event K Callback)) (st : State K) : Prop :=
  st.sim.events = ⟨t0, 0, Callback.StartApplication, false⟩ :: stopL
    ∧ st.sim.uid = 2 ∧ st.m_sendEvent = none ∧ st.m_startStopEvent = none
    ∧ st.sent = [] ∧ phaseLog st = [] ∧ st.m_pktSent = 0 ∧ quietLog t0 st = []

/-- Phase 1: a send event at time `ts` and the event `EndPhase1` at `t0 + 5`
are pending. -/
def InPhase1 (t0 : K) (stopL : List (Event K Callback)) (ts : K) (st : State K) : Prop :=
  ∃ (us ue : Nat) (te : K), te = t0 + 5
    ∧ ((st.sim.events = stopL ++ [⟨ts, us, Callback.SendSyn, false⟩,
            ⟨te, ue, Callback.EndPhase1, false⟩] ∧ us < ue ∧ ts < t0 + 5)
        ∨ (st.sim.events = stopL ++ [⟨te, ue, Callback.EndPhase1, false⟩,
            ⟨ts, us, Callback.SendSyn, false⟩] ∧ ue < us))
    ∧ 2 ≤ us ∧ 2 ≤ ue ∧ us < st.sim.uid ∧ ue < st.sim.uid
    ∧ st.m_sendEvent = some us ∧ st.m_startStopEvent = some ue
    ∧ st.m_phase1 = true ∧ t0 ≤ st.sim.now ∧ st.sim.now < t0 + 5 ∧ st.sim.now ≤ ts
    ∧ ts < t0 + 15 ∧ phaseLog st = [] ∧ SentEarly t0 st.sent ∧ quietLog t0 st = []

/-- The gap, with the cancelled send event of phase 1 still in the list. -/
def InGapStale (t0 : K) (stopL : List (Event K Callback)) (st : State K) : Prop :=
  ∃ (us ue : Nat) (ts tp : K), tp = t0 + 15
    ∧ st.sim.events = stopL ++ [⟨ts, us, Callback.SendSyn, true⟩,
        ⟨tp, ue, Callback.StartPhase2, false⟩]
    ∧ us < ue ∧ 2 ≤ us ∧ ue < st.sim.uid
    ∧ st.m_sendEvent = some us ∧ st.m_startStopEvent = some ue
    ∧ st.m_phase1 = false ∧ st.sim.now = t0 + 5 ∧ t0 + 5 ≤ ts ∧ ts < t0 + 15
    ∧ phaseLog st = [(t0 + 5, Callback.EndPhase1)] ∧ SentEarly t0 st.sent
    ∧ quietLog t0 st = []

/-- The gap, with the event `StartPhase2` pending alone. -/
def InGap (t0 : K) (stopL : List (Event K Callback)) (st : State K) : Prop :=
  ∃ (us ue : Nat) (tp : K), tp = t0 + 15
    ∧ st.sim.events = stopL ++ [⟨tp, ue, Callback.StartPhase2, false⟩]
    ∧ us < ue ∧ 2 ≤ us ∧ ue < st.sim.uid
    ∧ st.m_sendEvent = some us ∧ st.m_startStopEvent = some ue
    ∧ st.m_phase1 = false ∧ t0 + 5 ≤ st.sim.now ∧ st.sim.now < t0 + 15
    ∧ phaseLog st = [(t0 + 5, Callback.EndPhase1)] ∧ SentEarly t0 st.sent
    ∧ quietLog t0 st = []

/-- Phase 2 before its packet: a send event at time `ts` and the event
`EndPhase2` at `t0 + 25` are pending. -/
def InPhase2 (t0 : K) (stopL : List (Event K Callback)) (ts : K) (st : State K) : Prop :=
  ∃ (us ue : Nat) (te : K), te = t0 + 25
    ∧ st.sim.events = stopL ++ [⟨ts, us, Callback.SendSyn, false⟩,
        ⟨te, ue, Callback.EndPhase2, false⟩]
    ∧ us < ue ∧ 2 ≤ us ∧ ue < st.sim.uid
    ∧ st.m_sendEvent = some us ∧ st.m_startStopEvent = some ue
    ∧ st.m_phase1 = false ∧ st.sim.now = t0 + 15 ∧ t0 + 15 ≤ ts
    ∧ phaseLog st = [(t0 + 5, Callback.EndPhase1), (t0 + 15, Callback.StartPhase2)]
    ∧ SentEarly t0 st.sent ∧ quietLog t0 st = []

/-- Phase 2 after its packet: the event `EndPhase2` at `t0 + 25` is pending,
and the next send event comes after it. -/
def InPhase2Sent (t0 : K) (stopL : List (Event K Callback)) (st : State K) : Prop :=
  ∃ (us ue : Nat) (ts te : K) (early : List (K × Nat)) (port : Nat), te = t0 + 25
    ∧ st.sim.events = stopL ++ [⟨te, ue, Callback.EndPhase2, false⟩,
        ⟨ts, us, Callback.SendSyn, false⟩]
    ∧ ue < us ∧ 2 ≤ ue ∧ us < st.sim.uid
    ∧ st.m_sendEvent = some us ∧ st.m_startStopEvent = some ue
    ∧ st.m_phase1 = false ∧ t0 + 15 ≤ st.sim.now ∧ st.sim.now ≤ t0 + 25 ∧ t0 + 25 < ts
    ∧ phaseLog st = [(t0 + 5, Callback.EndPhase1), (t0 + 15, Callback.StartPhase2)]
    ∧ st.sent = early ++ [(st.sim.now, port)] ∧ SentEarly t0 early ∧ quietLog t0 st = []

/-- After `EndPhase2`. -/
def AfterPhase2 (t0 : K) (st : State K) : Prop :=
  Quiet st.sim.events ∧ (∀ e ∈ st.sim.events, t0 + 25 ≤ e.ts) ∧ t0 + 25 ≤ st.sim.now
    ∧ st.m_phase1 = false
    ∧ phaseLog st = [(t0 + 5, Callback.EndPhase1), (t0 + 15, Callback.StartPhase2),
        (t0 + 25, Callback.EndPhase2)]
    ∧ SentOk t0 st.sent

/-- After `StopApplication` has run during the phases. -/
def Stopped (t0 : K) (st : State K) : Prop :=
  (∀ e ∈ st.sim.events, e.cancelled = true) ∧ SentOk t0 st.sent

end Stages

end SynFloodAttacker
namespace SynFloodAttacker

section Reachable

variable {K : Type} [LinearOrderedField K]

/-- The application is between its activation and the end of phase 2, with the
stop events `stopL` pending. -/
def Live (t0 : K) (stopL : List (Event K Callback)) (st : State K) : Prop :=
  AtStart t0 stopL st ∨ (∃ ts, InPhase1 t0 stopL ts st) ∨ InGapStale t0 stopL st
    ∨ InGap t0 stopL st ∨ (∃ ts, InPhase2 t0 stopL ts st) ∨ InPhase2Sent t0 stopL st

/-- The states that the proofs go through in a run of the application
activated at `t0`. -/
def Reach (t0 : K) (st : State K) : Prop :=
  (∃ stopL, IsStopList stopL ∧ Live t0 stopL st) ∨ AfterPhase2 t0 st ∨ Stopped t0 st

end Reachable

end SynFloodAttacker
namespace SynFloodAttacker

/-- The application has been activated and runs through its phases, with a
stop time, if any, after `t0 + 25`. -/
def Running {K : Type} [LinearOrderedField K] (t0 : K) (st : State K) : Prop :=
  (∃ stopL, IsStopList stopL ∧ (∀ e ∈ stopL, t0 + 25 < e.ts)
      ∧ ((∃ ts, InPhase1 t0 stopL ts st) ∨ InGapStale t0 stopL st ∨ InGap t0 stopL st
          ∨ (∃ ts, InPhase2 t0 stopL ts st) ∨ InPhase2Sent t0 stopL st))
    ∨ AfterPhase2 t0 st

end SynFloodAttacker

/-! ## Legitimate traffic application -/

namespace LegitimateTrafficApplication

/-- The member functions of `LegitimateTrafficApplication` that the simulator
calls. -/
inductive Callback where
  | StartApplication
  | StopApplication
  | StartSending
  | StopSending
  | SendPacket
deriving DecidableEq

/-- A packet: `Create<Packet>(size)` makes a packet of `size` bytes; `uid`
numbers the packets in the order of their creation. -/
structure Packet where
  uid : Nat
  size : Nat
deriving DecidableEq

/-- The object `LegitimateTrafficApplication` with the simulator it runs in.
`m_socket` tells whether the socket has been created.  For the proofs,
`packets` counts the packets created, `connecting` the calls of
`Socket::Connect` that the socket has not answered yet, `handed` lists the
time and the packet of each call of `Socket::Send` and whether the socket took
the whole packet, and `closes` the times of the calls of `Socket::Close`. -/
structure State (K : Type) where
  sim : Simulator K Callback
  m_socket : Bool
  m_connected : Bool
  m_pktSize : Nat
  m_pktSent : Nat
  m_flowsStarted : Nat
  m_seed : Nat
  m_totBytes : Nat
  m_startStopEvent : Option Nat
  m_sendEvent : Option Nat
  m_unsentPacket : Option Packet
  packets : Nat
  connecting : Nat
  handed : List (K × Packet × Bool)
  closes : List K

/-- What happens next: the simulator calls its next event, and if that event
sends a packet the socket returns `actual` from `Socket::Send`; or the socket
reports at time `t` that the connection is established. -/
inductive Action (K : Type) where
  | fire (actual : Int)
  | connectionSucceeded (t : K)

variable {K : Type} [LinearOrderedField K] [FloorRing K]

/-- The table `DISTRIBUTION_TIME_BETWEEN_FLOWS`. -/
def DISTRIBUTION_TIME_BETWEEN_FLOWS : Fin 11 → K :=
  ![6 / 10 ^ 7, 33 / 10 ^ 5, 975 / 10 ^ 6, 17524 / 10 ^ 6, 350172 / 10 ^ 6, 2001107 / 10 ^ 6,
    4049057 / 10 ^ 6, 9000303 / 10 ^ 6, 4274497 / 10 ^ 5, 115282251 / 10 ^ 6,
    43164267617 / 10 ^ 6]

/-- The table `DISTRIBUTION_FLOW_DURATION`. -/
def DISTRIBUTION_FLOW_DURATION : Fin 11 → K :=
  ![1 / 10 ^ 7, 7 / 10 ^ 6, 295 / 10 ^ 6, 702 / 10 ^ 6, 1327 / 10 ^ 6, 25692 / 10 ^ 6,
    23079 / 10 ^ 5, 1918688 / 10 ^ 6, 5053007200000001 / 10 ^ 15, 6184659260000008 / 10 ^ 14,
    120]

/-- The table `DISTRIBUTION_PACKETS_PER_SECOND`. -/
def DISTRIBUTION_PACKETS_PER_SECOND : Fin 11 → K :=
  ![166667600005226 / 10 ^ 16, 3569863295655705 / 10 ^ 16, 3125902468664978 / 10 ^ 15,
    7594707521752834 / 10 ^ 15, 22883111920335995 / 10 ^ 15, 12724669953873072 / 10 ^ 14,
    156945226917058 / 10 ^ 12, 422329809725158 / 10 ^ 12, 763587786259542 / 10 ^ 12,
    31007519379845 / 10 ^ 10, 6000]

/-- The table `DISTRIBUTION_PACKET_LENGTH`. -/
def DISTRIBUTION_PACKET_LENGTH : Fin 11 → K :=
  ![0, 0, 0, 0, 25666666666666664 / 10 ^ 15, 35, 40, 45, 68, 161, 5647]

/-- The call `EventId::IsExpired()`: no event of that id is still to run. -/
def IsExpired (sim : Simulator K Callback) (id : Option Nat) : Bool :=
  match id with
  | none => true
  | some u => sim.events.all fun e => decide (e.uid ≠ u) || e.cancelled

/-- The function `LegitimateTrafficApplication::CancelEvents`. -/
def CancelEvents (st : State K) : State K :=
  { st with sim := (st.sim.Cancel st.m_sendEvent).Cancel st.m_startStopEvent,
            m_unsentPacket := none }

/-- The function `LegitimateTrafficApplication::ScheduleNextTx`; `none` when
the sampler faults or the rate is 0, for which `1.0 / packetsPerSecond` is not
a time. -/
def ScheduleNextTx (firstDraw : Nat → K) (st : State K) : Option (State K) :=
  match GetRandomDistributionNumber firstDraw st.m_seed DISTRIBUTION_PACKETS_PER_SECOND
      st.m_pktSent with
  | none => none
  | some packetsPerSecond =>
      if packetsPerSecond = 0 then none
      else
        let s := st.sim.Schedule (1 / packetsPerSecond) Callback.SendPacket
        some { st with sim := s.1, m_sendEvent := s.2 }

/-- The function `LegitimateTrafficApplication::ScheduleStartEvent`. -/
def ScheduleStartEvent (firstDraw : Nat → K) (st : State K) : Option (State K) :=
  match GetRandomDistributionNumber firstDraw st.m_seed DISTRIBUTION_TIME_BETWEEN_FLOWS
      st.m_flowsStarted with
  | none => none
  | some durationSeconds =>
      let s := st.sim.Schedule durationSeconds Callback.StartSending
      some { st with sim := s.1, m_startStopEvent := s.2 }

/-- The function `LegitimateTrafficApplication::ScheduleStopEvent`. -/
def ScheduleStopEvent (firstDraw : Nat → K) (st : State K) : Option (State K) :=
  match GetRandomDistributionNumber firstDraw st.m_seed DISTRIBUTION_FLOW_DURATION
      st.m_flowsStarted with
  | none => none
  | some durationSeconds =>
      let s := st.sim.Schedule durationSeconds Callback.StopSending
      some { st with sim := s.1, m_startStopEvent := s.2 }

/-- The function `LegitimateTrafficApplication::ConnectSocket`: the socket is
created if there is none, and `Socket::Connect` is called. -/
def ConnectSocket (st : State K) : State K :=
  { st with m_socket := true, connecting := st.connecting + 1 }

/-- The function `LegitimateTrafficApplication::DisconnectSocket`. -/
def DisconnectSocket (st : State K) : State K :=
  if st.m_socket then { st with m_connected := false, closes := st.closes ++ [st.sim.now] }
  else st

/-- The function `LegitimateTrafficApplication::ConnectionSucceeded`. -/
def ConnectionSucceeded (firstDraw : Nat → K) (st : State K) : Option (State K) :=
  match ScheduleNextTx firstDraw { st with m_connected := true } with
  | none => none
  | some st => ScheduleStopEvent firstDraw st

/-- The function `LegitimateTrafficApplication::StartApplication`;
`firstDraw m_seed` is the value `waitProgress`. -/
def StartApplication (firstDraw : Nat → K) (st : State K) : Option (State K) :=
  let st := CancelEvents st
  match GetRandomDistributionNumber firstDraw st.m_seed DISTRIBUTION_TIME_BETWEEN_FLOWS
      st.m_seed with
  | none => none
  | some waitSeconds =>
      let waitProgress : K := firstDraw st.m_seed
      let s := st.sim.Schedule (waitSeconds * waitProgress) Callback.StartSending
      some { st with sim := s.1, m_startStopEvent := s.2 }

/-- The function `LegitimateTrafficApplication::StopApplication`. -/
def StopApplication (st : State K) : Option (State K) :=
  some (CancelEvents st)

/-- The function `LegitimateTrafficApplication::StartSending`; `m_flowsStarted`
is a `uint32_t`. -/
def StartSending (firstDraw : Nat → K) (st : State K) : Option (State K) :=
  let r : Option (State K) :=
    if st.m_connected = false then some (ConnectSocket st)
    else
      match ScheduleNextTx firstDraw st with
      | none => none
      | some st => ScheduleStopEvent firstDraw st
  match r with
  | none => none
  | some st => some { st with m_flowsStarted := (st.m_flowsStarted + 1) % 2 ^ 32 }

/-- The seed of the generator in `StopSending`: the product
`Simulator::Now().GetMilliSeconds() * m_seed`, of which `std::mt19937` takes
the low 32 bits. -/
def stopSeed (st : State K) : Nat :=
  ((truncToInt (st.sim.now * 1000) * (st.m_seed : Int)) % 2 ^ 32).toNat

/-- The function `LegitimateTrafficApplication::StopSending`.
`bernoulliDraw s` is the first value that
`std::bernoulli_distribution(PROBABILITY_FLOW_ENDING_CONNECTION)` yields on a
`std::mt19937` seeded with `s`. -/
def StopSending (firstDraw : Nat → K) (bernoulliDraw : Nat → Bool) (st : State K) :
    Option (State K) :=
  let st := CancelEvents st
  let endConnection : Bool := bernoulliDraw (stopSeed st)
  let st := if endConnection then DisconnectSocket st else st
  ScheduleStartEvent firstDraw st

/-- The value that `SendPacket` gives to `m_pktSize` (a `uint32_t`): the
sample of the packet length cast to `int`. -/
def samplePktSize (firstDraw : Nat → K) (st : State K) : Option Nat :=
  match GetRandomDistributionNumber firstDraw st.m_seed DISTRIBUTION_PACKET_LENGTH
      st.m_pktSent with
  | none => none
  | some v => some ((truncToInt v) % 2 ^ 32).toNat

/-- The function `LegitimateTrafficApplication::SendPacket`; `actual` is the
value that `Socket::Send` returns.  `none` when the assertion or the sampler
fails.  `m_pktSent` is a `uint32_t` and `m_totBytes` a `uint64_t`. -/
def SendPacket (firstDraw : Nat → K) (actual : Int) (st : State K) : Option (State K) :=
  if IsExpired st.sim st.m_sendEvent = false then none
  else
    match samplePktSize firstDraw st with
    | none => none
    | some pktSize =>
        let packet : Packet :=
          match st.m_unsentPacket with
          | some p => p
          | none => ⟨st.packets, pktSize⟩
        let packets : Nat :=
          match st.m_unsentPacket with
          | some _ => st.packets
          | none => st.packets + 1
        let full : Bool := decide ((actual % 2 ^ 32).toNat = pktSize)
        let st : State K :=
          { st with m_pktSize := pktSize, packets := packets,
                    handed := st.handed ++ [(st.sim.now, packet, full)] }
        let st : State K :=
          if full then
            { st with m_totBytes := (st.m_totBytes + pktSize) % 2 ^ 64,
                      m_pktSent := (st.m_pktSent + 1) % 2 ^ 32,
                      m_unsentPacket := none }
          else { st with m_unsentPacket := some packet }
        ScheduleNextTx firstDraw st

/-- The member function that an event calls. -/
def dispatch (firstDraw : Nat → K) (bernoulliDraw : Nat → Bool) (actual : Int) :
    Callback → State K → Option (State K)
  | Callback.StartApplication, st => StartApplication firstDraw st
  | Callback.StopApplication, st => StopApplication st
  | Callback.StartSending, st => StartSending firstDraw st
  | Callback.StopSending, st => StopSending firstDraw bernoulliDraw st
  | Callback.SendPacket, st => SendPacket firstDraw actual st

/-- One action.  `fire`: one turn of the simulator's loop, where the next
event is taken from the list and, unless it is cancelled, its member function
runs; with no event left the state stays as it is.  `connectionSucceeded t`:
the socket calls `ConnectionSucceeded` at time `t`, which takes an unanswered
call of `Socket::Connect` and a time `t` not before now and not after a
pending event; otherwise the action is not one of the model (`none`). -/
def step (firstDraw : Nat → K) (bernoulliDraw : Nat → Bool) :
    Action K → State K → Option (State K)
  | Action.fire actual, st =>
      match st.sim.next with
      | none => some st
      | some (e, sim) =>
          if e.cancelled then some { st with sim := sim }
          else dispatch firstDraw bernoulliDraw actual e.callback { st with sim := sim }
  | Action.connectionSucceeded t, st =>
      if 0 < st.connecting ∧ st.sim.now ≤ t ∧ ∀ e ∈ st.sim.events, t ≤ e.ts then
        ConnectionSucceeded firstDraw
          { st with sim := { st.sim with now := t }, connecting := st.connecting - 1 }
      else none

/-- The state after a list of actions. -/
def run (firstDraw : Nat → K) (bernoulliDraw : Nat → Bool) :
    List (Action K) → State K → Option (State K)
  | [], st => some st
  | a :: as, st =>
      match step firstDraw bernoulliDraw a st with
      | none => none
      | some st' => run firstDraw bernoulliDraw as st'

/-- The application as the scenario leaves it before the simulation runs: seed
`m_seed`, `m_pktSize` not initialised (any value), and the events that
`Application` schedules for the start time and, when one is set, the stop
time. -/
def init (m_seed m_pktSize : Nat) (startTime : K) (stopTime : Option K) : State K where
  sim := ⟨0, 2, ⟨startTime, 0, Callback.StartApplication, false⟩ ::
    (match stopTime with
      | none => []
      | some s => [⟨s, 1, Callback.StopApplication, false⟩])⟩
  m_socket := false
  m_connected := false
  m_pktSize := m_pktSize
  m_pktSent := 0
  m_flowsStarted := 0
  m_seed := m_seed
  m_totBytes := 0
  m_startStopEvent := none
  m_sendEvent := none
  m_unsentPacket := none
  packets := 0
  connecting := 0
  handed := []
  closes := []

/-- The live events of the list that call `c`. -/
def pending (c : Callback) (events : List (Event K Callback)) : List (Event K Callback) :=
  events.filter fun e => !e.cancelled && decide (e.callback = c)

/-- The packets that the socket took whole. -/
def delivered (st : State K) : List Packet :=
  (st.handed.filter fun h => h.2.2).map fun h => h.2.1

end LegitimateTrafficApplication
/-! ## Predicates used in the proofs on the legitimate traffic application -/

namespace Simulator

/-- The uids of the events in the list are pairwise different and below the
uid of the next event scheduled. -/
def UidsOk {K C : Type} (sim : Simulator K C) : Prop :=
  (∀ e ∈ sim.events, e.uid < sim.uid) ∧ sim.events.Pairwise fun a b => a.uid ≠ b.uid

end Simulator

namespace LegitimateTrafficApplication

section Invariants

variable {K : Type} [LinearOrderedField K] [FloorRing K]

/-- Every live event of the list that calls `c` has the id `id`. -/
def Tracked (c : Callback) (id : Option Nat) (events : List (Event K Callback)) : Prop :=
  ∀ e ∈ events, e.cancelled = false → e.callback = c → id = some e.uid

/-- No live event of the list calls `c`. -/
def NoLive (c : Callback) (events : List (Event K Callback)) : Prop :=
  ∀ e ∈ events, e.cancelled = false → e.callback ≠ c

/-- The events of the application are the ones that it tracks: a live send
event is `m_sendEvent`, a live start or stop event of a flow is
`m_startStopEvent`; a flow that is to stop has a connected socket; before the
activation, while the socket connects and between two flows no send event is
live; and at most one call of `Socket::Connect` waits for its answer. -/
structure EventsTracked (st : State K) : Prop where
  uids : st.sim.UidsOk
  send : Tracked Callback.SendPacket st.m_sendEvent st.sim.events
  start : Tracked Callback.StartSending st.m_startStopEvent st.sim.events
  stop : Tracked Callback.StopSending st.m_startStopEvent st.sim.events
  socket : st.m_connected = true → st.m_socket = true
  attempt : 0 < st.connecting → st.m_socket = true
  flow : ∀ e ∈ st.sim.events, e.cancelled = false → e.callback = Callback.StopSending →
    st.m_connected = true
  first : ∀ e ∈ st.sim.events, e.cancelled = false → e.callback = Callback.StartApplication →
    e.uid = 0
  activated : NoLive Callback.StartApplication st.sim.events
    ∨ (st.connecting = 0 ∧ NoLive Callback.SendPacket st.sim.events
        ∧ NoLive Callback.StartSending st.sim.events
        ∧ NoLive Callback.StopSending st.sim.events)
  waiting : st.connecting = 0
    ∨ (NoLive Callback.SendPacket st.sim.events ∧ NoLive Callback.StartSending st.sim.events
        ∧ NoLive Callback.StopSending st.sim.events)
  idle : NoLive Callback.StartSending st.sim.events ∨ NoLive Callback.SendPacket st.sim.events
  once : st.connecting ≤ 1

/-- The packets of the application: the packets handed to the socket have been
created; a cached packet has been created, has the size that the next send
samples, and the socket never took it whole; and the socket took no packet
whole twice. -/
def PacketsOk (firstDraw : Nat → K) (st : State K) : Prop :=
  (∀ h ∈ st.handed, h.2.1.uid < st.packets)
    ∧ (∀ p, st.m_unsentPacket = some p →
        p.uid < st.packets ∧ samplePktSize firstDraw st = some p.size
          ∧ ∀ h ∈ st.handed, h.2.1.uid = p.uid → h.2.2 = false)
    ∧ ((delivered st).map fun p => p.uid).Nodup

end Invariants

end LegitimateTrafficApplication
namespace LegitimateTrafficApplication

/-- The draws of the example run: the first values of
`std::uniform_real_distribution<>(0, 1)` on a `std::mt19937` seeded with 0,
with 12 and with 144, to seven decimal places. -/
def traceDraw : Nat → ℚ := fun g =>
  if g = 0 then 5928446 / 10 ^ 7 else if g = 12 then 4462217 / 10 ^ 7 else 3843768 / 10 ^ 7

/-- The rate that the application of seed 12 samples before its first packet:
between the quantiles 127.24… and 156.94…. -/
def traceRate : ℚ :=
  12724669953873072 / 10 ^ 14
    + (156945226917058 / 10 ^ 12 - 12724669953873072 / 10 ^ 14) * (5928446 / 10 ^ 7)

/-- The duration that the application of seed 12 samples for its first flow:
between the quantiles 0.001327 and 0.025692. -/
def traceDuration : ℚ :=
  1327 / 10 ^ 6 + (25692 / 10 ^ 6 - 1327 / 10 ^ 6) * (4462217 / 10 ^ 7)

/-- The application of seed 12, connected at time 1, after its first send,
which was short: the packet is cached, the stop of the flow is pending at
`1 + traceDuration` and the next send at `1 + 2 / traceRate`. -/
def traceState : State ℚ where
  sim := ⟨1 + 1 / traceRate, 6, [⟨1 + traceDuration, 4, Callback.StopSending, false⟩,
    ⟨1 + 1 / traceRate + 1 / traceRate, 5, Callback.SendPacket, false⟩]⟩
  m_socket := true
  m_connected := true
  m_pktSize := 37
  m_pktSent := 0
  m_flowsStarted := 1
  m_seed := 12
  m_totBytes := 0
  m_startStopEvent := some 4
  m_sendEvent := some 5
  m_unsentPacket := some ⟨0, 37⟩
  packets := 1
  connecting := 0
  handed := [(1 + 1 / traceRate, ⟨0, 37⟩, false)]
  closes := []

/-- The actions of the example run: the activation, the start of the first
flow, the connection at time 1, and the first send, for which `Socket::Send`
returns -1. -/
def traceActions : List (Action ℚ) :=
  [Action.fire 0, Action.fire 0, Action.connectionSucceeded 1, Action.fire (-1)]

end LegitimateTrafficApplication

/-! ## Topology synthesizer: countries and subnets -/

/-- The struct `NetworkTopologyCreator::Country`. -/
inductive Country (K : Type) where
  | mk (name : String) (nodes : Nat) (area : K) (population : K) (enablePcap : Bool)
      (attackTrafficFactor : K) (neighbors : List (Country K))

/-- The kind of the nodes that a call of `NodeContainer::Create` makes: the
backbone nodes of a country, the routers of a subnet of the given level, or
the clients of an access net. -/
inductive NodeKind where
  | backbone
  | router (level : Nat)
  | client
deriving DecidableEq

/-- A call `NodeContainer::Create(count, systemId)` of the topology creator:
`country` is the number that the country being connected has in the order of
the calls of `ConnectCountries`, and `first` is the id of the first node
made. -/
structure Creation where
  kind : NodeKind
  country : Nat
  first : Nat
  count : Nat
  systemId : Nat
deriving DecidableEq

/-- A call of `BuildAccessNet`: the number of clients, whether the access net
includes the target (`accessNetIncludesTarget`), and the counters that the
call returns. -/
structure AccessNetRecord where
  numberOfClients : Nat
  includesTarget : Bool
  attackingClients : Nat
  legitimateClients : Nat
deriving DecidableEq

/-- The link of a country to the previous country: `country` numbers the
country that makes the link, `borderEntry` is the index at which it reads
`connectingBorderNodes`, `node` is its own end and `previousNode` the other
end of the link. -/
structure ParentLink where
  country : Nat
  borderEntry : Nat
  node : Nat
  previousNode : Nat
deriving DecidableEq

/-- A call of `ConnectCountries` in the loop over the neighbours: `country`
numbers the calling country, `neighbour` is the index at which it reads
`country.neighbors` and `borderEntry` the index at which it reads
`connectingBorderNodes`. -/
structure NeighbourCall where
  country : Nat
  neighbour : Nat
  borderEntry : Nat
deriving DecidableEq

/-- The creator object while the topology is built, with what has been done
so far: the names of the countries for which `ConnectCountries` has been
called, in this order, the calls of `NodeContainer::Create`, the calls of
`BuildAccessNet`, and the links between countries. -/
structure Build (K : Type) where
  creator : Creator K
  countries : List String
  creations : List Creation
  accessNets : List AccessNetRecord
  parentLinks : List ParentLink
  neighbourCalls : List NeighbourCall

/-- How `CreateNetwork` can fail: `fault` stands for undefined behaviour or an
exception in `ConnectCountries`, `noTarget` for the failed assertion
"No target defined". -/
inductive CreateFault where
  | fault
  | noTarget
deriving DecidableEq

section Topology

variable {K : Type} [LinearOrderedField K] [FloorRing K]

/-- The function `std::round` on a `double`: to the nearest integer, halves
away from zero. -/
def roundHalfAway (x : K) : Int :=
  if 0 ≤ x then Int.floor (x + 1 / 2) else -Int.floor (-x + 1 / 2)

/-- The value `numberOfNodes` of `BuildSubnet`:
`std::max(std::round((area / nodeServiceArea) * m_network_representation_factor), 1.0)`,
where `area` is a `ulong` and `nodeServiceArea` a `uint32_t`, so that the
quotient is the integer quotient. -/
def subnetNumberOfNodes (networkFactor : K) (area nodeServiceArea : Nat) : Nat :=
  (max (roundHalfAway (((area / nodeServiceArea : Nat) : K) * networkFactor)) 1).toNat

/-- The number of clients that `BuildSubnet` passes to `BuildAccessNet`:
`std::max(std::round(populationDensity * m_client_representation_factor), 1.0)`. -/
def accessNetNumberOfClients (clientFactor populationDensity : K) : Nat :=
  (max (roundHalfAway (populationDensity * clientFactor)) 1).toNat

/-- The function `NetworkTopologyCreator::PositionNodesRandomly`.
`coords seed area i` is the `i`-th pair of values that
`std::uniform_real_distribution<double>(0, std::sqrt(area))` yields on a
`std::mt19937` seeded with `seed`. -/
def PositionNodesRandomly (coords : Nat → K → Nat → Vector2D K) (numberOfNodes : Nat) (area : K)
    (seed : Nat) : List (PositionedNode K) :=
  (List.range numberOfNodes).map fun i => ⟨castToInt32 i, coords seed area i⟩

/-- A loop `for (i = start; i < start + count; ++i)` whose body may fail. -/
def forLoop {S : Type} (body : Nat → S → Option S) : Nat → Nat → S → Option S
  | _, 0, s => some s
  | start, count + 1, s =>
      match body start s with
      | none => none
      | some s' => forLoop body (start + 1) count s'

/-- A call `NodeContainer::Create(count, m_current_system_id)`. -/
def createNodes (kind : NodeKind) (count : Nat) (b : Build K) : Build K :=
  { b with
    creator := { b.creator with
      state := { b.creator.state with nodeListSize := b.creator.state.nodeListSize + count } },
    creations := b.creations ++
      [⟨kind, b.countries.length - 1, b.creator.state.nodeListSize, count,
        b.creator.m_current_system_id⟩] }

/-- The calls `address.NewNetwork()` made for `count` links. -/
def newNetworks (count : Nat) (b : Build K) : Build K :=
  { b with
    creator := { b.creator with
      state := { b.creator.state with
        addressNetwork := b.creator.state.addressNetwork + count } } }

/-- A call of `BuildAccessNet` from `BuildSubnet`, with the record of the call
and of the call `clientNodes.Create(numberOfClients, m_current_system_id)`
that it makes. -/
def buildAccessNetOf (draws : Nat → Nat → K) (firstAddress : Nat → Nat)
    (attackTrafficFactor : K) (numberOfClients parentNode : Nat) (b : Build K) :
    Option (Build K) :=
  match BuildAccessNet draws firstAddress attackTrafficFactor numberOfClients parentNode
      b.creator.state with
  | none => none
  | some (st, res) =>
      some { b with
        creator := { b.creator with state := st },
        creations := b.creations ++
          [⟨NodeKind.client, b.countries.length - 1, b.creator.state.nodeListSize,
            numberOfClients, b.creator.m_current_system_id⟩],
        accessNets := b.accessNets ++
          [⟨numberOfClients, decide (b.creator.state.m_targetAddress = 0),
            res.attackingClients, res.legitimateClients⟩] }

/-- The function `NetworkTopologyCreator::BuildSubnet` for the country of
attack fraction `attackTrafficFactor`.  The routers are made, then the subnets
of level 1 (for `level = 2`) or the access nets (for `level = 1`) of each
router, then the links to the parent node and the links of the Gabriel graph,
each with its own network.  The parameter `area` of the source is a `ulong`:
the quotient passed for a local subnet is truncated.  The returned counters,
which the source only logs, are left out. -/
def BuildSubnet (sqrt : K → K) (coords : Nat → K → Nat → Vector2D K) (draws : Nat → Nat → K)
    (firstAddress : Nat → Nat) (attackTrafficFactor populationDensity : K)
    (level area nodeServiceArea parentNode : Nat) (b : Build K) : Option (Build K) :=
  let numberOfNodes : Nat :=
    subnetNumberOfNodes b.creator.m_network_representation_factor area nodeServiceArea
  let nodes := PositionNodesRandomly coords numberOfNodes (area : K) ((level * area) % 2 ^ 32)
  let edges := CreateGabrielGraph sqrt nodes
  let centralNodes := FindMostCentralNodes sqrt nodes 3
  let first : Nat := b.creator.state.nodeListSize
  let b1 : Build K := createNodes (NodeKind.router level) numberOfNodes b
  let b2 : Option (Build K) :=
    if h : level = 2 then
      forLoop
        (fun i b =>
          BuildSubnet sqrt coords draws firstAddress attackTrafficFactor populationDensity 1
            (Nat.floor ((area : K)
              / ((numberOfNodes : K) / b.creator.m_network_representation_factor)))
            4 (first + i) b)
        0 numberOfNodes b1
    else some b1
  let b3 : Option (Build K) :=
    match b2 with
    | none => none
    | some b2 =>
        if level = 1 then
          forLoop
            (fun i b =>
              buildAccessNetOf draws firstAddress attackTrafficFactor
                (accessNetNumberOfClients b.creator.m_client_representation_factor
                  populationDensity)
                (first + i) b)
            0 numberOfNodes b2
        else some b2
  match b3 with
  | none => none
  | some b3 => some (newNetworks (centralNodes.length + edges.length) b3)
termination_by level
decreasing_by
  subst h
  exact Nat.one_lt_two

/-- The new value of `m_current_system_id` at the end of a country:
`MpiInterface::GetSize() - 1` is computed on `uint32_t`. -/
def nextSystemId (mpiSize systemId : Nat) : Nat :=
  if systemId = (mpiSize + 2 ^ 32 - 1) % 2 ^ 32 then 0 else (systemId + 1) % 2 ^ 32

mutual

/-- The function `NetworkTopologyCreator::ConnectCountries`; `mpiSize` is
`MpiInterface::GetSize()`.  `none` stands for undefined behaviour
(`FindBorderNodes` on no node) or an exception of `at`.  The devices, the pcap
traces and the log messages do not enter the state and are left out. -/
def ConnectCountries (sqrt : K → K) (coords : Nat → K → Nat → Vector2D K)
    (draws : Nat → Nat → K) (firstAddress : Nat → Nat) (mpiSize : Nat) :
    Country K → Option Nat → Build K → Option (Build K)
  | Country.mk name nodesCount area population _ attackTrafficFactor neighbors,
      previousCountryNode, b =>
      let b : Build K := { b with countries := b.countries ++ [name] }
      let nodes := PositionNodesRandomly coords nodesCount area (Nat.floor population % 2 ^ 32)
      let edges := CreateGabrielGraph sqrt nodes
      match FindBorderNodes nodes with
      | none => none
      | some allBorderNodes =>
          let offset : Nat := if previousCountryNode.isSome then 1 else 0
          match FindFurthestApartNodes sqrt allBorderNodes (neighbors.length + offset) with
          | none => none
          | some connectingBorderNodes =>
              let first : Nat := b.creator.state.nodeListSize
              let b : Build K := createNodes NodeKind.backbone nodes.length b
              let b : Build K := newNetworks edges.length b
              let linked : Option (Build K) :=
                match previousCountryNode with
                | none => some b
                | some previousNode =>
                    match connectingBorderNodes[0]? with
                    | none => none
                    | some border =>
                        some (newNetworks 1
                          { b with parentLinks := b.parentLinks ++
                              [⟨b.countries.length - 1, 0, first + (border.id % 2 ^ 32).toNat,
                                previousNode⟩] })
              match linked with
              | none => none
              | some b =>
                  match forLoop
                      (fun i b =>
                        BuildSubnet sqrt coords draws firstAddress attackTrafficFactor
                          (population / area) 2 (Nat.floor (area / (nodesCount : K))) 900
                          (first + i) b)
                      0 nodesCount b with
                  | none => none
                  | some b =>
                      let self : Nat := b.countries.length - 1
                      let b : Build K :=
                        { b with creator := { b.creator with
                            m_current_system_id :=
                              nextSystemId mpiSize b.creator.m_current_system_id } }
                      neighbourLoop sqrt coords draws firstAddress mpiSize first
                        connectingBorderNodes self offset offset neighbors b

/-- The loop of `ConnectCountries` over the neighbours, at the index `i` of
`connectingBorderNodes`; `rest` lists the neighbours from the index
`i - offset` on, so that `country.neighbors.at(i - offset)` is its head. -/
def neighbourLoop (sqrt : K → K) (coords : Nat → K → Nat → Vector2D K)
    (draws : Nat → Nat → K) (firstAddress : Nat → Nat) (mpiSize : Nat) (first : Nat)
    (connectingBorderNodes : List (PositionedNode K)) (self offset : Nat) :
    Nat → List (Country K) → Build K → Option (Build K)
  | i, rest, b =>
      if i < connectingBorderNodes.length then
        match rest with
        | [] => none
        | neighbour :: rest =>
            match connectingBorderNodes[i]? with
            | none => none
            | some border =>
                match ConnectCountries sqrt coords draws firstAddress mpiSize neighbour
                    (some (first + (border.id % 2 ^ 32).toNat))
                    { b with neighbourCalls := b.neighbourCalls ++ [⟨self, i - offset, i⟩] } with
                | none => none
                | some b =>
                    neighbourLoop sqrt coords draws firstAddress mpiSize first
                      connectingBorderNodes self offset (i + 1) rest b
      else some b

end

/-- The build with which `CreateNetwork` calls `ConnectCountries` on the
creator `c`: a new address helper and nothing done. -/
def Build.new (c : Creator K) : Build K :=
  ⟨{ c with state := { c.state with addressNetwork := 0 } }, [], [], [], [], []⟩

/-- The function `NetworkTopologyCreator::CreateNetwork` on the creator `c`,
with a new address helper. -/
def CreateNetwork (sqrt : K → K) (coords : Nat → K → Nat → Vector2D K)
    (draws : Nat → Nat → K) (firstAddress : Nat → Nat) (mpiSize : Nat) (country : Country K)
    (c : Creator K) : Except CreateFault (Build K) :=
  match ConnectCountries sqrt coords draws firstAddress mpiSize country none (Build.new c) with
  | none => Except.error CreateFault.fault
  | some b =>
      if b.creator.state.m_targetAddress ≠ 0 then Except.ok b
      else Except.error CreateFault.noTarget

mutual

/-- The names of the countries of a tree in pre-order. -/
def Country.preorder : Country K → List String
  | Country.mk name _ _ _ _ _ neighbors => name :: Country.preorderList neighbors

/-- The names of the countries of a list of trees, tree after tree. -/
def Country.preorderList : List (Country K) → List String
  | [] => []
  | c :: cs => Country.preorder c ++ Country.preorderList cs

end

mutual

/-- Every country of the tree has at least one backbone node. -/
def Country.AllHaveNodes : Country K → Prop
  | Country.mk _ nodes _ _ _ _ neighbors => 1 ≤ nodes ∧ Country.AllHaveNodesList neighbors

/-- Every country of the trees of the list has at least one backbone node. -/
def Country.AllHaveNodesList : List (Country K) → Prop
  | [] => True
  | c :: cs => Country.AllHaveNodes c ∧ Country.AllHaveNodesList cs

end

end Topology

/-! ## Predicates used in the proofs on the topology -/

section TopologyInvariants

variable {K : Type} [LinearOrderedField K] [FloorRing K]

/-- The target and the access nets agree: no access net has been built and no
target is set, or the target is set and exactly one access net includes it. -/
def TargetInv (b : Build K) : Prop :=
  (b.creator.state.m_targetAddress = 0 ∧ b.accessNets = [])
    ∨ (b.creator.state.m_targetAddress ≠ 0
        ∧ (b.accessNets.filter fun r => r.includesTarget).length = 1)

/-- The counters of an access net: there is a client, and, with fewer than
`2 ^ 32` clients, the classified clients are all clients but the target. -/
def RecordOk (r : AccessNetRecord) : Prop :=
  1 ≤ r.numberOfClients
    ∧ (r.numberOfClients < 2 ^ 32 →
        r.attackingClients + r.legitimateClients
          = r.numberOfClients - (if r.includesTarget then 1 else 0))

/-- A call of `NodeContainer::Create` made for a subnet of the country number
`country` with the partition `systemId`: routers of a level from 1 to `maxLevel`,
their number given by `subnetNumberOfNodes`, or clients, their number given by
`accessNetNumberOfClients`. -/
def SubnetCreation (networkFactor clientFactor density : K) (maxLevel country systemId : Nat)
    (e : Creation) : Prop :=
  e.country = country ∧ e.systemId = systemId ∧ 1 ≤ e.count
    ∧ ((∃ level area nodeServiceArea : Nat, e.kind = NodeKind.router level ∧ 1 ≤ level
          ∧ level ≤ maxLevel
          ∧ e.count = subnetNumberOfNodes networkFactor area nodeServiceArea)
        ∨ (e.kind = NodeKind.client
            ∧ e.count = accessNetNumberOfClients clientFactor density))

/-- What the subnets and access nets of a country, of population density
`density`, add to the build: creations of routers up to the level `maxLevel`
and of clients, and access nets; the configuration, the partition counter and
the links between countries stay, and a target that is set stays. -/
structure SubnetGrows (density : K) (maxLevel : Nat) (b b' : Build K) : Prop where
  systemId : b'.creator.m_current_system_id = b.creator.m_current_system_id
  networkFactor :
    b'.creator.m_network_representation_factor = b.creator.m_network_representation_factor
  clientFactor :
    b'.creator.m_client_representation_factor = b.creator.m_client_representation_factor
  countries : b'.countries = b.countries
  parentLinks : b'.parentLinks = b.parentLinks
  neighbourCalls : b'.neighbourCalls = b.neighbourCalls
  creations : ∃ seg, b'.creations = b.creations ++ seg
    ∧ ∀ e ∈ seg, SubnetCreation b.creator.m_network_representation_factor
        b.creator.m_client_representation_factor density maxLevel (b.countries.length - 1)
        b.creator.m_current_system_id e
  accessNets : ∃ seg, b'.accessNets = b.accessNets ++ seg ∧ ∀ r ∈ seg, RecordOk r
  targetKept : b.creator.state.m_targetAddress ≠ 0 →
    b'.creator.state.m_targetAddress = b.creator.state.m_targetAddress
  targetInv : TargetInv b → TargetInv b'
  nodeList : b.creator.state.nodeListSize ≤ b'.creator.state.nodeListSize

end TopologyInvariants

section CountryInvariants

variable {K : Type} [LinearOrderedField K] [FloorRing K]

/-- The member `nodes` of a country. -/
def Country.nodes : Country K → Nat
  | Country.mk _ nodes _ _ _ _ _ => nodes

/-- The member `neighbors` of a country. -/
def Country.neighbors : Country K → List (Country K)
  | Country.mk _ _ _ _ _ _ neighbors => neighbors

/-- The number of entries of `connectingBorderNodes` kept for the link to the
previous country: `hasPreviousCountryNode ? 1 : 0`. -/
def parentOffset (previousCountryNode : Option Nat) : Nat :=
  if previousCountryNode.isSome then 1 else 0

/-- What `ConnectCountries` does for a country of `nodes` backbone nodes before
the loop over the neighbours, from the build `b` to the build `b3`: the country
gets the next number, its backbone nodes are created first, then the nodes of
its subnets, all on the partition that the counter named at the start, a link
to the previous country reads entry 0 of the selection, and the partition
counter advances. -/
structure CountryStep (mpiSize : Nat) (name : String) (nodes : Nat) (density : K)
    (previousCountryNode : Option Nat) (b b3 : Build K) : Prop where
  countries : b3.countries = b.countries ++ [name]
  neighbourCalls : b3.neighbourCalls = b.neighbourCalls
  parentLinks : ∃ seg, b3.parentLinks = b.parentLinks ++ seg
    ∧ (∀ l ∈ seg, l.country = b.countries.length ∧ l.borderEntry = 0)
    ∧ seg.length = parentOffset previousCountryNode
  creations : ∃ seg, b3.creations = b.creations
      ++ ⟨NodeKind.backbone, b.countries.length, b.creator.state.nodeListSize, nodes,
          b.creator.m_current_system_id⟩ :: seg
    ∧ ∀ e ∈ seg, SubnetCreation b.creator.m_network_representation_factor
        b.creator.m_client_representation_factor density 2 b.countries.length
        b.creator.m_current_system_id e
  systemId : b3.creator.m_current_system_id = nextSystemId mpiSize b.creator.m_current_system_id
  networkFactor :
    b3.creator.m_network_representation_factor = b.creator.m_network_representation_factor
  clientFactor :
    b3.creator.m_client_representation_factor = b.creator.m_client_representation_factor
  accessNets : ∃ seg, b3.accessNets = b.accessNets ++ seg ∧ ∀ r ∈ seg, RecordOk r
  targetSet : b3.creator.state.m_targetAddress ≠ 0
  targetInv : TargetInv b → TargetInv b3

end CountryInvariants

section TreeInvariants

variable {K : Type} [LinearOrderedField K] [FloorRing K]

/-- What `ConnectCountries` and its loop over the neighbours add to the build
from `b` to `b2`.  A call made for a neighbour by the country `own` reads the
entry `neighbour + ownOffset` of the selection, and a call made by a country
numbered `lo` or more reads the entry `neighbour + 1`; every link to a
previous country reads entry 0, and is made by `own` only if `ownLink` holds;
every creation names a country that has been numbered, and, once the
partition counter follows the number of countries modulo `mpiSize`, it goes on
to do so and every creation is on the partition of its country. -/
structure TreeGrows (mpiSize own ownOffset : Nat) (ownLink : Prop) (lo : Nat)
    (b b2 : Build K) : Prop where
  neighbourCalls : ∃ seg, b2.neighbourCalls = b.neighbourCalls ++ seg
    ∧ ∀ x ∈ seg, (x.country = own ∧ x.borderEntry = x.neighbour + ownOffset)
        ∨ (lo ≤ x.country ∧ x.borderEntry = x.neighbour + 1)
  parentLinks : ∃ seg, b2.parentLinks = b.parentLinks ++ seg
    ∧ ∀ l ∈ seg, l.borderEntry = 0 ∧ ((l.country = own ∧ ownLink) ∨ lo ≤ l.country)
  creations : ∃ seg, b2.creations = b.creations ++ seg
    ∧ ∀ e ∈ seg, e.country < b2.countries.length
        ∧ (1 ≤ mpiSize → mpiSize < 2 ^ 32 →
            b.creator.m_current_system_id = b.countries.length % mpiSize →
            e.systemId = e.country % mpiSize)
  systemId : 1 ≤ mpiSize → mpiSize < 2 ^ 32 →
    b.creator.m_current_system_id = b.countries.length % mpiSize →
    b2.creator.m_current_system_id = b2.countries.length % mpiSize
  accessNets : ∃ seg, b2.accessNets = b.accessNets ++ seg ∧ ∀ r ∈ seg, RecordOk r
  targetKept : b.creator.state.m_targetAddress ≠ 0 → b2.creator.state.m_targetAddress ≠ 0
  targetInv : TargetInv b → TargetInv b2
  countriesLe : b.countries.length ≤ b2.countries.length

end TreeInvariants

section TopologyStatements

variable {K : Type} [LinearOrderedField K] [FloorRing K]

/-- Exactly one access net of the build includes the target; it has a client,
and, with fewer than `2 ^ 32` clients, its classified clients are all its
clients but the target. -/
def TargetNet (b : Build K) : Prop :=
  ∃ r, (b.accessNets.filter fun r => r.includesTarget) = [r]
    ∧ 1 ≤ r.numberOfClients
    ∧ (r.numberOfClients < 2 ^ 32 →
        r.attackingClients + r.legitimateClients = r.numberOfClients - 1)

/-- A country with one neighbour. -/
def twoCountries (K : Type) [LinearOrderedField K] : Country K :=
  Country.mk "A" 1 1000 5000 false (1 / 2) [Country.mk "B" 2 1000 3000 false (1 / 2) []]

end TopologyStatements

/-! ## The type `double` as IEEE 754 binary64 -/

/-- A finite `double`, given by the rational number that it stands for.  The
operations round the exact result to the nearest number with a significand of
53 bits (of the form `k * 2 ^ (-1074)` below `2 ^ (-1022)`), ties to the even
significand, as IEEE 754 binary64 does in the default rounding mode.
Each operation rounds by itself: no fused multiply-add and no extended
precision.  Infinities, NaN and the sign of zero are not modelled: a result of
magnitude `2 ^ 1024` or more, a division by zero and the root of a negative
number do not occur in the uses made of the type. -/
structure Binary64 where
  val : ℚ
deriving DecidableEq

namespace Binary64

/-- The power `2 ^ e` for an integer `e`. -/
def pow2 (e : Int) : ℚ :=
  if 0 ≤ e then ((2 ^ e.toNat : Nat) : ℚ) else 1 / ((2 ^ (-e).toNat : Nat) : ℚ)

/-- The loop of `log2`: the halvings of `n` are counted, at most `fuel`. -/
def log2Loop : Nat → Nat → Nat
  | 0, _ => 0
  | fuel + 1, n => if n < 2 then 0 else log2Loop fuel (n / 2) + 1

/-- The exponent `e` with `2 ^ e ≤ n < 2 ^ (e + 1)`, for a natural number
`n > 0`. -/
def log2 (n : Nat) : Nat :=
  log2Loop n n

/-- The exponent `e` with `2 ^ e ≤ q < 2 ^ (e + 1)`, for `q > 0`. -/
def floorLog2 (q : ℚ) : Int :=
  let e0 : Int := (log2 q.num.natAbs : Int) - (log2 q.den : Int)
  if pow2 e0 ≤ q then e0 else e0 - 1

/-- The nearest integer, the even one of two nearest. -/
def roundHalfEven (x : ℚ) : Int :=
  let f : Int := Int.floor x
  let r : ℚ := x - f
  if r < 1 / 2 then f else if 1 / 2 < r then f + 1 else if f % 2 = 0 then f else f + 1

/-- The value of the `double` nearest to `q`, ties to even. -/
def roundNearest (q : ℚ) : ℚ :=
  if q = 0 then 0
  else
    let t : Int := max (floorLog2 |q| - 52) (-1074)
    (roundHalfEven (q / pow2 t) : ℚ) * pow2 t

/-- The loop of the integer square root, bit by bit from the bit `k - 1` down. -/
def isqrtLoop : Nat → Nat → Nat → Nat
  | 0, _, r => r
  | k + 1, n, r =>
      if (r + 2 ^ k) * (r + 2 ^ k) ≤ n then isqrtLoop k n (r + 2 ^ k) else isqrtLoop k n r

/-- The integer square root: the greatest `r` with `r * r ≤ n`. -/
def isqrt (n : Nat) : Nat :=
  isqrtLoop (log2 n / 2 + 1) n 0

/-- The value of the `double` nearest to the square root of `q`, for `q ≥ 0`. -/
def sqrtRound (q : ℚ) : ℚ :=
  if q ≤ 0 then 0
  else
    let t : Int := Int.fdiv (floorLog2 q) 2 - 52
    let x : ℚ := q / pow2 (2 * t)
    let r : Nat := isqrt (Int.floor x).toNat
    let mid : ℚ := ((r : ℚ) + 1 / 2) * ((r : ℚ) + 1 / 2)
    let k : Nat :=
      if x < mid then r else if mid < x then r + 1 else if r % 2 = 0 then r else r + 1
    (k : ℚ) * pow2 t

/-- The rational `q` is the value of a finite `double`. -/
def IsValue (q : ℚ) : Prop :=
  roundNearest q = q ∧ |q| < pow2 1024

instance : DecidablePred IsValue :=
  fun q => inferInstanceAs (Decidable (roundNearest q = q ∧ |q| < pow2 1024))

instance : Add Binary64 := ⟨fun a b => ⟨roundNearest (a.val + b.val)⟩⟩

instance : Sub Binary64 := ⟨fun a b => ⟨roundNearest (a.val - b.val)⟩⟩

instance : Mul Binary64 := ⟨fun a b => ⟨roundNearest (a.val * b.val)⟩⟩

instance : Div Binary64 := ⟨fun a b => ⟨roundNearest (a.val / b.val)⟩⟩

instance (n : Nat) : OfNat Binary64 n := ⟨⟨roundNearest n⟩⟩

instance : LE Binary64 := ⟨fun a b => a.val ≤ b.val⟩

instance : LT Binary64 := ⟨fun a b => a.val < b.val⟩

instance : DecidableRel (fun a b : Binary64 => a ≤ b) :=
  fun a b => inferInstanceAs (Decidable (a.val ≤ b.val))

instance : DecidableRel (fun a b : Binary64 => a < b) :=
  fun a b => inferInstanceAs (Decidable (a.val < b.val))

/-- The function `std::sqrt` on `double`: correctly rounded. -/
def sqrt (x : Binary64) : Binary64 :=
  ⟨sqrtRound x.val⟩

end Binary64

/-! ## Exact arithmetic next to `double` arithmetic -/

/-- The node `n` with each coordinate replaced by its value under `val`, such
as the rational number that a `double` stands for. -/
def exactNode {F K : Type} (val : F → K) (n : PositionedNode F) : PositionedNode K :=
  ⟨n.id, ⟨val n.position.x, val n.position.y⟩⟩

section ExactNotions

variable {K : Type} [LinearOrderedField K]

/-- The node `c` lies in the closed disc whose diameter is the segment from `a`
to `b`, in exact arithmetic and without a square root: the square of its
distance to the midpoint is at most a quarter of the square of the distance
from `a` to `b`. -/
def InClosedDisc (a b c : PositionedNode K) : Prop :=
  4 * CalculateDistanceSquared c.position (midPointOf a b)
    ≤ CalculateDistanceSquared a.position b.position

instance (a b c : PositionedNode K) : Decidable (InClosedDisc a b c) :=
  inferInstanceAs (Decidable (4 * CalculateDistanceSquared c.position (midPointOf a b)
    ≤ CalculateDistanceSquared a.position b.position))

end ExactNotions

section KernelDecidable

variable {K : Type} [Add K] [Sub K] [Mul K] [Div K] [OfNat K 2] [LE K]
  [DecidableRel (fun a b : K => a ≤ b)]

instance (sqrt : K → K) (a b c : PositionedNode K) : Decidable (InDiameterDisc sqrt a b c) :=
  inferInstanceAs (Decidable (CalculateDistance sqrt c.position (midPointOf a b)
    ≤ CalculateDistance sqrt a.position b.position / 2))

end KernelDecidable

section ExactTests

variable {F : Type} [OfNat F 0] [OfNat F 2] [Add F] [Sub F] [Mul F] [Div F] [LE F] [LT F]
  [DecidableEq F] [DecidableRel (fun a b : F => a ≤ b)] [DecidableRel (fun a b : F => a < b)]

variable {K : Type} [LinearOrderedField K]

/-- Every disc test that `IsGabrielEdge` can make on the nodes comes out as the
test of the closed diameter disc does on their values in exact arithmetic. -/
@[reducible]
def DiscTestsExact (sqrt : F → F) (val : F → K) (nodes : List (PositionedNode F)) : Prop :=
  ∀ a ∈ nodes, ∀ b ∈ nodes, ∀ c ∈ nodes, c.id ≠ a.id → c.id ≠ b.id →
    (InDiameterDisc sqrt a b c
      ↔ InClosedDisc (exactNode val a) (exactNode val b) (exactNode val c))

end ExactTests

/-! ## Sample inputs in `double` arithmetic -/

/-- Three nodes on a line at pairwise different places, the second one very
near the first: `(0, 0)`, `(2 ^ (-60), 0)` and `(1, 0)`. -/
def nearNodes : List (PositionedNode Binary64) :=
  [⟨0, ⟨⟨0⟩, ⟨0⟩⟩⟩, ⟨1, ⟨⟨1 / 2 ^ 60⟩, ⟨0⟩⟩⟩, ⟨2, ⟨⟨1⟩, ⟨0⟩⟩⟩]

/-- Three nodes on a line at the distance 2 of each other. -/
def lineNodes : List (PositionedNode Binary64) :=
  [⟨0, ⟨⟨0⟩, ⟨0⟩⟩⟩, ⟨1, ⟨⟨2⟩, ⟨0⟩⟩⟩, ⟨2, ⟨⟨4⟩, ⟨0⟩⟩⟩]

section SamplerLemmas

variable {K : Type} [LinearOrderedField K] [FloorRing K]

set_option linter.unusedSectionVars false

theorem truncToInt_of_nonneg {x : K} (hx : 0 ≤ x) : truncToInt x = Int.floor x := by
  simp [truncToInt, hx]

theorem arrayAt_of_lt {A : Type} (a : Fin 11 → A) (i : Nat) (h : i < 11) :
    arrayAt a (i : Int) = some (a ⟨i, h⟩) := by
  unfold arrayAt
  have h' : 0 ≤ (i : Int) ∧ (i : Int) < 11 := by omega
  rw [dif_pos h']
  simp

/-- What the source computes for a draw in `[0, 1)`: the decile is
`i = ⌊10 u⌋` and the weight of the interpolation is `u` itself. -/
theorem SynFloodAttacker.interpolate_eq (q : Fin 11 → K) (u : K) (i : Nat) (hi : i < 10)
    (hfl : Int.floor (u * 10) = (i : Int)) (hu : 0 ≤ u) :
    SynFloodAttacker.interpolate q u
      = some (q ⟨i, by omega⟩ + (q ⟨i + 1, by omega⟩ - q ⟨i, by omega⟩) * u) := by
  have h10 : (0 : K) ≤ u * 10 := by positivity
  have h1 : (if (i : Int) = 11 then (10 : Int) else (i : Int)) = (i : Int) := by
    rw [if_neg (by omega)]
  have h2 : ((i : Int) + 1) = ((i + 1 : Nat) : Int) := by push_cast; rfl
  have e1 : arrayAt q (i : Int) = some (q ⟨i, by omega⟩) := arrayAt_of_lt q i (by omega)
  have e2 : arrayAt q ((i : Int) + 1) = some (q ⟨i + 1, by omega⟩) :=
    (congrArg (arrayAt q) h2).trans (arrayAt_of_lt q (i + 1) (by omega))
  simp only [SynFloodAttacker.interpolate, truncToInt_of_nonneg h10, hfl, h1, e1, e2]

theorem LegitimateTrafficApplication.interpolate_eq_syn (q : Fin 11 → K) (u : K) :
    LegitimateTrafficApplication.interpolate q u = SynFloodAttacker.interpolate q u := rfl

theorem interpolate_zero (q : Fin 11 → K) :
    SynFloodAttacker.interpolate q 0 = some (q 0) := by
  have h := SynFloodAttacker.interpolate_eq q 0 0 (by omega) (by simp) le_rfl
  simpa using h

theorem interpolate_top_decile (q : Fin 11 → K) (u : K) (h9 : 9 / 10 ≤ u) (h1 : u < 1) :
    SynFloodAttacker.interpolate q u = some (q 9 + (q 10 - q 9) * u) := by
  have hfl : Int.floor (u * 10) = ((9 : Nat) : Int) := by
    rw [Int.floor_eq_iff]
    constructor
    · push_cast; linarith
    · push_cast; linarith
  have hu : (0 : K) ≤ u := by linarith
  exact SynFloodAttacker.interpolate_eq q u 9 (by omega) hfl hu

end SamplerLemmas

/-! ### Claims on the sampler -/

/-- C1 (the code departs from it): at the table `q i = i` and the draw `u = 1/2`
both copies of `GetRandomDistributionNumber` return `11/2`, which is
`q 5 + (q 6 - q 5) * u`, while the interpolation with the fractional remainder
`10 u - 5 = 0` gives `5`. -/
theorem C1_weight_is_the_draw_itself :
    SynFloodAttacker.GetRandomDistributionNumber (fun _ => (1 / 2 : ℚ)) 1 rampTable 1
        = some (11 / 2)
      ∧ LegitimateTrafficApplication.GetRandomDistributionNumber (fun _ => (1 / 2 : ℚ)) 1
          rampTable 1 = some (11 / 2)
      ∧ rampTable 5 + (rampTable 6 - rampTable 5) * (10 * (1 / 2) - ((5 : Nat) : ℚ)) = 5
      ∧ Int.floor ((10 : ℚ) * (1 / 2)) = 5 := by
  have h : SynFloodAttacker.interpolate rampTable (1 / 2 : ℚ) = some (11 / 2) := by
    have hfl : Int.floor ((1 / 2 : ℚ) * 10) = ((5 : Nat) : Int) := by
      rw [Int.floor_eq_iff]
      constructor <;> norm_num
    rw [SynFloodAttacker.interpolate_eq rampTable (1 / 2) 5 (by omega) hfl (by norm_num)]
    simp only [rampTable]
    norm_num
  refine ⟨h, h, ?_, ?_⟩
  · have h5 : (5 : Fin 11).val = 5 := rfl
    have h6 : (6 : Fin 11).val = 6 := rfl
    simp only [rampTable, h5, h6]
    norm_num
  · rw [Int.floor_eq_iff]
    constructor <;> norm_num

/-- C3: for every table `q`, both copies of the sampler return `q 0` at the
draw `0`, and for every `eps > 0` there is `delta > 0` such that every draw `u`
with `1 - delta < u < 1` gives a value within `eps` of `q 10`. -/
theorem C3_sampler_endpoints {K : Type} [LinearOrderedField K] [FloorRing K]
    (q : Fin 11 → K) (eps : K) (heps : 0 < eps) :
    SynFloodAttacker.interpolate q 0 = some (q 0)
      ∧ LegitimateTrafficApplication.interpolate q 0 = some (q 0)
      ∧ ∃ delta : K, 0 < delta ∧ ∀ u : K, 1 - delta < u → u < 1 →
          ∃ v : K, SynFloodAttacker.interpolate q u = some v
            ∧ LegitimateTrafficApplication.interpolate q u = some v
            ∧ |v - q 10| < eps := by
  refine ⟨interpolate_zero q, interpolate_zero q, ?_⟩
  have hpos : 0 < |q 10 - q 9| + 1 := by positivity
  refine ⟨min (1 / 10) (eps / (|q 10 - q 9| + 1)), lt_min (by norm_num) (div_pos heps hpos), ?_⟩
  intro u hlo hhi
  have hd1 : min (1 / 10) (eps / (|q 10 - q 9| + 1)) ≤ (1 / 10 : K) := min_le_left _ _
  have hd2 : min (1 / 10) (eps / (|q 10 - q 9| + 1)) ≤ eps / (|q 10 - q 9| + 1) :=
    min_le_right _ _
  have h9 : (9 / 10 : K) ≤ u := by linarith
  have hv := interpolate_top_decile q u h9 hhi
  refine ⟨_, hv, hv, ?_⟩
  have e : q 9 + (q 10 - q 9) * u - q 10 = (q 10 - q 9) * (u - 1) := by ring
  rw [e, abs_mul]
  have h1u : |u - 1| = 1 - u := by
    rw [abs_of_nonpos (by linarith)]
    ring
  rw [h1u]
  have hlt : 1 - u < eps / (|q 10 - q 9| + 1) := by linarith
  have hnn : 0 ≤ |q 10 - q 9| := abs_nonneg _
  have h1u0 : 0 < 1 - u := by linarith
  calc |q 10 - q 9| * (1 - u) ≤ (|q 10 - q 9| + 1) * (1 - u) := by nlinarith
    _ < (|q 10 - q 9| + 1) * (eps / (|q 10 - q 9| + 1)) :=
        mul_lt_mul_of_pos_left hlt hpos
    _ = eps := by field_simp

/-- C3 at the table `q i = i` and `eps = 1`. -/
theorem C3_sampler_endpoints_witness :
    (0 : ℚ) < 1
      ∧ (SynFloodAttacker.interpolate rampTable 0 = some (rampTable 0)
      ∧ LegitimateTrafficApplication.interpolate rampTable 0 = some (rampTable 0)
      ∧ ∃ delta : ℚ, 0 < delta ∧ ∀ u : ℚ, 1 - delta < u → u < 1 →
          ∃ v : ℚ, SynFloodAttacker.interpolate rampTable u = some v
            ∧ LegitimateTrafficApplication.interpolate rampTable u = some v
            ∧ |v - rampTable 10| < 1) :=
  ⟨by norm_num, C3_sampler_endpoints rampTable 1 (by norm_num)⟩

/-! ### Lemmas on the Gabriel graph -/

section GabrielKernelLemmas

variable {K : Type} [Add K] [Sub K] [Mul K] [Div K] [OfNat K 2] [LE K]
  [DecidableRel (fun a b : K => a ≤ b)]

set_option linter.unusedSectionVars false

theorem isGabrielEdge_iff (sqrt : K → K) (a b : PositionedNode K)
    (nodes : List (PositionedNode K)) :
    IsGabrielEdge sqrt a b nodes = true ↔
      ∀ node ∈ nodes, node.id ≠ a.id → node.id ≠ b.id → ¬ InDiameterDisc sqrt a b node := by
  simp only [IsGabrielEdge, InDiameterDisc, midPointOf, List.all_eq_true, Bool.not_eq_true',
    Bool.and_eq_false_imp, Bool.and_eq_true, bne_iff_ne, ne_eq, decide_eq_false_iff_not, and_imp]

theorem mem_gabrielLoop (sqrt : K → K) (nodes : List (PositionedNode K)) (e : Int × Int) :
    ∀ l : List (PositionedNode K), e ∈ gabrielLoop sqrt nodes l ↔
      ∃ i j : Nat, ∃ (hij : i < j) (hj : j < l.length),
        e = (l[i].id, l[j].id) ∧ IsGabrielEdge sqrt l[i] l[j] nodes = true := by
  intro l
  induction l with
  | nil => simp [gabrielLoop]
  | cons a rest ih =>
    simp only [gabrielLoop, List.mem_append, List.mem_map, List.mem_filter, ih]
    constructor
    · rintro (⟨b, ⟨hb, hg⟩, rfl⟩ | ⟨i, j, hij, hj, he, hg⟩)
      · obtain ⟨n, hn, rfl⟩ := List.mem_iff_getElem.mp hb
        exact ⟨0, n + 1, by omega, by simp; omega, by simp, by simpa using hg⟩
      · exact ⟨i + 1, j + 1, by omega, by simp; omega, by simpa using he, by simpa using hg⟩
    · rintro ⟨i, j, hij, hj, he, hg⟩
      obtain ⟨j, rfl⟩ : ∃ j', j = j' + 1 := ⟨j - 1, by omega⟩
      have hj' : j < rest.length := by simpa using hj
      cases i with
      | zero =>
        left
        refine ⟨rest[j], ⟨List.getElem_mem _, by simpa using hg⟩, ?_⟩
        simpa using he.symm
      | succ i =>
        right
        exact ⟨i, j, by omega, hj', by simpa using he, by simpa using hg⟩

theorem gabrielLoop_fst_mem (sqrt : K → K) (nodes : List (PositionedNode K)) (e : Int × Int)
    (l : List (PositionedNode K)) (he : e ∈ gabrielLoop sqrt nodes l) :
    e.1 ∈ l.map (fun n => n.id) := by
  obtain ⟨i, j, hij, hj, rfl, -⟩ := (mem_gabrielLoop sqrt nodes e l).mp he
  exact List.mem_map.mpr ⟨l[i], List.getElem_mem _, rfl⟩

theorem gabrielLoop_nodup (sqrt : K → K) (nodes : List (PositionedNode K)) :
    ∀ l : List (PositionedNode K), (l.map fun n => n.id).Nodup →
      (gabrielLoop sqrt nodes l).Nodup := by
  intro l
  induction l with
  | nil => intro _; simp [gabrielLoop]
  | cons a rest ih =>
    intro hnd
    rw [List.map_cons, List.nodup_cons] at hnd
    simp only [gabrielLoop]
    rw [List.nodup_append]
    refine ⟨?_, ih hnd.2, ?_⟩
    · have h1 : ((rest.filter fun b => IsGabrielEdge sqrt a b nodes).map fun n => n.id).Nodup :=
        (hnd.2.sublist ((List.filter_sublist rest).map _))
      have h2 := h1.map (f := fun (i : Int) => (a.id, i))
        (fun x y h => by simpa using h)
      simpa [List.map_map] using h2
    · intro e h1 h2
      have := gabrielLoop_fst_mem sqrt nodes e rest h2
      simp only [List.mem_map, List.mem_filter] at h1
      obtain ⟨b, -, rfl⟩ := h1
      exact hnd.1 this

/-- With distinct ids, the test on ids of `IsGabrielEdge` is a test on
positions in the list. -/
theorem isGabrielEdge_index (sqrt : K → K) (nodes : List (PositionedNode K))
    (hid : (nodes.map fun n => n.id).Nodup) (i j : Nat) (hi : i < nodes.length)
    (hj : j < nodes.length) :
    IsGabrielEdge sqrt nodes[i] nodes[j] nodes = true ↔
      ∀ k : Nat, ∀ hk : k < nodes.length, k ≠ i → k ≠ j →
        ¬ InDiameterDisc sqrt nodes[i] nodes[j] nodes[k] := by
  have hinj : ∀ (a b : Nat) (ha : a < nodes.length) (hb : b < nodes.length),
      nodes[a].id = nodes[b].id → a = b := by
    intro a b ha hb h
    have ha2 : a < (nodes.map fun n => n.id).length := by simpa using ha
    have hb2 : b < (nodes.map fun n => n.id).length := by simpa using hb
    have h2 : (nodes.map fun n => n.id)[a] = (nodes.map fun n => n.id)[b] := by simpa using h
    exact (List.Nodup.getElem_inj_iff hid).mp h2
  rw [isGabrielEdge_iff]
  constructor
  · intro h k hk hki hkj
    exact h nodes[k] (List.getElem_mem _) (fun e => hki (hinj k i hk hi e))
      (fun e => hkj (hinj k j hk hj e))
  · intro h node hmem hna hnb
    obtain ⟨k, hk, rfl⟩ := List.mem_iff_getElem.mp hmem
    exact h k hk (fun e => hna (by subst e; rfl)) (fun e => hnb (by subst e; rfl))

end GabrielKernelLemmas

section GabrielLemmas

variable {K : Type} [LinearOrderedField K]

theorem IsSqrt.eq_of_sq {sqrt : K → K} (hs : IsSqrt sqrt) {x r : K} (hr : 0 ≤ r)
    (h : r * r = x) : sqrt x = r := by
  have hx : 0 ≤ x := by rw [← h]; positivity
  obtain ⟨h0, h1⟩ := hs x hx
  have h2 : (sqrt x - r) * (sqrt x + r) = 0 := by ring_nf; rw [← h] at h1 ⊢; nlinarith
  rcases mul_eq_zero.mp h2 with h3 | h3
  · linarith
  · have : sqrt x = 0 := by linarith
    have : r = 0 := by linarith
    linarith

theorem stackedNodes_graph {sqrt : K → K} (hs : IsSqrt sqrt) :
    CreateGabrielGraph sqrt (stackedNodes K) = [(0, 1)] := by
  have s0 : sqrt 0 = 0 := hs.eq_of_sq le_rfl (by norm_num)
  have s1 : sqrt 1 = 1 := hs.eq_of_sq zero_le_one (by norm_num)
  have s4 : sqrt 4 = 2 := hs.eq_of_sq (by norm_num) (by norm_num)
  simp [CreateGabrielGraph, gabrielLoop, stackedNodes, IsGabrielEdge, CalculateDistance,
    CalculateDistanceSquared]
  norm_num [s0, s1, s4]

theorem stackedNodes_not_connected : ¬ GraphConnected (stackedNodes K) [(0, 1)] := by
  intro h
  have h02 : Reachable [(0, 1)] (0 : Int) 2 :=
    h ⟨0, ⟨0, 0⟩⟩ (by simp [stackedNodes]) ⟨2, ⟨2, 0⟩⟩ (by simp [stackedNodes])
  have key : ∀ v : Int, Reachable [(0, 1)] (0 : Int) v → v = 0 ∨ v = 1 := by
    intro v hv
    induction hv with
    | refl => exact Or.inl rfl
    | tail _ hl ih =>
      simp only [Linked, List.mem_singleton, Prod.mk.injEq] at hl
      rcases hl with ⟨-, h2⟩ | ⟨h2, -⟩
      · exact Or.inr h2
      · exact Or.inl h2
  rcases key 2 h02 with h | h <;> omega

theorem distanceSquared_comm (a b : Vector2D K) :
    CalculateDistanceSquared a b = CalculateDistanceSquared b a := by
  simp only [CalculateDistanceSquared]; ring

theorem distanceSquared_nonneg (a b : Vector2D K) : 0 ≤ CalculateDistanceSquared a b := by
  simp only [CalculateDistanceSquared]
  exact add_nonneg (mul_self_nonneg _) (mul_self_nonneg _)

theorem distanceSquared_pos {a b : Vector2D K} (h : a ≠ b) :
    0 < CalculateDistanceSquared a b := by
  rcases lt_or_eq_of_le (distanceSquared_nonneg a b) with h1 | h1
  · exact h1
  · exfalso
    apply h
    simp only [CalculateDistanceSquared] at h1
    have hx : (b.x - a.x) * (b.x - a.x) = 0 := by nlinarith [mul_self_nonneg (b.x - a.x), mul_self_nonneg (b.y - a.y)]
    have hy : (b.y - a.y) * (b.y - a.y) = 0 := by nlinarith [mul_self_nonneg (b.x - a.x), mul_self_nonneg (b.y - a.y)]
    have hx' : b.x - a.x = 0 := by simpa using hx
    have hy' : b.y - a.y = 0 := by simpa using hy
    cases a; cases b
    simp only [Vector2D.mk.injEq]
    constructor <;> linarith

theorem isGabrielEdge_symm (sqrt : K → K) (a b : PositionedNode K)
    (nodes : List (PositionedNode K)) :
    IsGabrielEdge sqrt a b nodes = IsGabrielEdge sqrt b a nodes := by
  have hm : midPointOf a b = midPointOf b a := by
    simp only [midPointOf, add_comm]
  have hd : CalculateDistance sqrt a.position b.position
      = CalculateDistance sqrt b.position a.position := by
    simp only [CalculateDistance, distanceSquared_comm]
  rw [Bool.eq_iff_iff, isGabrielEdge_iff, isGabrielEdge_iff]
  simp only [InDiameterDisc, hm, hd]
  constructor
  · intro h node hn h1 h2; exact h node hn h2 h1
  · intro h node hn h1 h2; exact h node hn h2 h1

/-- Thales: a point of the closed disc with diameter `a b` sees the segment
under an angle that is not acute. -/
theorem inDiameterDisc_sq {sqrt : K → K} (hs : IsSqrt sqrt) (a b c : PositionedNode K)
    (h : InDiameterDisc sqrt a b c) :
    CalculateDistanceSquared a.position c.position
        + CalculateDistanceSquared c.position b.position
      ≤ CalculateDistanceSquared a.position b.position := by
  obtain ⟨h0, h1⟩ := hs _ (distanceSquared_nonneg c.position (midPointOf a b))
  obtain ⟨h2, h3⟩ := hs _ (distanceSquared_nonneg a.position b.position)
  simp only [InDiameterDisc, CalculateDistance] at h
  have h4 : CalculateDistanceSquared c.position (midPointOf a b)
      ≤ CalculateDistanceSquared a.position b.position / 4 := by
    have := mul_self_le_mul_self h0 h
    rw [h1] at this
    calc CalculateDistanceSquared c.position (midPointOf a b)
        ≤ sqrt (CalculateDistanceSquared a.position b.position) / 2
            * (sqrt (CalculateDistanceSquared a.position b.position) / 2) := this
      _ = (sqrt (CalculateDistanceSquared a.position b.position)
            * sqrt (CalculateDistanceSquared a.position b.position)) / 4 := by ring
      _ = _ := by rw [h3]
  have hid : CalculateDistanceSquared a.position c.position
        + CalculateDistanceSquared c.position b.position
      = 2 * CalculateDistanceSquared c.position (midPointOf a b)
        + CalculateDistanceSquared a.position b.position / 2 := by
    simp only [CalculateDistanceSquared, midPointOf]
    ring
  rw [hid]
  linarith

theorem linked_of_gabrielEdge (sqrt : K → K) (nodes : List (PositionedNode K))
    (a b : PositionedNode K) (ha : a ∈ nodes) (hb : b ∈ nodes) (hab : a ≠ b)
    (hg : IsGabrielEdge sqrt a b nodes = true) :
    Linked (CreateGabrielGraph sqrt nodes) a.id b.id := by
  obtain ⟨i, hi, rfl⟩ := List.mem_iff_getElem.mp ha
  obtain ⟨j, hj, rfl⟩ := List.mem_iff_getElem.mp hb
  rcases Nat.lt_trichotomy i j with h | h | h
  · left
    exact (mem_gabrielLoop sqrt nodes _ nodes).mpr ⟨i, j, h, hj, rfl, hg⟩
  · subst h; exact absurd rfl hab
  · right
    rw [isGabrielEdge_symm] at hg
    exact (mem_gabrielLoop sqrt nodes _ nodes).mpr ⟨j, i, h, hi, rfl, hg⟩

theorem gabriel_connected {sqrt : K → K} (hs : IsSqrt sqrt) (nodes : List (PositionedNode K))
    (hpos : (nodes.map fun n => n.position).Nodup) :
    GraphConnected nodes (CreateGabrielGraph sqrt nodes) := by
  classical
  have hinj : ∀ x ∈ nodes, ∀ y ∈ nodes, x.position = y.position → x = y :=
    fun x hx y hy h => List.inj_on_of_nodup_map hpos hx hy h
  by_contra hne
  simp only [GraphConnected, not_forall] at hne
  obtain ⟨a0, ha0, b0, hb0, hab0⟩ := hne
  let R := Reachable (CreateGabrielGraph sqrt nodes)
  let S : Finset (PositionedNode K × PositionedNode K) :=
    (nodes.toFinset ×ˢ nodes.toFinset).filter fun p => ¬ R p.1.id p.2.id
  have hS : S.Nonempty := ⟨(a0, b0), by simp [S, R, ha0, hb0, hab0]⟩
  obtain ⟨p, hp, hmin⟩ :=
    S.exists_min_image (fun p => CalculateDistanceSquared p.1.position p.2.position) hS
  obtain ⟨a, b⟩ := p
  simp only [S, Finset.mem_filter, Finset.mem_product, List.mem_toFinset] at hp
  obtain ⟨⟨ha, hb⟩, hab⟩ := hp
  have hne : a ≠ b := by
    rintro rfl
    exact hab Relation.ReflTransGen.refl
  by_cases hg : IsGabrielEdge sqrt a b nodes = true
  · exact hab (Relation.ReflTransGen.single (linked_of_gabrielEdge sqrt nodes a b ha hb hne hg))
  · rw [isGabrielEdge_iff] at hg
    push_neg at hg
    obtain ⟨c, hc, hca, hcb, hdisc⟩ := hg
    have h1 := inDiameterDisc_sq hs a b c hdisc
    have hac : a.position ≠ c.position := fun h => hca (by rw [hinj a ha c hc h])
    have hcb' : c.position ≠ b.position := fun h => hcb (by rw [hinj c hc b hb h])
    have h2 := distanceSquared_pos hac
    have h3 := distanceSquared_pos hcb'
    by_cases hRac : R a.id c.id
    · have hRcb : ¬ R c.id b.id := fun h => hab (Relation.ReflTransGen.trans hRac h)
      have hmem : (c, b) ∈ S := by simp [S, hc, hb, hRcb]
      have := hmin (c, b) hmem
      simp only at this
      linarith
    · have hmem : (a, c) ∈ S := by simp [S, ha, hc, hRac]
      have := hmin (a, c) hmem
      simp only at this
      linarith

end GabrielLemmas

/-! ### Nodes at the same place -/

/-- In exact arithmetic too nodes at the same place can cut the graph: the
three nodes of `stackedNodes` have distinct ids, two of them share a position,
and the graph that `CreateGabrielGraph` returns for them (its only edge joins
the ids `0` and `1`) is not connected. -/
theorem stackedNodes_disconnected :
    stackedNodes ℝ ≠ []
      ∧ ((stackedNodes ℝ).map fun n => n.id).Nodup
      ∧ IsSqrt Real.sqrt
      ∧ CreateGabrielGraph Real.sqrt (stackedNodes ℝ) = [(0, 1)]
      ∧ ¬ GraphConnected (stackedNodes ℝ) (CreateGabrielGraph Real.sqrt (stackedNodes ℝ)) := by
  have hs : IsSqrt Real.sqrt := fun x hx => ⟨Real.sqrt_nonneg x, Real.mul_self_sqrt hx⟩
  refine ⟨by simp [stackedNodes], by simp [stackedNodes], hs, stackedNodes_graph hs, ?_⟩
  rw [stackedNodes_graph hs]
  exact stackedNodes_not_connected

/-! ### Lemmas on the farthest-point selection -/

section FurthestLemmas

variable {K : Type} [LinearOrderedField K]

set_option linter.unusedSectionVars false

theorem minDistanceTo_gt {sqrt : K → K} (hs : IsSqrt sqrt) (p : Vector2D K)
    (selectedNodes : List (PositionedNode K)) :
    (((-1 : K)) : WithTop K) < minDistanceTo sqrt p selectedNodes := by
  have key : ∀ (l : List (PositionedNode K)) (acc : WithTop K), (((-1 : K)) : WithTop K) < acc →
      (((-1 : K)) : WithTop K) < l.foldl
        (fun minDistance selectedNode =>
          let currentDistance := CalculateDistance sqrt p selectedNode.position
          if (currentDistance : WithTop K) < minDistance then (currentDistance : WithTop K)
          else minDistance) acc := by
    intro l
    induction l with
    | nil => intro acc h; simpa using h
    | cons s rest ih =>
      intro acc h
      simp only [List.foldl_cons]
      apply ih
      split
      · rw [WithTop.coe_lt_coe]
        have := (hs _ (distanceSquared_nonneg p s.position)).1
        simp only [CalculateDistance]
        linarith
      · exact h
  exact key selectedNodes ⊤ (WithTop.coe_lt_top _)

theorem maxIndexStep_ok {sqrt : K → K} (hs : IsSqrt sqrt) (n : Nat) (used : List Bool)
    (selectedNodes : List (PositionedNode K)) (acc : WithTop K × Int)
    (e : Nat × PositionedNode K) (he : e.1 < n) (hacc : MaxIndexOk n used acc) :
    MaxIndexOk n used (maxIndexStep sqrt used selectedNodes acc e)
      ∧ (used.getD e.1 false = false ∨ 0 ≤ acc.2 →
          0 ≤ (maxIndexStep sqrt used selectedNodes acc e).2) := by
  unfold maxIndexStep
  by_cases hu : used.getD e.1 false = false
  · simp only [hu, if_true]
    by_cases hgt : minDistanceTo sqrt e.2.position selectedNodes > acc.1
    · simp only [hgt, if_true]
      refine ⟨Or.inr ⟨by simp, by simpa using he, by simpa using hu⟩, fun _ => by simp⟩
    · simp only [hgt, if_false]
      refine ⟨hacc, fun _ => ?_⟩
      rcases hacc with ⟨-, h1⟩ | ⟨h0, -, -⟩
      · exact absurd (h1 ▸ minDistanceTo_gt hs e.2.position selectedNodes) hgt
      · exact h0
  · simp only [hu, if_false]
    refine ⟨hacc, fun h => ?_⟩
    rcases h with h | h
    · exact absurd h (by simp)
    · exact h

theorem foldl_maxIndexStep_ok {sqrt : K → K} (hs : IsSqrt sqrt) (n : Nat) (used : List Bool)
    (selectedNodes : List (PositionedNode K)) :
    ∀ (l : List (Nat × PositionedNode K)) (acc : WithTop K × Int),
      (∀ e ∈ l, e.1 < n) → MaxIndexOk n used acc →
      MaxIndexOk n used (l.foldl (maxIndexStep sqrt used selectedNodes) acc)
        ∧ ((∃ e ∈ l, used.getD e.1 false = false) ∨ 0 ≤ acc.2 →
            0 ≤ (l.foldl (maxIndexStep sqrt used selectedNodes) acc).2) := by
  intro l
  induction l with
  | nil =>
    intro acc _ hacc
    refine ⟨hacc, fun h => ?_⟩
    rcases h with ⟨e, he, -⟩ | h
    · simp at he
    · exact h
  | cons e rest ih =>
    intro acc hl hacc
    simp only [List.foldl_cons]
    have hstep := maxIndexStep_ok hs n used selectedNodes acc e (hl e (List.mem_cons_self _ _)) hacc
    have hrest := ih (maxIndexStep sqrt used selectedNodes acc e)
      (fun x hx => hl x (List.mem_cons_of_mem _ hx)) hstep.1
    refine ⟨hrest.1, fun h => hrest.2 ?_⟩
    rcases h with ⟨x, hx, hxu⟩ | h
    · rcases List.mem_cons.mp hx with rfl | hx'
      · exact Or.inr (hstep.2 (Or.inl hxu))
      · exact Or.inl ⟨x, hx', hxu⟩
    · exact Or.inr (hstep.2 (Or.inr h))

/-- With an unused border node left, `findMaxIndex` ends on the index of an
unused border node. -/
theorem findMaxIndex_unused {sqrt : K → K} (hs : IsSqrt sqrt)
    (borderNodes : List (PositionedNode K)) (used : List Bool)
    (selectedNodes : List (PositionedNode K)) (i : Nat) (hi : i < borderNodes.length)
    (hu : used.getD i false = false) :
    0 ≤ (findMaxIndex sqrt borderNodes used selectedNodes).2
      ∧ (findMaxIndex sqrt borderNodes used selectedNodes).2.toNat < borderNodes.length
      ∧ used.getD (findMaxIndex sqrt borderNodes used selectedNodes).2.toNat false = false := by
  have hl : ∀ e ∈ borderNodes.enum, e.1 < borderNodes.length := by
    intro e he
    exact (List.mk_mem_enum_iff_getElem?.mp (show (e.1, e.2) ∈ borderNodes.enum from he) |>
      fun h => (List.getElem?_eq_some_iff.mp h).1)
  have h := foldl_maxIndexStep_ok hs borderNodes.length used selectedNodes borderNodes.enum
    ((((-1 : K)) : WithTop K), -1) hl (Or.inl ⟨rfl, rfl⟩)
  have hpos : 0 ≤ (findMaxIndex sqrt borderNodes used selectedNodes).2 := by
    apply h.2
    left
    refine ⟨(i, borderNodes[i]), ?_, hu⟩
    exact List.mk_mem_enum_iff_getElem?.mpr (List.getElem?_eq_getElem hi)
  rcases h.1 with ⟨h1, -⟩ | ⟨-, h2, h3⟩
  · exfalso
    have : (findMaxIndex sqrt borderNodes used selectedNodes).2 = -1 := h1
    omega
  · exact ⟨hpos, h2, h3⟩

theorem usedMatches_set (n : Nat) (used : List Bool) (idxs : List Nat) (j : Nat)
    (h : UsedMatches n used idxs) : UsedMatches n (used.set j true) (idxs ++ [j]) := by
  obtain ⟨hlen, hmem⟩ := h
  refine ⟨by simpa using hlen, fun i hi => ?_⟩
  have := hmem i hi
  by_cases hij : j = i
  · subst hij
    simp [List.getD_eq_getElem?_getD, List.getElem?_set, hlen, hi]
  · simp only [List.getD_eq_getElem?_getD, List.mem_append, List.mem_singleton] at this ⊢
    rw [List.getElem?_set_ne hij, this]
    constructor
    · exact Or.inl
    · rintro (h | h)
      · exact h
      · exact absurd h.symm hij

theorem exists_unused_index (n : Nat) (idxs : List Nat)
    (hlt : idxs.length < n) : ∃ i : Nat, i < n ∧ i ∉ idxs := by
  by_contra hcon
  push_neg at hcon
  have hsub : List.range n ⊆ idxs := fun i hi => hcon i (List.mem_range.mp hi)
  have := (List.subperm_of_subset (List.nodup_range n) hsub).length_le
  simp at this
  omega

theorem greedyLoop_spec {sqrt : K → K} (hs : IsSqrt sqrt) (borderNodes : List (PositionedNode K)) :
    ∀ (k : Nat) (used : List Bool) (selectedNodes : List (PositionedNode K)) (idxs : List Nat),
      UsedMatches borderNodes.length used idxs → idxs.Nodup →
      idxs.length + k ≤ borderNodes.length →
      ∃ (more : List Nat) (added : List (PositionedNode K)),
        greedyLoop sqrt borderNodes k used selectedNodes = some (selectedNodes ++ added)
          ∧ added.map some = more.map (fun i => borderNodes[i]?)
          ∧ (idxs ++ more).Nodup ∧ (∀ i ∈ more, i < borderNodes.length) ∧ more.length = k := by
  intro k
  induction k with
  | zero =>
    intro used sel idxs _ hnd _
    exact ⟨[], [], by simp [greedyLoop], by simp, by simpa using hnd, by simp, rfl⟩
  | succ k ih =>
    intro used sel idxs hU hnd hlen
    obtain ⟨i, hi, hni⟩ := exists_unused_index borderNodes.length idxs (by omega)
    have hui : used.getD i false = false := by
      have := (hU.2 i hi).not.mpr hni
      simpa using this
    obtain ⟨h0, hlt, hunused⟩ := findMaxIndex_unused hs borderNodes used sel i hi hui
    set j := (findMaxIndex sqrt borderNodes used sel).2.toNat with hj
    have hnj : j ∉ idxs := by
      intro hmem
      have := (hU.2 j hlt).mpr hmem
      rw [hunused] at this
      exact absurd this (by simp)
    have hU' := usedMatches_set borderNodes.length used idxs j hU
    have hnd' : (idxs ++ [j]).Nodup := by
      rw [List.nodup_append]
      refine ⟨hnd, List.nodup_singleton j, ?_⟩
      intro x hx hx'
      rw [List.mem_singleton] at hx'
      exact hnj (hx' ▸ hx)
    obtain ⟨more, added, hrun, hmap, hnd2, hlt2, hlen2⟩ :=
      ih (used.set j true) (sel ++ [borderNodes[j]]) (idxs ++ [j]) hU' hnd'
        (by simp; omega)
    refine ⟨j :: more, borderNodes[j] :: added, ?_, ?_, ?_, ?_, by simp [hlen2]⟩
    · simp only [greedyLoop, h0, if_true, ← hj, List.getElem?_eq_getElem hlt]
      simpa using hrun
    · simp [hmap, List.getElem?_eq_getElem hlt]
    · simpa using hnd2
    · intro x hx
      rcases List.mem_cons.mp hx with rfl | hx
      · exact hlt
      · exact hlt2 x hx

theorem map_getElem?_range (l : List (PositionedNode K)) :
    (List.range l.length).map (fun i => l[i]?) = l.map some := by
  apply List.ext_getElem
  · simp
  · intro i h1 h2
    simp only [List.length_map, List.length_range] at h1
    simp [List.getElem?_eq_getElem h1]

theorem selectAllLoop_spec (borderNodes : List (PositionedNode K)) (hne : borderNodes ≠ []) :
    ∀ (k : Nat) (selectedNodes : List (PositionedNode K)), 1 ≤ k →
      ∃ (m r : Nat) (pre : List (PositionedNode K)) (cyc : List Nat),
        selectAllLoop borderNodes selectedNodes k = some (selectedNodes ++ pre, r)
          ∧ k = m * borderNodes.length + r ∧ 1 ≤ r ∧ r ≤ borderNodes.length
          ∧ pre.map some = cyc.map (fun i => borderNodes[i]?)
          ∧ (∀ i : Nat, i < borderNodes.length → cyc.count i = m)
          ∧ cyc.length = m * borderNodes.length := by
  have hn : 0 < borderNodes.length := List.length_pos.mpr hne
  intro k
  induction k using Nat.strong_induction_on with
  | _ k ih =>
    intro sel hk
    rw [selectAllLoop]
    by_cases hgt : k > borderNodes.length
    · rw [dif_pos hgt, dif_neg (by omega)]
      obtain ⟨m, r, pre, cyc, hrun, hk', hr1, hr2, hmap, hcount, hlen⟩ :=
        ih (k - borderNodes.length) (by omega) (sel ++ borderNodes) (by omega)
      refine ⟨m + 1, r, borderNodes ++ pre, List.range borderNodes.length ++ cyc, ?_, ?_, hr1, hr2,
        ?_, ?_, ?_⟩
      · rw [hrun, List.append_assoc]
      · rw [Nat.add_mul]; omega
      · rw [List.map_append, List.map_append, hmap, map_getElem?_range]
      · intro i hi
        rw [List.count_append, hcount i hi,
          List.count_eq_one_of_mem (List.nodup_range _) (List.mem_range.mpr hi)]
        omega
      · rw [List.length_append, List.length_range, hlen, Nat.add_mul]; omega
    · rw [dif_neg hgt]
      exact ⟨0, k, [], [], by simp, by simp, hk, by omega, by simp, by simp, by simp⟩

/-- What `FindFurthestApartNodes` returns for `k ≥ 1` connections and `n ≥ 1`
border nodes, with `k = m * n + r` and `1 ≤ r ≤ n`: `m` rounds through all
border nodes, then `r` border nodes of pairwise distinct indices, the first
one of index `0`.  The list `cyc ++ idxs` gives the index of each entry. -/
theorem findFurthestApartNodes_spec {sqrt : K → K} (hs : IsSqrt sqrt)
    (borderNodes : List (PositionedNode K)) (hne : borderNodes ≠ []) (k : Nat) (hk : 1 ≤ k) :
    ∃ (m r : Nat) (result : List (PositionedNode K)) (cyc idxs : List Nat),
      FindFurthestApartNodes sqrt borderNodes k = some result
        ∧ k = m * borderNodes.length + r ∧ 1 ≤ r ∧ r ≤ borderNodes.length
        ∧ result.map some = (cyc ++ idxs).map (fun i => borderNodes[i]?)
        ∧ (∀ i : Nat, i < borderNodes.length → cyc.count i = m)
        ∧ cyc.length = m * borderNodes.length
        ∧ idxs.Nodup ∧ idxs.length = r ∧ idxs.head? = some 0
        ∧ ∀ i ∈ idxs, i < borderNodes.length := by
  have hn : 0 < borderNodes.length := List.length_pos.mpr hne
  obtain ⟨m, r, pre, cyc, hrun, hk', hr1, hr2, hmap, hcount, hlen⟩ :=
    selectAllLoop_spec borderNodes hne k [] hk
  have hU0 : UsedMatches borderNodes.length (List.replicate borderNodes.length false) [] := by
    refine ⟨by simp, fun i hi => ?_⟩
    simp [List.getD_eq_getElem?_getD, List.getElem?_replicate, hi]
  have hU := usedMatches_set borderNodes.length _ [] 0 hU0
  obtain ⟨more, added, hg, hmap2, hnd, hlt, hlen2⟩ :=
    greedyLoop_spec hs borderNodes (r - 1) ((List.replicate borderNodes.length false).set 0 true)
      ([] ++ pre ++ [borderNodes[0]]) ([] ++ [0]) hU (by simp) (by simp; omega)
  refine ⟨m, r, pre ++ borderNodes[0] :: added, cyc, 0 :: more, ?_, hk', hr1, hr2, ?_, hcount,
    hlen, by simpa using hnd, by simp [hlen2]; omega, rfl, ?_⟩
  · unfold FindFurthestApartNodes
    rw [if_neg (by omega), hrun]
    match borderNodes, hne with
    | first :: rest, _ =>
      simp only [List.nil_append, List.getElem_cons_zero] at hg ⊢
      rw [hg]
      simp
  · simp [hmap, hmap2, List.getElem?_eq_getElem hn]
  · intro i hi
    rcases List.mem_cons.mp hi with rfl | hi
    · exact hn
    · exact hlt i hi

theorem count_eq_one_of_full (n : Nat) (idxs : List Nat) (hnd : idxs.Nodup)
    (hlt : ∀ i ∈ idxs, i < n) (hlen : idxs.length = n) (i : Nat) (hi : i < n) :
    idxs.count i = 1 := by
  have hsub : idxs ⊆ List.range n := fun x hx => List.mem_range.mpr (hlt x hx)
  have hperm : idxs.Perm (List.range n) :=
    (List.subperm_of_subset hnd hsub).perm_of_length_le (by simp [hlen])
  exact List.count_eq_one_of_mem hnd (hperm.mem_iff.mpr (List.mem_range.mpr hi))

end FurthestLemmas

/-! ### Lemmas on the access nets -/

section AccessNetLemmas

variable {K : Type} [LinearOrderedField K]

/-- The loop over the clients appends every client to exactly one of the two
containers, changes nothing else, and counts what it appends. -/
theorem classifyClients_spec (attackTrafficFactor : K) (draw : Nat → K) :
    ∀ (clients : List Nat) (j : Nat) (st : TopologyState) (a l : Nat),
      a + l + clients.length < 2 ^ 32 →
      ∃ attackers legitimate : List Nat,
        (classifyClients attackTrafficFactor draw clients j st (a, l)).1
            = { st with m_attackingClients := st.m_attackingClients ++ attackers,
                        m_legitimateClients := st.m_legitimateClients ++ legitimate }
          ∧ (classifyClients attackTrafficFactor draw clients j st (a, l)).2
              = (a + attackers.length, l + legitimate.length)
          ∧ (attackers ++ legitimate).Perm clients := by
  intro clients
  induction clients with
  | nil =>
    intro j st a l _
    exact ⟨[], [], by simp [classifyClients], by simp [classifyClients], by simp⟩
  | cons c rest ih =>
    intro j st a l hlt
    simp only [List.length_cons] at hlt
    by_cases hd : draw j < attackTrafficFactor
    · obtain ⟨att, leg, h1, h2, h3⟩ := ih (j + 1)
        { st with m_attackingClients := st.m_attackingClients ++ [c] } (a + 1) l (by omega)
      refine ⟨c :: att, leg, ?_, ?_, ?_⟩
      · simp only [classifyClients, hd, if_true, Nat.mod_eq_of_lt (show a + 1 < 2 ^ 32 by omega)]
        rw [h1]
        simp
      · simp only [classifyClients, hd, if_true, Nat.mod_eq_of_lt (show a + 1 < 2 ^ 32 by omega)]
        rw [h2]
        simp only [List.length_cons, Prod.mk.injEq, and_true]
        omega
      · simpa using h3
    · obtain ⟨att, leg, h1, h2, h3⟩ := ih (j + 1)
        { st with m_legitimateClients := st.m_legitimateClients ++ [c] } a (l + 1) (by omega)
      refine ⟨att, c :: leg, ?_, ?_, ?_⟩
      · simp only [classifyClients, hd, if_false, Nat.mod_eq_of_lt (show l + 1 < 2 ^ 32 by omega)]
        rw [h1]
        simp
      · simp only [classifyClients, hd, if_false, Nat.mod_eq_of_lt (show l + 1 < 2 ^ 32 by omega)]
        rw [h2]
        simp only [List.length_cons, Prod.mk.injEq, true_and]
        omega
      · exact (List.perm_middle.trans (List.Perm.cons c h3))

end AccessNetLemmas

/-! ### Claims on border nodes, farthest-point selection and access nets -/

/-- C7 (the code departs from it): for a single node `a`, `FindBorderNodes`
returns `a` twice. -/
theorem C7_single_node_returned_twice {K : Type} [LinearOrderedField K] (a : PositionedNode K) :
    FindBorderNodes [a] = some [a, a] ∧ ¬ [a, a].Nodup := by
  constructor
  · simp [FindBorderNodes, findStart, sortBy, sortInsert, grahamScan, scanLoop, popWhile]
  · simp

/-- C8: for `n ≥ 1` border nodes and `k ≤ n`, `FindFurthestApartNodes` returns
the empty list for `k = 0`, and for `k ≥ 1` it returns `k` entries whose
indices in the border list (`idxs`) are pairwise distinct, the first one being
index `0`; for `k = 1` the result is `[borderNodes[0]]`, and for `k = n` every
index occurs exactly once. -/
theorem C8_furthest_apart_within_border {K : Type} [LinearOrderedField K] (sqrt : K → K)
    (hs : IsSqrt sqrt) (borderNodes : List (PositionedNode K)) (hne : borderNodes ≠ [])
    (k : Nat) (hk : k ≤ borderNodes.length) :
    (k = 0 → FindFurthestApartNodes sqrt borderNodes k = some [])
      ∧ (1 ≤ k → ∃ (result : List (PositionedNode K)) (idxs : List Nat),
          FindFurthestApartNodes sqrt borderNodes k = some result
            ∧ result.length = k
            ∧ result.map some = idxs.map (fun i => borderNodes[i]?)
            ∧ idxs.Nodup ∧ idxs.head? = some 0
            ∧ (k = 1 → result = borderNodes.take 1)
            ∧ (k = borderNodes.length →
                ∀ i : Nat, i < borderNodes.length → idxs.count i = 1)) := by
  constructor
  · intro h0
    simp [FindFurthestApartNodes, h0]
  · intro h1
    have hn : 0 < borderNodes.length := List.length_pos.mpr hne
    obtain ⟨m, r, result, cyc, idxs, hrun, hkr, hr1, hr2, hmap, hcount, hclen, hnd, hlen, hhead,
      hlt⟩ := findFurthestApartNodes_spec hs borderNodes hne k h1
    have hm : m = 0 := by
      rcases Nat.eq_zero_or_pos m with h | h
      · exact h
      · have : borderNodes.length ≤ m * borderNodes.length := Nat.le_mul_of_pos_left _ h
        omega
    subst hm
    have hcyc : cyc = [] := List.length_eq_zero.mp (by simpa using hclen)
    subst hcyc
    have hrk : r = k := by omega
    subst hrk
    simp only [List.nil_append] at hmap
    have hlenres : result.length = r := by
      have := congrArg List.length hmap
      simpa [hlen] using this
    refine ⟨result, idxs, hrun, hlenres, hmap, hnd, hhead, ?_, ?_⟩
    · intro hr
      obtain ⟨x, rfl⟩ := List.length_eq_one.mp (hlenres.trans hr)
      obtain ⟨i, rfl⟩ := List.length_eq_one.mp (hlen.trans hr)
      simp only [List.head?_cons, Option.some.injEq] at hhead
      subst hhead
      match borderNodes, hne with
      | first :: rest, _ =>
        simp only [List.map_cons, List.map_nil, List.getElem?_cons_zero, List.cons.injEq,
          Option.some.injEq, and_true] at hmap
        simp [hmap]
    · intro hr i hi
      exact count_eq_one_of_full borderNodes.length idxs hnd hlt (hlen.trans hr) i hi

/-- C8 at the two nodes of `twoNodes` and `k = 2`. -/
theorem C8_furthest_apart_within_border_witness :
    IsSqrt Real.sqrt ∧ twoNodes ℝ ≠ [] ∧ 2 ≤ (twoNodes ℝ).length
      ∧ ∃ (result : List (PositionedNode ℝ)) (idxs : List Nat),
          FindFurthestApartNodes Real.sqrt (twoNodes ℝ) 2 = some result
            ∧ result.length = 2
            ∧ result.map some = idxs.map (fun i => (twoNodes ℝ)[i]?)
            ∧ idxs.Nodup ∧ idxs.head? = some 0
            ∧ (2 = 1 → result = (twoNodes ℝ).take 1)
            ∧ (2 = (twoNodes ℝ).length →
                ∀ i : Nat, i < (twoNodes ℝ).length → idxs.count i = 1) :=
  ⟨fun x hx => ⟨Real.sqrt_nonneg x, Real.mul_self_sqrt hx⟩, by simp [twoNodes],
    by simp [twoNodes],
    (C8_furthest_apart_within_border Real.sqrt
      (fun x hx => ⟨Real.sqrt_nonneg x, Real.mul_self_sqrt hx⟩) (twoNodes ℝ)
      (by simp [twoNodes]) 2 (by simp [twoNodes])).2 (by norm_num)⟩

/-- C9: for `n ≥ 1` border nodes and `k > n`, `FindFurthestApartNodes` returns
`k` entries, and every index of the border list occurs among them at least
`⌊k / n⌋` and at most `⌈k / n⌉` times (`trace` lists the index of each
entry). -/
theorem C9_furthest_apart_cycles {K : Type} [LinearOrderedField K] (sqrt : K → K)
    (hs : IsSqrt sqrt) (borderNodes : List (PositionedNode K)) (hne : borderNodes ≠ [])
    (k : Nat) (hk : borderNodes.length < k) :
    ∃ (result : List (PositionedNode K)) (trace : List Nat),
      FindFurthestApartNodes sqrt borderNodes k = some result
        ∧ result.length = k
        ∧ result.map some = trace.map (fun i => borderNodes[i]?)
        ∧ ∀ i : Nat, i < borderNodes.length →
            k / borderNodes.length ≤ trace.count i
              ∧ trace.count i ≤ (k + borderNodes.length - 1) / borderNodes.length := by
  have hn : 0 < borderNodes.length := List.length_pos.mpr hne
  obtain ⟨m, r, result, cyc, idxs, hrun, hkr, hr1, hr2, hmap, hcount, hclen, hnd, hlen, hhead,
    hlt⟩ := findFurthestApartNodes_spec hs borderNodes hne k (by omega)
  have hlenres : result.length = k := by
    have := congrArg List.length hmap
    simp only [List.length_map, List.length_append, hclen, hlen] at this
    omega
  refine ⟨result, cyc ++ idxs, hrun, hlenres, hmap, fun i hi => ?_⟩
  rw [List.count_append, hcount i hi]
  have hle : idxs.count i ≤ 1 := List.nodup_iff_count_le_one.mp hnd i
  set n := borderNodes.length with hn'
  rcases Nat.lt_or_ge r n with hrn | hrn
  · have h1 : k / n = m := by
      rw [hkr, Nat.mul_comm, Nat.mul_add_div hn, Nat.div_eq_of_lt hrn]; rfl
    have h2 : (k + n - 1) / n = m + 1 := by
      have : k + n - 1 = n * (m + 1) + (r - 1) := by rw [hkr, Nat.mul_comm m n, Nat.mul_add]; omega
      rw [this, Nat.mul_add_div hn, Nat.div_eq_of_lt (by omega)]
    rw [h1, h2]
    omega
  · have hr : r = n := by omega
    have hc : idxs.count i = 1 := count_eq_one_of_full n idxs hnd hlt (hlen.trans hr) i hi
    have h1 : k / n = m + 1 := by
      have : k = n * (m + 1) + 0 := by rw [hkr, hr, Nat.mul_comm m n, Nat.mul_add]; omega
      rw [this, Nat.mul_add_div hn]; simp
    have h2 : (k + n - 1) / n = m + 1 := by
      have : k + n - 1 = n * (m + 1) + (n - 1) := by
        rw [hkr, hr, Nat.mul_comm m n, Nat.mul_add]; omega
      rw [this, Nat.mul_add_div hn, Nat.div_eq_of_lt (by omega)]
    rw [h1, h2, hc]
    omega

/-- C9 at the two nodes of `twoNodes` and `k = 3`. -/
theorem C9_furthest_apart_cycles_witness :
    IsSqrt Real.sqrt ∧ twoNodes ℝ ≠ [] ∧ (twoNodes ℝ).length < 3
      ∧ ∃ (result : List (PositionedNode ℝ)) (trace : List Nat),
          FindFurthestApartNodes Real.sqrt (twoNodes ℝ) 3 = some result
            ∧ result.length = 3
            ∧ result.map some = trace.map (fun i => (twoNodes ℝ)[i]?)
            ∧ ∀ i : Nat, i < (twoNodes ℝ).length →
                3 / (twoNodes ℝ).length ≤ trace.count i
                  ∧ trace.count i ≤ (3 + (twoNodes ℝ).length - 1) / (twoNodes ℝ).length :=
  ⟨fun x hx => ⟨Real.sqrt_nonneg x, Real.mul_self_sqrt hx⟩, by simp [twoNodes],
    by simp [twoNodes],
    C9_furthest_apart_cycles Real.sqrt
      (fun x hx => ⟨Real.sqrt_nonneg x, Real.mul_self_sqrt hx⟩) (twoNodes ℝ)
      (by simp [twoNodes]) 3 (by simp [twoNodes])⟩

/-- C10: a call of `BuildAccessNet` with `numberOfClients` clients (at least
one when the target is still to be set) returns; the clients it creates have
the ids `nodeListSize, ..., nodeListSize + numberOfClients - 1`; the lists
`attackers` and `legitimate` that it appends to the two client containers hold,
between them, every client but the target exactly once, and not the target;
the two counts returned are the lengths of these lists, and their sum is
`numberOfClients - 1` when this access net receives the target and
`numberOfClients` otherwise. -/
theorem C10_access_net_classification {K : Type} [LinearOrderedField K]
    (draws : Nat → Nat → K) (firstAddress : Nat → Nat) (attackTrafficFactor : K)
    (numberOfClients parentNode : Nat) (st : TopologyState)
    (hn : numberOfClients < 2 ^ 32)
    (hcall : 1 ≤ numberOfClients ∨ st.m_targetAddress ≠ 0) :
    ∃ (st' : TopologyState) (res : NodesCounter) (attackers legitimate : List Nat),
      BuildAccessNet draws firstAddress attackTrafficFactor numberOfClients parentNode st
          = some (st', res)
        ∧ st'.m_attackingClients = st.m_attackingClients ++ attackers
        ∧ st'.m_legitimateClients = st.m_legitimateClients ++ legitimate
        ∧ res.attackingClients = attackers.length
        ∧ res.legitimateClients = legitimate.length
        ∧ res.attackingClients + res.legitimateClients
            = (if st.m_targetAddress = 0 then numberOfClients - 1 else numberOfClients)
        ∧ (∀ c : Nat, st.nodeListSize ≤ c → c < st.nodeListSize + numberOfClients →
            ¬ (st.m_targetAddress = 0 ∧ c = st.nodeListSize) →
            attackers.count c + legitimate.count c = 1)
        ∧ (st.m_targetAddress = 0 →
            st'.m_targetNode = some st.nodeListSize
              ∧ st.nodeListSize ∉ attackers ∧ st.nodeListSize ∉ legitimate) := by
  by_cases ht : st.m_targetAddress = 0
  · have h1 : 1 ≤ numberOfClients := by
      rcases hcall with h | h
      · exact h
      · exact absurd ht h
    obtain ⟨n, rfl⟩ : ∃ n, numberOfClients = n + 1 := ⟨numberOfClients - 1, by omega⟩
    obtain ⟨att, leg, e1, e2, hperm⟩ := classifyClients_spec attackTrafficFactor (draws parentNode)
      (List.range' (st.nodeListSize + 1) n) 0
      { st with nodeListSize := st.nodeListSize + (n + 1),
                addressNetwork := st.addressNetwork + (n + 1),
                m_targetAddress := firstAddress st.addressNetwork,
                m_targetNode := some st.nodeListSize } 0 0 (by simp; omega)
    have hlen : att.length + leg.length = n := by
      have := hperm.length_eq
      simpa using this
    have hnd : (att ++ leg).Nodup := hperm.nodup_iff.mpr (List.nodup_range' _ _)
    have hrun : BuildAccessNet draws firstAddress attackTrafficFactor (n + 1) parentNode st
        = some ({ st with nodeListSize := st.nodeListSize + (n + 1),
                          addressNetwork := st.addressNetwork + (n + 1),
                          m_targetAddress := firstAddress st.addressNetwork,
                          m_targetNode := some st.nodeListSize,
                          m_attackingClients := st.m_attackingClients ++ att,
                          m_legitimateClients := st.m_legitimateClients ++ leg },
                ⟨att.length, leg.length, 0, 0, 0⟩) := by
      simp only [BuildAccessNet, ht, decide_True, if_true, List.range'_succ, List.drop_one,
        List.tail_cons, e1, e2]
      simp
    refine ⟨_, _, att, leg, hrun, rfl, rfl, rfl, rfl, by simp [ht, hlen], ?_, ?_⟩
    · intro c hc1 hc2 hc3
      have hc : c ∈ att ++ leg := by
        rw [hperm.mem_iff, List.mem_range']
        have : c ≠ st.nodeListSize := fun h => hc3 ⟨ht, h⟩
        exact ⟨c - (st.nodeListSize + 1), by omega, by omega⟩
      have := List.count_eq_one_of_mem hnd hc
      rwa [List.count_append] at this
    · intro _
      have hnot : st.nodeListSize ∉ att ++ leg := by
        rw [hperm.mem_iff, List.mem_range']
        rintro ⟨i, -, hi⟩
        omega
      rw [List.mem_append, not_or] at hnot
      exact ⟨rfl, hnot.1, hnot.2⟩
  · obtain ⟨att, leg, e1, e2, hperm⟩ := classifyClients_spec attackTrafficFactor (draws parentNode)
      (List.range' st.nodeListSize numberOfClients) 0
      { st with nodeListSize := st.nodeListSize + numberOfClients,
                addressNetwork := st.addressNetwork + numberOfClients } 0 0 (by simp; omega)
    have hlen : att.length + leg.length = numberOfClients := by
      have := hperm.length_eq
      simpa using this
    have hnd : (att ++ leg).Nodup := hperm.nodup_iff.mpr (List.nodup_range' _ _)
    have hrun : BuildAccessNet draws firstAddress attackTrafficFactor numberOfClients parentNode st
        = some ({ st with nodeListSize := st.nodeListSize + numberOfClients,
                          addressNetwork := st.addressNetwork + numberOfClients,
                          m_attackingClients := st.m_attackingClients ++ att,
                          m_legitimateClients := st.m_legitimateClients ++ leg },
                ⟨att.length, leg.length, 0, 0, 0⟩) := by
      simp only [BuildAccessNet, ht, decide_False, Bool.false_eq_true, if_false, List.drop_zero,
        e1, e2]
      simp
    refine ⟨_, _, att, leg, hrun, rfl, rfl, rfl, rfl, by simp [ht, hlen], ?_, ?_⟩
    · intro c hc1 hc2 _
      have hc : c ∈ att ++ leg := by
        rw [hperm.mem_iff, List.mem_range']
        exact ⟨c - st.nodeListSize, by omega, by omega⟩
      have := List.count_eq_one_of_mem hnd hc
      rwa [List.count_append] at this
    · intro h
      exact absurd h ht

/-- C10 at the first access net, with three clients. -/
theorem C10_access_net_classification_witness :
    (3 : Nat) < 2 ^ 32 ∧ (1 ≤ 3 ∨ freshState.m_targetAddress ≠ 0)
      ∧ ∃ (st' : TopologyState) (res : NodesCounter) (attackers legitimate : List Nat),
          BuildAccessNet (fun _ _ => (0 : ℚ)) (fun w => w + 1) (1 / 2) 3 0 freshState
              = some (st', res)
            ∧ st'.m_attackingClients = freshState.m_attackingClients ++ attackers
            ∧ st'.m_legitimateClients = freshState.m_legitimateClients ++ legitimate
            ∧ res.attackingClients = attackers.length
            ∧ res.legitimateClients = legitimate.length
            ∧ res.attackingClients + res.legitimateClients
                = (if freshState.m_targetAddress = 0 then 3 - 1 else 3)
            ∧ (∀ c : Nat, freshState.nodeListSize ≤ c → c < freshState.nodeListSize + 3 →
                ¬ (freshState.m_targetAddress = 0 ∧ c = freshState.nodeListSize) →
                attackers.count c + legitimate.count c = 1)
            ∧ (freshState.m_targetAddress = 0 →
                st'.m_targetNode = some freshState.nodeListSize
                  ∧ freshState.nodeListSize ∉ attackers
                  ∧ freshState.nodeListSize ∉ legitimate) :=
  ⟨by norm_num, Or.inl (by norm_num),
    C10_access_net_classification (fun _ _ => (0 : ℚ)) (fun w => w + 1) (1 / 2) 3 0 freshState
      (by norm_num) (Or.inl (by norm_num))⟩

/-! ### Lemmas on the border scan -/

section ScanGeometry

variable {K : Type} [LinearOrderedField K]

end ScanGeometry

section ScanSetup

variable {K : Type} [LinearOrderedField K]

end ScanSetup

section ScanInvariant

variable {K : Type} [LinearOrderedField K]

end ScanInvariant

section ScanResult

variable {K : Type} [LinearOrderedField K]

set_option linter.unusedSectionVars false

end ScanResult

/-- Over the reals, a point that `OnHullBoundary` accepts lies on the frontier
of the convex hull of the points, in the sense of the topology of the plane. -/
theorem onHullBoundary_frontier (pts : List (Vector2D ℝ)) (p : Vector2D ℝ)
    (h : OnHullBoundary pts p) :
    ((p.x, p.y) : ℝ × ℝ) ∈ frontier (convexHull ℝ {v : ℝ × ℝ | ∃ q ∈ pts, v = (q.x, q.y)}) := by
  obtain ⟨hmem, a, b, hab, hside⟩ := h
  set A : Set (ℝ × ℝ) := {v : ℝ × ℝ | ∃ q ∈ pts, v = (q.x, q.y)} with hAdef
  have hpA : ((p.x, p.y) : ℝ × ℝ) ∈ A := ⟨p, hmem, rfl⟩
  refine ⟨subset_closure (subset_convexHull ℝ A hpA), fun hint => ?_⟩
  let H : Set (ℝ × ℝ) := {v | a * v.1 + b * v.2 ≤ a * p.x + b * p.y}
  have hHconv : Convex ℝ H := by
    intro u hu v hv s t hs ht hst
    simp only [H, Set.mem_setOf_eq, Prod.fst_add, Prod.snd_add, Prod.smul_fst, Prod.smul_snd,
      smul_eq_mul] at hu hv ⊢
    have e : a * (s * u.1 + t * v.1) + b * (s * u.2 + t * v.2)
        = s * (a * u.1 + b * u.2) + t * (a * v.1 + b * v.2) := by ring
    rw [e]
    have h1 := mul_le_mul_of_nonneg_left hu hs
    have h2 := mul_le_mul_of_nonneg_left hv ht
    have e2 : a * p.x + b * p.y = s * (a * p.x + b * p.y) + t * (a * p.x + b * p.y) := by
      rw [← add_mul, hst, one_mul]
    linarith
  have hAH : A ⊆ H := by
    rintro v ⟨q, hq, rfl⟩
    have := hside q hq
    simp only [H, Set.mem_setOf_eq]
    linarith
  have hsub : convexHull ℝ A ⊆ H := convexHull_min hAH hHconv
  have hintH := interior_mono hsub hint
  rw [mem_interior_iff_mem_nhds, Metric.mem_nhds_iff] at hintH
  obtain ⟨ε, hε, hball⟩ := hintH
  have hpos : 0 < |a| + |b| + 1 := by positivity
  set t : ℝ := ε / (2 * (|a| + |b| + 1)) with ht
  have htpos : 0 < t := by positivity
  have hta : |t * a| < ε := by
    rw [abs_mul, abs_of_pos htpos, ht, div_mul_eq_mul_div, div_lt_iff₀ (by positivity)]
    nlinarith [abs_nonneg a, abs_nonneg b]
  have htb : |t * b| < ε := by
    rw [abs_mul, abs_of_pos htpos, ht, div_mul_eq_mul_div, div_lt_iff₀ (by positivity)]
    nlinarith [abs_nonneg a, abs_nonneg b]
  have hv : ((p.x + t * a, p.y + t * b) : ℝ × ℝ) ∈ Metric.ball ((p.x, p.y) : ℝ × ℝ) ε := by
    rw [Metric.mem_ball, Prod.dist_eq, Real.dist_eq, Real.dist_eq]
    simp only [add_sub_cancel_left]
    exact max_lt hta htb
  have hH := hball hv
  simp only [H, Set.mem_setOf_eq] at hH
  have hsq : 0 < a * a + b * b := by
    rcases hab with h | h
    · have := mul_self_pos.mpr h
      nlinarith [mul_self_nonneg b]
    · have := mul_self_pos.mpr h
      nlinarith [mul_self_nonneg a]
  nlinarith

/-! ## Configuration setters -/

/-- C14: each setter fails exactly on a violation (a latency factor `≤ 1`, a
bandwidth `≤ 0`, a representation factor outside `(0, 1]`); when it fails the
object is unchanged, and when it succeeds the fields it names have the new
values (the speeds `0.005 * factor`) and every other field is unchanged. -/
theorem C14_setters_reject_violations {K : Type} [LinearOrderedField K] (c : Creator K) :
    (∀ b r l : K,
        ((∃ e, SetNetworkSpeedFactors c b r l = .error e) ↔ (b ≤ 1 ∨ r ≤ 1 ∨ l ≤ 1))
          ∧ (∀ e, SetNetworkSpeedFactors c b r l = .error e → e = c)
          ∧ (∀ c', SetNetworkSpeedFactors c b r l = .ok c' →
              c' = { c with m_backbone_speed_km_per_ms := 5 / 1000 * b,
                            m_regional_speed_km_per_ms := 5 / 1000 * r,
                            m_local_speed_km_per_ms := 5 / 1000 * l }))
      ∧ (∀ b r l cl : K,
          ((∃ e, SetNetworkBandwidth c b r l cl = .error e) ↔ (b ≤ 0 ∨ r ≤ 0 ∨ l ≤ 0 ∨ cl ≤ 0))
            ∧ (∀ e, SetNetworkBandwidth c b r l cl = .error e → e = c)
            ∧ (∀ c', SetNetworkBandwidth c b r l cl = .ok c' →
                c' = { c with m_backbone_bandwidth_gbps := b,
                              m_regional_bandwidth_gbps := r,
                              m_local_bandwidth_gbps := l,
                              m_client_bandwidth_gbps := cl }))
      ∧ (∀ n cl : K,
          ((∃ e, SetRepresentationFactors c n cl = .error e)
              ↔ (¬ (0 < n ∧ n ≤ 1) ∨ ¬ (0 < cl ∧ cl ≤ 1)))
            ∧ (∀ e, SetRepresentationFactors c n cl = .error e → e = c)
            ∧ (∀ c', SetRepresentationFactors c n cl = .ok c' →
                c' = { c with m_network_representation_factor := n,
                              m_client_representation_factor := cl })) := by
  refine ⟨fun b r l => ?_, fun b r l cl => ?_, fun n cl => ?_⟩
  · unfold SetNetworkSpeedFactors MAX_FIBER_SPEED_KM_PER_MS
    by_cases h : b > 1 ∧ r > 1 ∧ l > 1
    · rw [if_pos h]
      obtain ⟨h1, h2, h3⟩ := h
      refine ⟨⟨?_, fun hv => ?_⟩, ?_, ?_⟩
      · rintro ⟨e, he⟩
        cases he
      · rcases hv with hv | hv | hv <;> exact absurd hv (not_le.mpr (by assumption))
      · intro e he
        cases he
      · intro c' hc
        cases hc
        rfl
    · rw [if_neg h]
      refine ⟨⟨fun _ => ?_, fun _ => ⟨c, rfl⟩⟩, ?_, ?_⟩
      · by_contra hcon
        push_neg at hcon
        exact h ⟨hcon.1, hcon.2.1, hcon.2.2⟩
      · intro e he
        cases he
        rfl
      · intro c' hc
        cases hc
  · unfold SetNetworkBandwidth
    by_cases h : b > 0 ∧ r > 0 ∧ l > 0 ∧ cl > 0
    · rw [if_pos h]
      obtain ⟨h1, h2, h3, h4⟩ := h
      refine ⟨⟨?_, fun hv => ?_⟩, ?_, ?_⟩
      · rintro ⟨e, he⟩
        cases he
      · rcases hv with hv | hv | hv | hv <;> exact absurd hv (not_le.mpr (by assumption))
      · intro e he
        cases he
      · intro c' hc
        cases hc
        rfl
    · rw [if_neg h]
      refine ⟨⟨fun _ => ?_, fun _ => ⟨c, rfl⟩⟩, ?_, ?_⟩
      · by_contra hcon
        push_neg at hcon
        exact h ⟨hcon.1, hcon.2.1, hcon.2.2.1, hcon.2.2.2⟩
      · intro e he
        cases he
        rfl
      · intro c' hc
        cases hc
  · unfold SetRepresentationFactors
    by_cases h : n ≤ 1 ∧ n > 0 ∧ cl ≤ 1 ∧ cl > 0
    · rw [if_pos h]
      obtain ⟨h1, h2, h3, h4⟩ := h
      refine ⟨⟨?_, fun hv => ?_⟩, ?_, ?_⟩
      · rintro ⟨e, he⟩
        cases he
      · rcases hv with hv | hv
        · exact absurd ⟨h2, h1⟩ hv
        · exact absurd ⟨h4, h3⟩ hv
      · intro e he
        cases he
      · intro c' hc
        cases hc
        rfl
    · rw [if_neg h]
      refine ⟨⟨fun _ => ?_, fun _ => ⟨c, rfl⟩⟩, ?_, ?_⟩
      · by_contra hcon
        push_neg at hcon
        exact h ⟨hcon.1.2, hcon.1.1, hcon.2.2, hcon.2.1⟩
      · intro e he
        cases he
        rfl
      · intro c' hc
        cases hc

/-! ## Access nets: boundary fractions and the target -/

section AccessNetLemmas

variable {K : Type} [LinearOrderedField K]

theorem classifyClients_none_below (f : K) (draw : Nat → K) (h : ∀ j, ¬ draw j < f) :
    ∀ (clients : List Nat) (j : Nat) (st : TopologyState) (a l : Nat),
      l + clients.length < 2 ^ 32 →
      classifyClients f draw clients j st (a, l)
        = ({ st with m_legitimateClients := st.m_legitimateClients ++ clients },
            (a, l + clients.length)) := by
  intro clients
  induction clients with
  | nil => intro j st a l _; simp [classifyClients]
  | cons c rest ih =>
      intro j st a l hl
      simp only [List.length_cons] at hl
      have e : (l + 1) % 2 ^ 32 = l + 1 := Nat.mod_eq_of_lt (by omega)
      simp only [classifyClients, if_neg (h j), e]
      rw [ih (j + 1) _ a (l + 1) (by omega)]
      simp only [List.append_assoc, List.singleton_append, List.length_cons]
      congr 2
      omega

theorem classifyClients_all_below (f : K) (draw : Nat → K) (h : ∀ j, draw j < f) :
    ∀ (clients : List Nat) (j : Nat) (st : TopologyState) (a l : Nat),
      a + clients.length < 2 ^ 32 →
      classifyClients f draw clients j st (a, l)
        = ({ st with m_attackingClients := st.m_attackingClients ++ clients },
            (a + clients.length, l)) := by
  intro clients
  induction clients with
  | nil => intro j st a l _; simp [classifyClients]
  | cons c rest ih =>
      intro j st a l hl
      simp only [List.length_cons] at hl
      have e : (a + 1) % 2 ^ 32 = a + 1 := Nat.mod_eq_of_lt (by omega)
      simp only [classifyClients, if_pos (h j), e]
      rw [ih (j + 1) _ (a + 1) l (by omega)]
      simp only [List.append_assoc, List.singleton_append, List.length_cons]
      congr 2
      omega

/-- The loop over the clients leaves the target, the node list and the address
helper alone. -/
theorem classifyClients_frame (f : K) (draw : Nat → K) :
    ∀ (clients : List Nat) (j : Nat) (st : TopologyState) (c : Nat × Nat),
      (classifyClients f draw clients j st c).1.m_targetNode = st.m_targetNode
        ∧ (classifyClients f draw clients j st c).1.m_targetAddress = st.m_targetAddress
        ∧ (classifyClients f draw clients j st c).1.nodeListSize = st.nodeListSize
        ∧ (classifyClients f draw clients j st c).1.addressNetwork = st.addressNetwork := by
  intro clients
  induction clients with
  | nil => intro j st c; simp [classifyClients]
  | cons x rest ih =>
      intro j st c
      obtain ⟨a, l⟩ := c
      simp only [classifyClients]
      split
      · exact ih _ _ _
      · exact ih _ _ _

/-- A call of `BuildAccessNet` while the target is still to be set. -/
theorem buildAccessNet_unset (draws : Nat → Nat → K) (firstAddress : Nat → Nat) (f : K)
    (n parentNode : Nat) (st : TopologyState) (h0 : st.m_targetAddress = 0) :
    BuildAccessNet draws firstAddress f (n + 1) parentNode st
      = some ((classifyClients f (draws parentNode) (List.range' (st.nodeListSize + 1) n) 0
                { st with nodeListSize := st.nodeListSize + (n + 1),
                          addressNetwork := st.addressNetwork + (n + 1),
                          m_targetAddress := firstAddress st.addressNetwork,
                          m_targetNode := some st.nodeListSize } (0, 0)).1,
              ⟨(classifyClients f (draws parentNode) (List.range' (st.nodeListSize + 1) n) 0
                { st with nodeListSize := st.nodeListSize + (n + 1),
                          addressNetwork := st.addressNetwork + (n + 1),
                          m_targetAddress := firstAddress st.addressNetwork,
                          m_targetNode := some st.nodeListSize } (0, 0)).2.1,
               (classifyClients f (draws parentNode) (List.range' (st.nodeListSize + 1) n) 0
                { st with nodeListSize := st.nodeListSize + (n + 1),
                          addressNetwork := st.addressNetwork + (n + 1),
                          m_targetAddress := firstAddress st.addressNetwork,
                          m_targetNode := some st.nodeListSize } (0, 0)).2.2, 0, 0, 0⟩) := by
  simp only [BuildAccessNet, h0, decide_True, if_true, List.range'_succ, List.drop_succ_cons,
    List.drop_zero]

/-- A call of `BuildAccessNet` once the target is set. -/
theorem buildAccessNet_set (draws : Nat → Nat → K) (firstAddress : Nat → Nat) (f : K)
    (n parentNode : Nat) (st : TopologyState) (h0 : st.m_targetAddress ≠ 0) :
    BuildAccessNet draws firstAddress f n parentNode st
      = some ((classifyClients f (draws parentNode) (List.range' st.nodeListSize n) 0
                { st with nodeListSize := st.nodeListSize + n,
                          addressNetwork := st.addressNetwork + n } (0, 0)).1,
              ⟨(classifyClients f (draws parentNode) (List.range' st.nodeListSize n) 0
                { st with nodeListSize := st.nodeListSize + n,
                          addressNetwork := st.addressNetwork + n } (0, 0)).2.1,
               (classifyClients f (draws parentNode) (List.range' st.nodeListSize n) 0
                { st with nodeListSize := st.nodeListSize + n,
                          addressNetwork := st.addressNetwork + n } (0, 0)).2.2, 0, 0, 0⟩) := by
  simp only [BuildAccessNet, h0, decide_False, Bool.false_eq_true, if_false, List.drop_zero]

/-- The effect of a call of `BuildAccessNet` on the target, the node list and
the address helper. -/
theorem buildAccessNet_frame (draws : Nat → Nat → K) (firstAddress : Nat → Nat) (f : K)
    (n parentNode : Nat) (st st' : TopologyState) (res : NodesCounter)
    (h : BuildAccessNet draws firstAddress f n parentNode st = some (st', res)) :
    st'.nodeListSize = st.nodeListSize + n ∧ st'.addressNetwork = st.addressNetwork + n
      ∧ 1 ≤ n + st.m_targetAddress
      ∧ (st.m_targetAddress ≠ 0 →
          st'.m_targetAddress = st.m_targetAddress ∧ st'.m_targetNode = st.m_targetNode)
      ∧ (st.m_targetAddress = 0 →
          st'.m_targetAddress = firstAddress st.addressNetwork
            ∧ st'.m_targetNode = some st.nodeListSize) := by
  by_cases h0 : st.m_targetAddress = 0
  · cases n with
    | zero => simp [BuildAccessNet, h0] at h
    | succ n =>
        rw [buildAccessNet_unset draws firstAddress f n parentNode st h0] at h
        simp only [Option.some.injEq, Prod.mk.injEq] at h
        obtain ⟨h1, -⟩ := h
        obtain ⟨a, b, c, d⟩ := classifyClients_frame f (draws parentNode)
          (List.range' (st.nodeListSize + 1) n) 0
          { st with nodeListSize := st.nodeListSize + (n + 1),
                    addressNetwork := st.addressNetwork + (n + 1),
                    m_targetAddress := firstAddress st.addressNetwork,
                    m_targetNode := some st.nodeListSize } (0, 0)
        rw [h1] at a b c d
        exact ⟨c, d, by omega, fun hne => absurd h0 hne, fun _ => ⟨b, a⟩⟩
  · rw [buildAccessNet_set draws firstAddress f n parentNode st h0] at h
    simp only [Option.some.injEq, Prod.mk.injEq] at h
    obtain ⟨h1, -⟩ := h
    obtain ⟨a, b, c, d⟩ := classifyClients_frame f (draws parentNode)
      (List.range' st.nodeListSize n) 0
      { st with nodeListSize := st.nodeListSize + n,
                addressNetwork := st.addressNetwork + n } (0, 0)
    rw [h1] at a b c d
    exact ⟨c, d, by omega, fun _ => ⟨b, a⟩, fun h => absurd h h0⟩

/-- A call of `BuildAccessNet` returns when it has a client or the target is
set. -/
theorem buildAccessNet_returns (draws : Nat → Nat → K) (firstAddress : Nat → Nat) (f : K)
    (n parentNode : Nat) (st : TopologyState) (h : 1 ≤ n ∨ st.m_targetAddress ≠ 0) :
    ∃ st' res, BuildAccessNet draws firstAddress f n parentNode st = some (st', res) := by
  by_cases h0 : st.m_targetAddress = 0
  · obtain ⟨m, rfl⟩ : ∃ m, n = m + 1 := by
      rcases h with h | h
      · exact ⟨n - 1, by omega⟩
      · exact absurd h0 h
    exact ⟨_, _, buildAccessNet_unset draws firstAddress f m parentNode st h0⟩
  · exact ⟨_, _, buildAccessNet_set draws firstAddress f n parentNode st h0⟩

theorem runAccessNets_frame (draws : Nat → Nat → K) (firstAddress : Nat → Nat) :
    ∀ (calls : List (K × Nat × Nat)) (st : TopologyState), st.m_targetAddress ≠ 0 →
      ∃ st', runAccessNets draws firstAddress calls st = some st'
        ∧ st'.m_targetAddress = st.m_targetAddress ∧ st'.m_targetNode = st.m_targetNode := by
  intro calls
  induction calls with
  | nil => intro st _; exact ⟨st, rfl, rfl, rfl⟩
  | cons c rest ih =>
      intro st h0
      obtain ⟨f, n, p⟩ := c
      obtain ⟨st1, res, h1⟩ := buildAccessNet_returns draws firstAddress f n p st (Or.inr h0)
      obtain ⟨-, -, -, hk, -⟩ := buildAccessNet_frame draws firstAddress f n p st st1 res h1
      obtain ⟨e1, e2⟩ := hk h0
      obtain ⟨st2, h2, e3, e4⟩ := ih st1 (by rw [e1]; exact h0)
      refine ⟨st2, ?_, by rw [e3, e1], by rw [e4, e2]⟩
      simp only [runAccessNets, h1]
      exact h2

end AccessNetLemmas
/-- C11: with every classification draw in `[0, 1)`, whatever the parent node
(the seed of the generator): a call of `BuildAccessNet` with attack-traffic
fraction `0` returns, counts zero attackers, appends nothing to the attacking
clients and appends every client but the target to the legitimate clients; with
fraction `1` it returns, counts zero legitimate clients, appends every client
but the target to the attacking clients and nothing to the legitimate
clients. -/
theorem C11_attack_fraction_boundary {K : Type} [LinearOrderedField K]
    (draws : Nat → Nat → K) (firstAddress : Nat → Nat)
    (numberOfClients parentNode : Nat) (st : TopologyState)
    (hn : numberOfClients < 2 ^ 32)
    (hcall : 1 ≤ numberOfClients ∨ st.m_targetAddress ≠ 0)
    (hdraw : ∀ s j, 0 ≤ draws s j ∧ draws s j < 1) :
    (∃ (st' : TopologyState) (res : NodesCounter),
        BuildAccessNet draws firstAddress 0 numberOfClients parentNode st = some (st', res)
          ∧ res.attackingClients = 0
          ∧ res.legitimateClients
              = numberOfClients - (if st.m_targetAddress = 0 then 1 else 0)
          ∧ st'.m_attackingClients = st.m_attackingClients
          ∧ st'.m_legitimateClients = st.m_legitimateClients
              ++ (List.range' st.nodeListSize numberOfClients).drop
                  (if st.m_targetAddress = 0 then 1 else 0))
      ∧ (∃ (st' : TopologyState) (res : NodesCounter),
          BuildAccessNet draws firstAddress 1 numberOfClients parentNode st = some (st', res)
            ∧ res.legitimateClients = 0
            ∧ res.attackingClients
                = numberOfClients - (if st.m_targetAddress = 0 then 1 else 0)
            ∧ st'.m_legitimateClients = st.m_legitimateClients
            ∧ st'.m_attackingClients = st.m_attackingClients
                ++ (List.range' st.nodeListSize numberOfClients).drop
                    (if st.m_targetAddress = 0 then 1 else 0)) := by
  have hlo : ∀ j, ¬ draws parentNode j < 0 := fun j => not_lt.mpr (hdraw parentNode j).1
  have hhi : ∀ j, draws parentNode j < 1 := fun j => (hdraw parentNode j).2
  by_cases h0 : st.m_targetAddress = 0
  · obtain ⟨n, rfl⟩ : ∃ n, numberOfClients = n + 1 := by
      rcases hcall with h | h
      · exact ⟨numberOfClients - 1, by omega⟩
      · exact absurd h0 h
    refine ⟨⟨_, _, buildAccessNet_unset draws firstAddress 0 n parentNode st h0, ?_⟩,
      ⟨_, _, buildAccessNet_unset draws firstAddress 1 n parentNode st h0, ?_⟩⟩
    · rw [classifyClients_none_below 0 (draws parentNode) hlo _ _ _ _ _ (by simp; omega)]
      simp [h0, List.range'_succ]
    · rw [classifyClients_all_below 1 (draws parentNode) hhi _ _ _ _ _ (by simp; omega)]
      simp [h0, List.range'_succ]
  · refine ⟨⟨_, _, buildAccessNet_set draws firstAddress 0 numberOfClients parentNode st h0, ?_⟩,
      ⟨_, _, buildAccessNet_set draws firstAddress 1 numberOfClients parentNode st h0, ?_⟩⟩
    · rw [classifyClients_none_below 0 (draws parentNode) hlo _ _ _ _ _ (by simp; omega)]
      simp [h0]
    · rw [classifyClients_all_below 1 (draws parentNode) hhi _ _ _ _ _ (by simp; omega)]
      simp [h0]

/-- C11 at the first access net, with three clients and every draw `1/2`. -/
theorem C11_attack_fraction_boundary_witness :
    (∃ (st' : TopologyState) (res : NodesCounter),
        BuildAccessNet (fun _ _ => (1 / 2 : ℚ)) (fun w => w + 1) 0 3 7 freshState
            = some (st', res)
          ∧ res.attackingClients = 0
          ∧ res.legitimateClients = 3 - (if freshState.m_targetAddress = 0 then 1 else 0)
          ∧ st'.m_attackingClients = freshState.m_attackingClients
          ∧ st'.m_legitimateClients = freshState.m_legitimateClients
              ++ (List.range' freshState.nodeListSize 3).drop
                  (if freshState.m_targetAddress = 0 then 1 else 0))
      ∧ (∃ (st' : TopologyState) (res : NodesCounter),
          BuildAccessNet (fun _ _ => (1 / 2 : ℚ)) (fun w => w + 1) 1 3 7 freshState
              = some (st', res)
            ∧ res.legitimateClients = 0
            ∧ res.attackingClients = 3 - (if freshState.m_targetAddress = 0 then 1 else 0)
            ∧ st'.m_legitimateClients = freshState.m_legitimateClients
            ∧ st'.m_attackingClients = freshState.m_attackingClients
                ++ (List.range' freshState.nodeListSize 3).drop
                    (if freshState.m_targetAddress = 0 then 1 else 0)) :=
  C11_attack_fraction_boundary (fun _ _ => (1 / 2 : ℚ)) (fun w => w + 1) 3 7 freshState
    (by norm_num) (Or.inl (by norm_num)) (fun _ _ => ⟨by norm_num, by norm_num⟩)

/-- C12: when no address of the helper is the zero address, the call of
`BuildAccessNet` that finds the target unset (the first one) returns with the
target node set to its client `0` and the target address set to the address of
that client, which is not zero; and every run of further calls from there
returns with the same target node and the same target address. -/
theorem C12_target_assigned_once {K : Type} [LinearOrderedField K]
    (draws : Nat → Nat → K) (firstAddress : Nat → Nat)
    (hfa : ∀ w, firstAddress w ≠ 0)
    (st : TopologyState) (h0 : st.m_targetAddress = 0)
    (attackTrafficFactor : K) (numberOfClients parentNode : Nat) (hn : 1 ≤ numberOfClients)
    (calls : List (K × Nat × Nat)) :
    ∃ (st1 : TopologyState) (res : NodesCounter),
      BuildAccessNet draws firstAddress attackTrafficFactor numberOfClients parentNode st
          = some (st1, res)
        ∧ (List.range' st.nodeListSize numberOfClients)[0]? = some st.nodeListSize
        ∧ st1.m_targetNode = some st.nodeListSize
        ∧ st1.m_targetAddress = firstAddress st.addressNetwork
        ∧ st1.m_targetAddress ≠ 0
        ∧ ∃ st2 : TopologyState,
            runAccessNets draws firstAddress calls st1 = some st2
              ∧ st2.m_targetNode = st1.m_targetNode
              ∧ st2.m_targetAddress = st1.m_targetAddress := by
  obtain ⟨st1, res, h1⟩ := buildAccessNet_returns draws firstAddress attackTrafficFactor
    numberOfClients parentNode st (Or.inl hn)
  obtain ⟨-, -, -, -, hk⟩ := buildAccessNet_frame draws firstAddress attackTrafficFactor
    numberOfClients parentNode st st1 res h1
  obtain ⟨e1, e2⟩ := hk h0
  have hne : st1.m_targetAddress ≠ 0 := by rw [e1]; exact hfa _
  obtain ⟨st2, h2, e3, e4⟩ := runAccessNets_frame draws firstAddress calls st1 hne
  refine ⟨st1, res, h1, ?_, e2, e1, hne, st2, h2, e4, e3⟩
  obtain ⟨m, rfl⟩ : ∃ m, numberOfClients = m + 1 := ⟨numberOfClients - 1, by omega⟩
  simp [List.range'_succ]

/-- C12 from the fresh creator: a first access net of three clients, then two
more access nets. -/
theorem C12_target_assigned_once_witness :
    ∃ (st1 : TopologyState) (res : NodesCounter),
      BuildAccessNet (fun _ _ => (1 / 2 : ℚ)) (fun w => w + 1) (1 / 4) 3 7 freshState
          = some (st1, res)
        ∧ (List.range' freshState.nodeListSize 3)[0]? = some freshState.nodeListSize
        ∧ st1.m_targetNode = some freshState.nodeListSize
        ∧ st1.m_targetAddress = (fun w => w + 1) freshState.addressNetwork
        ∧ st1.m_targetAddress ≠ 0
        ∧ ∃ st2 : TopologyState,
            runAccessNets (fun _ _ => (1 / 2 : ℚ)) (fun w => w + 1)
                [(1 / 4, 2, 8), (3 / 4, 0, 9)] st1 = some st2
              ∧ st2.m_targetNode = st1.m_targetNode
              ∧ st2.m_targetAddress = st1.m_targetAddress :=
  C12_target_assigned_once (fun _ _ => (1 / 2 : ℚ)) (fun w => w + 1) (fun w => Nat.succ_ne_zero w)
    freshState rfl (1 / 4) 3 7 (by norm_num) [(1 / 4, 2, 8), (3 / 4, 0, 9)]

/-- C14 at the creator as constructed: the factor `1` is rejected, the factors
`2, 3, 4` are accepted. -/
theorem C14_setters_reject_violations_witness :
    (∃ e, SetNetworkSpeedFactors (Creator.new : Creator ℚ) 1 2 2 = .error e)
      ∧ { (Creator.new : Creator ℚ) with
            m_backbone_speed_km_per_ms := MAX_FIBER_SPEED_KM_PER_MS * 2,
            m_regional_speed_km_per_ms := MAX_FIBER_SPEED_KM_PER_MS * 3,
            m_local_speed_km_per_ms := MAX_FIBER_SPEED_KM_PER_MS * 4 }
          = { (Creator.new : Creator ℚ) with
                m_backbone_speed_km_per_ms := 5 / 1000 * 2,
                m_regional_speed_km_per_ms := 5 / 1000 * 3,
                m_local_speed_km_per_ms := 5 / 1000 * 4 } :=
  ⟨((C14_setters_reject_violations (Creator.new : Creator ℚ)).1 1 2 2).1.2 (Or.inl le_rfl),
    ((C14_setters_reject_violations (Creator.new : Creator ℚ)).1 2 3 4).2.2 _
      (by norm_num [SetNetworkSpeedFactors])⟩

/-! ## Central nodes -/

section CentralLemmas

variable {K : Type} [LinearOrderedField K]

end CentralLemmas

section GreedyLemmas

variable {K : Type} [LinearOrderedField K]

set_option linter.unusedSectionVars false

theorem minDistance_fold (sqrt : K → K) (p : Vector2D K) :
    ∀ (l : List (PositionedNode K)) (acc : WithTop K),
      l.foldl
          (fun minDistance selectedNode =>
            let currentDistance := CalculateDistance sqrt p selectedNode.position
            if (currentDistance : WithTop K) < minDistance then (currentDistance : WithTop K)
            else minDistance) acc ≤ acc
        ∧ (∀ s ∈ l, l.foldl
          (fun minDistance selectedNode =>
            let currentDistance := CalculateDistance sqrt p selectedNode.position
            if (currentDistance : WithTop K) < minDistance then (currentDistance : WithTop K)
            else minDistance) acc ≤ ((CalculateDistance sqrt p s.position : K) : WithTop K))
        ∧ (l.foldl
          (fun minDistance selectedNode =>
            let currentDistance := CalculateDistance sqrt p selectedNode.position
            if (currentDistance : WithTop K) < minDistance then (currentDistance : WithTop K)
            else minDistance) acc = acc
            ∨ ∃ s ∈ l, l.foldl
          (fun minDistance selectedNode =>
            let currentDistance := CalculateDistance sqrt p selectedNode.position
            if (currentDistance : WithTop K) < minDistance then (currentDistance : WithTop K)
            else minDistance) acc = ((CalculateDistance sqrt p s.position : K) : WithTop K)) := by
  intro l
  induction l with
  | nil => intro acc; simp
  | cons x rest ih =>
    intro acc
    simp only [List.foldl_cons]
    by_cases h : ((CalculateDistance sqrt p x.position : K) : WithTop K) < acc
    · simp only [h, if_true]
      obtain ⟨h1, h2, h3⟩ := ih ((CalculateDistance sqrt p x.position : K) : WithTop K)
      refine ⟨le_trans h1 (le_of_lt h), ?_, ?_⟩
      · intro s hs
        rcases List.mem_cons.mp hs with rfl | hs
        · exact h1
        · exact h2 s hs
      · right
        rcases h3 with h3 | ⟨s, hs, h3⟩
        · exact ⟨x, List.mem_cons_self _ _, h3⟩
        · exact ⟨s, List.mem_cons_of_mem _ hs, h3⟩
    · simp only [h, if_false]
      obtain ⟨h1, h2, h3⟩ := ih acc
      refine ⟨h1, ?_, ?_⟩
      · intro s hs
        rcases List.mem_cons.mp hs with rfl | hs
        · exact le_trans h1 (not_lt.mp h)
        · exact h2 s hs
      · rcases h3 with h3 | ⟨s, hs, h3⟩
        · exact Or.inl h3
        · exact Or.inr ⟨s, List.mem_cons_of_mem _ hs, h3⟩

/-- The value `minDistance` that the source computes for a candidate is the
minimum of its distances to the selected nodes. -/
theorem minDistanceTo_isMin (sqrt : K → K) (p : Vector2D K)
    (selected : List (PositionedNode K)) (hne : selected ≠ []) :
    ∃ d : K, minDistanceTo sqrt p selected = (d : WithTop K)
      ∧ IsMinDistance sqrt p selected d := by
  obtain ⟨-, h2, h3⟩ := minDistance_fold sqrt p selected ⊤
  obtain ⟨s0, hs0⟩ := List.exists_mem_of_ne_nil selected hne
  rcases h3 with h3 | ⟨s, hs, h3⟩
  · have := h2 s0 hs0
    rw [h3] at this
    exact absurd this (not_le.mpr (WithTop.coe_lt_top _))
  · refine ⟨CalculateDistance sqrt p s.position, h3, ⟨s, hs, rfl⟩, fun t ht => ?_⟩
    have := h2 t ht
    rw [h3] at this
    exact WithTop.coe_le_coe.mp this

theorem greedyBest_step {sqrt : K → K} (hs : IsSqrt sqrt) (borderNodes : List (PositionedNode K))
    (used : List Bool) (selected : List (PositionedNode K)) (N : Nat) (acc : WithTop K × Int)
    (x : PositionedNode K) (hx : borderNodes[N]? = some x)
    (h : GreedyBest sqrt borderNodes used selected N acc) :
    GreedyBest sqrt borderNodes used selected (N + 1)
      (maxIndexStep sqrt used selected acc (N, x)) := by
  have hNlt : N < borderNodes.length := (List.getElem?_eq_some_iff.mp hx).1
  unfold maxIndexStep
  by_cases hu : used.getD N false = false
  · simp only [hu, if_true]
    by_cases hgt : minDistanceTo sqrt x.position selected > acc.1
    · simp only [hgt, if_true]
      refine Or.inr ⟨N, x, Nat.lt_succ_self N, hx, rfl, rfl, hu, ?_⟩
      intro i' node' hi' hb hu'
      rcases Nat.lt_succ_iff_lt_or_eq.mp hi' with hlt | heq
      · rcases h with ⟨hacc, hall⟩ | ⟨i, node, hi, hb0, -, -, -, hmax⟩
        · have := hall i' hlt (List.getElem?_eq_some_iff.mp hb).1
          rw [hu'] at this
          exact absurd this (by simp)
        · have h1 := (hmax i' node' hlt hb hu').1
          exact ⟨le_of_lt (lt_of_le_of_lt h1 hgt), fun _ => lt_of_le_of_lt h1 hgt⟩
      · subst heq
        rw [hx] at hb
        cases hb
        exact ⟨le_refl _, fun h => absurd h (lt_irrefl _)⟩
    · simp only [hgt, if_false]
      rcases h with ⟨hacc, hall⟩ | ⟨i, node, hi, hb0, h2, h1, hui, hmax⟩
      · rw [hacc] at hgt
        exact absurd (minDistanceTo_gt hs x.position selected) hgt
      · refine Or.inr ⟨i, node, Nat.lt_succ_of_lt hi, hb0, h2, h1, hui, ?_⟩
        intro i' node' hi' hb hu'
        rcases Nat.lt_succ_iff_lt_or_eq.mp hi' with hlt | heq
        · exact hmax i' node' hlt hb hu'
        · subst heq
          rw [hx] at hb
          cases hb
          exact ⟨not_lt.mp hgt, fun hlt => absurd hlt (by omega)⟩
  · simp only [hu, if_false]
    have hu1 : used.getD N false = true := by
      cases hb : used.getD N false
      · exact absurd hb hu
      · rfl
    rcases h with ⟨hacc, hall⟩ | ⟨i, node, hi, hb0, h2, h1, hui, hmax⟩
    · refine Or.inl ⟨hacc, fun i hi hlt => ?_⟩
      rcases Nat.lt_succ_iff_lt_or_eq.mp hi with hlt' | heq
      · exact hall i hlt' hlt
      · subst heq
        exact hu1
    · refine Or.inr ⟨i, node, Nat.lt_succ_of_lt hi, hb0, h2, h1, hui, ?_⟩
      intro i' node' hi' hb hu'
      rcases Nat.lt_succ_iff_lt_or_eq.mp hi' with hlt | heq
      · exact hmax i' node' hlt hb hu'
      · subst heq
        rw [hu'] at hu1
        exact absurd hu1 (by simp)

theorem greedyBest_fold {sqrt : K → K} (hs : IsSqrt sqrt) (borderNodes : List (PositionedNode K))
    (used : List Bool) (selected : List (PositionedNode K)) :
    ∀ (l : List (PositionedNode K)) (N : Nat) (acc : WithTop K × Int),
      (∀ j : Nat, j < l.length → l[j]? = borderNodes[N + j]?) →
      GreedyBest sqrt borderNodes used selected N acc →
      GreedyBest sqrt borderNodes used selected (N + l.length)
        ((l.enumFrom N).foldl (maxIndexStep sqrt used selected) acc) := by
  intro l
  induction l with
  | nil => intro N acc _ h; simpa using h
  | cons x rest ih =>
    intro N acc hl h
    simp only [List.enumFrom_cons, List.foldl_cons, List.length_cons]
    have hx : borderNodes[N]? = some x := by
      have := hl 0 (by simp)
      simpa using this.symm
    have hstep := greedyBest_step hs borderNodes used selected N acc x hx h
    have := ih (N + 1) _ (fun j hj => by
      have := hl (j + 1) (by simpa using hj)
      simp only [List.getElem?_cons_succ] at this
      rw [this]
      congr 1
      omega) hstep
    rw [show N + (rest.length + 1) = N + 1 + rest.length by omega]
    exact this

theorem findMaxIndex_best {sqrt : K → K} (hs : IsSqrt sqrt)
    (borderNodes : List (PositionedNode K)) (used : List Bool)
    (selected : List (PositionedNode K)) :
    GreedyBest sqrt borderNodes used selected borderNodes.length
      (findMaxIndex sqrt borderNodes used selected) := by
  have h := greedyBest_fold hs borderNodes used selected borderNodes 0
    ((((-1 : K)) : WithTop K), -1) (fun j _ => by simp)
    (Or.inl ⟨rfl, fun i hi _ => absurd hi (Nat.not_lt_zero i)⟩)
  simpa [findMaxIndex, List.enum] using h

end GreedyLemmas
section GreedyTrace

variable {K : Type} [LinearOrderedField K]

set_option linter.unusedSectionVars false

/-- The rounds of the greedy loop: as `greedyLoop_spec`, and each index chosen
is the first among the unused ones of largest `minDistance`. -/
theorem greedyLoop_trace {sqrt : K → K} (hs : IsSqrt sqrt)
    (borderNodes : List (PositionedNode K)) :
    ∀ (k : Nat) (used : List Bool) (selectedNodes : List (PositionedNode K)) (idxs : List Nat),
      UsedMatches borderNodes.length used idxs → idxs.Nodup →
      idxs.length + k ≤ borderNodes.length →
      ∃ (more : List Nat) (added : List (PositionedNode K)),
        greedyLoop sqrt borderNodes k used selectedNodes = some (selectedNodes ++ added)
          ∧ added.map some = more.map (fun i => borderNodes[i]?)
          ∧ (idxs ++ more).Nodup ∧ (∀ i ∈ more, i < borderNodes.length) ∧ more.length = k
          ∧ ∀ (t it : Nat) (node : PositionedNode K), more[t]? = some it →
              borderNodes[it]? = some node →
              ∀ (i' : Nat) (node' : PositionedNode K), borderNodes[i']? = some node' →
                i' ∉ idxs ++ more.take t →
                minDistanceTo sqrt node'.position (selectedNodes ++ added.take t)
                    ≤ minDistanceTo sqrt node.position (selectedNodes ++ added.take t)
                  ∧ (i' < it →
                      minDistanceTo sqrt node'.position (selectedNodes ++ added.take t)
                        < minDistanceTo sqrt node.position (selectedNodes ++ added.take t)) := by
  intro k
  induction k with
  | zero =>
    intro used sel idxs _ hnd _
    refine ⟨[], [], by simp [greedyLoop], by simp, by simpa using hnd, by simp, rfl, ?_⟩
    intro t it node ht
    simp at ht
  | succ k ih =>
    intro used sel idxs hU hnd hlen
    obtain ⟨i, hi, hni⟩ := exists_unused_index borderNodes.length idxs (by omega)
    have hui : used.getD i false = false := by
      have := (hU.2 i hi).not.mpr hni
      simpa using this
    obtain ⟨h0, hlt, hunused⟩ := findMaxIndex_unused hs borderNodes used sel i hi hui
    have hbest := findMaxIndex_best hs borderNodes used sel
    set j := (findMaxIndex sqrt borderNodes used sel).2.toNat with hj
    have hnj : j ∉ idxs := by
      intro hmem
      have := (hU.2 j hlt).mpr hmem
      rw [hunused] at this
      exact absurd this (by simp)
    have hU' := usedMatches_set borderNodes.length used idxs j hU
    have hnd' : (idxs ++ [j]).Nodup := by
      rw [List.nodup_append]
      refine ⟨hnd, List.nodup_singleton j, ?_⟩
      intro x hx hx'
      rw [List.mem_singleton] at hx'
      exact hnj (hx' ▸ hx)
    obtain ⟨more, added, hrun, hmap, hnd2, hlt2, hlen2, hbest2⟩ :=
      ih (used.set j true) (sel ++ [borderNodes[j]]) (idxs ++ [j]) hU' hnd'
        (by simp; omega)
    refine ⟨j :: more, borderNodes[j] :: added, ?_, ?_, ?_, ?_, by simp [hlen2], ?_⟩
    · simp only [greedyLoop, h0, if_true, ← hj, List.getElem?_eq_getElem hlt]
      simpa using hrun
    · simp [hmap, List.getElem?_eq_getElem hlt]
    · simpa using hnd2
    · intro x hx
      rcases List.mem_cons.mp hx with rfl | hx
      · exact hlt
      · exact hlt2 x hx
    · intro t it node ht hb i' node' hb' hnot
      cases t with
      | zero =>
        simp only [List.getElem?_cons_zero, Option.some.injEq] at ht
        subst ht
        simp only [List.take_zero, List.append_nil] at hnot ⊢
        have hi' : i' < borderNodes.length := (List.getElem?_eq_some_iff.mp hb').1
        have hu' : used.getD i' false = false := by
          have := (hU.2 i' hi').not.mpr hnot
          simpa using this
        rcases hbest with ⟨hacc, -⟩ | ⟨m, nodem, hm, hbm, h2, h1, -, hmax⟩
        · rw [hacc] at h0
          exact absurd h0 (by norm_num)
        · have hmj : m = j := by
            rw [hj, h2]
            simp
          subst hmj
          rw [hb] at hbm
          cases hbm
          rw [← h1]
          exact hmax i' node' hi' hb' hu'
      | succ t =>
        simp only [List.getElem?_cons_succ] at ht
        have hnot' : i' ∉ idxs ++ [j] ++ more.take t := by
          simpa [List.take_succ_cons] using hnot
        have := hbest2 t it node ht hb i' node' hb' hnot'
        simpa [List.take_succ_cons] using this

end GreedyTrace

namespace SynFloodAttacker

section PortLemmas

variable {K : Type} [LinearOrderedField K] [FloorRing K]

theorem scheduleSend_frame (firstDraw : Nat → K) (st st' : State K)
    (h : ScheduleSend firstDraw st = some st') :
    st'.m_seed = st.m_seed ∧ st'.sent = st.sent ∧ st'.m_pktSent = st.m_pktSent
      ∧ st'.m_phase1 = st.m_phase1 ∧ st'.fired = st.fired := by
  unfold ScheduleSend at h
  split at h
  · cases h
  · cases h
    exact ⟨rfl, rfl, rfl, rfl, rfl⟩

/-- A turn of the simulator keeps the seed, and a packet that it sends has the
port drawn for the seed `m_pktSent * m_seed`. -/
theorem step_seed_sent (firstDraw : Nat → K) (portDraw : Nat → Nat) (st st' : State K)
    (h : step firstDraw portDraw st = some st') :
    st'.m_seed = st.m_seed
      ∧ (st'.sent = st.sent
          ∨ ∃ t : K, st'.sent
              = st.sent ++ [(t, portDraw ((st.m_pktSent * st.m_seed) % 2 ^ 32))]) := by
  unfold step at h
  split at h
  · cases h
    exact ⟨rfl, Or.inl rfl⟩
  · rename_i e sim hnext
    split at h
    · cases h
      exact ⟨rfl, Or.inl rfl⟩
    · cases hcb : e.callback <;> rw [hcb] at h <;> simp only [dispatch] at h
      · unfold StartPhase1 at h
        split at h
        · cases h
        · cases h
          exact ⟨rfl, Or.inl rfl⟩
      · cases h
        exact ⟨rfl, Or.inl rfl⟩
      · unfold SendSyn at h
        obtain ⟨h1, h2, -⟩ := scheduleSend_frame firstDraw _ _ h
        exact ⟨h1, Or.inr ⟨sim.now, h2⟩⟩
      · unfold EndPhase1 at h
        cases h
        exact ⟨rfl, Or.inl rfl⟩
      · simp only [StartPhase2] at h
        split at h
        · cases h
        · cases h
          exact ⟨rfl, Or.inl rfl⟩
      · unfold EndPhase2 at h
        cases h
        exact ⟨rfl, Or.inl rfl⟩

theorem run_seed_zero (firstDraw : Nat → K) (portDraw : Nat → Nat) :
    ∀ (n : Nat) (st st' : State K), st.m_seed = 0 → (∀ p ∈ st.sent, p.2 = portDraw 0) →
      run firstDraw portDraw n st = some st' →
      st'.m_seed = 0 ∧ ∀ p ∈ st'.sent, p.2 = portDraw 0 := by
  intro n
  induction n with
  | zero =>
    intro st st' h0 hp h
    simp only [run, Option.some.injEq] at h
    subst h
    exact ⟨h0, hp⟩
  | succ n ih =>
    intro st st' h0 hp h
    simp only [run] at h
    split at h
    · cases h
    · rename_i st1 hstep
      obtain ⟨h1, h2⟩ := step_seed_sent firstDraw portDraw st st1 hstep
      refine ih st1 st' (h1.trans h0) ?_ h
      rcases h2 with h2 | ⟨t, h2⟩
      · rw [h2]
        exact hp
      · rw [h2, h0]
        intro p hmem
        rcases List.mem_append.mp hmem with hmem | hmem
        · exact hp p hmem
        · simp only [List.mem_singleton] at hmem
          subst hmem
          simp

end PortLemmas

end SynFloodAttacker

namespace SynFloodAttacker

theorem calculateNextTime_zero_draw (q : Fin 11 → ℚ) (st : State ℚ) (h : q 0 ≠ 0) :
    CalculateNextTime (fun _ => (0 : ℚ)) q st = some (1 / q 0 * 400) := by
  simp [CalculateNextTime, GetRandomDistributionNumber, interpolate_zero, h,
    ORIGINAL_CLIENTS_ASSUMPTION]

end SynFloodAttacker

/-! ## ICMP-flood attacker: the times are functions of the seed -/

namespace IcmpFloodAttacker

section IcmpLemmas

variable {K : Type} [LinearOrderedField K]

/-- The delay before packet `k + 2` of an attacker of constructor seed
`seed`. -/
theorem scheduleSend_intervals (rateDraw : Nat → K) (seed : Nat) (st st' : State K)
    (h : ScheduleSend rateDraw st = some st')
    (hseed : st.m_seed = seed % 2 ^ 16)
    (hsent : st.m_pktSent = (st.intervals.length + 1) % 2 ^ 32)
    (hint : ∀ (k : Nat) (interval : K), st.intervals[k]? = some interval →
      interval = 1 / rateDraw ((seed % 2 ^ 16 * ((k + 1) % 2 ^ 32)) % 2 ^ 32)) :
    st'.m_seed = seed % 2 ^ 16 ∧ st'.m_pktSent = st'.intervals.length % 2 ^ 32
      ∧ ∀ (k : Nat) (interval : K), st'.intervals[k]? = some interval →
          interval = 1 / rateDraw ((seed % 2 ^ 16 * ((k + 1) % 2 ^ 32)) % 2 ^ 32) := by
  unfold ScheduleSend at h
  simp only at h
  split at h
  · cases h
  · cases h
    refine ⟨hseed, by simpa using hsent, ?_⟩
    intro k interval hk
    simp only at hk
    by_cases hlt : k < st.intervals.length
    · rw [List.getElem?_append_left hlt] at hk
      exact hint k interval hk
    · have hk2 := hk
      rw [List.getElem?_append_right (by omega)] at hk2
      have hk0 : k - st.intervals.length = 0 := by
        by_contra hne
        rw [List.getElem?_eq_none (by simp; omega)] at hk2
        cases hk2
      rw [hk0] at hk2
      simp only [List.getElem?_cons_zero, Option.some.injEq] at hk2
      have hkeq : k = st.intervals.length := by omega
      rw [← hk2, hseed, hsent, hkeq]

theorem step_intervals (rateDraw : Nat → K) (seed : Nat) (st st' : State K)
    (h : step rateDraw st = some st')
    (hseed : st.m_seed = seed % 2 ^ 16)
    (hsent : st.m_pktSent = st.intervals.length % 2 ^ 32)
    (hint : ∀ (k : Nat) (interval : K), st.intervals[k]? = some interval →
      interval = 1 / rateDraw ((seed % 2 ^ 16 * ((k + 1) % 2 ^ 32)) % 2 ^ 32)) :
    st'.m_seed = seed % 2 ^ 16 ∧ st'.m_pktSent = st'.intervals.length % 2 ^ 32
      ∧ ∀ (k : Nat) (interval : K), st'.intervals[k]? = some interval →
          interval = 1 / rateDraw ((seed % 2 ^ 16 * ((k + 1) % 2 ^ 32)) % 2 ^ 32) := by
  have hsend : ∀ s : State K, s.m_seed = st.m_seed → s.m_pktSent = st.m_pktSent →
      s.intervals = st.intervals → SendIcmp rateDraw s = some st' →
      st'.m_seed = seed % 2 ^ 16 ∧ st'.m_pktSent = st'.intervals.length % 2 ^ 32
        ∧ ∀ (k : Nat) (interval : K), st'.intervals[k]? = some interval →
            interval = 1 / rateDraw ((seed % 2 ^ 16 * ((k + 1) % 2 ^ 32)) % 2 ^ 32) := by
    intro s h1 h2 h3 hs
    unfold SendIcmp at hs
    refine scheduleSend_intervals rateDraw seed _ st' hs (by simpa [h1] using hseed) ?_ ?_
    · simp only [h2, h3, hsent]
      omega
    · simpa [h3] using hint
  unfold step at h
  split at h
  · cases h
    exact ⟨hseed, hsent, hint⟩
  · rename_i e sim hnext
    split at h
    · cases h
      exact ⟨hseed, hsent, hint⟩
    · cases hcb : e.callback <;> rw [hcb] at h <;> simp only [dispatch] at h
      · exact hsend { st with sim := sim } rfl rfl rfl h
      · cases h
        exact ⟨hseed, hsent, hint⟩
      · exact hsend { st with sim := sim } rfl rfl rfl h

theorem run_intervals (rateDraw : Nat → K) (seed : Nat) :
    ∀ (n : Nat) (st st' : State K), run rateDraw n st = some st' →
      st.m_seed = seed % 2 ^ 16 → st.m_pktSent = st.intervals.length % 2 ^ 32 →
      (∀ (k : Nat) (interval : K), st.intervals[k]? = some interval →
        interval = 1 / rateDraw ((seed % 2 ^ 16 * ((k + 1) % 2 ^ 32)) % 2 ^ 32)) →
      ∀ (k : Nat) (interval : K), st'.intervals[k]? = some interval →
        interval = 1 / rateDraw ((seed % 2 ^ 16 * ((k + 1) % 2 ^ 32)) % 2 ^ 32) := by
  intro n
  induction n with
  | zero =>
    intro st st' h _ _ hint
    simp only [run, Option.some.injEq] at h
    subst h
    exact hint
  | succ n ih =>
    intro st st' h hseed hsent hint
    simp only [run] at h
    split at h
    · cases h
    · rename_i st1 hstep
      obtain ⟨h1, h2, h3⟩ := step_intervals rateDraw seed st st1 hstep hseed hsent hint
      exact ih st1 st' h h1 h2 h3

/-- With no rate drawn equal to zero, every turn of the simulator returns. -/
theorem run_returns (rateDraw : Nat → K) (hrate : ∀ s, rateDraw s ≠ 0) :
    ∀ (n : Nat) (st : State K), ∃ st', run rateDraw n st = some st' := by
  have hsend : ∀ s : State K, ∃ s', SendIcmp rateDraw s = some s' := by
    intro s
    simp only [SendIcmp, ScheduleSend, if_neg (hrate _)]
    exact ⟨_, rfl⟩
  intro n
  induction n with
  | zero => intro st; exact ⟨st, rfl⟩
  | succ n ih =>
    intro st
    have hstep : ∃ st1, step rateDraw st = some st1 := by
      unfold step
      split
      · exact ⟨_, rfl⟩
      · rename_i e sim hnext
        split
        · exact ⟨_, rfl⟩
        · cases e.callback
          · exact hsend _
          · exact ⟨_, rfl⟩
          · exact hsend _
    obtain ⟨st1, h1⟩ := hstep
    obtain ⟨st2, h2⟩ := ih st1
    exact ⟨st2, by simp only [run, h1, h2]⟩

end IcmpLemmas

end IcmpFloodAttacker

/-- C17: the start time and the end time that the constructor computes are the
stated functions of the low 16 bits of the constructor seed; and in every run
of an attacker constructed with `seed`, whatever its remote address, its
activation time and its stop time, the delay before packet `k + 2` (the
`k`-th delay scheduled) is `1 / rateDraw (m_seed * (k + 1))`, with the product
taken modulo `2 ^ 32`.  So two attackers constructed with the same seed have
the same start time, end time and sequence of delays.  When no rate drawn is
zero every run returns. -/
theorem C17_icmp_times_depend_on_seed {K : Type} [LinearOrderedField K]
    (bucketDraw : List K → Nat → Int) (unitDraws : Nat → Nat → K) (rateDraw : Nat → K)
    (seed : Nat) (hrate : ∀ s, rateDraw s ≠ 0) :
    (∀ sim : Simulator K IcmpFloodAttacker.Callback,
        (IcmpFloodAttacker.new bucketDraw unitDraws sim seed).m_startTime
            = ((bucketDraw IcmpFloodAttacker.start_5min_buckets_probabilities (seed % 2 ^ 16) : K)
                + unitDraws ((seed % 2 ^ 16 * 2) % 2 ^ 32) 0) * 300
          ∧ (IcmpFloodAttacker.new bucketDraw unitDraws sim seed).m_endTime
              = (IcmpFloodAttacker.new bucketDraw unitDraws sim seed).m_startTime
                + ((bucketDraw IcmpFloodAttacker.duration_5min_buckets_probabilities
                      ((seed % 2 ^ 16 * 3) % 2 ^ 32) : K)
                    + unitDraws ((seed % 2 ^ 16 * 2) % 2 ^ 32) 1) * 300)
      ∧ ∀ (remote : Nat) (startTime : K) (stopTime : Option K) (n : Nat),
          ∃ st : IcmpFloodAttacker.State K,
            IcmpFloodAttacker.run rateDraw n
                (IcmpFloodAttacker.SetRemote
                  (IcmpFloodAttacker.new bucketDraw unitDraws
                    (IcmpFloodAttacker.initialSimulator startTime stopTime) seed) remote)
              = some st
            ∧ ∀ (k : Nat) (interval : K), st.intervals[k]? = some interval →
                interval = 1 / rateDraw ((seed % 2 ^ 16 * ((k + 1) % 2 ^ 32)) % 2 ^ 32) := by
  refine ⟨fun sim => ⟨?_, ?_⟩, ?_⟩
  · simp only [IcmpFloodAttacker.new, IcmpFloodAttacker.SelectProbabilityBucket]
    norm_num
  · simp only [IcmpFloodAttacker.new, IcmpFloodAttacker.SelectProbabilityBucket]
    norm_num
  · intro remote startTime stopTime n
    obtain ⟨st, hst⟩ := IcmpFloodAttacker.run_returns rateDraw hrate n
      (IcmpFloodAttacker.SetRemote
        (IcmpFloodAttacker.new bucketDraw unitDraws
          (IcmpFloodAttacker.initialSimulator startTime stopTime) seed) remote)
    refine ⟨st, hst, ?_⟩
    refine IcmpFloodAttacker.run_intervals rateDraw seed n _ st hst rfl rfl ?_
    intro k interval hk
    simp [IcmpFloodAttacker.SetRemote, IcmpFloodAttacker.new] at hk

/-- C17 for the seed `65537` (low 16 bits: `1`), every rate `20`, activation at
time `7`: after three turns of the simulator three packets are sent and the
two delays scheduled before the second and the third are `1 / 20`. -/
theorem C17_icmp_times_depend_on_seed_witness :
    ∃ st : IcmpFloodAttacker.State ℚ,
      IcmpFloodAttacker.run (fun _ => (20 : ℚ)) 3
          (IcmpFloodAttacker.SetRemote
            (IcmpFloodAttacker.new (fun _ _ => 5) (fun _ _ => 1 / 2)
              (IcmpFloodAttacker.initialSimulator 7 none) 65537) 9)
        = some st
      ∧ ∀ (k : Nat) (interval : ℚ), st.intervals[k]? = some interval →
          interval = 1 / (fun _ => (20 : ℚ)) ((65537 % 2 ^ 16 * ((k + 1) % 2 ^ 32)) % 2 ^ 32) :=
  (C17_icmp_times_depend_on_seed (fun _ _ => 5) (fun _ _ => (1 / 2 : ℚ)) (fun _ => (20 : ℚ))
    65537 (fun _ => by norm_num)).2 9 7 none 3

/-! ## The order of the scheduler -/

namespace Simulator

section SchedulerLemmas

variable {K C : Type} [LinearOrderedField K]

theorem before_asymm (a b : Event K C) (h : before a b = true) : before b a = false := by
  simp only [before, decide_eq_true_eq, decide_eq_false_iff_not, not_or, not_lt, not_and] at h ⊢
  rcases h with h | ⟨h1, h2⟩
  · exact ⟨le_of_lt h, fun he => absurd (he ▸ h) (lt_irrefl _)⟩
  · exact ⟨le_of_eq h1, fun _ => le_of_lt h2⟩

theorem foldl_earliest (e : Event K C) :
    ∀ (es : List (Event K C)) (m : Event K C),
      (m = e ∨ e ∈ es) → (m = e ∨ before e m = true) →
      (∀ x ∈ es, x = e ∨ before e x = true) →
      es.foldl (fun m x => if before x m then x else m) m = e := by
  intro es
  induction es with
  | nil =>
    intro m h1 _ _
    rcases h1 with h1 | h1
    · simpa using h1
    · simp at h1
  | cons x rest ih =>
    intro m h1 h2 h3
    simp only [List.foldl_cons]
    have hx := h3 x (List.mem_cons_self _ _)
    have hrest : ∀ y ∈ rest, y = e ∨ before e y = true :=
      fun y hy => h3 y (List.mem_cons_of_mem _ hy)
    by_cases hxm : before x m = true
    · rw [if_pos hxm]
      refine ih x ?_ hx hrest
      rcases h1 with h1 | h1
      · subst h1
        rcases hx with hx | hx
        · exact Or.inl hx
        · rw [before_asymm _ _ hx] at hxm
          cases hxm
      · rcases List.mem_cons.mp h1 with h1 | h1
        · exact Or.inl h1.symm
        · exact Or.inr h1
    · rw [if_neg hxm]
      refine ih m ?_ h2 hrest
      rcases h1 with h1 | h1
      · exact Or.inl h1
      · rcases List.mem_cons.mp h1 with h1 | h1
        · subst h1
          rcases h2 with h2 | h2
          · exact Or.inl h2
          · exact absurd h2 hxm
        · exact Or.inr h1

/-- An event of the list that comes before every other one is the event that
the simulator takes next. -/
theorem earliest_eq (l : List (Event K C)) (e : Event K C) (he : e ∈ l)
    (hmin : ∀ x ∈ l, x = e ∨ before e x = true) : earliest l = some e := by
  cases l with
  | nil => simp at he
  | cons a es =>
    simp only [earliest, Option.some.injEq]
    refine foldl_earliest e es a ?_ (hmin a (List.mem_cons_self _ _))
      (fun x hx => hmin x (List.mem_cons_of_mem _ hx))
    rcases List.mem_cons.mp he with h | h
    · exact Or.inl h.symm
    · exact Or.inr h

theorem next_eq (sim : Simulator K C) (e : Event K C) (he : e ∈ sim.events)
    (hmin : ∀ x ∈ sim.events, x = e ∨ before e x = true) :
    sim.next = some (e, { sim with now := e.ts,
                                   events := sim.events.filter fun x => decide (x.uid ≠ e.uid) }) := by
  simp only [next, earliest_eq sim.events e he hmin]

theorem next_nil (sim : Simulator K C) (h : sim.events = []) : sim.next = none := by
  simp only [next, h, earliest]

end SchedulerLemmas

end Simulator

namespace Simulator

section SchedulerPick

variable {K C : Type} [LinearOrderedField K]

/-- The simulator takes the event `e` of the list `l1 ++ e :: l2` when `e`
comes before every other event, and leaves `l1 ++ l2`. -/
theorem next_pick (sim : Simulator K C) (l1 l2 : List (Event K C)) (e : Event K C)
    (h : sim.events = l1 ++ e :: l2)
    (h1 : ∀ x ∈ l1, before e x = true ∧ x.uid ≠ e.uid)
    (h2 : ∀ x ∈ l2, before e x = true ∧ x.uid ≠ e.uid) :
    sim.next = some (e, { sim with now := e.ts, events := l1 ++ l2 }) := by
  rw [next_eq sim e (by rw [h]; simp)]
  · have hf1 : l1.filter (fun x => decide (x.uid ≠ e.uid)) = l1 :=
      List.filter_eq_self.mpr (fun x hx => by simpa using (h1 x hx).2)
    have hf2 : l2.filter (fun x => decide (x.uid ≠ e.uid)) = l2 :=
      List.filter_eq_self.mpr (fun x hx => by simpa using (h2 x hx).2)
    rw [h, List.filter_append, hf1, List.filter_cons]
    simp only [ne_eq, not_true_eq_false, decide_False, Bool.false_eq_true, if_false, hf2]
  · intro x hx
    rw [h] at hx
    rcases List.mem_append.mp hx with hx | hx
    · exact Or.inr (h1 x hx).1
    · rcases List.mem_cons.mp hx with hx | hx
      · exact Or.inl hx
      · exact Or.inr (h2 x hx).1

end SchedulerPick

end Simulator
/-! ## SYN-flood attacker: turns of the simulator -/

namespace Simulator

section SchedulerOrder

variable {K C : Type} [LinearOrderedField K]

theorem before_of_lt (a b : Event K C) (h : a.ts < b.ts) : before a b = true := by
  simp only [before, decide_eq_true_eq]
  exact Or.inl h

theorem before_of_le (a b : Event K C) (h : a.ts ≤ b.ts) (hu : a.uid < b.uid) :
    before a b = true := by
  simp only [before, decide_eq_true_eq]
  rcases lt_or_eq_of_le h with h | h
  · exact Or.inl h
  · exact Or.inr ⟨h, hu⟩

end SchedulerOrder

end Simulator

namespace SynFloodAttacker

section StepLemmas

variable {K : Type} [LinearOrderedField K] [FloorRing K]

theorem step_fire (firstDraw : Nat → K) (portDraw : Nat → Nat) (st : State K)
    (e : Event K Callback) (sim : Simulator K Callback)
    (hnext : st.sim.next = some (e, sim)) (hc : e.cancelled = false) :
    step firstDraw portDraw st
      = dispatch firstDraw portDraw e.callback
          { st with sim := sim, fired := st.fired ++ [(e.ts, e.callback)] } := by
  simp only [step, hnext, hc, Bool.false_eq_true, if_false]

theorem step_skip (firstDraw : Nat → K) (portDraw : Nat → Nat) (st : State K)
    (e : Event K Callback) (sim : Simulator K Callback)
    (hnext : st.sim.next = some (e, sim)) (hc : e.cancelled = true) :
    step firstDraw portDraw st = some { st with sim := sim } := by
  simp only [step, hnext, hc, if_true]

theorem step_idle (firstDraw : Nat → K) (portDraw : Nat → Nat) (st : State K)
    (hnext : st.sim.next = none) : step firstDraw portDraw st = some st := by
  simp only [step, hnext]

theorem scheduleSend_eq (firstDraw : Nat → K) (st : State K) (table : Fin 11 → K) (d : K)
    (htable : (if st.m_phase1 then DISTRIBUTION_PHASE1_PACKETS_PER_SECOND
        else DISTRIBUTION_PHASE2_PACKETS_PER_SECOND) = table)
    (hd : CalculateNextTime firstDraw table st = some d) :
    ScheduleSend firstDraw st
      = some { st with sim := (st.sim.Schedule d Callback.SendSyn).1,
                       m_sendEvent := (st.sim.Schedule d Callback.SendSyn).2 } := by
  simp only [ScheduleSend, htable, hd]

/-- The rate does not depend on the simulator, the events, the flag or the
logs. -/
theorem calculateNextTime_congr (firstDraw : Nat → K) (table : Fin 11 → K) (st st' : State K)
    (h1 : st'.m_seed = st.m_seed) (h2 : st'.m_pktSent = st.m_pktSent) :
    CalculateNextTime firstDraw table st' = CalculateNextTime firstDraw table st := by
  simp only [CalculateNextTime, h1, h2]

end StepLemmas

end SynFloodAttacker

namespace SynFloodAttacker

section RunLemmas

variable {K : Type} [LinearOrderedField K] [FloorRing K]

theorem run_zero (firstDraw : Nat → K) (portDraw : Nat → Nat) (st : State K) :
    run firstDraw portDraw 0 st = some st := rfl

theorem run_succ (firstDraw : Nat → K) (portDraw : Nat → Nat) (n : Nat) (st st' : State K)
    (h : step firstDraw portDraw st = some st') :
    run firstDraw portDraw (n + 1) st = run firstDraw portDraw n st' := by
  simp only [run, h]

theorem run_add (firstDraw : Nat → K) (portDraw : Nat → Nat) :
    ∀ (m n : Nat) (st st' : State K), run firstDraw portDraw m st = some st' →
      run firstDraw portDraw (m + n) st = run firstDraw portDraw n st' := by
  intro m
  induction m with
  | zero =>
    intro n st st' h
    rw [run_zero] at h
    cases h
    rw [Nat.zero_add]
  | succ m ih =>
    intro n st st' h
    simp only [run] at h
    split at h
    · cases h
    · rename_i st1 hstep
      rw [show m + 1 + n = (m + n) + 1 by omega, run_succ _ _ _ _ _ hstep]
      exact ih n st1 st' h

end RunLemmas

end SynFloodAttacker
/-- C18 (the code departs from it): with the seed `0` (the value that the
constructor sets, and the seed of the first attacker of the scenario) the
generator of `GetRandomPort` is seeded with `m_pktSent * 0 = 0` for every
packet.  In the run activated at time `0` in which every draw of the rate
sampler is `0`, the attacker sends its first packet at time `0` and its second
packet at time `400 / 168`, and, whatever the port generator, both carry the
same source port. -/
theorem C18_port_repeats_with_seed_zero (portDraw : Nat → Nat) :
    ∃ st : SynFloodAttacker.State ℚ,
      SynFloodAttacker.run (fun _ => (0 : ℚ)) portDraw 3 (SynFloodAttacker.init 0 false 0 none)
          = some st
        ∧ st.m_pktSent = 2
        ∧ st.sent = [(0, portDraw 0), (400 / 168, portDraw 0)] := by
  have hq : (SynFloodAttacker.DISTRIBUTION_PHASE1_PACKETS_PER_SECOND : Fin 11 → ℚ) 0 ≠ 0 := by
    show (168 : ℚ) ≠ 0
    norm_num
  have hc : ∀ st : SynFloodAttacker.State ℚ,
      SynFloodAttacker.CalculateNextTime (fun _ => (0 : ℚ))
          SynFloodAttacker.DISTRIBUTION_PHASE1_PACKETS_PER_SECOND st
        = some (400 / 168) := by
    intro st
    rw [SynFloodAttacker.calculateNextTime_zero_draw _ st hq]
    show some ((1 : ℚ) / 168 * 400) = some (400 / 168)
    norm_num
  have h1 : SynFloodAttacker.step (fun _ => (0 : ℚ)) portDraw (SynFloodAttacker.init 0 false 0 none)
      = some { sim := ⟨0, 4, [⟨0, 2, SynFloodAttacker.Callback.SendSyn, false⟩,
                              ⟨0 + 5, 3, SynFloodAttacker.Callback.EndPhase1, false⟩]⟩,
               m_phase1 := true, m_seed := 0, m_pktSent := 0, m_sendEvent := some 2,
               m_startStopEvent := some 3, sent := [],
               fired := [(0, SynFloodAttacker.Callback.StartApplication)] } := by
    have hnext : (SynFloodAttacker.init 0 false (0 : ℚ) none).sim.next
        = some (⟨0, 0, SynFloodAttacker.Callback.StartApplication, false⟩, ⟨0, 2, []⟩) :=
      Simulator.next_pick _ [] [] _ rfl (by simp) (by simp)
    rw [SynFloodAttacker.step_fire _ _ _ _ _ hnext rfl]
    simp only [SynFloodAttacker.dispatch, SynFloodAttacker.StartPhase1, hc, Simulator.Schedule,
      SynFloodAttacker.init, List.nil_append, List.cons_append, List.append_nil, mul_zero,
      add_zero]
  have h2 : SynFloodAttacker.step (fun _ => (0 : ℚ)) portDraw
      { sim := ⟨0, 4, [⟨0, 2, SynFloodAttacker.Callback.SendSyn, false⟩,
                       ⟨0 + 5, 3, SynFloodAttacker.Callback.EndPhase1, false⟩]⟩,
        m_phase1 := true, m_seed := 0, m_pktSent := 0, m_sendEvent := some 2,
        m_startStopEvent := some 3, sent := [],
        fired := [(0, SynFloodAttacker.Callback.StartApplication)] }
      = some { sim := ⟨0, 5, [⟨0 + 5, 3, SynFloodAttacker.Callback.EndPhase1, false⟩,
                              ⟨0 + 400 / 168, 4, SynFloodAttacker.Callback.SendSyn, false⟩]⟩,
               m_phase1 := true, m_seed := 0, m_pktSent := 1, m_sendEvent := some 4,
               m_startStopEvent := some 3, sent := [(0, portDraw 0)],
               fired := [(0, SynFloodAttacker.Callback.StartApplication),
                         (0, SynFloodAttacker.Callback.SendSyn)] } := by
    have hnext : (⟨0, 4, [⟨0, 2, SynFloodAttacker.Callback.SendSyn, false⟩,
          ⟨0 + 5, 3, SynFloodAttacker.Callback.EndPhase1, false⟩]⟩ :
          Simulator ℚ SynFloodAttacker.Callback).next
        = some (⟨0, 2, SynFloodAttacker.Callback.SendSyn, false⟩,
            ⟨0, 4, [⟨0 + 5, 3, SynFloodAttacker.Callback.EndPhase1, false⟩]⟩) := by
      refine Simulator.next_pick _ [] [_] _ rfl (by simp) ?_
      intro x hx
      rw [List.mem_singleton] at hx
      subst hx
      exact ⟨Simulator.before_of_lt _ _ (by norm_num), by decide⟩
    rw [SynFloodAttacker.step_fire _ _ _ _ _ hnext rfl]
    simp only [SynFloodAttacker.dispatch, SynFloodAttacker.SendSyn]
    rw [SynFloodAttacker.scheduleSend_eq _ _ _ (400 / 168) (if_pos rfl) (hc _)]
    simp only [Simulator.Schedule, SynFloodAttacker.GetRandomPort, List.nil_append,
      List.cons_append, List.append_nil, List.singleton_append, Nat.zero_mul, Nat.zero_mod,
      Nat.zero_add, Nat.mul_zero]
    norm_num
  have h3 : SynFloodAttacker.step (fun _ => (0 : ℚ)) portDraw
      { sim := ⟨0, 5, [⟨0 + 5, 3, SynFloodAttacker.Callback.EndPhase1, false⟩,
                       ⟨0 + 400 / 168, 4, SynFloodAttacker.Callback.SendSyn, false⟩]⟩,
        m_phase1 := true, m_seed := 0, m_pktSent := 1, m_sendEvent := some 4,
        m_startStopEvent := some 3, sent := [(0, portDraw 0)],
        fired := [(0, SynFloodAttacker.Callback.StartApplication),
                  (0, SynFloodAttacker.Callback.SendSyn)] }
      = some { sim := ⟨0 + 400 / 168, 6, [⟨0 + 5, 3, SynFloodAttacker.Callback.EndPhase1, false⟩,
                  ⟨0 + 400 / 168 + 400 / 168, 5, SynFloodAttacker.Callback.SendSyn, false⟩]⟩,
               m_phase1 := true, m_seed := 0, m_pktSent := 2, m_sendEvent := some 5,
               m_startStopEvent := some 3,
               sent := [(0, portDraw 0), (0 + 400 / 168, portDraw 0)],
               fired := [(0, SynFloodAttacker.Callback.StartApplication),
                         (0, SynFloodAttacker.Callback.SendSyn),
                         (0 + 400 / 168, SynFloodAttacker.Callback.SendSyn)] } := by
    have hnext : (⟨0, 5, [⟨0 + 5, 3, SynFloodAttacker.Callback.EndPhase1, false⟩,
          ⟨0 + 400 / 168, 4, SynFloodAttacker.Callback.SendSyn, false⟩]⟩ :
          Simulator ℚ SynFloodAttacker.Callback).next
        = some (⟨0 + 400 / 168, 4, SynFloodAttacker.Callback.SendSyn, false⟩,
            ⟨0 + 400 / 168, 5, [⟨0 + 5, 3, SynFloodAttacker.Callback.EndPhase1, false⟩]⟩) := by
      refine Simulator.next_pick _ [_] [] _ rfl ?_ (by simp)
      intro x hx
      rw [List.mem_singleton] at hx
      subst hx
      exact ⟨Simulator.before_of_lt _ _ (by norm_num), by decide⟩
    rw [SynFloodAttacker.step_fire _ _ _ _ _ hnext rfl]
    simp only [SynFloodAttacker.dispatch, SynFloodAttacker.SendSyn]
    rw [SynFloodAttacker.scheduleSend_eq _ _ _ (400 / 168) (if_pos rfl) (hc _)]
    simp only [Simulator.Schedule, SynFloodAttacker.GetRandomPort, List.nil_append,
      List.cons_append, List.append_nil, List.singleton_append, Nat.zero_mul, Nat.zero_mod,
      Nat.zero_add, Nat.mul_zero]
    norm_num
  have hrun : SynFloodAttacker.run (fun _ => (0 : ℚ)) portDraw 3
      (SynFloodAttacker.init 0 false 0 none)
      = some { sim := ⟨0 + 400 / 168, 6, [⟨0 + 5, 3, SynFloodAttacker.Callback.EndPhase1, false⟩,
                  ⟨0 + 400 / 168 + 400 / 168, 5, SynFloodAttacker.Callback.SendSyn, false⟩]⟩,
               m_phase1 := true, m_seed := 0, m_pktSent := 2, m_sendEvent := some 5,
               m_startStopEvent := some 3,
               sent := [(0, portDraw 0), (0 + 400 / 168, portDraw 0)],
               fired := [(0, SynFloodAttacker.Callback.StartApplication),
                         (0, SynFloodAttacker.Callback.SendSyn),
                         (0 + 400 / 168, SynFloodAttacker.Callback.SendSyn)] } := by
    exact (SynFloodAttacker.run_succ _ _ 2 _ _ h1).trans
      ((SynFloodAttacker.run_succ _ _ 1 _ _ h2).trans
        ((SynFloodAttacker.run_succ _ _ 0 _ _ h3).trans (SynFloodAttacker.run_zero _ _ _)))
  refine ⟨_, hrun, rfl, ?_⟩
  simp only [zero_add]

/-! ## The greedy selection with more connections than border nodes -/

section CyclicLemmas

variable {K : Type} [LinearOrderedField K]

set_option linter.unusedSectionVars false

/-- The first loop appends the whole border list `m` times. -/
theorem selectAllLoop_cyclic (borderNodes : List (PositionedNode K)) (hne : borderNodes ≠ []) :
    ∀ (k : Nat) (selectedNodes : List (PositionedNode K)), 1 ≤ k →
      ∃ (m r : Nat) (pre : List (PositionedNode K)),
        selectAllLoop borderNodes selectedNodes k = some (selectedNodes ++ pre, r)
          ∧ k = m * borderNodes.length + r ∧ 1 ≤ r ∧ r ≤ borderNodes.length
          ∧ pre.length = m * borderNodes.length
          ∧ (∀ j : Nat, j < m * borderNodes.length →
              pre[j]? = borderNodes[j % borderNodes.length]?)
          ∧ (borderNodes.length < k → ∀ node ∈ borderNodes, node ∈ pre) := by
  have hn : 0 < borderNodes.length := List.length_pos.mpr hne
  intro k
  induction k using Nat.strong_induction_on with
  | _ k ih =>
    intro sel hk
    rw [selectAllLoop]
    by_cases hgt : k > borderNodes.length
    · rw [dif_pos hgt, dif_neg (by omega)]
      obtain ⟨m, r, pre, hrun, hk', hr1, hr2, hlen, hget, -⟩ :=
        ih (k - borderNodes.length) (by omega) (sel ++ borderNodes) (by omega)
      refine ⟨m + 1, r, borderNodes ++ pre, ?_, ?_, hr1, hr2, ?_, ?_, ?_⟩
      · rw [hrun, List.append_assoc]
      · rw [Nat.add_mul]; omega
      · rw [List.length_append, hlen, Nat.add_mul]; omega
      · intro j hj
        by_cases hjn : j < borderNodes.length
        · rw [List.getElem?_append_left hjn, Nat.mod_eq_of_lt hjn]
        · have hmul : (m + 1) * borderNodes.length
              = m * borderNodes.length + borderNodes.length := by ring
          rw [List.getElem?_append_right (by omega), hget (j - borderNodes.length) (by omega)]
          conv_rhs => rw [Nat.mod_eq_sub_mod (Nat.le_of_not_lt hjn)]
      · intro _ node hnode
        exact List.mem_append_left _ hnode
    · rw [dif_neg hgt]
      exact ⟨0, k, [], by simp, by simp, hk, by omega, by simp, by simp,
        fun h => absurd h hgt⟩

/-- A node that is among the selected nodes has `minDistance` zero. -/
theorem minDistanceTo_of_mem {sqrt : K → K} (hs : IsSqrt sqrt) (node : PositionedNode K)
    (selected : List (PositionedNode K)) (hmem : node ∈ selected) :
    minDistanceTo sqrt node.position selected = ((0 : K) : WithTop K) := by
  obtain ⟨d, hd, ⟨s, hsmem, hds⟩, hmin⟩ :=
    minDistanceTo_isMin sqrt node.position selected (List.ne_nil_of_mem hmem)
  have h0 : CalculateDistance sqrt node.position node.position = 0 := by
    have h := hs 0 le_rfl
    have hz : sqrt 0 = 0 := mul_self_eq_zero.mp h.2
    simp only [CalculateDistance, CalculateDistanceSquared, sub_self, mul_zero, add_zero, hz]
  have h1 : d ≤ 0 := h0 ▸ hmin node hmem
  have h2 : 0 ≤ d := by
    rw [hds]
    exact (hs _ (add_nonneg (mul_self_nonneg _) (mul_self_nonneg _))).1
  rw [hd, le_antisymm h1 h2]

/-- When every border node is already selected, the greedy rounds take the
border nodes in the order of the list. -/
theorem greedyLoop_in_order {sqrt : K → K} (hs : IsSqrt sqrt)
    (borderNodes : List (PositionedNode K)) (k t0 : Nat) (used : List Bool)
    (selectedNodes : List (PositionedNode K))
    (hall : ∀ node ∈ borderNodes, node ∈ selectedNodes)
    (hU : UsedMatches borderNodes.length used (List.range t0))
    (hlen : t0 + k ≤ borderNodes.length) :
    ∃ added : List (PositionedNode K),
      greedyLoop sqrt borderNodes k used selectedNodes = some (selectedNodes ++ added)
        ∧ added.length = k
        ∧ ∀ t : Nat, t < k → added[t]? = borderNodes[t0 + t]? := by
  obtain ⟨more, added, hrun, hmap, hnd, hlt, hmlen, hbest⟩ :=
    greedyLoop_trace hs borderNodes k used selectedNodes (List.range t0) hU
      (List.nodup_range t0) (by simpa using hlen)
  have halen : added.length = k := by
    have := congrArg List.length hmap
    simpa [hmlen] using this
  have hmore : ∀ t : Nat, t < k → more[t]? = some (t0 + t) := by
    intro t
    induction t using Nat.strong_induction_on with
    | _ t ih =>
      intro ht
      have htl : t < more.length := by omega
      have hit : more[t]? = some more[t] := List.getElem?_eq_getElem htl
      have hprev : ∀ x, x ∈ List.range t0 ++ more.take t ↔ x < t0 + t := by
        intro x
        rw [List.mem_append, List.mem_range]
        constructor
        · rintro (h | h)
          · omega
          · obtain ⟨i, hi, rfl⟩ := List.mem_iff_getElem.mp h
            rw [List.length_take] at hi
            have h1 : i < t := by omega
            have h2 := ih i h1 (by omega)
            rw [List.getElem_take] 
            have h3 : more[i]? = some more[i] := List.getElem?_eq_getElem (by omega)
            rw [h3] at h2
            have := Option.some.inj h2
            omega
        · intro h
          by_cases hx : x < t0
          · exact Or.inl hx
          · right
            have h1 : x - t0 < t := by omega
            have h2 := ih (x - t0) h1 (by omega)
            have h3 : x - t0 < (more.take t).length := by
              rw [List.length_take]; omega
            have h4 : (more.take t)[x - t0]? = some x := by
              rw [List.getElem?_take_of_lt h1, h2]
              congr 1
              omega
            exact List.getElem?_mem h4
      have hge : t0 + t ≤ more[t] := by
        by_contra hcon
        have hin : more[t] ∈ List.range t0 ++ more.take t := (hprev _).mpr (by omega)
        have hsplit : List.range t0 ++ more
            = (List.range t0 ++ more.take t) ++ (more[t] :: more.drop (t + 1)) := by
          rw [List.append_assoc]
          congr 1
          rw [← List.drop_eq_getElem_cons htl, List.take_append_drop]
        rw [hsplit, List.nodup_append] at hnd
        exact hnd.2.2 hin (List.mem_cons_self _ _)
      have hle : more[t] ≤ t0 + t := by
        by_contra hcon
        have hlt' : t0 + t < more[t] := by omega
        have hbn : t0 + t < borderNodes.length := by omega
        have hmt : more[t] < borderNodes.length := hlt _ (List.getElem_mem htl)
        have hnot : t0 + t ∉ List.range t0 ++ more.take t := by
          rw [hprev]; omega
        have hcmp := (hbest t more[t] borderNodes[more[t]] hit (List.getElem?_eq_getElem hmt)
          (t0 + t) borderNodes[t0 + t] (List.getElem?_eq_getElem hbn) hnot).2 hlt'
        rw [minDistanceTo_of_mem hs _ _ (List.mem_append_left _ (hall _ (List.getElem_mem hbn))),
          minDistanceTo_of_mem hs _ _ (List.mem_append_left _ (hall _ (List.getElem_mem hmt)))]
          at hcmp
        exact absurd hcmp (lt_irrefl _)
      rw [hit]
      congr 1
      omega
  refine ⟨added, hrun, halen, fun t ht => ?_⟩
  have h1 : (added.map some)[t]? = (more.map (fun i => borderNodes[i]?))[t]? := by rw [hmap]
  simp only [List.getElem?_map, hmore t ht, Option.map_some'] at h1
  have hta : t < added.length := by omega
  rw [List.getElem?_eq_getElem hta] at h1 ⊢
  simp only [Option.map_some'] at h1
  exact Option.some.inj h1

end CyclicLemmas

/-- C27: for `n ≥ 1` border nodes and `k > n`, `FindFurthestApartNodes` returns
`k` entries, and entry `j` is the border node of index `j mod n`: the border
list repeated cyclically. -/
theorem C27_result_is_cyclic_repetition {K : Type} [LinearOrderedField K] (sqrt : K → K)
    (hs : IsSqrt sqrt) (borderNodes : List (PositionedNode K)) (hne : borderNodes ≠ [])
    (k : Nat) (hk : borderNodes.length < k) :
    ∃ result : List (PositionedNode K),
      FindFurthestApartNodes sqrt borderNodes k = some result
        ∧ result.length = k
        ∧ ∀ j : Nat, j < k → result[j]? = borderNodes[j % borderNodes.length]? := by
  have hn : 0 < borderNodes.length := List.length_pos.mpr hne
  obtain ⟨m, r, pre, hrun, hkr, hr1, hr2, hplen, hpget, hpall⟩ :=
    selectAllLoop_cyclic borderNodes hne k [] (by omega)
  have hU0 : UsedMatches borderNodes.length (List.replicate borderNodes.length false) [] := by
    refine ⟨by simp, fun i hi => ?_⟩
    simp [List.getD_eq_getElem?_getD, List.getElem?_replicate, hi]
  have hU : UsedMatches borderNodes.length
      ((List.replicate borderNodes.length false).set 0 true) (List.range 1) := by
    have := usedMatches_set borderNodes.length _ [] 0 hU0
    simpa [List.range_succ] using this
  obtain ⟨added, hg, halen, haget⟩ :=
    greedyLoop_in_order hs borderNodes (r - 1) 1
      ((List.replicate borderNodes.length false).set 0 true)
      ([] ++ pre ++ [borderNodes[0]]) 
      (fun node hnode => by
        simp only [List.nil_append]
        exact List.mem_append_left _ (hpall hk node hnode)) hU (by omega)
  refine ⟨pre ++ borderNodes[0] :: added, ?_, ?_, ?_⟩
  · unfold FindFurthestApartNodes
    rw [if_neg (by omega), hrun]
    match borderNodes, hne with
    | first :: rest, _ =>
      simp only [List.nil_append, List.getElem_cons_zero] at hg ⊢
      rw [hg]
      simp
  · simp only [List.length_append, List.length_cons, hplen, halen]
    omega
  · intro j hj
    set n := borderNodes.length with hn'
    by_cases hj1 : j < m * n
    · rw [List.getElem?_append_left (by omega)]
      exact hpget j hj1
    · rw [List.getElem?_append_right (by omega), hplen]
      have hmod : j % n = j - m * n := by
        have h1 : j = (j - m * n) + m * n := by omega
        have h2 : j - m * n < n := by omega
        conv_lhs => rw [h1]
        rw [Nat.add_mul_mod_self_right, Nat.mod_eq_of_lt h2]
      rw [hmod]
      by_cases hj0 : j - m * n = 0
      · rw [hj0]
        simp [List.getElem?_eq_getElem hn]
      · obtain ⟨t, ht⟩ : ∃ t, j - m * n = t + 1 := ⟨j - m * n - 1, by omega⟩
        rw [ht, List.getElem?_cons_succ, haget t (by omega), Nat.add_comm]

/-- C27 on the two nodes of `twoNodes` and `k = 5`. -/
theorem C27_result_is_cyclic_repetition_witness :
    IsSqrt Real.sqrt ∧ twoNodes ℝ ≠ [] ∧ (twoNodes ℝ).length < 5
      ∧ ∃ result : List (PositionedNode ℝ),
          FindFurthestApartNodes Real.sqrt (twoNodes ℝ) 5 = some result
            ∧ result.length = 5
            ∧ ∀ j : Nat, j < 5 → result[j]? = (twoNodes ℝ)[j % (twoNodes ℝ).length]? :=
  ⟨fun x hx => ⟨Real.sqrt_nonneg x, Real.mul_self_sqrt hx⟩, by simp [twoNodes],
    by simp [twoNodes],
    C27_result_is_cyclic_repetition Real.sqrt
      (fun x hx => ⟨Real.sqrt_nonneg x, Real.mul_self_sqrt hx⟩) (twoNodes ℝ)
      (by simp [twoNodes]) 5 (by simp [twoNodes])⟩
/-! ## ICMP-flood attacker: ranges of the times and the 16-bit seed -/

/-- C29: the constructor keeps the low 16 bits of its seed: the attacker
constructed with `s + 65536` (modulo `2 ^ 32`) is the attacker constructed with
`s`, with the same start time, end time and seed member, so every run of the
one is a run of the other, with the same delays between the packets. -/
theorem C29_icmp_seed_low_16_bits {K : Type} [LinearOrderedField K]
    (bucketDraw : List K → Nat → Int) (unitDraws : Nat → Nat → K) (rateDraw : Nat → K)
    (sim : Simulator K IcmpFloodAttacker.Callback) (s : Nat) :
    IcmpFloodAttacker.new bucketDraw unitDraws sim ((s + 65536) % 2 ^ 32)
        = IcmpFloodAttacker.new bucketDraw unitDraws sim s
      ∧ (IcmpFloodAttacker.new bucketDraw unitDraws sim ((s + 65536) % 2 ^ 32)).m_seed
          = s % 2 ^ 16
      ∧ ∀ (remote n : Nat),
          IcmpFloodAttacker.run rateDraw n
              (IcmpFloodAttacker.SetRemote
                (IcmpFloodAttacker.new bucketDraw unitDraws sim ((s + 65536) % 2 ^ 32)) remote)
            = IcmpFloodAttacker.run rateDraw n
                (IcmpFloodAttacker.SetRemote
                  (IcmpFloodAttacker.new bucketDraw unitDraws sim s) remote) := by
  have hmod : (s + 65536) % 2 ^ 32 % 2 ^ 16 = s % 2 ^ 16 := by
    omega
  have hnew : IcmpFloodAttacker.new bucketDraw unitDraws sim ((s + 65536) % 2 ^ 32)
      = IcmpFloodAttacker.new bucketDraw unitDraws sim s := by
    simp only [IcmpFloodAttacker.new, hmod]
  refine ⟨hnew, ?_, fun remote n => by rw [hnew]⟩
  simp only [IcmpFloodAttacker.new, hmod]

/-! ## SYN-flood attacker: the sampler ranges and the quiet states -/

namespace Simulator

section SchedulerMore

variable {K C : Type} [LinearOrderedField K]

set_option linter.unusedSectionVars false

theorem foldl_earliest_mem :
    ∀ (es : List (Event K C)) (m : Event K C),
      es.foldl (fun m x => if before x m then x else m) m = m
        ∨ es.foldl (fun m x => if before x m then x else m) m ∈ es := by
  intro es
  induction es with
  | nil => intro m; exact Or.inl rfl
  | cons x rest ih =>
    intro m
    simp only [List.foldl_cons]
    by_cases hxm : before x m = true
    · rw [if_pos hxm]
      rcases ih x with h | h
      · rw [h]; exact Or.inr (List.mem_cons_self _ _)
      · exact Or.inr (List.mem_cons_of_mem _ h)
    · rw [if_neg hxm]
      rcases ih m with h | h
      · exact Or.inl h
      · exact Or.inr (List.mem_cons_of_mem _ h)

/-- What the simulator takes next is an event of the list, and what it leaves
is the list without the events of that uid. -/
theorem next_some (sim sim' : Simulator K C) (e : Event K C) (h : sim.next = some (e, sim')) :
    e ∈ sim.events
      ∧ sim' = { sim with now := e.ts,
                          events := sim.events.filter fun x => decide (x.uid ≠ e.uid) } := by
  unfold next at h
  cases hl : sim.events with
  | nil => simp [hl, earliest] at h
  | cons a es =>
    rw [hl] at h
    simp only [earliest, Option.some.injEq, Prod.mk.injEq] at h
    obtain ⟨h1, h2⟩ := h
    refine ⟨?_, ?_⟩
    · rw [← h1]
      rcases foldl_earliest_mem es a with h | h
      · rw [h]; exact List.mem_cons_self _ _
      · exact List.mem_cons_of_mem _ h
    · rw [← h2, h1]

theorem next_none (sim : Simulator K C) (h : sim.next = none) : sim.events = [] := by
  unfold next at h
  cases hl : sim.events with
  | nil => rfl
  | cons a es => simp [hl, earliest] at h

theorem cancel_events_mem (sim : Simulator K C) (id : Option Nat) (y : Event K C)
    (hy : y ∈ (sim.Cancel id).events) :
    ∃ x ∈ sim.events, y.ts = x.ts ∧ y.uid = x.uid ∧ y.callback = x.callback
      ∧ (x.cancelled = true → y.cancelled = true)
      ∧ (id = some x.uid → y.cancelled = true) := by
  cases id with
  | none => exact ⟨y, hy, rfl, rfl, rfl, id, fun h => by cases h⟩
  | some u =>
    simp only [Cancel, List.mem_map] at hy
    obtain ⟨x, hx, rfl⟩ := hy
    refine ⟨x, hx, ?_⟩
    by_cases hu : x.uid = u
    · simp [hu]
    · simp only [hu, if_false, true_and, imp_self, Option.some.injEq]
      exact fun h => absurd h.symm hu

theorem cancel_now (sim : Simulator K C) (id : Option Nat) : (sim.Cancel id).now = sim.now := by
  cases id <;> rfl

theorem cancel_uid (sim : Simulator K C) (id : Option Nat) : (sim.Cancel id).uid = sim.uid := by
  cases id <;> rfl

end SchedulerMore

end Simulator

namespace SynFloodAttacker

section Sampler2

variable {K : Type} [LinearOrderedField K] [FloorRing K]

set_option linter.unusedSectionVars false

/-- For a draw in `[0, 1)` the sampler returns a value between the least and
the largest entry of the table. -/
theorem interpolate_bounds (q : Fin 11 → K) (lo hi : K) (hq : ∀ i, lo ≤ q i ∧ q i ≤ hi)
    (u : K) (hu0 : 0 ≤ u) (hu1 : u < 1) :
    ∃ v, interpolate q u = some v ∧ lo ≤ v ∧ v ≤ hi := by
  have h10 : (0 : K) ≤ u * 10 := by positivity
  have hfl0 : 0 ≤ Int.floor (u * 10) := Int.floor_nonneg.mpr h10
  have hfl1 : Int.floor (u * 10) < 10 := by
    rw [Int.floor_lt]
    push_cast
    linarith
  obtain ⟨i, hi⟩ : ∃ i : Nat, Int.floor (u * 10) = (i : Int) :=
    ⟨(Int.floor (u * 10)).toNat, (Int.toNat_of_nonneg hfl0).symm⟩
  have hi10 : i < 10 := by omega
  refine ⟨_, interpolate_eq q u i hi10 hi hu0, ?_, ?_⟩
  · have h1 := (hq ⟨i, by omega⟩).1
    have h2 := (hq ⟨i + 1, by omega⟩).1
    nlinarith
  · have h1 := (hq ⟨i, by omega⟩).2
    have h2 := (hq ⟨i + 1, by omega⟩).2
    nlinarith

theorem phase1_table_range (i : Fin 11) :
    (168 : K) ≤ DISTRIBUTION_PHASE1_PACKETS_PER_SECOND i
      ∧ DISTRIBUTION_PHASE1_PACKETS_PER_SECOND i ≤ (7452 : K) := by
  revert i
  simp only [Fin.forall_fin_succ, DISTRIBUTION_PHASE1_PACKETS_PER_SECOND, Matrix.cons_val_zero,
    Matrix.cons_val_succ, IsEmpty.forall_iff, and_true]
  norm_num

theorem phase2_table_range (i : Fin 11) :
    (2 : K) ≤ DISTRIBUTION_PHASE2_PACKETS_PER_SECOND i
      ∧ DISTRIBUTION_PHASE2_PACKETS_PER_SECOND i ≤ (14 : K) := by
  revert i
  simp only [Fin.forall_fin_succ, DISTRIBUTION_PHASE2_PACKETS_PER_SECOND, Matrix.cons_val_zero,
    Matrix.cons_val_succ, IsEmpty.forall_iff, and_true]
  norm_num

/-- The rate of phase 1 lies in `[168, 7452]`, so the delay between two
packets lies in `[400 / 7452, 400 / 168]` seconds. -/
theorem calculateNextTime_phase1 (firstDraw : Nat → K)
    (hdraw : ∀ s, 0 ≤ firstDraw s ∧ firstDraw s < 1) (st : State K) :
    ∃ d, CalculateNextTime firstDraw DISTRIBUTION_PHASE1_PACKETS_PER_SECOND st = some d
      ∧ 400 / 7452 ≤ d ∧ d ≤ 400 / 168 := by
  obtain ⟨v, hv, h1, h2⟩ := interpolate_bounds DISTRIBUTION_PHASE1_PACKETS_PER_SECOND 168 7452
    phase1_table_range _ (hdraw ((st.m_pktSent * st.m_seed) % 2 ^ 32)).1
    (hdraw ((st.m_pktSent * st.m_seed) % 2 ^ 32)).2
  have hv0 : v ≠ 0 := by
    intro h
    rw [h] at h1
    norm_num at h1
  have hvpos : 0 < v := by linarith
  refine ⟨1 / v * 400, ?_, ?_, ?_⟩
  · simp only [CalculateNextTime, GetRandomDistributionNumber, hv, if_neg hv0,
      ORIGINAL_CLIENTS_ASSUMPTION]
    norm_num
  · rw [show 1 / v * 400 = 400 / v by field_simp]
    exact div_le_div_of_nonneg_left (by norm_num) hvpos h2
  · rw [show 1 / v * 400 = 400 / v by field_simp]
    exact div_le_div_of_nonneg_left (by norm_num) (by norm_num) h1

/-- The rate of phase 2 lies in `[2, 14]`, so the delay between two packets
lies in `[400 / 14, 200]` seconds. -/
theorem calculateNextTime_phase2 (firstDraw : Nat → K)
    (hdraw : ∀ s, 0 ≤ firstDraw s ∧ firstDraw s < 1) (st : State K) :
    ∃ d, CalculateNextTime firstDraw DISTRIBUTION_PHASE2_PACKETS_PER_SECOND st = some d
      ∧ 400 / 14 ≤ d ∧ d ≤ 200 := by
  obtain ⟨v, hv, h1, h2⟩ := interpolate_bounds DISTRIBUTION_PHASE2_PACKETS_PER_SECOND 2 14
    phase2_table_range _ (hdraw ((st.m_pktSent * st.m_seed) % 2 ^ 32)).1
    (hdraw ((st.m_pktSent * st.m_seed) % 2 ^ 32)).2
  have hv0 : v ≠ 0 := by
    intro h
    rw [h] at h1
    norm_num at h1
  have hvpos : 0 < v := by linarith
  refine ⟨1 / v * 400, ?_, ?_, ?_⟩
  · simp only [CalculateNextTime, GetRandomDistributionNumber, hv, if_neg hv0,
      ORIGINAL_CLIENTS_ASSUMPTION]
    norm_num
  · rw [show 1 / v * 400 = 400 / v by field_simp]
    exact div_le_div_of_nonneg_left (by norm_num) hvpos h2
  · rw [show 1 / v * 400 = 400 / v by field_simp]
    exact le_trans (div_le_div_of_nonneg_left (by norm_num) (by norm_num) h1) (by norm_num)

theorem calculateNextTime_phase1_all (firstDraw : Nat → K)
    (hdraw : ∀ s, 0 ≤ firstDraw s ∧ firstDraw s < 1) (seed pk : Nat) :
    ∃ d, (∀ st : State K, st.m_seed = seed → st.m_pktSent = pk →
        CalculateNextTime firstDraw DISTRIBUTION_PHASE1_PACKETS_PER_SECOND st = some d)
      ∧ 400 / 7452 ≤ d ∧ d ≤ 400 / 168 := by
  obtain ⟨d, hd, h1, h2⟩ := calculateNextTime_phase1 firstDraw hdraw
    ⟨⟨0, 0, []⟩, false, seed, pk, none, none, [], []⟩
  exact ⟨d, fun st hs hp => (calculateNextTime_congr _ _ _ _ hs hp).trans hd, h1, h2⟩

theorem calculateNextTime_phase2_all (firstDraw : Nat → K)
    (hdraw : ∀ s, 0 ≤ firstDraw s ∧ firstDraw s < 1) (seed pk : Nat) :
    ∃ d, (∀ st : State K, st.m_seed = seed → st.m_pktSent = pk →
        CalculateNextTime firstDraw DISTRIBUTION_PHASE2_PACKETS_PER_SECOND st = some d)
      ∧ 400 / 14 ≤ d ∧ d ≤ 200 := by
  obtain ⟨d, hd, h1, h2⟩ := calculateNextTime_phase2 firstDraw hdraw
    ⟨⟨0, 0, []⟩, false, seed, pk, none, none, [], []⟩
  exact ⟨d, fun st hs hp => (calculateNextTime_congr _ _ _ _ hs hp).trans hd, h1, h2⟩

theorem sentOk_of_early (t0 : K) (sent : List (K × Nat)) (h : SentEarly t0 sent) :
    SentOk t0 sent :=
  ⟨sent, [], by simp, h, by simp, by simp⟩

theorem sentEarly_snoc (t0 : K) (sent : List (K × Nat)) (p : K × Nat) (h : SentEarly t0 sent)
    (h1 : t0 ≤ p.1) (h2 : p.1 < t0 + 5) : SentEarly t0 (sent ++ [p]) := by
  intro q hq
  rcases List.mem_append.mp hq with hq | hq
  · exact h q hq
  · rw [List.mem_singleton] at hq
    subst hq
    exact ⟨h1, h2⟩

theorem phaseLog_of_fired (st st0 : State K) (t : K) (c : Callback)
    (h : st.fired = st0.fired ++ [(t, c)]) :
    phaseLog st = phaseLog st0
      ++ (if c = Callback.EndPhase1 ∨ c = Callback.StartPhase2 ∨ c = Callback.EndPhase2
          then [(t, c)] else []) := by
  simp only [phaseLog, h, List.filter_append]
  cases c <;> simp

theorem quietLog_of_fired (t0 : K) (st st0 : State K) (t : K) (c : Callback)
    (h : st.fired = st0.fired ++ [(t, c)]) :
    quietLog t0 st = quietLog t0 st0
      ++ (if c = Callback.EndPhase2 ∨ (c = Callback.StopApplication ∧ t0 ≤ t)
          then [(t, c)] else []) := by
  simp only [quietLog, h, List.filter_append]
  by_cases hc : c = Callback.EndPhase2 ∨ (c = Callback.StopApplication ∧ t0 ≤ t)
  · simp [hc]
  · simp [hc]

/-- The stop event of the application has uid `1`. -/
theorem isStopList_uid (stopL : List (Event K Callback)) (hstop : IsStopList stopL) :
    ∀ x ∈ stopL, x.uid = 1 ∧ x.callback = Callback.StopApplication ∧ x.cancelled = false := by
  intro x hx
  rcases hstop with rfl | ⟨s, rfl⟩
  · simp at hx
  · rw [List.mem_singleton] at hx
    subst hx
    exact ⟨rfl, rfl, rfl⟩

/-- Cancelling an event of the application leaves the stop event alone. -/
theorem map_cancel_stop (stopL : List (Event K Callback)) (hstop : IsStopList stopL) (u : Nat)
    (hu : 2 ≤ u) :
    stopL.map (fun e : Event K Callback =>
        if e.uid = u then { e with cancelled := true } else e) = stopL := by
  rw [List.map_congr_left (g := id)]
  · simp
  · intro x hx
    rw [if_neg (by rw [(isStopList_uid stopL hstop x hx).1]; omega)]
    rfl

/-- The stop event runs when it comes first: every event of the application
still in the list is cancelled, and nothing else changes. -/
theorem stop_fires (firstDraw : Nat → K) (portDraw : Nat → Nat) (t0 : K) (st : State K) (s : K)
    (l2 : List (Event K Callback))
    (hev : st.sim.events = ⟨s, 1, Callback.StopApplication, false⟩ :: l2)
    (hmin : ∀ x ∈ l2, s ≤ x.ts ∧ 1 < x.uid)
    (hown : ∀ x ∈ l2, x.cancelled = true ∨ st.m_sendEvent = some x.uid
      ∨ st.m_startStopEvent = some x.uid)
    (hsent : SentOk t0 st.sent) :
    ∃ st', step firstDraw portDraw st = some st'
      ∧ Stopped t0 st' ∧ st'.sent = st.sent ∧ st'.m_phase1 = st.m_phase1
      ∧ phaseLog st' = phaseLog st ∧ st'.sim.now = s := by
  have hnext : st.sim.next = some (⟨s, 1, Callback.StopApplication, false⟩,
      { st.sim with now := s, events := [] ++ l2 }) := by
    refine Simulator.next_pick _ [] l2 _ hev (by simp) ?_
    intro x hx
    exact ⟨Simulator.before_of_le _ _ (hmin x hx).1 (hmin x hx).2,
      by dsimp only; have := (hmin x hx).2; omega⟩
  rw [step_fire _ _ _ _ _ hnext rfl]
  simp only [dispatch, Option.some.injEq, exists_eq_left']
  refine ⟨⟨?_, hsent⟩, rfl, rfl, ?_, ?_⟩
  · intro y hy
    simp only [CancelEvents] at hy
    obtain ⟨x1, hx1, -, -, -, hc1, hc1'⟩ := Simulator.cancel_events_mem _ _ y hy
    obtain ⟨x2, hx2, -, hu2, -, hc2, hc2'⟩ := Simulator.cancel_events_mem _ _ x1 hx1
    simp only [List.nil_append] at hx2
    rcases hown x2 hx2 with h | h | h
    · exact hc1 (hc2 h)
    · exact hc1 (hc2' h)
    · apply hc1'
      rw [hu2, h]
  · rw [phaseLog_of_fired _ st s Callback.StopApplication (by simp [CancelEvents])]
    simp
  · simp only [CancelEvents, Simulator.cancel_now]

end Sampler2

end SynFloodAttacker
namespace SynFloodAttacker

section StageSteps

variable {K : Type} [LinearOrderedField K] [FloorRing K]

/-- The activation: `StartApplication` runs at `t0` and phase 1 begins, unless
the stop time comes first. -/
theorem atStart_step (firstDraw : Nat → K) (portDraw : Nat → Nat)
    (hdraw : ∀ s, 0 ≤ firstDraw s ∧ firstDraw s < 1) (t0 : K)
    (stopL : List (Event K Callback)) (hstop : IsStopList stopL) (st : State K)
    (h : AtStart t0 stopL st) :
    ∃ st', step firstDraw portDraw st = some st'
      ∧ ((∃ ts, InPhase1 t0 stopL ts st' ∧ st'.sim.now = t0
            ∧ (∀ e ∈ stopL, t0 ≤ e.ts))
        ∨ (AtStart t0 [] st' ∧ ∃ s, s < t0
            ∧ stopL = [⟨s, 1, Callback.StopApplication, false⟩])) := by
  obtain ⟨hev, huid, hse, hsse, hsent, hlog, hpkt, hq⟩ := h
  have hfire : (∀ e ∈ stopL, t0 ≤ e.ts) →
      ∃ st', step firstDraw portDraw st = some st'
        ∧ ∃ ts, InPhase1 t0 stopL ts st' ∧ st'.sim.now = t0 := by
    intro hle
    have hnext : st.sim.next = some (⟨t0, 0, Callback.StartApplication, false⟩,
        { st.sim with now := t0, events := [] ++ stopL }) := by
      refine Simulator.next_pick _ [] stopL _ hev (by simp) ?_
      intro x hx
      rcases hstop with rfl | ⟨s, rfl⟩
      · simp at hx
      · rw [List.mem_singleton] at hx
        subst hx
        exact ⟨Simulator.before_of_le _ _ (hle _ (List.mem_singleton_self _)) (by norm_num),
          by simp⟩
    obtain ⟨d, hd, hd1, hd2⟩ := calculateNextTime_phase1 firstDraw hdraw
      { st with sim := { st.sim with now := t0, events := [] ++ stopL },
                fired := st.fired ++ [(t0, Callback.StartApplication)],
                m_phase1 := true }
    obtain ⟨hw0, hw1⟩ := hdraw st.m_seed
    have hdw : d * firstDraw st.m_seed < 400 / 168 * 1 := by
      rcases eq_or_lt_of_le hw0 with h0 | h0
      · rw [← h0]; norm_num
      · exact mul_lt_mul' hd2 hw1 (le_of_lt h0) (by norm_num)
    have hdw0 : 0 ≤ d * firstDraw st.m_seed := mul_nonneg (by linarith) hw0
    rw [step_fire _ _ _ _ _ hnext rfl]
    simp only [dispatch, StartPhase1, hd, Option.some.injEq, exists_eq_left']
    have hlog' : phaseLog { st with fired := st.fired ++ [(t0, Callback.StartApplication)] }
        = [] := by
      rw [phaseLog_of_fired _ st t0 Callback.StartApplication rfl, hlog]
      simp
    refine ⟨t0 + d * firstDraw st.m_seed, ?_, ?_⟩
    · simp only [InPhase1, Simulator.Schedule, huid, List.nil_append, List.append_assoc,
        List.singleton_append, hsent]
      refine ⟨2, 3, t0 + 5, rfl, Or.inl ⟨rfl, by norm_num, by linarith⟩, le_rfl, by norm_num,
        by norm_num, by norm_num, rfl, rfl, trivial, le_rfl, by linarith, by linarith,
        by linarith, hlog', ?_, ?_⟩
      · intro p hp
        simp at hp
      · rw [quietLog_of_fired t0 _ st t0 Callback.StartApplication rfl, hq]
        simp
    · simp only [Simulator.Schedule]
  rcases hstop with rfl | ⟨s, rfl⟩
  · obtain ⟨st', h1, ts, h2, h3⟩ := hfire (by simp)
    exact ⟨st', h1, Or.inl ⟨ts, h2, h3, by simp⟩⟩
  · by_cases hs : t0 ≤ s
    · have hle : ∀ e ∈ [(⟨s, 1, Callback.StopApplication, false⟩ : Event K Callback)],
          t0 ≤ e.ts := by
        intro e he
        rw [List.mem_singleton] at he
        subst he
        exact hs
      obtain ⟨st', h1, ts, h2, h3⟩ := hfire hle
      exact ⟨st', h1, Or.inl ⟨ts, h2, h3, hle⟩⟩
    · have hs' : s < t0 := lt_of_not_le hs
      have hnext : st.sim.next = some (⟨s, 1, Callback.StopApplication, false⟩,
          { st.sim with now := s,
                        events := [⟨t0, 0, Callback.StartApplication, false⟩] ++ [] }) := by
        refine Simulator.next_pick _ [_] [] _ hev ?_ (by simp)
        intro x hx
        rw [List.mem_singleton] at hx
        subst hx
        exact ⟨Simulator.before_of_lt _ _ hs', by simp⟩
      rw [step_fire _ _ _ _ _ hnext rfl]
      simp only [dispatch, Option.some.injEq, exists_eq_left']
      refine Or.inr ⟨?_, s, hs', rfl⟩
      refine ⟨?_, ?_, ?_, ?_, ?_, ?_, ?_, ?_⟩
      · simp only [CancelEvents, hse, hsse, Simulator.Cancel, List.append_nil]
      · simp only [CancelEvents, hse, hsse, Simulator.Cancel, huid]
      · simp only [CancelEvents, hse]
      · simp only [CancelEvents, hsse]
      · simp only [CancelEvents, hsent]
      · rw [phaseLog_of_fired _ st s Callback.StopApplication (by simp [CancelEvents]), hlog]
        simp
      · simp only [CancelEvents, hpkt]
      · rw [quietLog_of_fired t0 _ st s Callback.StopApplication (by simp [CancelEvents]), hq]
        simp [not_le.mpr hs']

end StageSteps

end SynFloodAttacker
namespace SynFloodAttacker

section StageSteps2

variable {K : Type} [LinearOrderedField K] [FloorRing K]

set_option linter.unusedSectionVars false

/-- A turn of the simulator in phase 1: the stop event runs, or the pending
send event runs and schedules the next one at least `400 / 7452` seconds
later, or `EndPhase1` runs at `t0 + 5`. -/
theorem inPhase1_step (firstDraw : Nat → K) (portDraw : Nat → Nat)
    (hdraw : ∀ s, 0 ≤ firstDraw s ∧ firstDraw s < 1) (t0 : K)
    (stopL : List (Event K Callback)) (hstop : IsStopList stopL) (ts : K) (st : State K)
    (h : InPhase1 t0 stopL ts st) :
    ∃ st', step firstDraw portDraw st = some st'
      ∧ ((ts < t0 + 5 ∧ st'.sim.now = ts ∧ (∀ e ∈ stopL, ts < e.ts)
            ∧ st'.sent = st.sent ++ [(ts, GetRandomPort portDraw st)]
            ∧ ∃ ts', ts + 400 / 7452 ≤ ts' ∧ InPhase1 t0 stopL ts' st')
        ∨ (t0 + 5 ≤ ts ∧ (∀ e ∈ stopL, t0 + 5 < e.ts) ∧ st'.sent = st.sent
            ∧ InGapStale t0 stopL st')
        ∨ (Stopped t0 st' ∧ st'.sent = st.sent ∧ st'.m_phase1 = st.m_phase1
            ∧ phaseLog st' = phaseLog st
            ∧ ∃ s, stopL = [⟨s, 1, Callback.StopApplication, false⟩] ∧ s ≤ t0 + 5
                ∧ st'.sim.now = s)) := by
  obtain ⟨us, ue, te, hte, horder, hus, hue, husu, hueu, hse, hsse, hp1, hnow0, hnow5, hnowts,
    hts15, hlog, hsent, hq⟩ := h
  subst hte
  have hneq : us ≠ ue := by
    rcases horder with ⟨-, h, -⟩ | ⟨-, h⟩ <;> omega
  have hevmem : ∀ x ∈ st.sim.events, x ∈ stopL
      ∨ x = ⟨ts, us, Callback.SendSyn, false⟩ ∨ x = ⟨t0 + 5, ue, Callback.EndPhase1, false⟩ := by
    intro x hx
    rcases horder with ⟨hev, -, -⟩ | ⟨hev, -⟩
    · rw [hev] at hx
      simpa using hx
    · rw [hev] at hx
      simp only [List.mem_append, List.mem_cons, List.mem_singleton, List.not_mem_nil,
        or_false] at hx
      tauto
  -- the stop event comes first
  have hstopfires : ∀ s : K, stopL = [⟨s, 1, Callback.StopApplication, false⟩] → s ≤ ts →
      s ≤ t0 + 5 →
      ∃ st', step firstDraw portDraw st = some st'
        ∧ Stopped t0 st' ∧ st'.sent = st.sent ∧ st'.m_phase1 = st.m_phase1
        ∧ phaseLog st' = phaseLog st ∧ st'.sim.now = s := by
    intro s hsl hs1 hs2
    subst hsl
    obtain ⟨l2, hev, hl2⟩ : ∃ l2, st.sim.events
        = [] ++ (⟨s, 1, Callback.StopApplication, false⟩ : Event K Callback) :: l2
        ∧ ∀ x ∈ l2, x = ⟨ts, us, Callback.SendSyn, false⟩
            ∨ x = ⟨t0 + 5, ue, Callback.EndPhase1, false⟩ := by
      rcases horder with ⟨hev, -, -⟩ | ⟨hev, -⟩
      · exact ⟨_, hev, by simp⟩
      · refine ⟨_, hev, ?_⟩
        intro x hx
        simp at hx
        tauto
    have hnext : st.sim.next = some (⟨s, 1, Callback.StopApplication, false⟩,
        { st.sim with now := s, events := [] ++ l2 }) := by
      refine Simulator.next_pick _ [] l2 _ hev (by simp) ?_
      intro x hx
      rcases hl2 x hx with rfl | rfl
      · exact ⟨Simulator.before_of_le _ _ hs1 (by dsimp only; omega), by dsimp only; omega⟩
      · exact ⟨Simulator.before_of_le _ _ hs2 (by dsimp only; omega), by dsimp only; omega⟩
    rw [step_fire _ _ _ _ _ hnext rfl]
    simp only [dispatch, Option.some.injEq, exists_eq_left']
    refine ⟨⟨?_, sentOk_of_early t0 _ hsent⟩, rfl, rfl, ?_, ?_⟩
    · intro y hy
      simp only [CancelEvents] at hy
      obtain ⟨x1, hx1, -, -, -, hc1, hc1'⟩ := Simulator.cancel_events_mem _ _ y hy
      obtain ⟨x2, hx2, -, hu2, -, hc2, hc2'⟩ := Simulator.cancel_events_mem _ _ x1 hx1
      simp only [List.nil_append] at hx2
      rcases hl2 x2 hx2 with rfl | rfl
      · exact hc1 (hc2' (by rw [hse]))
      · apply hc1'
        rw [hu2, hsse]
    · rw [phaseLog_of_fired _ st s Callback.StopApplication (by simp [CancelEvents])]
      simp
    · simp only [CancelEvents, Simulator.cancel_now]
  -- the send event comes first
  have hsendfires : ts < t0 + 5 → (∀ e ∈ stopL, ts < e.ts) →
      ∃ st', step firstDraw portDraw st = some st'
        ∧ st'.sim.now = ts ∧ st'.sent = st.sent ++ [(ts, GetRandomPort portDraw st)]
        ∧ ∃ ts', ts + 400 / 7452 ≤ ts' ∧ InPhase1 t0 stopL ts' st' := by
    intro hts5 hstoplate
    have hnext : st.sim.next = some (⟨ts, us, Callback.SendSyn, false⟩,
        { st.sim with now := ts,
                      events := stopL ++ [⟨t0 + 5, ue, Callback.EndPhase1, false⟩] }) := by
      have hstopside : ∀ x ∈ stopL,
          Simulator.before (⟨ts, us, Callback.SendSyn, false⟩ : Event K Callback) x = true
            ∧ x.uid ≠ us := by
        intro x hx
        refine ⟨Simulator.before_of_lt _ _ (hstoplate x hx), ?_⟩
        rcases hstop with rfl | ⟨s, rfl⟩
        · simp at hx
        · rw [List.mem_singleton] at hx
          subst hx
          dsimp only
          omega
      rcases horder with ⟨hev, h1, -⟩ | ⟨hev, h1⟩
      · have := Simulator.next_pick st.sim stopL [⟨t0 + 5, ue, Callback.EndPhase1, false⟩]
          ⟨ts, us, Callback.SendSyn, false⟩ hev hstopside
          (List.forall_mem_singleton.mpr
            ⟨Simulator.before_of_lt _ _ hts5, by dsimp only; omega⟩)
        exact this
      · have := Simulator.next_pick st.sim (stopL ++ [⟨t0 + 5, ue, Callback.EndPhase1, false⟩])
          [] ⟨ts, us, Callback.SendSyn, false⟩ (by rw [hev]; simp) ?_ (by simp)
        · simpa using this
        · intro x hx
          rcases List.mem_append.mp hx with hx | hx
          · exact hstopside x hx
          · rw [List.mem_singleton] at hx
            subst hx
            exact ⟨Simulator.before_of_lt _ _ hts5, by dsimp only; omega⟩
    obtain ⟨d, hd, hd1, hd2⟩ := calculateNextTime_phase1_all firstDraw hdraw st.m_seed
      ((st.m_pktSent + 1) % 2 ^ 32)
    rw [step_fire _ _ _ _ _ hnext rfl]
    simp only [dispatch, SendSyn, ScheduleSend, hp1, if_true, hd]
    simp only [Option.some.injEq, exists_eq_left']
    have hd0 : (0 : K) < 400 / 7452 := by norm_num
    have hd3 : (400 : K) / 168 < 3 := by norm_num
    refine ⟨rfl, rfl, ts + d, by linarith, ?_⟩
    simp only [InPhase1, Simulator.Schedule, List.append_assoc, List.singleton_append]
    refine ⟨st.sim.uid, ue, t0 + 5, rfl, Or.inr ⟨rfl, hueu⟩, by omega, hue, by omega, by omega,
      rfl, hsse, trivial, by linarith, hts5, by linarith, by linarith, ?_, ?_, ?_⟩
    · rw [phaseLog_of_fired _ st ts Callback.SendSyn rfl, hlog]
      simp
    · exact sentEarly_snoc t0 _ _ hsent (by dsimp only; linarith) hts5
    · rw [quietLog_of_fired t0 _ st ts Callback.SendSyn rfl, hq]
      simp
  -- the event `EndPhase1` comes first
  have hendfires : t0 + 5 ≤ ts → (∀ e ∈ stopL, t0 + 5 < e.ts) →
      ∃ st', step firstDraw portDraw st = some st'
        ∧ st'.sent = st.sent ∧ InGapStale t0 stopL st' := by
    intro hts5 hstoplate
    have hev : st.sim.events = stopL ++ [⟨t0 + 5, ue, Callback.EndPhase1, false⟩,
        ⟨ts, us, Callback.SendSyn, false⟩] ∧ ue < us := by
      rcases horder with ⟨-, -, h⟩ | ⟨hev, h⟩
      · exact absurd h (not_lt.mpr hts5)
      · exact ⟨hev, h⟩
    have hstopuid : ∀ x ∈ stopL, x.uid = 1 := by
      intro x hx
      rcases hstop with rfl | ⟨s, rfl⟩
      · simp at hx
      · rw [List.mem_singleton] at hx
        subst hx
        rfl
    have hnext : st.sim.next = some (⟨t0 + 5, ue, Callback.EndPhase1, false⟩,
        { st.sim with now := t0 + 5,
                      events := stopL ++ [⟨ts, us, Callback.SendSyn, false⟩] }) := by
      refine Simulator.next_pick st.sim stopL [⟨ts, us, Callback.SendSyn, false⟩]
        ⟨t0 + 5, ue, Callback.EndPhase1, false⟩ hev.1 ?_
        (List.forall_mem_singleton.mpr
          ⟨Simulator.before_of_le _ _ hts5 hev.2, by dsimp only; omega⟩)
      intro x hx
      exact ⟨Simulator.before_of_lt _ _ (hstoplate x hx), by rw [hstopuid x hx]; dsimp only; omega⟩
    have hmap1 : stopL.map (fun e : Event K Callback =>
        if e.uid = us then { e with cancelled := true } else e) = stopL := by
      rw [List.map_congr_left (g := id)]
      · simp
      · intro x hx
        rw [if_neg (by rw [hstopuid x hx]; omega)]
        rfl
    have hmap2 : stopL.map (fun e : Event K Callback =>
        if e.uid = ue then { e with cancelled := true } else e) = stopL := by
      rw [List.map_congr_left (g := id)]
      · simp
      · intro x hx
        rw [if_neg (by rw [hstopuid x hx]; omega)]
        rfl
    rw [step_fire _ _ _ _ _ hnext rfl]
    simp only [dispatch, EndPhase1, Option.some.injEq, exists_eq_left']
    refine ⟨rfl, ?_⟩
    simp only [InGapStale, CancelEvents, hse, hsse, Simulator.Cancel, Simulator.Schedule,
      List.map_append, hmap1, hmap2, List.map_cons, List.map_nil, if_true, if_neg hneq,
      List.append_assoc, List.singleton_append]
    refine ⟨us, st.sim.uid, ts, t0 + 5 + 10, by ring, rfl, husu, hus, by omega, rfl, rfl,
      trivial, trivial, hts5, hts15, ?_, hsent, ?_⟩
    · rw [phaseLog_of_fired _ st (t0 + 5) Callback.EndPhase1 rfl, hlog]
      simp
    · rw [quietLog_of_fired t0 _ st (t0 + 5) Callback.EndPhase1 rfl, hq]
      simp
  -- the three cases
  rcases hstop with hnil | ⟨s, hs⟩
  · subst hnil
    by_cases hts5 : ts < t0 + 5
    · obtain ⟨st', h1, h2, h3, h4⟩ := hsendfires hts5 (by simp)
      exact ⟨st', h1, Or.inl ⟨hts5, h2, by simp, h3, h4⟩⟩
    · obtain ⟨st', h1, h2, h3⟩ := hendfires (not_lt.mp hts5) (by simp)
      exact ⟨st', h1, Or.inr (Or.inl ⟨not_lt.mp hts5, by simp, h2, h3⟩)⟩
  · by_cases hsfirst : s ≤ ts ∧ s ≤ t0 + 5
    · obtain ⟨st', h1, h2, h3, h4, h5, h6⟩ := hstopfires s hs hsfirst.1 hsfirst.2
      exact ⟨st', h1, Or.inr (Or.inr ⟨h2, h3, h4, h5, s, hs, hsfirst.2, h6⟩)⟩
    · have hlate : ∀ lim : K, (lim = ts ∨ lim = t0 + 5) → lim ≤ ts → lim ≤ t0 + 5 →
          ∀ e ∈ stopL, lim < e.ts := by
        intro lim hl h1 h2 e he
        rw [hs, List.mem_singleton] at he
        subst he
        dsimp only
        by_contra hcon
        rcases hl with rfl | rfl
        · exact hsfirst ⟨not_lt.mp hcon, le_trans (not_lt.mp hcon) h2⟩
        · exact hsfirst ⟨le_trans (not_lt.mp hcon) h1, not_lt.mp hcon⟩
      by_cases hts5 : ts < t0 + 5
      · have hl := hlate ts (Or.inl rfl) le_rfl (le_of_lt hts5)
        obtain ⟨st', h1, h2, h3, h4⟩ := hsendfires hts5 hl
        exact ⟨st', h1, Or.inl ⟨hts5, h2, hl, h3, h4⟩⟩
      · have hl := hlate (t0 + 5) (Or.inr rfl) (not_lt.mp hts5) le_rfl
        obtain ⟨st', h1, h2, h3⟩ := hendfires (not_lt.mp hts5) hl
        exact ⟨st', h1, Or.inr (Or.inl ⟨not_lt.mp hts5, hl, h2, h3⟩)⟩

end StageSteps2

end SynFloodAttacker
namespace SynFloodAttacker

section StageSteps3

variable {K : Type} [LinearOrderedField K] [FloorRing K]

set_option linter.unusedSectionVars false

/-- In the gap the cancelled send event of phase 1 leaves the list without
running. -/
theorem inGapStale_step (firstDraw : Nat → K) (portDraw : Nat → Nat) (t0 : K)
    (stopL : List (Event K Callback)) (hstop : IsStopList stopL) (st : State K)
    (h : InGapStale t0 stopL st) :
    ∃ st', step firstDraw portDraw st = some st'
      ∧ ((InGap t0 stopL st' ∧ st'.sent = st.sent)
        ∨ (Stopped t0 st' ∧ st'.sent = st.sent ∧ st'.m_phase1 = st.m_phase1
            ∧ phaseLog st' = phaseLog st
            ∧ ∃ s, stopL = [⟨s, 1, Callback.StopApplication, false⟩] ∧ s ≤ t0 + 25)) := by
  obtain ⟨us, ue, ts, tp, htp, hev, hlt, hus, hueu, hse, hsse, hp1, hnow, hts5, hts15, hlog,
    hsent, hq⟩ := h
  subst htp
  have hskip : (∀ e ∈ stopL, ts < e.ts) →
      ∃ st', step firstDraw portDraw st = some st' ∧ InGap t0 stopL st'
        ∧ st'.sent = st.sent := by
    intro hlate
    have hnext : st.sim.next = some (⟨ts, us, Callback.SendSyn, true⟩,
        { st.sim with now := ts,
                      events := stopL ++ [⟨t0 + 15, ue, Callback.StartPhase2, false⟩] }) := by
      refine Simulator.next_pick st.sim stopL [⟨t0 + 15, ue, Callback.StartPhase2, false⟩]
        ⟨ts, us, Callback.SendSyn, true⟩ hev ?_
        (List.forall_mem_singleton.mpr
          ⟨Simulator.before_of_lt _ _ hts15, by dsimp only; omega⟩)
      intro x hx
      exact ⟨Simulator.before_of_lt _ _ (hlate x hx),
        by rw [(isStopList_uid stopL hstop x hx).1]; dsimp only; omega⟩
    rw [step_skip _ _ _ _ _ hnext rfl]
    simp only [Option.some.injEq, exists_eq_left']
    exact ⟨⟨us, ue, t0 + 15, rfl, rfl, hlt, hus, hueu, hse, hsse, hp1, hts5, hts15, hlog,
      hsent, hq⟩, trivial⟩
  rcases hstop with hnil | ⟨s, hs⟩
  · subst hnil
    obtain ⟨st', h1, h2, h3⟩ := hskip (by simp)
    exact ⟨st', h1, Or.inl ⟨h2, h3⟩⟩
  · by_cases hsfirst : s ≤ ts
    · subst hs
      obtain ⟨st', h1, h2, h3, h4, h5, -⟩ := stop_fires firstDraw portDraw t0 st s _ hev
        (by
          intro x hx
          simp at hx
          rcases hx with rfl | rfl
          · exact ⟨hsfirst, by dsimp only; omega⟩
          · exact ⟨by dsimp only; linarith, by dsimp only; omega⟩)
        (by
          intro x hx
          simp at hx
          rcases hx with rfl | rfl
          · exact Or.inl rfl
          · exact Or.inr (Or.inr hsse))
        (sentOk_of_early t0 _ hsent)
      exact ⟨st', h1, Or.inr ⟨h2, h3, h4, h5, s, rfl, by linarith⟩⟩
    · obtain ⟨st', h1, h2, h3⟩ := hskip (by
        intro e he
        rw [hs, List.mem_singleton] at he
        subst he
        exact lt_of_not_le hsfirst)
      exact ⟨st', h1, Or.inl ⟨h2, h3⟩⟩

/-- At `t0 + 15` the function `StartPhase2` runs and schedules the packet of
phase 2 and `EndPhase2`. -/
theorem inGap_step (firstDraw : Nat → K) (portDraw : Nat → Nat)
    (hdraw : ∀ s, 0 ≤ firstDraw s ∧ firstDraw s < 1) (t0 : K)
    (stopL : List (Event K Callback)) (hstop : IsStopList stopL) (st : State K)
    (h : InGap t0 stopL st) :
    ∃ st', step firstDraw portDraw st = some st'
      ∧ ((∃ ts, InPhase2 t0 stopL ts st' ∧ st'.sent = st.sent)
        ∨ (Stopped t0 st' ∧ st'.sent = st.sent ∧ st'.m_phase1 = st.m_phase1
            ∧ phaseLog st' = phaseLog st
            ∧ ∃ s, stopL = [⟨s, 1, Callback.StopApplication, false⟩] ∧ s ≤ t0 + 25)) := by
  obtain ⟨us, ue, tp, htp, hev, hlt, hus, hueu, hse, hsse, hp1, hnow5, hnow15, hlog, hsent,
    hq⟩ := h
  subst htp
  have hfire : (∀ e ∈ stopL, t0 + 15 < e.ts) →
      ∃ st', step firstDraw portDraw st = some st'
        ∧ ∃ ts, InPhase2 t0 stopL ts st' ∧ st'.sent = st.sent := by
    intro hlate
    have hnext : st.sim.next = some (⟨t0 + 15, ue, Callback.StartPhase2, false⟩,
        { st.sim with now := t0 + 15, events := stopL ++ [] }) := by
      refine Simulator.next_pick st.sim stopL [] ⟨t0 + 15, ue, Callback.StartPhase2, false⟩ hev
        ?_ (by simp)
      intro x hx
      exact ⟨Simulator.before_of_lt _ _ (hlate x hx),
        by rw [(isStopList_uid stopL hstop x hx).1]; dsimp only; omega⟩
    obtain ⟨d, hd, hd1, hd2⟩ := calculateNextTime_phase2_all firstDraw hdraw st.m_seed
      st.m_pktSent
    obtain ⟨hw0, hw1⟩ := hdraw st.m_seed
    have hdw0 : 0 ≤ d * firstDraw st.m_seed :=
      mul_nonneg (le_trans (by norm_num) hd1) hw0
    rw [step_fire _ _ _ _ _ hnext rfl]
    simp only [dispatch, StartPhase2, CancelEvents, hd, Option.some.injEq, exists_eq_left']
    refine ⟨t0 + 15 + d * firstDraw st.m_seed, ?_, trivial⟩
    simp only [InPhase2, hse, hsse, Simulator.Cancel, Simulator.Schedule, List.append_nil,
      map_cancel_stop stopL hstop us hus, map_cancel_stop stopL hstop ue (by omega),
      List.append_assoc, List.singleton_append]
    refine ⟨st.sim.uid, st.sim.uid + 1, t0 + 15 + 10, by ring, rfl, by omega, by omega,
      by omega, rfl, rfl, hp1, trivial, by linarith, ?_, hsent, ?_⟩
    · rw [phaseLog_of_fired _ st (t0 + 15) Callback.StartPhase2 rfl, hlog]
      simp
    · rw [quietLog_of_fired t0 _ st (t0 + 15) Callback.StartPhase2 rfl, hq]
      simp
  rcases hstop with hnil | ⟨s, hs⟩
  · subst hnil
    obtain ⟨st', h1, h2⟩ := hfire (by simp)
    exact ⟨st', h1, Or.inl h2⟩
  · by_cases hsfirst : s ≤ t0 + 15
    · subst hs
      obtain ⟨st', h1, h2, h3, h4, h5, -⟩ := stop_fires firstDraw portDraw t0 st s _ hev
        (by
          intro x hx
          simp at hx
          subst hx
          exact ⟨hsfirst, by dsimp only; omega⟩)
        (by
          intro x hx
          simp at hx
          subst hx
          exact Or.inr (Or.inr hsse))
        (sentOk_of_early t0 _ hsent)
      exact ⟨st', h1, Or.inr ⟨h2, h3, h4, h5, s, rfl, by linarith⟩⟩
    · obtain ⟨st', h1, h2⟩ := hfire (by
        intro e he
        rw [hs, List.mem_singleton] at he
        subst he
        exact lt_of_not_le hsfirst)
      exact ⟨st', h1, Or.inl h2⟩

end StageSteps3

end SynFloodAttacker
namespace SynFloodAttacker

section StageSteps4

variable {K : Type} [LinearOrderedField K] [FloorRing K]

set_option linter.unusedSectionVars false

/-- In phase 2 the pending send event runs if its time is at most `t0 + 25`,
and the next send is then scheduled after `t0 + 25`; otherwise `EndPhase2`
runs. -/
theorem inPhase2_step (firstDraw : Nat → K) (portDraw : Nat → Nat)
    (hdraw : ∀ s, 0 ≤ firstDraw s ∧ firstDraw s < 1) (t0 : K)
    (stopL : List (Event K Callback)) (hstop : IsStopList stopL) (ts : K) (st : State K)
    (h : InPhase2 t0 stopL ts st) :
    ∃ st', step firstDraw portDraw st = some st'
      ∧ ((ts ≤ t0 + 25 ∧ InPhase2Sent t0 stopL st'
            ∧ st'.sent = st.sent ++ [(ts, GetRandomPort portDraw st)])
        ∨ (t0 + 25 < ts ∧ AfterPhase2 t0 st' ∧ st'.sent = st.sent ∧ st'.sim.now = t0 + 25)
        ∨ (Stopped t0 st' ∧ st'.sent = st.sent ∧ st'.m_phase1 = st.m_phase1
            ∧ phaseLog st' = phaseLog st
            ∧ ∃ s, stopL = [⟨s, 1, Callback.StopApplication, false⟩] ∧ s ≤ t0 + 25)) := by
  obtain ⟨us, ue, te, hte, hev, hlt, hus, hueu, hse, hsse, hp1, hnow, hts15, hlog, hsent,
    hq⟩ := h
  subst hte
  have hsendfires : ts ≤ t0 + 25 → (∀ e ∈ stopL, ts < e.ts) →
      ∃ st', step firstDraw portDraw st = some st' ∧ InPhase2Sent t0 stopL st'
        ∧ st'.sent = st.sent ++ [(ts, GetRandomPort portDraw st)] := by
    intro hts25 hlate
    have hnext : st.sim.next = some (⟨ts, us, Callback.SendSyn, false⟩,
        { st.sim with now := ts,
                      events := stopL ++ [⟨t0 + 25, ue, Callback.EndPhase2, false⟩] }) := by
      refine Simulator.next_pick st.sim stopL [⟨t0 + 25, ue, Callback.EndPhase2, false⟩]
        ⟨ts, us, Callback.SendSyn, false⟩ hev ?_
        (List.forall_mem_singleton.mpr
          ⟨Simulator.before_of_le _ _ hts25 hlt, by dsimp only; omega⟩)
      intro x hx
      exact ⟨Simulator.before_of_lt _ _ (hlate x hx),
        by rw [(isStopList_uid stopL hstop x hx).1]; dsimp only; omega⟩
    obtain ⟨d, hd, hd1, hd2⟩ := calculateNextTime_phase2_all firstDraw hdraw st.m_seed
      ((st.m_pktSent + 1) % 2 ^ 32)
    have hd3 : (10 : K) < 400 / 14 := by norm_num
    rw [step_fire _ _ _ _ _ hnext rfl]
    simp only [dispatch, SendSyn, ScheduleSend, hp1, Bool.false_eq_true, if_false, hd,
      Option.some.injEq, exists_eq_left']
    refine ⟨?_, rfl⟩
    simp only [InPhase2Sent, Simulator.Schedule, List.append_assoc, List.singleton_append]
    exact ⟨st.sim.uid, ue, ts + d, t0 + 25, st.sent, GetRandomPort portDraw st, rfl, rfl, hueu,
      by omega, by omega, rfl, hsse, trivial, hts15, hts25, by linarith,
      by rw [phaseLog_of_fired _ st ts Callback.SendSyn rfl, hlog]; simp, rfl, hsent,
      by rw [quietLog_of_fired t0 _ st ts Callback.SendSyn rfl, hq]; simp⟩
  have hendfires : t0 + 25 < ts → (∀ e ∈ stopL, t0 + 25 < e.ts) →
      ∃ st', step firstDraw portDraw st = some st' ∧ AfterPhase2 t0 st'
        ∧ st'.sent = st.sent ∧ st'.sim.now = t0 + 25 := by
    intro hts25 hlate
    have hnext : st.sim.next = some (⟨t0 + 25, ue, Callback.EndPhase2, false⟩,
        { st.sim with now := t0 + 25,
                      events := stopL ++ ⟨ts, us, Callback.SendSyn, false⟩ :: [] }) := by
      refine Simulator.next_pick st.sim (stopL ++ [⟨ts, us, Callback.SendSyn, false⟩]) []
        ⟨t0 + 25, ue, Callback.EndPhase2, false⟩ (by rw [hev]; simp) ?_ (by simp) |>.trans ?_
      · intro x hx
        rcases List.mem_append.mp hx with hx | hx
        · exact ⟨Simulator.before_of_lt _ _ (hlate x hx),
            by rw [(isStopList_uid stopL hstop x hx).1]; dsimp only; omega⟩
        · rw [List.mem_singleton] at hx
          subst hx
          exact ⟨Simulator.before_of_lt _ _ hts25, by dsimp only; omega⟩
      · simp
    rw [step_fire _ _ _ _ _ hnext rfl]
    simp only [dispatch, EndPhase2, Option.some.injEq, exists_eq_left']
    refine ⟨?_, rfl, by simp only [CancelEvents, Simulator.cancel_now]⟩
    simp only [AfterPhase2, CancelEvents, hse, hsse, Simulator.Cancel, List.map_append,
      map_cancel_stop stopL hstop us hus, map_cancel_stop stopL hstop ue (by omega),
      List.map_cons, List.map_nil, if_true, if_neg (show ¬ us = ue by omega)]
    refine ⟨?_, ?_, le_rfl, hp1, ?_, sentOk_of_early t0 _ hsent⟩
    · intro e he
      rcases List.mem_append.mp he with he | he
      · exact Or.inr (isStopList_uid stopL hstop e he).2.1
      · rw [List.mem_singleton] at he
        subst he
        exact Or.inl rfl
    · intro e he
      rcases List.mem_append.mp he with he | he
      · exact le_of_lt (hlate e he)
      · rw [List.mem_singleton] at he
        subst he
        exact le_of_lt hts25
    · rw [phaseLog_of_fired _ st (t0 + 25) Callback.EndPhase2 rfl, hlog]
      simp
  have hown : ∀ x ∈ [(⟨ts, us, Callback.SendSyn, false⟩ : Event K Callback),
      ⟨t0 + 25, ue, Callback.EndPhase2, false⟩],
      x.cancelled = true ∨ st.m_sendEvent = some x.uid ∨ st.m_startStopEvent = some x.uid := by
    intro x hx
    simp at hx
    rcases hx with rfl | rfl
    · exact Or.inr (Or.inl hse)
    · exact Or.inr (Or.inr hsse)
  rcases hstop with hnil | ⟨s, hs⟩
  · subst hnil
    by_cases hts25 : ts ≤ t0 + 25
    · obtain ⟨st', h1, h2, h3⟩ := hsendfires hts25 (by simp)
      exact ⟨st', h1, Or.inl ⟨hts25, h2, h3⟩⟩
    · obtain ⟨st', h1, h2, h3, h4⟩ := hendfires (lt_of_not_le hts25) (by simp)
      exact ⟨st', h1, Or.inr (Or.inl ⟨lt_of_not_le hts25, h2, h3, h4⟩)⟩
  · by_cases hsfirst : s ≤ ts ∧ s ≤ t0 + 25
    · subst hs
      obtain ⟨st', h1, h2, h3, h4, h5, -⟩ := stop_fires firstDraw portDraw t0 st s _ hev
        (by
          intro x hx
          simp at hx
          rcases hx with rfl | rfl
          · exact ⟨hsfirst.1, by dsimp only; omega⟩
          · exact ⟨hsfirst.2, by dsimp only; omega⟩)
        (by
          intro x hx
          exact hown x (by simpa using hx))
        (sentOk_of_early t0 _ hsent)
      exact ⟨st', h1, Or.inr (Or.inr ⟨h2, h3, h4, h5, s, rfl, hsfirst.2⟩)⟩
    · by_cases hts25 : ts ≤ t0 + 25
      · obtain ⟨st', h1, h2, h3⟩ := hsendfires hts25 (by
          intro e he
          rw [hs, List.mem_singleton] at he
          subst he
          dsimp only
          by_contra hcon
          exact hsfirst ⟨not_lt.mp hcon, le_trans (not_lt.mp hcon) hts25⟩)
        exact ⟨st', h1, Or.inl ⟨hts25, h2, h3⟩⟩
      · obtain ⟨st', h1, h2, h3, h4⟩ := hendfires (lt_of_not_le hts25) (by
          intro e he
          rw [hs, List.mem_singleton] at he
          subst he
          dsimp only
          by_contra hcon
          exact hsfirst ⟨le_trans (not_lt.mp hcon) (le_of_lt (lt_of_not_le hts25)),
            not_lt.mp hcon⟩)
        exact ⟨st', h1, Or.inr (Or.inl ⟨lt_of_not_le hts25, h2, h3, h4⟩)⟩

/-- After the packet of phase 2, `EndPhase2` runs at `t0 + 25` and cancels the
next send event. -/
theorem inPhase2Sent_step (firstDraw : Nat → K) (portDraw : Nat → Nat) (t0 : K)
    (stopL : List (Event K Callback)) (hstop : IsStopList stopL) (st : State K)
    (h : InPhase2Sent t0 stopL st) :
    ∃ st', step firstDraw portDraw st = some st'
      ∧ ((AfterPhase2 t0 st' ∧ st'.sent = st.sent ∧ st'.sim.now = t0 + 25)
        ∨ (Stopped t0 st' ∧ st'.sent = st.sent ∧ st'.m_phase1 = st.m_phase1
            ∧ phaseLog st' = phaseLog st
            ∧ ∃ s, stopL = [⟨s, 1, Callback.StopApplication, false⟩] ∧ s ≤ t0 + 25)) := by
  obtain ⟨us, ue, ts, te, early, port, hte, hev, hlt, hue, husu, hse, hsse, hp1, hnow15, hnow25,
    hts25, hlog, hsenteq, hearly, hq⟩ := h
  subst hte
  have hsentok : SentOk t0 st.sent :=
    ⟨early, [(st.sim.now, port)], hsenteq, hearly, by simp, by
      intro p hp
      rw [List.mem_singleton] at hp
      subst hp
      exact ⟨hnow15, hnow25⟩⟩
  have hendfires : (∀ e ∈ stopL, t0 + 25 < e.ts) →
      ∃ st', step firstDraw portDraw st = some st' ∧ AfterPhase2 t0 st'
        ∧ st'.sent = st.sent ∧ st'.sim.now = t0 + 25 := by
    intro hlate
    have hnext : st.sim.next = some (⟨t0 + 25, ue, Callback.EndPhase2, false⟩,
        { st.sim with now := t0 + 25,
                      events := stopL ++ [⟨ts, us, Callback.SendSyn, false⟩] }) := by
      refine Simulator.next_pick st.sim stopL [⟨ts, us, Callback.SendSyn, false⟩]
        ⟨t0 + 25, ue, Callback.EndPhase2, false⟩ hev ?_
        (List.forall_mem_singleton.mpr
          ⟨Simulator.before_of_lt _ _ hts25, by dsimp only; omega⟩)
      intro x hx
      exact ⟨Simulator.before_of_lt _ _ (hlate x hx),
        by rw [(isStopList_uid stopL hstop x hx).1]; dsimp only; omega⟩
    rw [step_fire _ _ _ _ _ hnext rfl]
    simp only [dispatch, EndPhase2, Option.some.injEq, exists_eq_left']
    refine ⟨?_, rfl, by simp only [CancelEvents, Simulator.cancel_now]⟩
    simp only [AfterPhase2, CancelEvents, hse, hsse, Simulator.Cancel, List.map_append,
      map_cancel_stop stopL hstop us (by omega), map_cancel_stop stopL hstop ue hue,
      List.map_cons, List.map_nil, if_true, if_neg (show ¬ us = ue by omega)]
    refine ⟨?_, ?_, le_rfl, hp1, ?_, hsentok⟩
    · intro e he
      rcases List.mem_append.mp he with he | he
      · exact Or.inr (isStopList_uid stopL hstop e he).2.1
      · rw [List.mem_singleton] at he
        subst he
        exact Or.inl rfl
    · intro e he
      rcases List.mem_append.mp he with he | he
      · exact le_of_lt (hlate e he)
      · rw [List.mem_singleton] at he
        subst he
        exact le_of_lt hts25
    · rw [phaseLog_of_fired _ st (t0 + 25) Callback.EndPhase2 rfl, hlog]
      simp
  rcases hstop with hnil | ⟨s, hs⟩
  · subst hnil
    obtain ⟨st', h1, h2⟩ := hendfires (by simp)
    exact ⟨st', h1, Or.inl h2⟩
  · by_cases hsfirst : s ≤ t0 + 25
    · subst hs
      obtain ⟨st', h1, h2, h3, h4, h5, -⟩ := stop_fires firstDraw portDraw t0 st s _ hev
        (by
          intro x hx
          simp at hx
          rcases hx with rfl | rfl
          · exact ⟨hsfirst, by dsimp only; omega⟩
          · exact ⟨by dsimp only; linarith, by dsimp only; omega⟩)
        (by
          intro x hx
          simp at hx
          rcases hx with rfl | rfl
          · exact Or.inr (Or.inr hsse)
          · exact Or.inr (Or.inl hse))
        hsentok
      exact ⟨st', h1, Or.inr ⟨h2, h3, h4, h5, s, rfl, hsfirst⟩⟩
    · obtain ⟨st', h1, h2⟩ := hendfires (by
        intro e he
        rw [hs, List.mem_singleton] at he
        subst he
        exact lt_of_not_le hsfirst)
      exact ⟨st', h1, Or.inl h2⟩

end StageSteps4

end SynFloodAttacker
namespace SynFloodAttacker

section QuietSteps

variable {K : Type} [LinearOrderedField K] [FloorRing K]

set_option linter.unusedSectionVars false

/-- After `EndPhase2` nothing but the stop event runs. -/
theorem afterPhase2_step (firstDraw : Nat → K) (portDraw : Nat → Nat) (t0 : K) (st : State K)
    (h : AfterPhase2 t0 st) :
    ∃ st', step firstDraw portDraw st = some st' ∧ AfterPhase2 t0 st'
      ∧ st'.sent = st.sent := by
  obtain ⟨hquiet, hts, hnow, hp1, hlog, hsent⟩ := h
  cases hnext : st.sim.next with
  | none => exact ⟨st, step_idle _ _ _ hnext, ⟨hquiet, hts, hnow, hp1, hlog, hsent⟩, rfl⟩
  | some r =>
    obtain ⟨e, sim'⟩ := r
    obtain ⟨hmem, hsim⟩ := Simulator.next_some _ _ _ hnext
    have hsub : ∀ x ∈ sim'.events, x ∈ st.sim.events := by
      intro x hx
      rw [hsim] at hx
      exact (List.mem_filter.mp hx).1
    have hnow' : sim'.now = e.ts := by rw [hsim]
    cases hc : e.cancelled with
    | true =>
      refine ⟨_, step_skip _ _ _ _ _ hnext hc, ⟨?_, ?_, ?_, hp1, hlog, hsent⟩, rfl⟩
      · intro x hx
        exact hquiet x (hsub x hx)
      · intro x hx
        exact hts x (hsub x hx)
      · show t0 + 25 ≤ sim'.now
        rw [hnow']
        exact hts e hmem
    | false =>
      have hcb : e.callback = Callback.StopApplication := by
        rcases hquiet e hmem with h | h
        · rw [hc] at h
          cases h
        · exact h
      rw [step_fire _ _ _ _ _ hnext hc, hcb]
      simp only [dispatch, Option.some.injEq, exists_eq_left']
      refine ⟨⟨?_, ?_, ?_, hp1, ?_, hsent⟩, rfl⟩
      · intro y hy
        simp only [CancelEvents] at hy
        obtain ⟨x1, hx1, -, -, hcb1, hc1, -⟩ := Simulator.cancel_events_mem _ _ y hy
        obtain ⟨x2, hx2, -, -, hcb2, hc2, -⟩ := Simulator.cancel_events_mem _ _ x1 hx1
        rcases hquiet x2 (hsub x2 hx2) with h | h
        · exact Or.inl (hc1 (hc2 h))
        · exact Or.inr (by rw [hcb1, hcb2, h])
      · intro y hy
        simp only [CancelEvents] at hy
        obtain ⟨x1, hx1, ht1, -, -, -, -⟩ := Simulator.cancel_events_mem _ _ y hy
        obtain ⟨x2, hx2, ht2, -, -, -, -⟩ := Simulator.cancel_events_mem _ _ x1 hx1
        rw [ht1, ht2]
        exact hts x2 (hsub x2 hx2)
      · simp only [CancelEvents, Simulator.cancel_now]
        rw [hnow']
        exact hts e hmem
      · rw [phaseLog_of_fired _ st e.ts Callback.StopApplication (by simp [CancelEvents]),
          hlog]
        simp

/-- After `StopApplication` has cancelled the events, nothing runs. -/
theorem stopped_step (firstDraw : Nat → K) (portDraw : Nat → Nat) (t0 : K) (st : State K)
    (h : Stopped t0 st) :
    ∃ st', step firstDraw portDraw st = some st' ∧ Stopped t0 st' ∧ st'.sent = st.sent
      ∧ st'.fired = st.fired := by
  obtain ⟨hall, hsent⟩ := h
  cases hnext : st.sim.next with
  | none => exact ⟨st, step_idle _ _ _ hnext, ⟨hall, hsent⟩, rfl, rfl⟩
  | some r =>
    obtain ⟨e, sim'⟩ := r
    obtain ⟨hmem, hsim⟩ := Simulator.next_some _ _ _ hnext
    refine ⟨_, step_skip _ _ _ _ _ hnext (hall e hmem), ⟨?_, hsent⟩, rfl, rfl⟩
    intro x hx
    have hx' : x ∈ sim'.events := hx
    rw [hsim] at hx'
    exact hall x (List.mem_filter.mp hx').1

/-- The states `Reach` are closed under the turns of the simulator, and every
turn returns. -/
theorem reach_step (firstDraw : Nat → K) (portDraw : Nat → Nat)
    (hdraw : ∀ s, 0 ≤ firstDraw s ∧ firstDraw s < 1) (t0 : K) (st : State K)
    (h : Reach t0 st) :
    ∃ st', step firstDraw portDraw st = some st' ∧ Reach t0 st' := by
  rcases h with ⟨stopL, hstop, hlive⟩ | h | h
  · rcases hlive with h | ⟨ts, h⟩ | h | h | ⟨ts, h⟩ | h
    · obtain ⟨st', h1, h2⟩ := atStart_step firstDraw portDraw hdraw t0 stopL hstop st h
      refine ⟨st', h1, ?_⟩
      rcases h2 with ⟨ts, h2, -, -⟩ | ⟨h2, -⟩
      · exact Or.inl ⟨stopL, hstop, Or.inr (Or.inl ⟨ts, h2⟩)⟩
      · exact Or.inl ⟨[], Or.inl rfl, Or.inl h2⟩
    · obtain ⟨st', h1, h2⟩ := inPhase1_step firstDraw portDraw hdraw t0 stopL hstop ts st h
      refine ⟨st', h1, ?_⟩
      rcases h2 with ⟨-, -, -, -, ts', -, h2⟩ | ⟨-, -, -, h2⟩ | ⟨h2, -⟩
      · exact Or.inl ⟨stopL, hstop, Or.inr (Or.inl ⟨ts', h2⟩)⟩
      · exact Or.inl ⟨stopL, hstop, Or.inr (Or.inr (Or.inl h2))⟩
      · exact Or.inr (Or.inr h2)
    · obtain ⟨st', h1, h2⟩ := inGapStale_step firstDraw portDraw t0 stopL hstop st h
      refine ⟨st', h1, ?_⟩
      rcases h2 with ⟨h2, -⟩ | ⟨h2, -⟩
      · exact Or.inl ⟨stopL, hstop, Or.inr (Or.inr (Or.inr (Or.inl h2)))⟩
      · exact Or.inr (Or.inr h2)
    · obtain ⟨st', h1, h2⟩ := inGap_step firstDraw portDraw hdraw t0 stopL hstop st h
      refine ⟨st', h1, ?_⟩
      rcases h2 with ⟨ts, h2, -⟩ | ⟨h2, -⟩
      · exact Or.inl ⟨stopL, hstop, Or.inr (Or.inr (Or.inr (Or.inr (Or.inl ⟨ts, h2⟩))))⟩
      · exact Or.inr (Or.inr h2)
    · obtain ⟨st', h1, h2⟩ := inPhase2_step firstDraw portDraw hdraw t0 stopL hstop ts st h
      refine ⟨st', h1, ?_⟩
      rcases h2 with ⟨-, h2, -⟩ | ⟨-, h2, -⟩ | ⟨h2, -⟩
      · exact Or.inl ⟨stopL, hstop, Or.inr (Or.inr (Or.inr (Or.inr (Or.inr h2))))⟩
      · exact Or.inr (Or.inl h2)
      · exact Or.inr (Or.inr h2)
    · obtain ⟨st', h1, h2⟩ := inPhase2Sent_step firstDraw portDraw t0 stopL hstop st h
      refine ⟨st', h1, ?_⟩
      rcases h2 with ⟨h2, -⟩ | ⟨h2, -⟩
      · exact Or.inr (Or.inl h2)
      · exact Or.inr (Or.inr h2)
  · obtain ⟨st', h1, h2, -⟩ := afterPhase2_step firstDraw portDraw t0 st h
    exact ⟨st', h1, Or.inr (Or.inl h2)⟩
  · obtain ⟨st', h1, h2, -⟩ := stopped_step firstDraw portDraw t0 st h
    exact ⟨st', h1, Or.inr (Or.inr h2)⟩

theorem reach_run (firstDraw : Nat → K) (portDraw : Nat → Nat)
    (hdraw : ∀ s, 0 ≤ firstDraw s ∧ firstDraw s < 1) (t0 : K) :
    ∀ (n : Nat) (st : State K), Reach t0 st →
      ∃ st', run firstDraw portDraw n st = some st' ∧ Reach t0 st' := by
  intro n
  induction n with
  | zero => intro st h; exact ⟨st, rfl, h⟩
  | succ n ih =>
    intro st h
    obtain ⟨st1, h1, h2⟩ := reach_step firstDraw portDraw hdraw t0 st h
    obtain ⟨st2, h3, h4⟩ := ih st1 h2
    exact ⟨st2, (run_succ _ _ n _ _ h1).trans h3, h4⟩

/-- The application before the simulation runs is at its start. -/
theorem init_atStart (m_seed : Nat) (m_phase1 : Bool) (t0 : K) (stopTime : Option K) :
    ∃ stopL, IsStopList stopL ∧ AtStart t0 stopL (init m_seed m_phase1 t0 stopTime)
      ∧ ∀ e ∈ stopL, stopTime = some e.ts := by
  cases stopTime with
  | none =>
    exact ⟨[], Or.inl rfl, ⟨rfl, rfl, rfl, rfl, rfl, rfl, rfl, rfl⟩, by simp⟩
  | some s =>
    refine ⟨[⟨s, 1, Callback.StopApplication, false⟩], Or.inr ⟨s, rfl⟩,
      ⟨rfl, rfl, rfl, rfl, rfl, rfl, rfl, rfl⟩, ?_⟩
    intro e he
    rw [List.mem_singleton] at he
    subst he
    rfl

theorem reach_sentOk (t0 : K) (st : State K) (h : Reach t0 st) : SentOk t0 st.sent := by
  rcases h with ⟨stopL, -, hlive⟩ | h | h
  · rcases hlive with h | ⟨ts, h⟩ | h | h | ⟨ts, h⟩ | h
    · obtain ⟨-, -, -, -, hsent, -⟩ := h
      rw [hsent]
      exact sentOk_of_early t0 [] (by intro p hp; simp at hp)
    · obtain ⟨us, ue, te, -, -, -, -, -, -, -, -, -, -, -, -, -, -, hsent, -⟩ := h
      exact sentOk_of_early t0 _ hsent
    · obtain ⟨us, ue, ts, tp, -, -, -, -, -, -, -, -, -, -, -, -, hsent, -⟩ := h
      exact sentOk_of_early t0 _ hsent
    · obtain ⟨us, ue, tp, -, -, -, -, -, -, -, -, -, -, -, hsent, -⟩ := h
      exact sentOk_of_early t0 _ hsent
    · obtain ⟨us, ue, te, -, -, -, -, -, -, -, -, -, -, -, hsent, -⟩ := h
      exact sentOk_of_early t0 _ hsent
    · obtain ⟨us, ue, ts, te, early, port, -, -, -, -, -, -, -, -, h15, h25, -, -, hsent, hearly,
        -⟩ := h
      exact ⟨early, [(st.sim.now, port)], hsent, hearly, by simp, by
        intro p hp
        rw [List.mem_singleton] at hp
        subst hp
        exact ⟨h15, h25⟩⟩
  · exact h.2.2.2.2.2
  · exact h.2

theorem reach_quiet (t0 : K) (st : State K) (h : Reach t0 st) (hq : quietLog t0 st ≠ []) :
    NoSendOrPhasePending st.sim.events := by
  rcases h with ⟨stopL, -, hlive⟩ | h | h
  · exfalso
    apply hq
    rcases hlive with h | ⟨ts, h⟩ | h | h | ⟨ts, h⟩ | h
    · exact h.2.2.2.2.2.2.2
    · obtain ⟨us, ue, te, -, -, -, -, -, -, -, -, -, -, -, -, -, -, -, h⟩ := h
      exact h
    · obtain ⟨us, ue, ts, tp, -, -, -, -, -, -, -, -, -, -, -, -, -, h⟩ := h
      exact h
    · obtain ⟨us, ue, tp, -, -, -, -, -, -, -, -, -, -, -, -, h⟩ := h
      exact h
    · obtain ⟨us, ue, te, -, -, -, -, -, -, -, -, -, -, -, -, h⟩ := h
      exact h
    · obtain ⟨us, ue, ts, te, early, port, -, -, -, -, -, -, -, -, -, -, -, -, -, -, h⟩ := h
      exact h
  · intro e he hc
    rcases h.1 e he with h' | h'
    · rw [hc] at h'
      cases h'
    · exact Or.inr h'
  · intro e he hc
    have := h.1 e he
    rw [hc] at this
    cases this

end QuietSteps

end SynFloodAttacker
namespace SynFloodAttacker

section RunningSteps

variable {K : Type} [LinearOrderedField K] [FloorRing K]

set_option linter.unusedSectionVars false

theorem not_stopped_early (t0 : K) (stopL : List (Event K Callback))
    (hlate : ∀ e ∈ stopL, t0 + 25 < e.ts) (bound : K) (hb : bound ≤ t0 + 25) :
    ¬ ∃ s, stopL = [⟨s, 1, Callback.StopApplication, false⟩] ∧ s ≤ bound := by
  rintro ⟨s, hs, hle⟩
  have := hlate ⟨s, 1, Callback.StopApplication, false⟩ (by rw [hs]; simp)
  dsimp only at this
  linarith

theorem running_step (firstDraw : Nat → K) (portDraw : Nat → Nat)
    (hdraw : ∀ s, 0 ≤ firstDraw s ∧ firstDraw s < 1) (t0 : K) (st : State K)
    (h : Running t0 st) :
    ∃ st', step firstDraw portDraw st = some st' ∧ Running t0 st' := by
  rcases h with ⟨stopL, hstop, hlate, hlive⟩ | h
  · rcases hlive with ⟨ts, h⟩ | h | h | ⟨ts, h⟩ | h
    · obtain ⟨st', h1, h2⟩ := inPhase1_step firstDraw portDraw hdraw t0 stopL hstop ts st h
      refine ⟨st', h1, ?_⟩
      rcases h2 with ⟨-, -, -, -, ts', -, h2⟩ | ⟨-, -, -, h2⟩ | ⟨-, -, -, -, s, hs, hle, -⟩
      · exact Or.inl ⟨stopL, hstop, hlate, Or.inl ⟨ts', h2⟩⟩
      · exact Or.inl ⟨stopL, hstop, hlate, Or.inr (Or.inl h2)⟩
      · exact absurd ⟨s, hs, hle⟩ (not_stopped_early t0 stopL hlate (t0 + 5) (by linarith))
    · obtain ⟨st', h1, h2⟩ := inGapStale_step firstDraw portDraw t0 stopL hstop st h
      refine ⟨st', h1, ?_⟩
      rcases h2 with ⟨h2, -⟩ | ⟨-, -, -, -, hex⟩
      · exact Or.inl ⟨stopL, hstop, hlate, Or.inr (Or.inr (Or.inl h2))⟩
      · exact absurd hex (not_stopped_early t0 stopL hlate (t0 + 25) le_rfl)
    · obtain ⟨st', h1, h2⟩ := inGap_step firstDraw portDraw hdraw t0 stopL hstop st h
      refine ⟨st', h1, ?_⟩
      rcases h2 with ⟨ts, h2, -⟩ | ⟨-, -, -, -, hex⟩
      · exact Or.inl ⟨stopL, hstop, hlate, Or.inr (Or.inr (Or.inr (Or.inl ⟨ts, h2⟩)))⟩
      · exact absurd hex (not_stopped_early t0 stopL hlate (t0 + 25) le_rfl)
    · obtain ⟨st', h1, h2⟩ := inPhase2_step firstDraw portDraw hdraw t0 stopL hstop ts st h
      refine ⟨st', h1, ?_⟩
      rcases h2 with ⟨-, h2, -⟩ | ⟨-, h2, -⟩ | ⟨-, -, -, -, hex⟩
      · exact Or.inl ⟨stopL, hstop, hlate, Or.inr (Or.inr (Or.inr (Or.inr h2)))⟩
      · exact Or.inr h2
      · exact absurd hex (not_stopped_early t0 stopL hlate (t0 + 25) le_rfl)
    · obtain ⟨st', h1, h2⟩ := inPhase2Sent_step firstDraw portDraw t0 stopL hstop st h
      refine ⟨st', h1, ?_⟩
      rcases h2 with ⟨h2, -⟩ | ⟨-, -, -, -, hex⟩
      · exact Or.inr h2
      · exact absurd hex (not_stopped_early t0 stopL hlate (t0 + 25) le_rfl)
  · obtain ⟨st', h1, h2, -⟩ := afterPhase2_step firstDraw portDraw t0 st h
    exact ⟨st', h1, Or.inr h2⟩

theorem running_run (firstDraw : Nat → K) (portDraw : Nat → Nat)
    (hdraw : ∀ s, 0 ≤ firstDraw s ∧ firstDraw s < 1) (t0 : K) :
    ∀ (n : Nat) (st : State K), Running t0 st →
      ∃ st', run firstDraw portDraw n st = some st' ∧ Running t0 st' := by
  intro n
  induction n with
  | zero => intro st h; exact ⟨st, rfl, h⟩
  | succ n ih =>
    intro st h
    obtain ⟨st1, h1, h2⟩ := running_step firstDraw portDraw hdraw t0 st h
    obtain ⟨st2, h3, h4⟩ := ih st1 h2
    exact ⟨st2, (run_succ _ _ n _ _ h1).trans h3, h4⟩

theorem afterPhase2_run (firstDraw : Nat → K) (portDraw : Nat → Nat) (t0 : K) :
    ∀ (n : Nat) (st : State K), AfterPhase2 t0 st →
      ∃ st', run firstDraw portDraw n st = some st' ∧ AfterPhase2 t0 st' := by
  intro n
  induction n with
  | zero => intro st h; exact ⟨st, rfl, h⟩
  | succ n ih =>
    intro st h
    obtain ⟨st1, h1, h2, -⟩ := afterPhase2_step firstDraw portDraw t0 st h
    obtain ⟨st2, h3, h4⟩ := ih st1 h2
    exact ⟨st2, (run_succ _ _ n _ _ h1).trans h3, h4⟩

/-- In a running application the flag `m_phase1` is set exactly before
`t0 + 5`, and the phase transitions made so far are the first ones of
`EndPhase1` at `t0 + 5`, `StartPhase2` at `t0 + 15`, `EndPhase2` at
`t0 + 25`. -/
theorem running_flag (t0 : K) (st : State K) (h : Running t0 st) :
    (st.m_phase1 = true ↔ st.sim.now < t0 + 5)
      ∧ phaseLog st <+: [(t0 + 5, Callback.EndPhase1), (t0 + 15, Callback.StartPhase2),
          (t0 + 25, Callback.EndPhase2)] := by
  rcases h with ⟨stopL, hstop, hlate, hlive⟩ | h
  · rcases hlive with ⟨ts, h⟩ | h | h | ⟨ts, h⟩ | h
    · obtain ⟨us, ue, te, -, -, -, -, -, -, -, -, hp1, -, hnow5, -, -, hlog, -⟩ := h
      refine ⟨⟨fun _ => hnow5, fun _ => hp1⟩, ?_⟩
      rw [hlog]
      exact List.nil_prefix
    · obtain ⟨us, ue, ts, tp, -, -, -, -, -, -, -, hp1, hnow, -, -, hlog, -⟩ := h
      refine ⟨⟨fun h => ?_, fun h => ?_⟩, ?_⟩
      · rw [hp1] at h; cases h
      · rw [hnow] at h; exact absurd h (lt_irrefl _)
      rw [hlog]
      exact ⟨[_, _], rfl⟩
    · obtain ⟨us, ue, tp, -, -, -, -, -, -, -, hp1, hnow5, -, hlog, -⟩ := h
      refine ⟨⟨fun h => ?_, fun h => absurd h (not_lt.mpr hnow5)⟩, ?_⟩
      · rw [hp1] at h; cases h
      rw [hlog]
      exact ⟨[_, _], rfl⟩
    · obtain ⟨us, ue, te, -, -, -, -, -, -, -, hp1, hnow, -, hlog, -⟩ := h
      refine ⟨⟨fun h => ?_, fun h => ?_⟩, ?_⟩
      · rw [hp1] at h; cases h
      · rw [hnow] at h; linarith
      rw [hlog]
      exact ⟨[_], rfl⟩
    · obtain ⟨us, ue, ts, te, early, port, -, -, -, -, -, -, -, hp1, hnow15, -, -, hlog, -⟩ := h
      refine ⟨⟨fun h => ?_, fun h => ?_⟩, ?_⟩
      · rw [hp1] at h; cases h
      · linarith
      rw [hlog]
      exact ⟨[_], rfl⟩
  · obtain ⟨-, -, hnow, hp1, hlog, -⟩ := h
    refine ⟨⟨fun h => ?_, fun h => ?_⟩, ?_⟩
    · rw [hp1] at h; cases h
    · linarith
    rw [hlog]

/-- Phase 1 ends: from a state of phase 1 the simulator reaches the gap. -/
theorem phase1_ends (firstDraw : Nat → K) (portDraw : Nat → Nat)
    (hdraw : ∀ s, 0 ≤ firstDraw s ∧ firstDraw s < 1) (t0 : K)
    (stopL : List (Event K Callback)) (hstop : IsStopList stopL)
    (hlate : ∀ e ∈ stopL, t0 + 25 < e.ts) :
    ∀ (m : Nat) (ts : K) (st : State K), InPhase1 t0 stopL ts st →
      t0 + 5 - ts ≤ (m : K) * (400 / 7452) →
      ∃ (k : Nat) (st' : State K), run firstDraw portDraw k st = some st'
        ∧ InGapStale t0 stopL st' := by
  intro m
  induction m with
  | zero =>
    intro ts st h hm
    obtain ⟨st', h1, h2⟩ := inPhase1_step firstDraw portDraw hdraw t0 stopL hstop ts st h
    rcases h2 with ⟨hlt, -⟩ | ⟨-, -, -, h2⟩ | ⟨-, -, -, -, s, hs, hle, -⟩
    · simp only [Nat.cast_zero, zero_mul] at hm
      linarith
    · exact ⟨1, st', (run_succ _ _ 0 _ _ h1).trans rfl, h2⟩
    · exact absurd ⟨s, hs, hle⟩ (not_stopped_early t0 stopL hlate (t0 + 5) (by linarith))
  | succ m ih =>
    intro ts st h hm
    obtain ⟨st', h1, h2⟩ := inPhase1_step firstDraw portDraw hdraw t0 stopL hstop ts st h
    rcases h2 with ⟨-, -, -, -, ts', hts', h2⟩ | ⟨-, -, -, h2⟩ | ⟨-, -, -, -, s, hs, hle, -⟩
    · obtain ⟨k, st'', h3, h4⟩ := ih ts' st' h2 (by
        push_cast at hm
        linarith)
      exact ⟨k + 1, st'', (run_succ _ _ k _ _ h1).trans h3, h4⟩
    · exact ⟨1, st', (run_succ _ _ 0 _ _ h1).trans rfl, h2⟩
    · exact absurd ⟨s, hs, hle⟩ (not_stopped_early t0 stopL hlate (t0 + 5) (by linarith))

/-- A running application reaches the end of phase 2. -/
theorem running_ends (firstDraw : Nat → K) (portDraw : Nat → Nat)
    (hdraw : ∀ s, 0 ≤ firstDraw s ∧ firstDraw s < 1) (t0 : K) (st : State K)
    (h : Running t0 st) :
    ∃ (k : Nat) (st' : State K), run firstDraw portDraw k st = some st'
      ∧ AfterPhase2 t0 st' := by
  have hsent : ∀ stopL, IsStopList stopL → (∀ e ∈ stopL, t0 + 25 < e.ts) → ∀ s : State K,
      InPhase2Sent t0 stopL s →
      ∃ (k : Nat) (st' : State K), run firstDraw portDraw k s = some st'
        ∧ AfterPhase2 t0 st' := by
    intro stopL hstop hlate s hs
    obtain ⟨st', h1, h2⟩ := inPhase2Sent_step firstDraw portDraw t0 stopL hstop s hs
    rcases h2 with ⟨h2, -⟩ | ⟨-, -, -, -, hex⟩
    · exact ⟨1, st', (run_succ _ _ 0 _ _ h1).trans rfl, h2⟩
    · exact absurd hex (not_stopped_early t0 stopL hlate (t0 + 25) le_rfl)
  have hp2 : ∀ stopL, IsStopList stopL → (∀ e ∈ stopL, t0 + 25 < e.ts) → ∀ (ts : K)
      (s : State K), InPhase2 t0 stopL ts s →
      ∃ (k : Nat) (st' : State K), run firstDraw portDraw k s = some st'
        ∧ AfterPhase2 t0 st' := by
    intro stopL hstop hlate ts s hs
    obtain ⟨st', h1, h2⟩ := inPhase2_step firstDraw portDraw hdraw t0 stopL hstop ts s hs
    rcases h2 with ⟨-, h2, -⟩ | ⟨-, h2, -⟩ | ⟨-, -, -, -, hex⟩
    · obtain ⟨k, st'', h3, h4⟩ := hsent stopL hstop hlate st' h2
      exact ⟨k + 1, st'', (run_succ _ _ k _ _ h1).trans h3, h4⟩
    · exact ⟨1, st', (run_succ _ _ 0 _ _ h1).trans rfl, h2⟩
    · exact absurd hex (not_stopped_early t0 stopL hlate (t0 + 25) le_rfl)
  have hgap : ∀ stopL, IsStopList stopL → (∀ e ∈ stopL, t0 + 25 < e.ts) → ∀ s : State K,
      InGap t0 stopL s →
      ∃ (k : Nat) (st' : State K), run firstDraw portDraw k s = some st'
        ∧ AfterPhase2 t0 st' := by
    intro stopL hstop hlate s hs
    obtain ⟨st', h1, h2⟩ := inGap_step firstDraw portDraw hdraw t0 stopL hstop s hs
    rcases h2 with ⟨ts, h2, -⟩ | ⟨-, -, -, -, hex⟩
    · obtain ⟨k, st'', h3, h4⟩ := hp2 stopL hstop hlate ts st' h2
      exact ⟨k + 1, st'', (run_succ _ _ k _ _ h1).trans h3, h4⟩
    · exact absurd hex (not_stopped_early t0 stopL hlate (t0 + 25) le_rfl)
  have hstale : ∀ stopL, IsStopList stopL → (∀ e ∈ stopL, t0 + 25 < e.ts) → ∀ s : State K,
      InGapStale t0 stopL s →
      ∃ (k : Nat) (st' : State K), run firstDraw portDraw k s = some st'
        ∧ AfterPhase2 t0 st' := by
    intro stopL hstop hlate s hs
    obtain ⟨st', h1, h2⟩ := inGapStale_step firstDraw portDraw t0 stopL hstop s hs
    rcases h2 with ⟨h2, -⟩ | ⟨-, -, -, -, hex⟩
    · obtain ⟨k, st'', h3, h4⟩ := hgap stopL hstop hlate st' h2
      exact ⟨k + 1, st'', (run_succ _ _ k _ _ h1).trans h3, h4⟩
    · exact absurd hex (not_stopped_early t0 stopL hlate (t0 + 25) le_rfl)
  rcases h with ⟨stopL, hstop, hlate, hlive⟩ | h
  · rcases hlive with ⟨ts, h⟩ | h | h | ⟨ts, h⟩ | h
    · obtain ⟨m, hm⟩ := exists_nat_ge ((t0 + 5 - ts) / (400 / 7452))
      obtain ⟨k, st1, h1, h2⟩ := phase1_ends firstDraw portDraw hdraw t0 stopL hstop hlate m ts st
        h (by rwa [div_le_iff₀ (by norm_num)] at hm)
      obtain ⟨k2, st2, h3, h4⟩ := hstale stopL hstop hlate st1 h2
      exact ⟨k + k2, st2, (run_add _ _ k k2 _ _ h1).trans h3, h4⟩
    · exact hstale stopL hstop hlate st h
    · exact hgap stopL hstop hlate st h
    · exact hp2 stopL hstop hlate ts st h
    · exact hsent stopL hstop hlate st h
  · exact ⟨0, st, rfl, h⟩

/-- The first turn of the simulator activates the application. -/
theorem init_running (firstDraw : Nat → K) (portDraw : Nat → Nat)
    (hdraw : ∀ s, 0 ≤ firstDraw s ∧ firstDraw s < 1) (m_seed : Nat) (m_phase1 : Bool) (t0 : K)
    (stopTime : Option K) (hstop : ∀ s, stopTime = some s → t0 + 25 < s) :
    ∃ st', step firstDraw portDraw (init m_seed m_phase1 t0 stopTime) = some st'
      ∧ Running t0 st' := by
  obtain ⟨stopL, hsl, hat, hts⟩ := init_atStart m_seed m_phase1 t0 stopTime
  have hlate : ∀ e ∈ stopL, t0 + 25 < e.ts := fun e he => hstop _ (hts e he)
  obtain ⟨st', h1, h2⟩ := atStart_step firstDraw portDraw hdraw t0 stopL hsl _ hat
  refine ⟨st', h1, ?_⟩
  rcases h2 with ⟨ts, h2, -, -⟩ | ⟨-, s, hs, hsl'⟩
  · exact Or.inl ⟨stopL, hsl, hlate, Or.inl ⟨ts, h2⟩⟩
  · have := hlate ⟨s, 1, Callback.StopApplication, false⟩ (by rw [hsl']; simp)
    dsimp only at this
    linarith

end RunningSteps

end SynFloodAttacker
namespace SynFloodAttacker

/-- The function `CancelEvents` marks the event that `m_sendEvent` names. -/
theorem cancelEvents_marks {K : Type} [LinearOrderedField K] (st : State K)
    (e : Event K Callback) (he : e ∈ st.sim.events) (hu : st.m_sendEvent = some e.uid) :
    ({ e with cancelled := true } : Event K Callback) ∈ (CancelEvents st).sim.events := by
  have h1 : ({ e with cancelled := true } : Event K Callback)
      ∈ (st.sim.Cancel st.m_sendEvent).events := by
    rw [hu]
    simp only [Simulator.Cancel, List.mem_map]
    exact ⟨e, he, by simp⟩
  simp only [CancelEvents]
  cases hss : st.m_startStopEvent with
  | none => exact h1
  | some u =>
    simp only [Simulator.Cancel, List.mem_map]
    refine ⟨_, h1, ?_⟩
    by_cases h : e.uid = u
    · simp [h]
    · simp [h]

/-- C15: for every instance seed and every activation time `t0`, if the
application is not stopped before `t0 + 25`, the run of the simulator reaches
a state from which on the phase transitions made are exactly `EndPhase1` at
`t0 + 5`, `StartPhase2` at `t0 + 15` and `EndPhase2` at `t0 + 25`; and after
every number of turns from the activation on, the flag `m_phase1` is set
exactly when the simulation time is before `t0 + 5`, the transitions made so
far being the first ones of that list. -/
theorem C15_phase_transitions_at_fixed_offsets {K : Type} [LinearOrderedField K] [FloorRing K]
    (firstDraw : Nat → K) (portDraw : Nat → Nat)
    (hdraw : ∀ s, 0 ≤ firstDraw s ∧ firstDraw s < 1) (m_seed : Nat) (m_phase1 : Bool) (t0 : K)
    (stopTime : Option K) (hstop : ∀ s, stopTime = some s → t0 + 25 < s) :
    (∃ N : Nat, ∀ n, N ≤ n →
        ∃ st, run firstDraw portDraw n (init m_seed m_phase1 t0 stopTime) = some st
          ∧ phaseLog st = [(t0 + 5, Callback.EndPhase1), (t0 + 15, Callback.StartPhase2),
              (t0 + 25, Callback.EndPhase2)]
          ∧ st.m_phase1 = false ∧ t0 + 25 ≤ st.sim.now)
      ∧ ∀ n, 1 ≤ n →
        ∃ st, run firstDraw portDraw n (init m_seed m_phase1 t0 stopTime) = some st
          ∧ (st.m_phase1 = true ↔ st.sim.now < t0 + 5)
          ∧ phaseLog st <+: [(t0 + 5, Callback.EndPhase1), (t0 + 15, Callback.StartPhase2),
              (t0 + 25, Callback.EndPhase2)] := by
  obtain ⟨st1, h1, hrun1⟩ := init_running firstDraw portDraw hdraw m_seed m_phase1 t0 stopTime
    hstop
  constructor
  · obtain ⟨k, st2, h2, h3⟩ := running_ends firstDraw portDraw hdraw t0 st1 hrun1
    refine ⟨1 + k + 0, fun n hn => ?_⟩
    obtain ⟨j, rfl⟩ := Nat.exists_eq_add_of_le hn
    obtain ⟨st3, h4, h5⟩ := afterPhase2_run firstDraw portDraw t0 j st2 h3
    have h12 : run firstDraw portDraw (1 + k) (init m_seed m_phase1 t0 stopTime) = some st2 :=
      (run_add _ _ 1 k _ _ ((run_succ _ _ 0 _ _ h1).trans rfl)).trans h2
    refine ⟨st3, ?_, h5.2.2.2.2.1, h5.2.2.2.1, h5.2.2.1⟩
    rw [Nat.add_zero]
    exact (run_add _ _ (1 + k) j _ _ h12).trans h4
  · intro n hn
    obtain ⟨j, rfl⟩ := Nat.exists_eq_add_of_le hn
    obtain ⟨st2, h2, h3⟩ := running_run firstDraw portDraw hdraw t0 j st1 hrun1
    refine ⟨st2, ?_, running_flag t0 st2 h3⟩
    exact (run_add _ _ 1 j _ _ ((run_succ _ _ 0 _ _ h1).trans rfl)).trans h2

/-- Witness of C15: seed 1, activation at 0, stop at 80 as in the scenario. -/
theorem C15_phase_transitions_at_fixed_offsets_witness :
    (∀ s, (0 : ℚ) ≤ (fun _ : Nat => (0 : ℚ)) s ∧ (fun _ : Nat => (0 : ℚ)) s < 1)
      ∧ (∀ s : ℚ, some (80 : ℚ) = some s → (0 : ℚ) + 25 < s)
      ∧ ((∃ N : Nat, ∀ n, N ≤ n →
          ∃ st, run (fun _ : Nat => (0 : ℚ)) (fun s => s) n (init 1 true 0 (some 80)) = some st
            ∧ phaseLog st = [((0 : ℚ) + 5, Callback.EndPhase1), (0 + 15, Callback.StartPhase2),
                (0 + 25, Callback.EndPhase2)]
            ∧ st.m_phase1 = false ∧ (0 : ℚ) + 25 ≤ st.sim.now)
        ∧ ∀ n, 1 ≤ n →
          ∃ st, run (fun _ : Nat => (0 : ℚ)) (fun s => s) n (init 1 true 0 (some 80)) = some st
            ∧ (st.m_phase1 = true ↔ st.sim.now < (0 : ℚ) + 5)
            ∧ phaseLog st <+: [((0 : ℚ) + 5, Callback.EndPhase1), (0 + 15, Callback.StartPhase2),
                (0 + 25, Callback.EndPhase2)]) :=
  ⟨fun _ => ⟨le_refl _, by norm_num⟩,
    fun s h => by
      rw [Option.some.injEq] at h
      rw [← h]
      norm_num,
    C15_phase_transitions_at_fixed_offsets (fun _ : Nat => (0 : ℚ)) (fun s => s)
      (fun _ => ⟨le_refl _, by norm_num⟩) 1 true 0 (some 80)
      (fun s h => by
        rw [Option.some.injEq] at h
        rw [← h]
        norm_num)⟩

/-- C24: for every instance seed and every stop time, after every number of
turns of the simulator (which calls the pending events in the order of their
times, and in the order of their scheduling at equal times) no packet has been
sent strictly between `t0 + 5` and `t0 + 15` nor strictly after `t0 + 25`;
once `EndPhase2`, or `StopApplication` from the activation on, has been
called, no live send event or phase event is pending; and `EndPhase1` and
`EndPhase2` leave the send event that `m_sendEvent` names cancelled. -/
theorem C24_no_send_in_gap_or_after_phase2 {K : Type} [LinearOrderedField K] [FloorRing K]
    (firstDraw : Nat → K) (portDraw : Nat → Nat)
    (hdraw : ∀ s, 0 ≤ firstDraw s ∧ firstDraw s < 1) (m_seed : Nat) (m_phase1 : Bool) (t0 : K)
    (stopTime : Option K) (n : Nat) :
    (∃ st, run firstDraw portDraw n (init m_seed m_phase1 t0 stopTime) = some st
        ∧ (∀ p ∈ st.sent, ¬ (t0 + 5 < p.1 ∧ p.1 < t0 + 15) ∧ ¬ (t0 + 25 < p.1))
        ∧ ((∃ t, (t, Callback.EndPhase2) ∈ st.fired
              ∨ ((t, Callback.StopApplication) ∈ st.fired ∧ t0 ≤ t)) →
            ∀ e ∈ st.sim.events, e.cancelled = false →
              e.callback ≠ Callback.SendSyn ∧ e.callback ≠ Callback.EndPhase1
                ∧ e.callback ≠ Callback.StartPhase2 ∧ e.callback ≠ Callback.EndPhase2))
      ∧ (∀ st st' : State K, (EndPhase1 st = some st' ∨ EndPhase2 st = some st') →
          ∀ e ∈ st.sim.events, st.m_sendEvent = some e.uid →
            ({ e with cancelled := true } : Event K Callback) ∈ st'.sim.events) := by
  constructor
  · obtain ⟨stopL, hsl, hat, -⟩ := init_atStart m_seed m_phase1 t0 stopTime
    obtain ⟨st, h1, h2⟩ := reach_run firstDraw portDraw hdraw t0 n _
      (Or.inl ⟨stopL, hsl, Or.inl hat⟩)
    refine ⟨st, h1, ?_, ?_⟩
    · obtain ⟨early, late, hs, he, -, hl⟩ := reach_sentOk t0 st h2
      intro p hp
      rw [hs] at hp
      rcases List.mem_append.mp hp with hp | hp
      · have := he p hp
        exact ⟨fun h => by linarith [h.1], fun h => by linarith⟩
      · have := hl p hp
        exact ⟨fun h => by linarith [h.2], fun h => by linarith⟩
    · rintro ⟨t, ht⟩ e he hc
      have hq : quietLog t0 st ≠ [] := by
        intro hnil
        rcases ht with ht | ⟨ht, hle⟩
        · have : (t, Callback.EndPhase2) ∈ quietLog t0 st := by
            simp only [quietLog, List.mem_filter]
            exact ⟨ht, by simp⟩
          rw [hnil] at this
          cases this
        · have : (t, Callback.StopApplication) ∈ quietLog t0 st := by
            simp only [quietLog, List.mem_filter]
            exact ⟨ht, by simp [hle]⟩
          rw [hnil] at this
          cases this
      rcases reach_quiet t0 st h2 hq e he hc with h | h <;> rw [h] <;> simp
  · intro st st' hst e he hu
    have hc : ({ e with cancelled := true } : Event K Callback) ∈ (CancelEvents st).sim.events :=
      cancelEvents_marks st e he hu
    rcases hst with hst | hst
    · simp only [EndPhase1, Simulator.Schedule, Option.some.injEq] at hst
      subst hst
      exact List.mem_append_left _ hc
    · simp only [EndPhase2, Option.some.injEq] at hst
      subst hst
      exact hc

/-- Witness of C24: seed 3, activation at 0, stop at 12, seven turns. -/
theorem C24_no_send_in_gap_or_after_phase2_witness :
    (∀ s, (0 : ℚ) ≤ (fun _ : Nat => (1 / 2 : ℚ)) s ∧ (fun _ : Nat => (1 / 2 : ℚ)) s < 1)
      ∧ ((∃ st, run (fun _ : Nat => (1 / 2 : ℚ)) (fun s => s) 7 (init 3 true 0 (some 12))
            = some st
          ∧ (∀ p ∈ st.sent, ¬ ((0 : ℚ) + 5 < p.1 ∧ p.1 < 0 + 15) ∧ ¬ ((0 : ℚ) + 25 < p.1))
          ∧ ((∃ t, (t, Callback.EndPhase2) ∈ st.fired
                ∨ ((t, Callback.StopApplication) ∈ st.fired ∧ (0 : ℚ) ≤ t)) →
              ∀ e ∈ st.sim.events, e.cancelled = false →
                e.callback ≠ Callback.SendSyn ∧ e.callback ≠ Callback.EndPhase1
                  ∧ e.callback ≠ Callback.StartPhase2 ∧ e.callback ≠ Callback.EndPhase2))
        ∧ (∀ st st' : State ℚ, (EndPhase1 st = some st' ∨ EndPhase2 st = some st') →
            ∀ e ∈ st.sim.events, st.m_sendEvent = some e.uid →
              ({ e with cancelled := true } : Event ℚ Callback) ∈ st'.sim.events)) :=
  ⟨fun _ => ⟨by norm_num, by norm_num⟩,
    C24_no_send_in_gap_or_after_phase2 (fun _ : Nat => (1 / 2 : ℚ)) (fun s => s)
      (fun _ => ⟨by norm_num, by norm_num⟩) 3 true 0 (some 12) 7⟩

/-- C28: every rate sample of phase 2 lies in `[2, 14]`, so that every delay
between two sends of phase 2 is at least `400 / 14`, more than 10 seconds;
every delay of phase 1 lies in `[400 / 7452, 400 / 168]`; after every number
of turns of the simulator at most one packet has been sent from `t0 + 15` on,
and once `EndPhase2` has been called every send event still in the list is
cancelled. -/
theorem C28_one_packet_in_phase2 {K : Type} [LinearOrderedField K] [FloorRing K]
    (firstDraw : Nat → K) (portDraw : Nat → Nat)
    (hdraw : ∀ s, 0 ≤ firstDraw s ∧ firstDraw s < 1) (m_seed : Nat) (m_phase1 : Bool) (t0 : K)
    (stopTime : Option K) (n : Nat) :
    (∀ pktSent : Nat, ∃ v,
        GetRandomDistributionNumber firstDraw m_seed DISTRIBUTION_PHASE2_PACKETS_PER_SECOND
          pktSent = some v ∧ 2 ≤ v ∧ v ≤ 14)
      ∧ (∀ st : State K, ∃ d,
          CalculateNextTime firstDraw DISTRIBUTION_PHASE2_PACKETS_PER_SECOND st = some d
            ∧ 400 / 14 ≤ d ∧ 10 < d)
      ∧ (∀ st : State K, ∃ d,
          CalculateNextTime firstDraw DISTRIBUTION_PHASE1_PACKETS_PER_SECOND st = some d
            ∧ 400 / 7452 ≤ d ∧ d ≤ 400 / 168)
      ∧ ∃ st, run firstDraw portDraw n (init m_seed m_phase1 t0 stopTime) = some st
          ∧ (st.sent.filter fun p => decide (t0 + 15 ≤ p.1)).length ≤ 1
          ∧ ((∃ t, (t, Callback.EndPhase2) ∈ st.fired) →
              ∀ e ∈ st.sim.events, e.callback = Callback.SendSyn → e.cancelled = true) := by
  refine ⟨fun pk => ?_, fun st => ?_, fun st => ?_, ?_⟩
  · obtain ⟨v, hv, h1, h2⟩ := interpolate_bounds DISTRIBUTION_PHASE2_PACKETS_PER_SECOND 2 14
      phase2_table_range _ (hdraw ((pk * m_seed) % 2 ^ 32)).1 (hdraw ((pk * m_seed) % 2 ^ 32)).2
    exact ⟨v, hv, h1, h2⟩
  · obtain ⟨d, hd, h1, -⟩ := calculateNextTime_phase2 firstDraw hdraw st
    refine ⟨d, hd, h1, lt_of_lt_of_le ?_ h1⟩
    norm_num
  · exact calculateNextTime_phase1 firstDraw hdraw st
  · obtain ⟨stopL, hsl, hat, -⟩ := init_atStart m_seed m_phase1 t0 stopTime
    obtain ⟨st, h1, h2⟩ := reach_run firstDraw portDraw hdraw t0 n _
      (Or.inl ⟨stopL, hsl, Or.inl hat⟩)
    refine ⟨st, h1, ?_, ?_⟩
    · obtain ⟨early, late, hs, he, hlen, -⟩ := reach_sentOk t0 st h2
      have hearly : early.filter (fun p => decide (t0 + 15 ≤ p.1)) = [] := by
        rw [List.filter_eq_nil_iff]
        intro p hp
        have := he p hp
        simp only [decide_eq_true_eq, not_le]
        linarith
      rw [hs, List.filter_append, hearly, List.nil_append]
      exact le_trans (List.length_filter_le _ _) hlen
    · rintro ⟨t, ht⟩ e he hcb
      have hq : quietLog t0 st ≠ [] := by
        intro hnil
        have : (t, Callback.EndPhase2) ∈ quietLog t0 st := by
          simp only [quietLog, List.mem_filter]
          exact ⟨ht, by simp⟩
        rw [hnil] at this
        cases this
      cases hc : e.cancelled with
      | true => rfl
      | false =>
        rcases reach_quiet t0 st h2 hq e he hc with h | h <;> rw [h] at hcb <;> cases hcb

/-- Witness of C28: seed 5, activation at 2, no stop time, forty turns. -/
theorem C28_one_packet_in_phase2_witness :
    (∀ s, (0 : ℚ) ≤ (fun _ : Nat => (3 / 4 : ℚ)) s ∧ (fun _ : Nat => (3 / 4 : ℚ)) s < 1)
      ∧ ((∀ pktSent : Nat, ∃ v,
          GetRandomDistributionNumber (fun _ : Nat => (3 / 4 : ℚ)) 5
            DISTRIBUTION_PHASE2_PACKETS_PER_SECOND pktSent = some v ∧ 2 ≤ v ∧ v ≤ 14)
        ∧ (∀ st : State ℚ, ∃ d,
            CalculateNextTime (fun _ : Nat => (3 / 4 : ℚ)) DISTRIBUTION_PHASE2_PACKETS_PER_SECOND
              st = some d ∧ 400 / 14 ≤ d ∧ 10 < d)
        ∧ (∀ st : State ℚ, ∃ d,
            CalculateNextTime (fun _ : Nat => (3 / 4 : ℚ)) DISTRIBUTION_PHASE1_PACKETS_PER_SECOND
              st = some d ∧ 400 / 7452 ≤ d ∧ d ≤ 400 / 168)
        ∧ ∃ st, run (fun _ : Nat => (3 / 4 : ℚ)) (fun s => s) 40 (init 5 false 2 none) = some st
            ∧ (st.sent.filter fun p => decide ((2 : ℚ) + 15 ≤ p.1)).length ≤ 1
            ∧ ((∃ t, (t, Callback.EndPhase2) ∈ st.fired) →
                ∀ e ∈ st.sim.events, e.callback = Callback.SendSyn → e.cancelled = true)) :=
  ⟨fun _ => ⟨by norm_num, by norm_num⟩,
    C28_one_packet_in_phase2 (fun _ : Nat => (3 / 4 : ℚ)) (fun s => s)
      (fun _ => ⟨by norm_num, by norm_num⟩) 5 false 2 none 40⟩

end SynFloodAttacker

/-! ## Legitimate traffic application: the events -/

namespace Simulator

section UidsLemmas

variable {K C : Type} [LinearOrderedField K]

theorem uidsOk_schedule (sim : Simulator K C) (delay : K) (c : C) (h : sim.UidsOk) :
    (sim.Schedule delay c).1.UidsOk := by
  obtain ⟨h1, h2⟩ := h
  constructor
  · intro e he
    simp only [Schedule, List.mem_append, List.mem_singleton] at he
    rcases he with he | he
    · exact Nat.lt_succ_of_lt (h1 e he)
    · subst he
      exact Nat.lt_succ_self _
  · simp only [Schedule]
    rw [List.pairwise_append]
    refine ⟨h2, List.pairwise_singleton _ _, ?_⟩
    intro a ha b hb
    rw [List.mem_singleton] at hb
    subst hb
    exact Nat.ne_of_lt (h1 a ha)

theorem uidsOk_cancel (sim : Simulator K C) (id : Option Nat) (h : sim.UidsOk) :
    (sim.Cancel id).UidsOk := by
  obtain ⟨h1, h2⟩ := h
  cases id with
  | none => exact ⟨h1, h2⟩
  | some u =>
    constructor
    · intro e he
      simp only [Cancel, List.mem_map] at he
      obtain ⟨x, hx, rfl⟩ := he
      have := h1 x hx
      by_cases hu : x.uid = u <;> simpa [hu] using this
    · simp only [Cancel]
      rw [List.pairwise_map]
      refine h2.imp ?_
      intro a b hab
      by_cases ha : a.uid = u <;> by_cases hb : b.uid = u <;> simp [ha, hb] <;> omega

theorem uidsOk_next (sim sim' : Simulator K C) (e : Event K C) (h : sim.UidsOk)
    (hn : sim.next = some (e, sim')) : sim'.UidsOk := by
  obtain ⟨-, rfl⟩ := next_some sim sim' e hn
  obtain ⟨h1, h2⟩ := h
  exact ⟨fun x hx => h1 x (List.mem_of_mem_filter hx), h2.filter _⟩

theorem uidsOk_now (sim : Simulator K C) (t : K) (h : sim.UidsOk) :
    ({ sim with now := t } : Simulator K C).UidsOk := h

/-- After the simulator has taken the event `e`, no event has the uid of
`e`. -/
theorem next_uid_gone (sim sim' : Simulator K C) (e : Event K C)
    (hn : sim.next = some (e, sim')) : ∀ x ∈ sim'.events, x.uid ≠ e.uid := by
  obtain ⟨-, rfl⟩ := next_some sim sim' e hn
  intro x hx
  simpa using (List.mem_filter.mp hx).2

theorem next_events_sub (sim sim' : Simulator K C) (e : Event K C)
    (hn : sim.next = some (e, sim')) : ∀ x ∈ sim'.events, x ∈ sim.events := by
  obtain ⟨-, rfl⟩ := next_some sim sim' e hn
  intro x hx
  exact List.mem_of_mem_filter hx

end UidsLemmas

end Simulator

namespace LegitimateTrafficApplication

section TrackLemmas

variable {K : Type} [LinearOrderedField K] [FloorRing K]

set_option linter.unusedSectionVars false

theorem tracked_of_noLive (c : Callback) (id : Option Nat) (events : List (Event K Callback))
    (h : NoLive c events) : Tracked c id events :=
  fun e he hc hcb => absurd hcb (h e he hc)

theorem tracked_sub (c : Callback) (id : Option Nat) (l l' : List (Event K Callback))
    (hsub : ∀ x ∈ l', x ∈ l) (h : Tracked c id l) : Tracked c id l' :=
  fun e he => h e (hsub e he)

theorem noLive_sub (c : Callback) (l l' : List (Event K Callback))
    (hsub : ∀ x ∈ l', x ∈ l) (h : NoLive c l) : NoLive c l' :=
  fun e he => h e (hsub e he)

theorem tracked_cancel (c : Callback) (id id' : Option Nat) (sim : Simulator K Callback)
    (h : Tracked c id sim.events) : Tracked c id (sim.Cancel id').events := by
  intro y hy hc hcb
  obtain ⟨x, hx, -, h2, h3, h4, -⟩ := Simulator.cancel_events_mem sim id' y hy
  have hxc : x.cancelled = false := by
    cases hx' : x.cancelled with
    | false => rfl
    | true => rw [h4 hx'] at hc; cases hc
  rw [h2]
  exact h x hx hxc (h3 ▸ hcb)

theorem noLive_cancel (c : Callback) (id' : Option Nat) (sim : Simulator K Callback)
    (h : NoLive c sim.events) : NoLive c (sim.Cancel id').events := by
  intro y hy hc hcb
  obtain ⟨x, hx, -, -, h3, h4, -⟩ := Simulator.cancel_events_mem sim id' y hy
  have hxc : x.cancelled = false := by
    cases hx' : x.cancelled with
    | false => rfl
    | true => rw [h4 hx'] at hc; cases hc
  exact h x hx hxc (h3 ▸ hcb)

theorem noLive_cancel_tracked (c : Callback) (id : Option Nat) (sim : Simulator K Callback)
    (h : Tracked c id sim.events) : NoLive c (sim.Cancel id).events := by
  intro y hy hc hcb
  obtain ⟨x, hx, -, -, h3, h4, h5⟩ := Simulator.cancel_events_mem sim id y hy
  have hxc : x.cancelled = false := by
    cases hx' : x.cancelled with
    | false => rfl
    | true => rw [h4 hx'] at hc; cases hc
  rw [h5 (h x hx hxc (h3 ▸ hcb))] at hc
  cases hc

theorem tracked_schedule_other (c c' : Callback) (id : Option Nat) (sim : Simulator K Callback)
    (d : K) (hne : c' ≠ c) (h : Tracked c id sim.events) :
    Tracked c id (sim.Schedule d c').1.events := by
  intro e he hc hcb
  simp only [Simulator.Schedule, List.mem_append, List.mem_singleton] at he
  rcases he with he | he
  · exact h e he hc hcb
  · subst he
    exact absurd hcb hne

theorem noLive_schedule_other (c c' : Callback) (sim : Simulator K Callback)
    (d : K) (hne : c' ≠ c) (h : NoLive c sim.events) :
    NoLive c (sim.Schedule d c').1.events := by
  intro e he hc
  simp only [Simulator.Schedule, List.mem_append, List.mem_singleton] at he
  rcases he with he | he
  · exact h e he hc
  · subst he
    exact hne

theorem tracked_schedule_new (c : Callback) (sim : Simulator K Callback)
    (d : K) (h : NoLive c sim.events) :
    Tracked c (sim.Schedule d c).2 (sim.Schedule d c).1.events := by
  intro e he hc hcb
  simp only [Simulator.Schedule, List.mem_append, List.mem_singleton] at he
  rcases he with he | he
  · exact absurd hcb (h e he hc)
  · subst he
    rfl

/-- With pairwise different uids, at most one live event calls a tracked
member function. -/
theorem pending_length_le_one (c : Callback) (id : Option Nat) (events : List (Event K Callback))
    (h : Tracked c id events) (hp : events.Pairwise fun a b => a.uid ≠ b.uid) :
    (pending c events).length ≤ 1 := by
  have hp' : (pending c events).Pairwise fun a b => a.uid ≠ b.uid := hp.filter _
  have hall : ∀ e ∈ pending c events, id = some e.uid := by
    intro e he
    simp only [pending, List.mem_filter, Bool.and_eq_true, Bool.not_eq_true',
      decide_eq_true_eq] at he
    exact h e he.1 he.2.1 he.2.2
  cases hl : pending c events with
  | nil => simp
  | cons a l =>
    cases l with
    | nil => simp
    | cons b l' =>
      exfalso
      rw [hl] at hp' hall
      have h1 := hall a (by simp)
      have h2 := hall b (by simp)
      rw [h1, Option.some.injEq] at h2
      exact (List.rel_of_pairwise_cons hp' (List.mem_cons_self _ _)) h2

theorem pending_nil_of_noLive (c : Callback) (events : List (Event K Callback))
    (h : NoLive c events) : pending c events = [] := by
  rw [pending, List.filter_eq_nil_iff]
  intro e he
  simp only [Bool.and_eq_true, Bool.not_eq_true', decide_eq_true_eq, not_and]
  exact fun hc => h e he hc

theorem pending_append (c : Callback) (l1 l2 : List (Event K Callback)) :
    pending c (l1 ++ l2) = pending c l1 ++ pending c l2 := by
  simp only [pending, List.filter_append]

end TrackLemmas

end LegitimateTrafficApplication
namespace LegitimateTrafficApplication

section ShapeLemmas

variable {K : Type} [LinearOrderedField K] [FloorRing K]

set_option linter.unusedSectionVars false

theorem tbf_range (i : Fin 11) :
    (0 : K) ≤ DISTRIBUTION_TIME_BETWEEN_FLOWS i
      ∧ DISTRIBUTION_TIME_BETWEEN_FLOWS i ≤ (43164267617 / 10 ^ 6 : K) := by
  revert i
  simp only [Fin.forall_fin_succ, DISTRIBUTION_TIME_BETWEEN_FLOWS, Matrix.cons_val_zero,
    Matrix.cons_val_succ, IsEmpty.forall_iff, and_true]
  norm_num

theorem duration_range (i : Fin 11) :
    (0 : K) ≤ DISTRIBUTION_FLOW_DURATION i ∧ DISTRIBUTION_FLOW_DURATION i ≤ (120 : K) := by
  revert i
  simp only [Fin.forall_fin_succ, DISTRIBUTION_FLOW_DURATION, Matrix.cons_val_zero,
    Matrix.cons_val_succ, IsEmpty.forall_iff, and_true]
  norm_num

theorem pps_range (i : Fin 11) :
    (1 / 100 : K) ≤ DISTRIBUTION_PACKETS_PER_SECOND i
      ∧ DISTRIBUTION_PACKETS_PER_SECOND i ≤ (6000 : K) := by
  revert i
  simp only [Fin.forall_fin_succ, DISTRIBUTION_PACKETS_PER_SECOND, Matrix.cons_val_zero,
    Matrix.cons_val_succ, IsEmpty.forall_iff, and_true]
  norm_num

theorem length_range (i : Fin 11) :
    (0 : K) ≤ DISTRIBUTION_PACKET_LENGTH i ∧ DISTRIBUTION_PACKET_LENGTH i ≤ (5647 : K) := by
  revert i
  simp only [Fin.forall_fin_succ, DISTRIBUTION_PACKET_LENGTH, Matrix.cons_val_zero,
    Matrix.cons_val_succ, IsEmpty.forall_iff, and_true]
  norm_num

/-- With a draw in `[0, 1)` the sampler returns a value within the range of the
table. -/
theorem sampler_bounds (firstDraw : Nat → K) (hdraw : ∀ s, 0 ≤ firstDraw s ∧ firstDraw s < 1)
    (q : Fin 11 → K) (lo hi : K) (hq : ∀ i, lo ≤ q i ∧ q i ≤ hi) (m_seed seed : Nat) :
    ∃ v, GetRandomDistributionNumber firstDraw m_seed q seed = some v ∧ lo ≤ v ∧ v ≤ hi := by
  simp only [GetRandomDistributionNumber]
  rw [interpolate_eq_syn]
  exact SynFloodAttacker.interpolate_bounds q lo hi hq _ (hdraw _).1 (hdraw _).2

theorem scheduleNextTx_shape (firstDraw : Nat → K) (st st' : State K)
    (h : ScheduleNextTx firstDraw st = some st') :
    ∃ d : K, st' = { st with sim := (st.sim.Schedule d Callback.SendPacket).1,
                             m_sendEvent := (st.sim.Schedule d Callback.SendPacket).2 } := by
  unfold ScheduleNextTx at h
  cases hv : GetRandomDistributionNumber firstDraw st.m_seed DISTRIBUTION_PACKETS_PER_SECOND
      st.m_pktSent with
  | none => rw [hv] at h; cases h
  | some v =>
    rw [hv] at h
    by_cases h0 : v = 0
    · simp [h0] at h
    · simp only [h0, if_false, Option.some.injEq] at h
      exact ⟨1 / v, h.symm⟩

theorem scheduleNextTx_total (firstDraw : Nat → K)
    (hdraw : ∀ s, 0 ≤ firstDraw s ∧ firstDraw s < 1) (st : State K) :
    ∃ st', ScheduleNextTx firstDraw st = some st' := by
  obtain ⟨v, hv, h1, -⟩ := sampler_bounds firstDraw hdraw DISTRIBUTION_PACKETS_PER_SECOND
    (1 / 100) 6000 pps_range st.m_seed st.m_pktSent
  have h0 : v ≠ 0 := by
    intro h
    rw [h] at h1
    norm_num at h1
  simp only [ScheduleNextTx, hv, h0, if_false]
  exact ⟨_, rfl⟩

theorem scheduleStartEvent_shape (firstDraw : Nat → K) (st st' : State K)
    (h : ScheduleStartEvent firstDraw st = some st') :
    ∃ d : K, GetRandomDistributionNumber firstDraw st.m_seed DISTRIBUTION_TIME_BETWEEN_FLOWS
        st.m_flowsStarted = some d
      ∧ st' = { st with sim := (st.sim.Schedule d Callback.StartSending).1,
                        m_startStopEvent := (st.sim.Schedule d Callback.StartSending).2 } := by
  unfold ScheduleStartEvent at h
  cases hv : GetRandomDistributionNumber firstDraw st.m_seed DISTRIBUTION_TIME_BETWEEN_FLOWS
      st.m_flowsStarted with
  | none => rw [hv] at h; cases h
  | some v =>
    rw [hv] at h
    simp only [Option.some.injEq] at h
    exact ⟨v, rfl, h.symm⟩

theorem scheduleStartEvent_total (firstDraw : Nat → K)
    (hdraw : ∀ s, 0 ≤ firstDraw s ∧ firstDraw s < 1) (st : State K) :
    ∃ st', ScheduleStartEvent firstDraw st = some st' := by
  obtain ⟨v, hv, -, -⟩ := sampler_bounds firstDraw hdraw DISTRIBUTION_TIME_BETWEEN_FLOWS
    0 _ tbf_range st.m_seed st.m_flowsStarted
  simp only [ScheduleStartEvent, hv]
  exact ⟨_, rfl⟩

theorem scheduleStopEvent_shape (firstDraw : Nat → K) (st st' : State K)
    (h : ScheduleStopEvent firstDraw st = some st') :
    ∃ d : K, st' = { st with sim := (st.sim.Schedule d Callback.StopSending).1,
                             m_startStopEvent := (st.sim.Schedule d Callback.StopSending).2 } := by
  unfold ScheduleStopEvent at h
  cases hv : GetRandomDistributionNumber firstDraw st.m_seed DISTRIBUTION_FLOW_DURATION
      st.m_flowsStarted with
  | none => rw [hv] at h; cases h
  | some v =>
    rw [hv] at h
    simp only [Option.some.injEq] at h
    exact ⟨v, h.symm⟩

theorem scheduleStopEvent_total (firstDraw : Nat → K)
    (hdraw : ∀ s, 0 ≤ firstDraw s ∧ firstDraw s < 1) (st : State K) :
    ∃ st', ScheduleStopEvent firstDraw st = some st' := by
  obtain ⟨v, hv, -, -⟩ := sampler_bounds firstDraw hdraw DISTRIBUTION_FLOW_DURATION
    0 _ duration_range st.m_seed st.m_flowsStarted
  simp only [ScheduleStopEvent, hv]
  exact ⟨_, rfl⟩

theorem samplePktSize_total (firstDraw : Nat → K)
    (hdraw : ∀ s, 0 ≤ firstDraw s ∧ firstDraw s < 1) (st : State K) :
    ∃ n, samplePktSize firstDraw st = some n := by
  obtain ⟨v, hv, -, -⟩ := sampler_bounds firstDraw hdraw DISTRIBUTION_PACKET_LENGTH
    0 _ length_range st.m_seed st.m_pktSent
  simp only [samplePktSize, hv]
  exact ⟨_, rfl⟩

theorem samplePktSize_congr (firstDraw : Nat → K) (st st' : State K)
    (hs : st'.m_seed = st.m_seed) (hp : st'.m_pktSent = st.m_pktSent) :
    samplePktSize firstDraw st' = samplePktSize firstDraw st := by
  simp only [samplePktSize, hs, hp]

/-- The live events left by a cancellation or by the removal of an event are
live events of the list before. -/
theorem cancel_live (sim : Simulator K Callback) (id : Option Nat) :
    ∀ y ∈ (sim.Cancel id).events, y.cancelled = false →
      ∃ x ∈ sim.events, x.cancelled = false ∧ x.uid = y.uid ∧ x.callback = y.callback := by
  intro y hy hc
  obtain ⟨x, hx, -, h2, h3, h4, -⟩ := Simulator.cancel_events_mem sim id y hy
  refine ⟨x, hx, ?_, h2.symm, h3.symm⟩
  cases hx' : x.cancelled with
  | false => rfl
  | true => rw [h4 hx'] at hc; cases hc

theorem cancelEvents_live (st : State K) :
    ∀ y ∈ (CancelEvents st).sim.events, y.cancelled = false →
      ∃ x ∈ st.sim.events, x.cancelled = false ∧ x.uid = y.uid ∧ x.callback = y.callback := by
  intro y hy hc
  obtain ⟨x, hx, h1, h2, h3⟩ := cancel_live _ _ y hy hc
  obtain ⟨z, hz, h4, h5, h6⟩ := cancel_live _ _ x hx h1
  exact ⟨z, hz, h4, h5.trans h2, h6.trans h3⟩

theorem noLive_live (c : Callback) (l l' : List (Event K Callback))
    (hsub : ∀ y ∈ l', y.cancelled = false →
      ∃ x ∈ l, x.cancelled = false ∧ x.uid = y.uid ∧ x.callback = y.callback)
    (h : NoLive c l) : NoLive c l' := by
  intro y hy hc hcb
  obtain ⟨x, hx, h1, -, h3⟩ := hsub y hy hc
  exact h x hx h1 (h3.trans hcb)

theorem cancelEvents_noLive (st : State K) (c : Callback) (h : NoLive c st.sim.events) :
    NoLive c (CancelEvents st).sim.events :=
  noLive_live c _ _ (cancelEvents_live st) h

theorem cancelEvents_send (st : State K)
    (h : Tracked Callback.SendPacket st.m_sendEvent st.sim.events) :
    NoLive Callback.SendPacket (CancelEvents st).sim.events :=
  noLive_cancel _ _ _ (noLive_cancel_tracked _ _ _ h)

theorem cancelEvents_startStop (st : State K) (c : Callback)
    (h : Tracked c st.m_startStopEvent st.sim.events) :
    NoLive c (CancelEvents st).sim.events :=
  noLive_cancel_tracked _ _ _ (tracked_cancel _ _ _ _ h)

theorem cancelEvents_uids (st : State K) (h : st.sim.UidsOk) : (CancelEvents st).sim.UidsOk :=
  Simulator.uidsOk_cancel _ _ (Simulator.uidsOk_cancel _ _ h)

theorem cancelEvents_first (st : State K)
    (h : ∀ e ∈ st.sim.events, e.cancelled = false → e.callback = Callback.StartApplication →
      e.uid = 0) :
    ∀ e ∈ (CancelEvents st).sim.events, e.cancelled = false →
      e.callback = Callback.StartApplication → e.uid = 0 := by
  intro y hy hc hcb
  obtain ⟨x, hx, h1, h2, h3⟩ := cancelEvents_live st y hy hc
  rw [← h2]
  exact h x hx h1 (h3.trans hcb)

theorem schedule_first (sim : Simulator K Callback) (d : K) (c : Callback)
    (hc : c ≠ Callback.StartApplication)
    (h : ∀ e ∈ sim.events, e.cancelled = false → e.callback = Callback.StartApplication →
      e.uid = 0) :
    ∀ e ∈ (sim.Schedule d c).1.events, e.cancelled = false →
      e.callback = Callback.StartApplication → e.uid = 0 := by
  intro e he hl hcb
  simp only [Simulator.Schedule, List.mem_append, List.mem_singleton] at he
  rcases he with he | he
  · exact h e he hl hcb
  · subst he
    exact absurd hcb hc

end ShapeLemmas

end LegitimateTrafficApplication
namespace LegitimateTrafficApplication

section Preservation

variable {K : Type} [LinearOrderedField K] [FloorRing K]

set_option linter.unusedSectionVars false

/-- Taking the next event from the list keeps the events tracked. -/
theorem eventsTracked_next (st : State K) (e : Event K Callback) (sim : Simulator K Callback)
    (h : EventsTracked st) (hn : st.sim.next = some (e, sim)) :
    EventsTracked { st with sim := sim } := by
  have hsub := Simulator.next_events_sub st.sim sim e hn
  refine ⟨Simulator.uidsOk_next _ _ _ h.uids hn, tracked_sub _ _ _ _ hsub h.send,
    tracked_sub _ _ _ _ hsub h.start, tracked_sub _ _ _ _ hsub h.stop, h.socket, h.attempt,
    fun x hx => h.flow x (hsub x hx), fun x hx => h.first x (hsub x hx), ?_, ?_, ?_, h.once⟩
  · rcases h.activated with h1 | ⟨h1, h2, h3, h4⟩
    · exact Or.inl (noLive_sub _ _ _ hsub h1)
    · exact Or.inr ⟨h1, noLive_sub _ _ _ hsub h2, noLive_sub _ _ _ hsub h3,
        noLive_sub _ _ _ hsub h4⟩
  · rcases h.waiting with h1 | ⟨h2, h3, h4⟩
    · exact Or.inl h1
    · exact Or.inr ⟨noLive_sub _ _ _ hsub h2, noLive_sub _ _ _ hsub h3,
        noLive_sub _ _ _ hsub h4⟩
  · rcases h.idle with h1 | h1
    · exact Or.inl (noLive_sub _ _ _ hsub h1)
    · exact Or.inr (noLive_sub _ _ _ hsub h1)

/-- After a live event with a tracked id has been taken, no live event calls a
member function tracked by the same id. -/
theorem fired_tracked (sim sim' : Simulator K Callback) (e : Event K Callback) (c c' : Callback)
    (id : Option Nat) (hn : sim.next = some (e, sim')) (hc : e.cancelled = false)
    (hcb : e.callback = c) (h : Tracked c id sim.events) (h' : Tracked c' id sim.events) :
    NoLive c' sim'.events := by
  intro x hx hxc hxcb
  have he := (Simulator.next_some sim sim' e hn).1
  have h1 := h e he hc hcb
  have h2 := h' x (Simulator.next_events_sub sim sim' e hn x hx) hxc hxcb
  rw [h1, Option.some.injEq] at h2
  exact Simulator.next_uid_gone sim sim' e hn x hx h2.symm

/-- A live event that calls `c` contradicts `NoLive c`. -/
theorem live_not_noLive (sim sim' : Simulator K Callback) (e : Event K Callback) (c : Callback)
    (hn : sim.next = some (e, sim')) (hc : e.cancelled = false) (hcb : e.callback = c)
    (h : NoLive c sim.events) : False :=
  h e (Simulator.next_some sim sim' e hn).1 hc hcb

theorem startApplication_shape (firstDraw : Nat → K) (st st' : State K)
    (h : StartApplication firstDraw st = some st') :
    ∃ d : K, st' = { CancelEvents st with
        sim := ((CancelEvents st).sim.Schedule d Callback.StartSending).1,
        m_startStopEvent := ((CancelEvents st).sim.Schedule d Callback.StartSending).2 } := by
  unfold StartApplication at h
  cases hv : GetRandomDistributionNumber firstDraw (CancelEvents st).m_seed
      DISTRIBUTION_TIME_BETWEEN_FLOWS (CancelEvents st).m_seed with
  | none => simp only [hv] at h; cases h
  | some v =>
    simp only [hv, Option.some.injEq] at h
    exact ⟨_, h.symm⟩

theorem startApplication_total (firstDraw : Nat → K)
    (hdraw : ∀ s, 0 ≤ firstDraw s ∧ firstDraw s < 1) (st : State K) :
    ∃ st', StartApplication firstDraw st = some st' := by
  obtain ⟨v, hv, -, -⟩ := sampler_bounds firstDraw hdraw DISTRIBUTION_TIME_BETWEEN_FLOWS
    0 _ tbf_range (CancelEvents st).m_seed (CancelEvents st).m_seed
  simp only [StartApplication, hv]
  exact ⟨_, rfl⟩

/-- The state after `CancelEvents` and the scheduling of a flow start, as in
`StartApplication` and in `StopSending`. -/
theorem eventsTracked_restart (st : State K) (d : K) (connected : Bool) (closes : List K)
    (h : EventsTracked st) (hconn : connected = true → st.m_socket = true)
    (hact : NoLive Callback.StartApplication st.sim.events) (h0 : st.connecting = 0) :
    EventsTracked { CancelEvents st with
        sim := ((CancelEvents st).sim.Schedule d Callback.StartSending).1,
        m_startStopEvent := ((CancelEvents st).sim.Schedule d Callback.StartSending).2,
        m_connected := connected, closes := closes } := by
  have hs := cancelEvents_send st h.send
  have h1 := cancelEvents_startStop st _ h.start
  have h2 := cancelEvents_startStop st _ h.stop
  refine ⟨Simulator.uidsOk_schedule _ _ _ (cancelEvents_uids st h.uids),
    tracked_of_noLive _ _ _ (noLive_schedule_other _ _ _ _ (by decide) hs),
    tracked_schedule_new _ _ _ h1,
    tracked_of_noLive _ _ _ (noLive_schedule_other _ _ _ _ (by decide) h2),
    hconn, h.attempt, ?_, schedule_first _ _ _ (by decide) (cancelEvents_first st h.first),
    Or.inl (noLive_schedule_other _ _ _ _ (by decide) (cancelEvents_noLive st _ hact)),
    Or.inl h0, Or.inr (noLive_schedule_other _ _ _ _ (by decide) hs), h.once⟩
  intro e he hc hcb
  exact absurd hcb (noLive_schedule_other _ _ _ _ (by decide) h2 e he hc)

theorem eventsTracked_startApplication (firstDraw : Nat → K) (st st' : State K)
    (e : Event K Callback) (sim : Simulator K Callback) (h : EventsTracked st)
    (hn : st.sim.next = some (e, sim)) (hc : e.cancelled = false)
    (hcb : e.callback = Callback.StartApplication)
    (hst : StartApplication firstDraw { st with sim := sim } = some st') :
    EventsTracked st' := by
  have h1 := eventsTracked_next st e sim h hn
  obtain ⟨d, rfl⟩ := startApplication_shape firstDraw _ _ hst
  have hgone : NoLive Callback.StartApplication sim.events := by
    intro x hx hxc hxcb
    have hx0 := h.first x (Simulator.next_events_sub _ _ _ hn x hx) hxc hxcb
    have he0 := h.first e (Simulator.next_some _ _ _ hn).1 hc hcb
    exact Simulator.next_uid_gone _ _ _ hn x hx (hx0.trans he0.symm)
  have h0 : st.connecting = 0 := by
    rcases h.activated with h2 | h2
    · exact (live_not_noLive _ _ _ _ hn hc hcb h2).elim
    · exact h2.1
  exact eventsTracked_restart { st with sim := sim } d st.m_connected st.closes h1 h.socket
    hgone h0

theorem eventsTracked_stopApplication (st : State K) (h : EventsTracked st) :
    EventsTracked (CancelEvents st) := by
  have hs := cancelEvents_send st h.send
  have h1 := cancelEvents_startStop st _ h.start
  have h2 := cancelEvents_startStop st _ h.stop
  refine ⟨cancelEvents_uids st h.uids, tracked_of_noLive _ _ _ hs, tracked_of_noLive _ _ _ h1,
    tracked_of_noLive _ _ _ h2, h.socket, h.attempt, fun e he hc hcb => absurd hcb (h2 e he hc),
    cancelEvents_first st h.first, ?_, Or.inr ⟨hs, h1, h2⟩, Or.inl h1, h.once⟩
  rcases h.activated with h3 | h3
  · exact Or.inl (cancelEvents_noLive st _ h3)
  · exact Or.inr ⟨h3.1, hs, h1, h2⟩

/-- The state after the scheduling of a send and of a flow stop, as in
`ConnectionSucceeded` and in `StartSending`. -/
theorem eventsTracked_flow (st : State K) (d1 d2 : K) (flows connecting : Nat)
    (connected : Bool) (h : EventsTracked st) (hconn : connected = true)
    (hzero : connecting = 0) (hsock : st.m_socket = true)
    (hact : NoLive Callback.StartApplication st.sim.events)
    (hsend : NoLive Callback.SendPacket st.sim.events)
    (hstart : NoLive Callback.StartSending st.sim.events)
    (hstop : NoLive Callback.StopSending st.sim.events) :
    EventsTracked { st with
        sim := ((st.sim.Schedule d1 Callback.SendPacket).1.Schedule d2 Callback.StopSending).1,
        m_sendEvent := (st.sim.Schedule d1 Callback.SendPacket).2,
        m_startStopEvent :=
          ((st.sim.Schedule d1 Callback.SendPacket).1.Schedule d2 Callback.StopSending).2,
        m_connected := connected, m_flowsStarted := flows, connecting := connecting } := by
  subst hconn hzero
  refine ⟨Simulator.uidsOk_schedule _ _ _ (Simulator.uidsOk_schedule _ _ _ h.uids),
    tracked_schedule_other _ _ _ _ _ (by decide) (tracked_schedule_new _ _ _ hsend),
    tracked_of_noLive _ _ _ (noLive_schedule_other _ _ _ _ (by decide)
      (noLive_schedule_other _ _ _ _ (by decide) hstart)),
    tracked_schedule_new _ _ _ (noLive_schedule_other _ _ _ _ (by decide) hstop),
    fun _ => hsock, fun _ => hsock, fun _ _ _ _ => rfl,
    schedule_first _ _ _ (by decide) (schedule_first _ _ _ (by decide) h.first),
    Or.inl (noLive_schedule_other _ _ _ _ (by decide)
      (noLive_schedule_other _ _ _ _ (by decide) hact)),
    Or.inl rfl,
    Or.inl (noLive_schedule_other _ _ _ _ (by decide)
      (noLive_schedule_other _ _ _ _ (by decide) hstart)),
    Nat.zero_le _⟩

theorem flow_shape (firstDraw : Nat → K) (st st' : State K)
    (h : (match ScheduleNextTx firstDraw st with
          | none => none
          | some st => ScheduleStopEvent firstDraw st) = some st') :
    ∃ d1 d2 : K, st' = { st with
        sim := ((st.sim.Schedule d1 Callback.SendPacket).1.Schedule d2 Callback.StopSending).1,
        m_sendEvent := (st.sim.Schedule d1 Callback.SendPacket).2,
        m_startStopEvent :=
          ((st.sim.Schedule d1 Callback.SendPacket).1.Schedule d2 Callback.StopSending).2 } := by
  cases h1 : ScheduleNextTx firstDraw st with
  | none => rw [h1] at h; cases h
  | some st1 =>
    rw [h1] at h
    obtain ⟨d1, rfl⟩ := scheduleNextTx_shape firstDraw _ _ h1
    obtain ⟨d2, rfl⟩ := scheduleStopEvent_shape firstDraw _ _ h
    exact ⟨d1, d2, rfl⟩

theorem flow_total (firstDraw : Nat → K)
    (hdraw : ∀ s, 0 ≤ firstDraw s ∧ firstDraw s < 1) (st : State K) :
    ∃ st', (match ScheduleNextTx firstDraw st with
          | none => none
          | some st => ScheduleStopEvent firstDraw st) = some st' := by
  obtain ⟨st1, h1⟩ := scheduleNextTx_total firstDraw hdraw st
  rw [h1]
  exact scheduleStopEvent_total firstDraw hdraw st1

end Preservation

end LegitimateTrafficApplication
namespace LegitimateTrafficApplication

section Preservation2

variable {K : Type} [LinearOrderedField K] [FloorRing K]

set_option linter.unusedSectionVars false

/-- What the firing of a live flow start tells. -/
theorem fired_start (st : State K) (e : Event K Callback) (sim : Simulator K Callback)
    (h : EventsTracked st) (hn : st.sim.next = some (e, sim)) (hc : e.cancelled = false)
    (hcb : e.callback = Callback.StartSending) :
    NoLive Callback.StartApplication sim.events ∧ NoLive Callback.SendPacket sim.events
      ∧ NoLive Callback.StartSending sim.events ∧ NoLive Callback.StopSending sim.events
      ∧ st.connecting = 0 := by
  have hsub := Simulator.next_events_sub st.sim sim e hn
  refine ⟨?_, ?_, fired_tracked _ _ _ _ _ _ hn hc hcb h.start h.start,
    fired_tracked _ _ _ _ _ _ hn hc hcb h.start h.stop, ?_⟩
  · rcases h.activated with h1 | h1
    · exact noLive_sub _ _ _ hsub h1
    · exact (live_not_noLive _ _ _ _ hn hc hcb h1.2.2.1).elim
  · rcases h.idle with h1 | h1
    · exact (live_not_noLive _ _ _ _ hn hc hcb h1).elim
    · exact noLive_sub _ _ _ hsub h1
  · rcases h.waiting with h1 | h1
    · exact h1
    · exact (live_not_noLive _ _ _ _ hn hc hcb h1.2.1).elim

/-- What the firing of a live flow stop tells. -/
theorem fired_stop (st : State K) (e : Event K Callback) (sim : Simulator K Callback)
    (h : EventsTracked st) (hn : st.sim.next = some (e, sim)) (hc : e.cancelled = false)
    (hcb : e.callback = Callback.StopSending) :
    NoLive Callback.StartApplication sim.events ∧ st.connecting = 0
      ∧ st.m_connected = true ∧ st.m_socket = true := by
  have hsub := Simulator.next_events_sub st.sim sim e hn
  have hconn := h.flow e (Simulator.next_some _ _ _ hn).1 hc hcb
  refine ⟨?_, ?_, hconn, h.socket hconn⟩
  · rcases h.activated with h1 | h1
    · exact noLive_sub _ _ _ hsub h1
    · exact (live_not_noLive _ _ _ _ hn hc hcb h1.2.2.2).elim
  · rcases h.waiting with h1 | h1
    · exact h1
    · exact (live_not_noLive _ _ _ _ hn hc hcb h1.2.2).elim

/-- What the firing of a live send event tells. -/
theorem fired_send (st : State K) (e : Event K Callback) (sim : Simulator K Callback)
    (h : EventsTracked st) (hn : st.sim.next = some (e, sim)) (hc : e.cancelled = false)
    (hcb : e.callback = Callback.SendPacket) :
    NoLive Callback.StartApplication sim.events ∧ NoLive Callback.SendPacket sim.events
      ∧ NoLive Callback.StartSending sim.events ∧ st.connecting = 0
      ∧ IsExpired sim st.m_sendEvent = true := by
  have hsub := Simulator.next_events_sub st.sim sim e hn
  refine ⟨?_, fired_tracked _ _ _ _ _ _ hn hc hcb h.send h.send, ?_, ?_, ?_⟩
  · rcases h.activated with h1 | h1
    · exact noLive_sub _ _ _ hsub h1
    · exact (live_not_noLive _ _ _ _ hn hc hcb h1.2.1).elim
  · rcases h.idle with h1 | h1
    · exact noLive_sub _ _ _ hsub h1
    · exact (live_not_noLive _ _ _ _ hn hc hcb h1).elim
  · rcases h.waiting with h1 | h1
    · exact h1
    · exact (live_not_noLive _ _ _ _ hn hc hcb h1.1).elim
  · rw [h.send e (Simulator.next_some _ _ _ hn).1 hc hcb]
    simp only [IsExpired, List.all_eq_true, Bool.or_eq_true, decide_eq_true_eq]
    intro x hx
    exact Or.inl (Simulator.next_uid_gone _ _ _ hn x hx)

theorem startSending_shape (firstDraw : Nat → K) (st st' : State K)
    (h : StartSending firstDraw st = some st') :
    (st.m_connected = false
        ∧ st' = { ConnectSocket st with m_flowsStarted := (st.m_flowsStarted + 1) % 2 ^ 32 })
      ∨ (st.m_connected = true ∧ ∃ d1 d2 : K, st' = { st with
          sim := ((st.sim.Schedule d1 Callback.SendPacket).1.Schedule d2
            Callback.StopSending).1,
          m_sendEvent := (st.sim.Schedule d1 Callback.SendPacket).2,
          m_startStopEvent :=
            ((st.sim.Schedule d1 Callback.SendPacket).1.Schedule d2 Callback.StopSending).2,
          m_flowsStarted := (st.m_flowsStarted + 1) % 2 ^ 32 }) := by
  unfold StartSending at h
  dsimp only at h
  split at h
  · cases h
  · next st2 hr =>
    simp only [Option.some.injEq] at h
    by_cases hco : st.m_connected = false
    · rw [if_pos hco, Option.some.injEq] at hr
      left
      rw [← h, ← hr]
      exact ⟨hco, rfl⟩
    · rw [if_neg hco] at hr
      right
      obtain ⟨d1, d2, hst2⟩ := flow_shape firstDraw _ _ hr
      have hco' : st.m_connected = true := by
        cases hx : st.m_connected with
        | false => exact absurd hx hco
        | true => rfl
      refine ⟨hco', d1, d2, ?_⟩
      rw [← h, hst2]

theorem startSending_total (firstDraw : Nat → K)
    (hdraw : ∀ s, 0 ≤ firstDraw s ∧ firstDraw s < 1) (st : State K) :
    ∃ st', StartSending firstDraw st = some st' := by
  unfold StartSending
  dsimp only
  by_cases hco : st.m_connected = false
  · rw [if_pos hco]
    exact ⟨_, rfl⟩
  · rw [if_neg hco]
    obtain ⟨s1, h1⟩ := scheduleNextTx_total firstDraw hdraw st
    obtain ⟨s2, h2⟩ := scheduleStopEvent_total firstDraw hdraw s1
    simp only [h1, h2]
    exact ⟨_, rfl⟩

theorem eventsTracked_startSending (firstDraw : Nat → K) (st st' : State K)
    (e : Event K Callback) (sim : Simulator K Callback) (h : EventsTracked st)
    (hn : st.sim.next = some (e, sim)) (hc : e.cancelled = false)
    (hcb : e.callback = Callback.StartSending)
    (hst : StartSending firstDraw { st with sim := sim } = some st') :
    EventsTracked st' := by
  have h1 := eventsTracked_next st e sim h hn
  obtain ⟨hact, hsend, hstart, hstop, h0⟩ := fired_start st e sim h hn hc hcb
  rcases startSending_shape firstDraw _ _ hst with ⟨-, rfl⟩ | ⟨hco, d1, d2, rfl⟩
  · exact ⟨h1.uids, h1.send, h1.start, h1.stop, fun _ => rfl, fun _ => rfl,
      fun x hx hxc hxcb => absurd hxcb (hstop x hx hxc), h1.first, Or.inl hact,
      Or.inr ⟨hsend, hstart, hstop⟩, Or.inl hstart,
      Nat.le_of_eq (congrArg (fun n => n + 1) h0)⟩
  · exact eventsTracked_flow { st with sim := sim } d1 d2
      ((st.m_flowsStarted + 1) % 2 ^ 32) st.connecting st.m_connected h1 hco h0 (h.socket hco)
      hact hsend hstart hstop

theorem stopSending_shape (firstDraw : Nat → K) (bernoulliDraw : Nat → Bool)
    (st st' : State K) (h : StopSending firstDraw bernoulliDraw st = some st') :
    ∃ d : K, GetRandomDistributionNumber firstDraw st.m_seed DISTRIBUTION_TIME_BETWEEN_FLOWS
        st.m_flowsStarted = some d
      ∧ st' = { CancelEvents st with
          sim := ((CancelEvents st).sim.Schedule d Callback.StartSending).1,
          m_startStopEvent := ((CancelEvents st).sim.Schedule d Callback.StartSending).2,
          m_connected :=
            if bernoulliDraw (stopSeed (CancelEvents st)) = true ∧ st.m_socket = true then false
            else st.m_connected,
          closes :=
            if bernoulliDraw (stopSeed (CancelEvents st)) = true ∧ st.m_socket = true then
              st.closes ++ [(CancelEvents st).sim.now]
            else st.closes } := by
  unfold StopSending at h
  dsimp only at h
  by_cases hb : bernoulliDraw (stopSeed (CancelEvents st)) = true
  · rw [if_pos hb] at h
    unfold DisconnectSocket at h
    by_cases hso : st.m_socket = true
    · have hso' : (CancelEvents st).m_socket = true := hso
      rw [if_pos hso'] at h
      obtain ⟨d, hd, hs⟩ := scheduleStartEvent_shape firstDraw _ _ h
      refine ⟨d, hd, ?_⟩
      rw [hs, if_pos ⟨hb, hso⟩, if_pos ⟨hb, hso⟩]
      rfl
    · have hso' : ¬ (CancelEvents st).m_socket = true := hso
      rw [if_neg hso'] at h
      obtain ⟨d, hd, hs⟩ := scheduleStartEvent_shape firstDraw _ _ h
      refine ⟨d, hd, ?_⟩
      rw [hs, if_neg (fun hx => hso hx.2), if_neg (fun hx => hso hx.2)]
      rfl
  · rw [if_neg hb] at h
    obtain ⟨d, hd, hs⟩ := scheduleStartEvent_shape firstDraw _ _ h
    refine ⟨d, hd, ?_⟩
    rw [hs, if_neg (fun hx => hb hx.1), if_neg (fun hx => hb hx.1)]
    rfl

theorem stopSending_total (firstDraw : Nat → K) (bernoulliDraw : Nat → Bool)
    (hdraw : ∀ s, 0 ≤ firstDraw s ∧ firstDraw s < 1) (st : State K) :
    ∃ st', StopSending firstDraw bernoulliDraw st = some st' := by
  unfold StopSending
  exact scheduleStartEvent_total firstDraw hdraw _

theorem eventsTracked_stopSending (firstDraw : Nat → K) (bernoulliDraw : Nat → Bool)
    (st st' : State K) (e : Event K Callback) (sim : Simulator K Callback)
    (h : EventsTracked st) (hn : st.sim.next = some (e, sim)) (hc : e.cancelled = false)
    (hcb : e.callback = Callback.StopSending)
    (hst : StopSending firstDraw bernoulliDraw { st with sim := sim } = some st') :
    EventsTracked st' := by
  have h1 := eventsTracked_next st e sim h hn
  obtain ⟨hact, h0, hconn, hsock⟩ := fired_stop st e sim h hn hc hcb
  obtain ⟨d, -, rfl⟩ := stopSending_shape firstDraw bernoulliDraw _ _ hst
  refine eventsTracked_restart { st with sim := sim } d _ _ h1 ?_ hact h0
  intro _
  exact hsock

theorem sendPacket_shape (firstDraw : Nat → K) (actual : Int) (st st' : State K)
    (h : SendPacket firstDraw actual st = some st') :
    IsExpired st.sim st.m_sendEvent = true
      ∧ ∃ (d : K) (pktSize pktSent totBytes packets : Nat) (unsent : Option Packet)
          (handed : List (K × Packet × Bool)),
        st' = { st with sim := (st.sim.Schedule d Callback.SendPacket).1,
                        m_sendEvent := (st.sim.Schedule d Callback.SendPacket).2,
                        m_pktSize := pktSize, m_pktSent := pktSent, m_totBytes := totBytes,
                        packets := packets, m_unsentPacket := unsent, handed := handed } := by
  unfold SendPacket at h
  cases hx : IsExpired st.sim st.m_sendEvent with
  | false => simp [hx] at h
  | true =>
    refine ⟨rfl, ?_⟩
    simp only [hx, Bool.true_eq_false, if_false] at h
    cases hs : samplePktSize firstDraw st with
    | none => simp only [hs] at h; cases h
    | some n =>
      simp only [hs] at h
      obtain ⟨d, hd⟩ := scheduleNextTx_shape firstDraw _ _ h
      by_cases hf : (actual % 2 ^ 32).toNat = n
      · simp only [hf, decide_True, if_true] at hd
        exact ⟨d, _, _, _, _, _, _, hd⟩
      · simp only [hf, decide_False, Bool.false_eq_true, if_false] at hd
        exact ⟨d, _, _, _, _, _, _, hd⟩

theorem sendPacket_total (firstDraw : Nat → K)
    (hdraw : ∀ s, 0 ≤ firstDraw s ∧ firstDraw s < 1) (actual : Int) (st : State K)
    (hx : IsExpired st.sim st.m_sendEvent = true) :
    ∃ st', SendPacket firstDraw actual st = some st' := by
  obtain ⟨n, hn⟩ := samplePktSize_total firstDraw hdraw st
  simp only [SendPacket, hx, Bool.true_eq_false, if_false, hn]
  exact scheduleNextTx_total firstDraw hdraw _

theorem eventsTracked_sendPacket (firstDraw : Nat → K) (actual : Int) (st st' : State K)
    (e : Event K Callback) (sim : Simulator K Callback) (h : EventsTracked st)
    (hn : st.sim.next = some (e, sim)) (hc : e.cancelled = false)
    (hcb : e.callback = Callback.SendPacket)
    (hst : SendPacket firstDraw actual { st with sim := sim } = some st') :
    EventsTracked st' := by
  have h1 := eventsTracked_next st e sim h hn
  obtain ⟨hact, hsend, hstart, h0, -⟩ := fired_send st e sim h hn hc hcb
  obtain ⟨-, d, a1, a2, a3, a4, a5, a6, rfl⟩ := sendPacket_shape firstDraw actual _ _ hst
  refine ⟨Simulator.uidsOk_schedule _ _ _ h1.uids, tracked_schedule_new _ _ _ hsend,
    tracked_schedule_other _ _ _ _ _ (by decide) h1.start,
    tracked_schedule_other _ _ _ _ _ (by decide) h1.stop, h1.socket, h1.attempt, ?_,
    schedule_first _ _ _ (by decide) h1.first,
    Or.inl (noLive_schedule_other _ _ _ _ (by decide) hact), Or.inl h0,
    Or.inl (noLive_schedule_other _ _ _ _ (by decide) hstart), h1.once⟩
  intro x hx hxc hxcb
  simp only [Simulator.Schedule, List.mem_append, List.mem_singleton] at hx
  rcases hx with hx | hx
  · exact h1.flow x hx hxc hxcb
  · subst hx
    cases hxcb

theorem eventsTracked_connectionSucceeded (firstDraw : Nat → K) (t : K) (st st' : State K)
    (h : EventsTracked st) (hpos : 0 < st.connecting)
    (hst : ConnectionSucceeded firstDraw
      { st with sim := { st.sim with now := t }, connecting := st.connecting - 1 } = some st') :
    EventsTracked st' := by
  unfold ConnectionSucceeded at hst
  obtain ⟨d1, d2, rfl⟩ := flow_shape firstDraw _ _ hst
  have hone : st.connecting - 1 = 0 := by
    have := h.once
    omega
  have hq : NoLive Callback.SendPacket st.sim.events ∧ NoLive Callback.StartSending st.sim.events
      ∧ NoLive Callback.StopSending st.sim.events := by
    rcases h.waiting with h1 | h1
    · omega
    · exact h1
  have hact : NoLive Callback.StartApplication st.sim.events := by
    rcases h.activated with h1 | h1
    · exact h1
    · have := h1.1
      omega
  have h1 : EventsTracked { st with sim := { st.sim with now := t } } :=
    ⟨h.uids, h.send, h.start, h.stop, h.socket, h.attempt, h.flow, h.first, h.activated,
      h.waiting, h.idle, h.once⟩
  exact eventsTracked_flow { st with sim := { st.sim with now := t } } d1 d2
    st.m_flowsStarted (st.connecting - 1) true h1 rfl hone (h.attempt hpos) hact hq.1 hq.2.1
    hq.2.2

/-- Every action keeps the events tracked. -/
theorem eventsTracked_step (firstDraw : Nat → K) (bernoulliDraw : Nat → Bool) (a : Action K)
    (st st' : State K) (h : EventsTracked st)
    (hst : step firstDraw bernoulliDraw a st = some st') : EventsTracked st' := by
  cases a with
  | fire actual =>
    simp only [step] at hst
    cases hn : st.sim.next with
    | none =>
      simp only [hn, Option.some.injEq] at hst
      exact hst ▸ h
    | some p =>
      obtain ⟨e, sim⟩ := p
      simp only [hn] at hst
      cases hc : e.cancelled with
      | true =>
        simp only [hc, if_true, Option.some.injEq] at hst
        exact hst ▸ eventsTracked_next st e sim h hn
      | false =>
        simp only [hc, Bool.false_eq_true, if_false] at hst
        cases hcb : e.callback with
        | StartApplication =>
          simp only [hcb, dispatch] at hst
          exact eventsTracked_startApplication firstDraw st st' e sim h hn hc hcb hst
        | StopApplication =>
          simp only [hcb, dispatch, StopApplication, Option.some.injEq] at hst
          exact hst ▸ eventsTracked_stopApplication _ (eventsTracked_next st e sim h hn)
        | StartSending =>
          simp only [hcb, dispatch] at hst
          exact eventsTracked_startSending firstDraw st st' e sim h hn hc hcb hst
        | StopSending =>
          simp only [hcb, dispatch] at hst
          exact eventsTracked_stopSending firstDraw bernoulliDraw st st' e sim h hn hc hcb hst
        | SendPacket =>
          simp only [hcb, dispatch] at hst
          exact eventsTracked_sendPacket firstDraw actual st st' e sim h hn hc hcb hst
  | connectionSucceeded t =>
    simp only [step] at hst
    by_cases hen : 0 < st.connecting ∧ st.sim.now ≤ t ∧ ∀ e ∈ st.sim.events, t ≤ e.ts
    · rw [if_pos hen] at hst
      exact eventsTracked_connectionSucceeded firstDraw t st st' h hen.1 hst
    · rw [if_neg hen] at hst
      cases hst

theorem eventsTracked_run (firstDraw : Nat → K) (bernoulliDraw : Nat → Bool) :
    ∀ (acts : List (Action K)) (st st' : State K), EventsTracked st →
      run firstDraw bernoulliDraw acts st = some st' → EventsTracked st' := by
  intro acts
  induction acts with
  | nil =>
    intro st st' h hr
    simp only [run, Option.some.injEq] at hr
    exact hr ▸ h
  | cons a as ih =>
    intro st st' h hr
    simp only [run] at hr
    cases hs : step firstDraw bernoulliDraw a st with
    | none => rw [hs] at hr; cases hr
    | some st1 =>
      rw [hs] at hr
      exact ih st1 st' (eventsTracked_step firstDraw bernoulliDraw a st st1 h hs) hr

theorem eventsTracked_init (m_seed m_pktSize : Nat) (startTime : K) (stopTime : Option K) :
    EventsTracked (init m_seed m_pktSize startTime stopTime) := by
  have hev : ∀ e ∈ (init m_seed m_pktSize startTime stopTime).sim.events,
      (e.uid = 0 ∧ e.callback = Callback.StartApplication)
        ∨ (e.uid = 1 ∧ e.callback = Callback.StopApplication) := by
    intro e he
    cases stopTime with
    | none =>
      simp only [init, List.mem_singleton] at he
      subst he
      exact Or.inl ⟨rfl, rfl⟩
    | some s =>
      simp only [init, List.mem_cons, List.mem_singleton, List.not_mem_nil, or_false] at he
      rcases he with he | he
      · subst he
        exact Or.inl ⟨rfl, rfl⟩
      · subst he
        exact Or.inr ⟨rfl, rfl⟩
  have hno : ∀ c, c ≠ Callback.StartApplication → c ≠ Callback.StopApplication →
      NoLive c (init m_seed m_pktSize startTime stopTime).sim.events := by
    intro c h1 h2 e he _ hcb
    rcases hev e he with h | h
    · exact h1 (hcb ▸ h.2)
    · exact h2 (hcb ▸ h.2)
  refine ⟨⟨?_, ?_⟩, tracked_of_noLive _ _ _ (hno _ (by decide) (by decide)),
    tracked_of_noLive _ _ _ (hno _ (by decide) (by decide)),
    tracked_of_noLive _ _ _ (hno _ (by decide) (by decide)),
    fun hx => (Bool.false_ne_true hx).elim, fun hx => (Nat.lt_irrefl 0 hx).elim,
    fun e he hc hcb => absurd hcb (hno _ (by decide) (by decide) e he hc), ?_,
    Or.inr ⟨rfl, hno _ (by decide) (by decide), hno _ (by decide) (by decide),
      hno _ (by decide) (by decide)⟩,
    Or.inl rfl, Or.inl (hno _ (by decide) (by decide)), Nat.zero_le _⟩
  · intro e he
    rcases hev e he with h | h
    · rw [h.1]; exact Nat.zero_lt_two
    · rw [h.1]; exact Nat.one_lt_two
  · cases stopTime with
    | none => simp [init]
    | some s => simp [init]
  · intro e he _ hcb
    rcases hev e he with h | h
    · exact h.1
    · rw [h.2] at hcb
      cases hcb

end Preservation2

end LegitimateTrafficApplication
namespace LegitimateTrafficApplication

section Trace

variable {K : Type} [LinearOrderedField K] [FloorRing K]

set_option linter.unusedSectionVars false

theorem run_cons (firstDraw : Nat → K) (bernoulliDraw : Nat → Bool) (a : Action K)
    (as : List (Action K)) (st st' : State K)
    (h : step firstDraw bernoulliDraw a st = some st') :
    run firstDraw bernoulliDraw (a :: as) st = run firstDraw bernoulliDraw as st' := by
  simp only [run, h]

theorem run_nil (firstDraw : Nat → K) (bernoulliDraw : Nat → Bool) (st : State K) :
    run firstDraw bernoulliDraw [] st = some st := rfl

theorem run_append (firstDraw : Nat → K) (bernoulliDraw : Nat → Bool) :
    ∀ (as bs : List (Action K)) (st st' : State K),
      run firstDraw bernoulliDraw as st = some st' →
      run firstDraw bernoulliDraw (as ++ bs) st = run firstDraw bernoulliDraw bs st' := by
  intro as
  induction as with
  | nil =>
    intro bs st st' h
    simp only [run, Option.some.injEq] at h
    subst h
    rfl
  | cons a as ih =>
    intro bs st st' h
    simp only [run] at h
    cases hs : step firstDraw bernoulliDraw a st with
    | none => rw [hs] at h; cases h
    | some st1 =>
      rw [hs] at h
      rw [List.cons_append, run_cons _ _ _ _ _ _ hs]
      exact ih bs st1 st' h

theorem fire_live (firstDraw : Nat → K) (bernoulliDraw : Nat → Bool) (actual : Int)
    (st : State K) (e : Event K Callback) (sim : Simulator K Callback)
    (hnext : st.sim.next = some (e, sim)) (hc : e.cancelled = false) :
    step firstDraw bernoulliDraw (Action.fire actual) st
      = dispatch firstDraw bernoulliDraw actual e.callback { st with sim := sim } := by
  simp only [step, hnext, hc, Bool.false_eq_true, if_false]

/-- The state in which the first send of the first flow was short: the stop
of the flow is pending at `tc + dur` and the next send at `tc + d + d`. -/
theorem trace_short_write (firstDraw : Nat → K) (bernoulliDraw : Nat → Bool)
    (m_seed pktSize0 size : Nat) (w pps dur v tc : K) (actual : Int)
    (hw : GetRandomDistributionNumber firstDraw m_seed DISTRIBUTION_TIME_BETWEEN_FLOWS m_seed
      = some w)
    (hpps : GetRandomDistributionNumber firstDraw m_seed DISTRIBUTION_PACKETS_PER_SECOND 0
      = some pps)
    (hpps0 : pps ≠ 0)
    (hdur : GetRandomDistributionNumber firstDraw m_seed DISTRIBUTION_FLOW_DURATION 1
      = some dur)
    (hv : GetRandomDistributionNumber firstDraw m_seed DISTRIBUTION_PACKET_LENGTH 0 = some v)
    (hsize : ((truncToInt v) % 2 ^ 32).toNat = size)
    (hshort : (actual % 2 ^ 32).toNat ≠ size)
    (htc : 0 + w * firstDraw m_seed ≤ tc) (h1 : 1 / pps < dur) :
    run firstDraw bernoulliDraw
        [Action.fire 0, Action.fire 0, Action.connectionSucceeded tc, Action.fire actual]
        (init m_seed pktSize0 0 none)
      = some { sim := ⟨tc + 1 / pps, 6, [⟨tc + dur, 4, Callback.StopSending, false⟩,
                  ⟨tc + 1 / pps + 1 / pps, 5, Callback.SendPacket, false⟩]⟩,
               m_socket := true, m_connected := true, m_pktSize := size, m_pktSent := 0,
               m_flowsStarted := 1, m_seed := m_seed, m_totBytes := 0,
               m_startStopEvent := some 4, m_sendEvent := some 5,
               m_unsentPacket := some ⟨0, size⟩, packets := 1, connecting := 0,
               handed := [(tc + 1 / pps, ⟨0, size⟩, false)], closes := [] } := by
  -- the activation
  have hn0 : (init m_seed pktSize0 (0 : K) none).sim.next
      = some (⟨0, 0, Callback.StartApplication, false⟩, ⟨0, 2, []⟩) :=
    Simulator.next_pick _ [] [] _ rfl (fun x hx => by cases hx) (fun x hx => by cases hx)
  have hs0 : step firstDraw bernoulliDraw (Action.fire 0) (init m_seed pktSize0 (0 : K) none)
      = some { sim := ⟨0, 3, [⟨0 + w * firstDraw m_seed, 2, Callback.StartSending, false⟩]⟩,
               m_socket := false, m_connected := false, m_pktSize := pktSize0, m_pktSent := 0,
               m_flowsStarted := 0, m_seed := m_seed, m_totBytes := 0,
               m_startStopEvent := some 2, m_sendEvent := none,
               m_unsentPacket := none, packets := 0, connecting := 0,
               handed := [], closes := [] } := by
    rw [fire_live _ _ _ _ _ _ hn0 rfl]
    simp only [dispatch, StartApplication, CancelEvents, init, Simulator.Cancel, hw,
      Simulator.Schedule, List.nil_append]
  rw [run_cons _ _ _ _ _ _ hs0]
  -- the start of the first flow
  have hn1 : (⟨0, 3, [⟨0 + w * firstDraw m_seed, 2, Callback.StartSending, false⟩]⟩ :
        Simulator K Callback).next
      = some (⟨0 + w * firstDraw m_seed, 2, Callback.StartSending, false⟩,
          ⟨0 + w * firstDraw m_seed, 3, []⟩) :=
    Simulator.next_pick _ [] [] _ rfl (fun x hx => by cases hx) (fun x hx => by cases hx)
  have hs1 : step firstDraw bernoulliDraw (Action.fire 0)
        { sim := ⟨0, 3, [⟨0 + w * firstDraw m_seed, 2, Callback.StartSending, false⟩]⟩,
               m_socket := false, m_connected := false, m_pktSize := pktSize0, m_pktSent := 0,
               m_flowsStarted := 0, m_seed := m_seed, m_totBytes := 0,
               m_startStopEvent := some 2, m_sendEvent := none,
               m_unsentPacket := none, packets := 0, connecting := 0,
               handed := [], closes := [] }
      = some { sim := ⟨0 + w * firstDraw m_seed, 3, []⟩,
               m_socket := true, m_connected := false, m_pktSize := pktSize0, m_pktSent := 0,
               m_flowsStarted := 1, m_seed := m_seed, m_totBytes := 0,
               m_startStopEvent := some 2, m_sendEvent := none,
               m_unsentPacket := none, packets := 0, connecting := 1,
               handed := [], closes := [] } := by
    rw [fire_live _ _ _ _ _ _ hn1 rfl]
    simp only [dispatch, StartSending, ConnectSocket, if_true, Nat.zero_add]
    rfl
  rw [run_cons _ _ _ _ _ _ hs1]
  -- the connection
  have hs2 : step firstDraw bernoulliDraw (Action.connectionSucceeded tc)
        { sim := ⟨0 + w * firstDraw m_seed, 3, []⟩,
               m_socket := true, m_connected := false, m_pktSize := pktSize0, m_pktSent := 0,
               m_flowsStarted := 1, m_seed := m_seed, m_totBytes := 0,
               m_startStopEvent := some 2, m_sendEvent := none,
               m_unsentPacket := none, packets := 0, connecting := 1,
               handed := [], closes := [] }
      = some { sim := ⟨tc, 5, [⟨tc + 1 / pps, 3, Callback.SendPacket, false⟩,
                  ⟨tc + dur, 4, Callback.StopSending, false⟩]⟩,
               m_socket := true, m_connected := true, m_pktSize := pktSize0, m_pktSent := 0,
               m_flowsStarted := 1, m_seed := m_seed, m_totBytes := 0,
               m_startStopEvent := some 4, m_sendEvent := some 3,
               m_unsentPacket := none, packets := 0, connecting := 0,
               handed := [], closes := [] } := by
    simp only [step]
    rw [if_pos ⟨Nat.one_pos, htc, fun e he => by cases he⟩]
    simp only [ConnectionSucceeded, ScheduleNextTx, hpps, hpps0, if_false, Simulator.Schedule,
      ScheduleStopEvent, hdur, List.nil_append, List.singleton_append, Nat.sub_self]
  rw [run_cons _ _ _ _ _ _ hs2]
  -- the first send, which is short
  have hn3 : (⟨tc, 5, [⟨tc + 1 / pps, 3, Callback.SendPacket, false⟩,
        ⟨tc + dur, 4, Callback.StopSending, false⟩]⟩ : Simulator K Callback).next
      = some (⟨tc + 1 / pps, 3, Callback.SendPacket, false⟩,
          ⟨tc + 1 / pps, 5, [⟨tc + dur, 4, Callback.StopSending, false⟩]⟩) := by
    refine Simulator.next_pick _ [] [_] _ rfl (fun x hx => by cases hx) ?_
    intro x hx
    rw [List.mem_singleton] at hx
    subst hx
    refine ⟨Simulator.before_of_lt _ _ ?_, ?_⟩
    · show tc + 1 / pps < tc + dur
      linarith
    · show (4 : Nat) ≠ 3
      decide
  have hs3 : step firstDraw bernoulliDraw (Action.fire actual)
        { sim := ⟨tc, 5, [⟨tc + 1 / pps, 3, Callback.SendPacket, false⟩,
                  ⟨tc + dur, 4, Callback.StopSending, false⟩]⟩,
               m_socket := true, m_connected := true, m_pktSize := pktSize0, m_pktSent := 0,
               m_flowsStarted := 1, m_seed := m_seed, m_totBytes := 0,
               m_startStopEvent := some 4, m_sendEvent := some 3,
               m_unsentPacket := none, packets := 0, connecting := 0,
               handed := [], closes := [] }
      = some { sim := ⟨tc + 1 / pps, 6, [⟨tc + dur, 4, Callback.StopSending, false⟩,
                  ⟨tc + 1 / pps + 1 / pps, 5, Callback.SendPacket, false⟩]⟩,
               m_socket := true, m_connected := true, m_pktSize := size, m_pktSent := 0,
               m_flowsStarted := 1, m_seed := m_seed, m_totBytes := 0,
               m_startStopEvent := some 4, m_sendEvent := some 5,
               m_unsentPacket := some ⟨0, size⟩, packets := 1, connecting := 0,
               handed := [(tc + 1 / pps, ⟨0, size⟩, false)], closes := [] } := by
    rw [fire_live _ _ _ _ _ _ hn3 rfl]
    have hx : IsExpired (⟨tc + 1 / pps, 5, [⟨tc + dur, 4, Callback.StopSending, false⟩]⟩ :
        Simulator K Callback) (some 3) = true := by
      simp [IsExpired]
    simp only [dispatch, SendPacket, hx, Bool.true_eq_false, if_false, samplePktSize, hv, hsize,
      hshort, decide_False, Bool.false_eq_true, ScheduleNextTx, hpps, hpps0, Simulator.Schedule,
      List.nil_append, List.singleton_append, Nat.zero_add]
  rw [run_cons _ _ _ _ _ _ hs3]
  rfl

end Trace

end LegitimateTrafficApplication
namespace LegitimateTrafficApplication

section PacketLemmas

variable {K : Type} [LinearOrderedField K] [FloorRing K]

set_option linter.unusedSectionVars false

/-- What `SendPacket` does with the packets: it hands the cached packet, or
a new one of the sampled size, to the socket; after a short write that packet
is cached and `m_pktSent` stays; after a full write nothing is cached. -/
theorem sendPacket_packets (firstDraw : Nat → K) (actual : Int) (st st' : State K)
    (h : SendPacket firstDraw actual st = some st') :
    ∃ (p : Packet) (full : Bool) (pktSize : Nat),
      samplePktSize firstDraw st = some pktSize
        ∧ full = decide ((actual % 2 ^ 32).toNat = pktSize)
        ∧ st'.m_pktSize = pktSize
        ∧ st'.handed = st.handed ++ [(st.sim.now, p, full)]
        ∧ ((st.m_unsentPacket = some p ∧ st'.packets = st.packets)
            ∨ (st.m_unsentPacket = none ∧ p = ⟨st.packets, pktSize⟩
                ∧ st'.packets = st.packets + 1))
        ∧ (full = false → st'.m_unsentPacket = some p ∧ st'.m_pktSent = st.m_pktSent)
        ∧ (full = true → st'.m_unsentPacket = none
            ∧ st'.m_pktSent = (st.m_pktSent + 1) % 2 ^ 32)
        ∧ st'.m_seed = st.m_seed ∧ st'.sim.now = st.sim.now := by
  unfold SendPacket at h
  cases hx : IsExpired st.sim st.m_sendEvent with
  | false => simp [hx] at h
  | true =>
    simp only [hx, Bool.true_eq_false, if_false] at h
    cases hs : samplePktSize firstDraw st with
    | none => simp only [hs] at h; cases h
    | some n =>
      simp only [hs] at h
      obtain ⟨d, hd⟩ := scheduleNextTx_shape firstDraw _ _ h
      by_cases hf : (actual % 2 ^ 32).toNat = n
      · simp only [hf, decide_True, if_true] at hd
        cases hu : st.m_unsentPacket with
        | none =>
          simp only [hu] at hd
          subst hd
          exact ⟨⟨st.packets, n⟩, true, n, rfl, (decide_eq_true hf).symm, rfl, rfl,
            Or.inr ⟨rfl, rfl, rfl⟩, fun hx => Bool.noConfusion hx, fun _ => ⟨rfl, rfl⟩, rfl, rfl⟩
        | some p =>
          simp only [hu] at hd
          subst hd
          exact ⟨p, true, n, rfl, (decide_eq_true hf).symm, rfl, rfl,
            Or.inl ⟨rfl, rfl⟩, fun hx => Bool.noConfusion hx, fun _ => ⟨rfl, rfl⟩, rfl, rfl⟩
      · simp only [hf, decide_False, Bool.false_eq_true, if_false] at hd
        cases hu : st.m_unsentPacket with
        | none =>
          simp only [hu] at hd
          subst hd
          exact ⟨⟨st.packets, n⟩, false, n, rfl, (decide_eq_false hf).symm, rfl, rfl,
            Or.inr ⟨rfl, rfl, rfl⟩, fun _ => ⟨rfl, rfl⟩, fun hx => Bool.noConfusion hx, rfl, rfl⟩
        | some p =>
          simp only [hu] at hd
          subst hd
          exact ⟨p, false, n, rfl, (decide_eq_false hf).symm, rfl, rfl,
            Or.inl ⟨rfl, rfl⟩, fun _ => ⟨rfl, rfl⟩, fun hx => Bool.noConfusion hx, rfl, rfl⟩

/-- What one action does with the packets.  Either nothing is handed to the
socket and the cached packet stays; or a live event that calls
`StartApplication`, `StopApplication` or `StopSending` is taken, nothing is
handed to the socket and no packet is cached afterwards; or a live send event
is taken and `SendPacket` runs. -/
theorem step_packets (firstDraw : Nat → K) (bernoulliDraw : Nat → Bool) (a : Action K)
    (st st' : State K) (hst : step firstDraw bernoulliDraw a st = some st') :
    st'.m_seed = st.m_seed
      ∧ ((st'.handed = st.handed ∧ st'.packets = st.packets
            ∧ st'.m_unsentPacket = st.m_unsentPacket ∧ st'.m_pktSent = st.m_pktSent)
        ∨ (st'.handed = st.handed ∧ st'.packets = st.packets
            ∧ st'.m_unsentPacket = none ∧ st'.m_pktSent = st.m_pktSent
            ∧ ∃ actual e sim, a = Action.fire actual ∧ st.sim.next = some (e, sim)
                ∧ e.cancelled = false
                ∧ (e.callback = Callback.StartApplication
                    ∨ e.callback = Callback.StopApplication
                    ∨ e.callback = Callback.StopSending))
        ∨ (∃ actual e sim, a = Action.fire actual ∧ st.sim.next = some (e, sim)
              ∧ e.cancelled = false ∧ e.callback = Callback.SendPacket
              ∧ SendPacket firstDraw actual { st with sim := sim } = some st')) := by
  cases a with
  | fire actual =>
    simp only [step] at hst
    cases hn : st.sim.next with
    | none =>
      simp only [hn, Option.some.injEq] at hst
      subst hst
      exact ⟨rfl, Or.inl ⟨rfl, rfl, rfl, rfl⟩⟩
    | some p =>
      obtain ⟨e, sim⟩ := p
      simp only [hn] at hst
      cases hc : e.cancelled with
      | true =>
        simp only [hc, if_true, Option.some.injEq] at hst
        subst hst
        exact ⟨rfl, Or.inl ⟨rfl, rfl, rfl, rfl⟩⟩
      | false =>
        simp only [hc, Bool.false_eq_true, if_false] at hst
        cases hcb : e.callback with
        | StartApplication =>
          simp only [hcb, dispatch] at hst
          obtain ⟨d, rfl⟩ := startApplication_shape firstDraw _ _ hst
          exact ⟨rfl, Or.inr (Or.inl ⟨rfl, rfl, rfl, rfl, actual, e, sim, rfl, rfl, hc,
            Or.inl hcb⟩)⟩
        | StopApplication =>
          simp only [hcb, dispatch, StopApplication, Option.some.injEq] at hst
          subst hst
          exact ⟨rfl, Or.inr (Or.inl ⟨rfl, rfl, rfl, rfl, actual, e, sim, rfl, rfl, hc,
            Or.inr (Or.inl hcb)⟩)⟩
        | StartSending =>
          simp only [hcb, dispatch] at hst
          rcases startSending_shape firstDraw _ _ hst with ⟨-, rfl⟩ | ⟨-, d1, d2, rfl⟩
          · exact ⟨rfl, Or.inl ⟨rfl, rfl, rfl, rfl⟩⟩
          · exact ⟨rfl, Or.inl ⟨rfl, rfl, rfl, rfl⟩⟩
        | StopSending =>
          simp only [hcb, dispatch] at hst
          obtain ⟨d, -, rfl⟩ := stopSending_shape firstDraw bernoulliDraw _ _ hst
          exact ⟨rfl, Or.inr (Or.inl ⟨rfl, rfl, rfl, rfl, actual, e, sim, rfl, rfl, hc,
            Or.inr (Or.inr hcb)⟩)⟩
        | SendPacket =>
          simp only [hcb, dispatch] at hst
          obtain ⟨p, full, n, -, -, -, -, -, -, -, hseed, -⟩ :=
            sendPacket_packets firstDraw actual _ _ hst
          exact ⟨hseed, Or.inr (Or.inr ⟨actual, e, sim, rfl, rfl, hc, hcb, hst⟩)⟩
  | connectionSucceeded t =>
    simp only [step] at hst
    by_cases hen : 0 < st.connecting ∧ st.sim.now ≤ t ∧ ∀ e ∈ st.sim.events, t ≤ e.ts
    · rw [if_pos hen] at hst
      unfold ConnectionSucceeded at hst
      obtain ⟨d1, d2, rfl⟩ := flow_shape firstDraw _ _ hst
      exact ⟨rfl, Or.inl ⟨rfl, rfl, rfl, rfl⟩⟩
    · rw [if_neg hen] at hst
      cases hst

theorem delivered_append (st : State K) (handed : List (K × Packet × Bool)) (t : K)
    (p : Packet) (full : Bool) (h : st.handed = handed ++ [(t, p, full)]) :
    delivered st
      = (handed.filter fun h => h.2.2).map (fun h => h.2.1) ++ (if full then [p] else []) := by
  cases full <;> simp [delivered, h, List.filter_append]

/-- Every action keeps the packets in order. -/
theorem packetsOk_step (firstDraw : Nat → K) (bernoulliDraw : Nat → Bool) (a : Action K)
    (st st' : State K) (h : PacketsOk firstDraw st)
    (hst : step firstDraw bernoulliDraw a st = some st') : PacketsOk firstDraw st' := by
  obtain ⟨h1, h2, h3⟩ := h
  obtain ⟨hseed, hcase⟩ := step_packets firstDraw bernoulliDraw a st st' hst
  rcases hcase with ⟨e1, e2, e3, e4⟩ | ⟨e1, e2, e3, e4, -⟩ | ⟨actual, e, sim, -, -, -, -, hsend⟩
  · refine ⟨?_, ?_, ?_⟩
    · rw [e1, e2]; exact h1
    · intro p hp
      rw [e3] at hp
      obtain ⟨g1, g2, g3⟩ := h2 p hp
      rw [e1, e2, samplePktSize_congr firstDraw st st' hseed e4]
      exact ⟨g1, g2, g3⟩
    · simp only [delivered, e1]
      exact h3
  · refine ⟨?_, ?_, ?_⟩
    · rw [e1, e2]; exact h1
    · intro p hp
      rw [e3] at hp
      cases hp
    · simp only [delivered, e1]
      exact h3
  · obtain ⟨p, full, n, hn, -, -, hh, hp, hshort, hfull, -, -⟩ :=
      sendPacket_packets firstDraw actual _ _ hsend
    have hn' : samplePktSize firstDraw st = some n := hn
    have hh' : st'.handed = st.handed ++ [(sim.now, p, full)] := hh
    have hp' : (st.m_unsentPacket = some p ∧ st'.packets = st.packets)
        ∨ (st.m_unsentPacket = none ∧ p = ⟨st.packets, n⟩ ∧ st'.packets = st.packets + 1) := hp
    have hold : ∀ x ∈ st.handed, x.2.1.uid = p.uid → x.2.2 = false := by
      intro x hx hux
      rcases hp' with ⟨g1, -⟩ | ⟨-, g2, -⟩
      · exact (h2 p g1).2.2 x hx hux
      · have := h1 x hx
        rw [hux, g2] at this
        exact absurd this (Nat.lt_irrefl _)
    have hpuid : p.uid < st'.packets := by
      rcases hp' with ⟨g1, g2⟩ | ⟨-, g2, g3⟩
      · rw [g2]; exact (h2 p g1).1
      · rw [g3, g2]; exact Nat.lt_succ_self _
    have hmono : st.packets ≤ st'.packets := by
      rcases hp' with ⟨-, g2⟩ | ⟨-, -, g3⟩
      · rw [g2]
      · rw [g3]; exact Nat.le_succ _
    refine ⟨?_, ?_, ?_⟩
    · intro x hx
      rw [hh', List.mem_append, List.mem_singleton] at hx
      rcases hx with hx | hx
      · exact lt_of_lt_of_le (h1 x hx) hmono
      · subst hx
        exact hpuid
    · intro q hq
      cases hf : full with
      | true =>
        rw [(hfull hf).1] at hq
        cases hq
      | false =>
        obtain ⟨g1, g2⟩ := hshort hf
        have g2' : st'.m_pktSent = st.m_pktSent := g2
        rw [g1, Option.some.injEq] at hq
        subst hq
        refine ⟨hpuid, ?_, ?_⟩
        · rw [samplePktSize_congr firstDraw st st' hseed g2']
          rcases hp' with ⟨g3, -⟩ | ⟨-, g4, -⟩
          · exact (h2 p g3).2.1
          · rw [hn', g4]
        · intro x hx hux
          rw [hh', List.mem_append, List.mem_singleton] at hx
          rcases hx with hx | hx
          · exact hold x hx hux
          · subst hx
            exact hf
    · rw [delivered_append st' st.handed sim.now p full hh']
      cases hf : full with
      | false =>
        simp only [Bool.false_eq_true, if_false, List.append_nil]
        exact h3
      | true =>
        simp only [if_true, List.map_append, List.map_cons, List.map_nil]
        rw [List.nodup_append]
        refine ⟨h3, List.nodup_singleton _, ?_⟩
        intro u hu1 hu2
        rw [List.mem_singleton] at hu2
        simp only [delivered, List.mem_map, List.mem_filter] at hu1
        obtain ⟨q, ⟨x, ⟨hx1, hx2⟩, rfl⟩, hqu⟩ := hu1
        have := hold x hx1 (hqu.trans hu2)
        rw [this] at hx2
        cases hx2

theorem packetsOk_run (firstDraw : Nat → K) (bernoulliDraw : Nat → Bool) :
    ∀ (acts : List (Action K)) (st st' : State K), PacketsOk firstDraw st →
      run firstDraw bernoulliDraw acts st = some st' → PacketsOk firstDraw st' := by
  intro acts
  induction acts with
  | nil =>
    intro st st' h hr
    simp only [run, Option.some.injEq] at hr
    exact hr ▸ h
  | cons a as ih =>
    intro st st' h hr
    simp only [run] at hr
    cases hs : step firstDraw bernoulliDraw a st with
    | none => rw [hs] at hr; cases hr
    | some st1 =>
      rw [hs] at hr
      exact ih st1 st' (packetsOk_step firstDraw bernoulliDraw a st st1 h hs) hr

theorem packetsOk_init (firstDraw : Nat → K) (m_seed m_pktSize : Nat) (startTime : K)
    (stopTime : Option K) : PacketsOk firstDraw (init m_seed m_pktSize startTime stopTime) :=
  ⟨fun h hh => (List.not_mem_nil h hh).elim, fun p hp => Option.noConfusion hp, List.nodup_nil⟩

/-- A packet that is not cached is never handed to the socket again. -/
theorem dropped_never_handed (firstDraw : Nat → K) (bernoulliDraw : Nat → Bool) (u : Nat) :
    ∀ (acts : List (Action K)) (st st' : State K),
      run firstDraw bernoulliDraw acts st = some st' → u < st.packets →
      (∀ q, st.m_unsentPacket = some q → q.uid ≠ u) →
      ∃ more, st'.handed = st.handed ++ more ∧ ∀ h ∈ more, h.2.1.uid ≠ u := by
  intro acts
  induction acts with
  | nil =>
    intro st st' hr _ _
    simp only [run, Option.some.injEq] at hr
    subst hr
    exact ⟨[], by simp, fun h hh => by cases hh⟩
  | cons a as ih =>
    intro st st' hr hu hq
    simp only [run] at hr
    cases hs : step firstDraw bernoulliDraw a st with
    | none => rw [hs] at hr; cases hr
    | some st1 =>
      rw [hs] at hr
      obtain ⟨-, hcase⟩ := step_packets firstDraw bernoulliDraw a st st1 hs
      rcases hcase with ⟨e1, e2, e3, -⟩ | ⟨e1, e2, e3, -⟩ | ⟨actual, e, sim, -, -, -, -, hsend⟩
      · obtain ⟨more, h1, h2⟩ := ih st1 st' hr (e2 ▸ hu) (fun q hq' => hq q (e3 ▸ hq'))
        exact ⟨more, e1 ▸ h1, h2⟩
      · obtain ⟨more, h1, h2⟩ := ih st1 st' hr (e2 ▸ hu)
          (fun q hq' => by rw [e3] at hq'; cases hq')
        exact ⟨more, e1 ▸ h1, h2⟩
      · obtain ⟨p, full, n, -, -, -, hh, hp, hshort, hfull, -, -⟩ :=
          sendPacket_packets firstDraw actual _ _ hsend
        have hh' : st1.handed = st.handed ++ [(sim.now, p, full)] := hh
        have hp' : (st.m_unsentPacket = some p ∧ st1.packets = st.packets)
            ∨ (st.m_unsentPacket = none ∧ p = ⟨st.packets, n⟩
                ∧ st1.packets = st.packets + 1) := hp
        have hpu : p.uid ≠ u := by
          rcases hp' with ⟨g1, -⟩ | ⟨-, g2, -⟩
          · exact hq p g1
          · rw [g2]
            exact Nat.ne_of_gt hu
        have hu1 : u < st1.packets := by
          rcases hp' with ⟨-, g2⟩ | ⟨-, -, g3⟩
          · rw [g2]; exact hu
          · rw [g3]; exact Nat.lt_succ_of_lt hu
        have hq1 : ∀ q, st1.m_unsentPacket = some q → q.uid ≠ u := by
          intro q hq'
          cases hf : full with
          | true =>
            rw [(hfull hf).1] at hq'
            cases hq'
          | false =>
            rw [(hshort hf).1, Option.some.injEq] at hq'
            exact hq' ▸ hpu
        obtain ⟨more, h1, h2⟩ := ih st1 st' hr hu1 hq1
        refine ⟨(sim.now, p, full) :: more, ?_, ?_⟩
        · rw [h1, hh', List.append_assoc, List.singleton_append]
        · intro x hx
          rcases List.mem_cons.mp hx with hx | hx
          · subst hx
            exact hpu
          · exact h2 x hx

end PacketLemmas

end LegitimateTrafficApplication
namespace LegitimateTrafficApplication

section TraceValues

theorem traceDraw_range : ∀ s, (0 : ℚ) ≤ traceDraw s ∧ traceDraw s < 1 := by
  intro s
  unfold traceDraw
  split_ifs <;> norm_num

theorem traceRate_bounds : (127 : ℚ) < traceRate ∧ traceRate < 157 := by
  unfold traceRate
  constructor <;> norm_num

theorem traceDuration_bounds :
    1 / traceRate < traceDuration ∧ traceDuration < 1 / traceRate + 1 / traceRate := by
  have h1 : (144 : ℚ) < traceRate := by unfold traceRate; norm_num
  have h2 : traceRate < 145 := by unfold traceRate; norm_num
  have hpos : (0 : ℚ) < traceRate := by linarith
  have h3 : (1 : ℚ) / 145 < 1 / traceRate := one_div_lt_one_div_of_lt hpos h2
  have h4 : 1 / traceRate < (1 : ℚ) / 144 := one_div_lt_one_div_of_lt (by norm_num) h1
  have h5 : (1 : ℚ) / 144 < traceDuration := by unfold traceDuration; norm_num
  have h6 : traceDuration < (1 : ℚ) / 145 + 1 / 145 := by unfold traceDuration; norm_num
  constructor <;> linarith

theorem trace_sample (q : Fin 11 → ℚ) (m_seed seed gen i : Nat) (u : ℚ) (hi : i < 10)
    (hgen : (seed * m_seed) % 2 ^ 32 = gen) (hu : traceDraw gen = u)
    (hfl : Int.floor (u * 10) = (i : Int)) (hu0 : 0 ≤ u) :
    GetRandomDistributionNumber traceDraw m_seed q seed
      = some (q ⟨i, by omega⟩ + (q ⟨i + 1, by omega⟩ - q ⟨i, by omega⟩) * u) := by
  simp only [GetRandomDistributionNumber, hgen, hu]
  rw [interpolate_eq_syn]
  exact SynFloodAttacker.interpolate_eq q u i hi hfl hu0

theorem trace_wait :
    ∃ w : ℚ, GetRandomDistributionNumber traceDraw 12 DISTRIBUTION_TIME_BETWEEN_FLOWS 12 = some w
      ∧ 0 + w * traceDraw 12 ≤ 1 := by
  refine ⟨_, trace_sample DISTRIBUTION_TIME_BETWEEN_FLOWS 12 12 144 3 (3843768 / 10 ^ 7)
    (by omega) (by norm_num) (by simp [traceDraw]) ?_ (by norm_num), ?_⟩
  · rw [Int.floor_eq_iff]
    constructor <;> norm_num
  · show 0 + ((17524 / 10 ^ 6 : ℚ) + (350172 / 10 ^ 6 - 17524 / 10 ^ 6) * (3843768 / 10 ^ 7))
        * traceDraw 12 ≤ 1
    have : traceDraw 12 = 4462217 / 10 ^ 7 := by simp [traceDraw]
    rw [this]
    norm_num

theorem trace_rate :
    GetRandomDistributionNumber traceDraw 12 DISTRIBUTION_PACKETS_PER_SECOND 0
      = some traceRate := by
  have h := trace_sample DISTRIBUTION_PACKETS_PER_SECOND 12 0 0 5 (5928446 / 10 ^ 7)
    (by omega) (by norm_num) (by simp [traceDraw])
    (by rw [Int.floor_eq_iff]; constructor <;> norm_num) (by norm_num)
  exact h

theorem trace_duration :
    GetRandomDistributionNumber traceDraw 12 DISTRIBUTION_FLOW_DURATION 1
      = some traceDuration := by
  have h := trace_sample DISTRIBUTION_FLOW_DURATION 12 1 12 4 (4462217 / 10 ^ 7)
    (by omega) (by norm_num) (by simp [traceDraw])
    (by rw [Int.floor_eq_iff]; constructor <;> norm_num) (by norm_num)
  exact h

theorem trace_length :
    ∃ v : ℚ, GetRandomDistributionNumber traceDraw 12 DISTRIBUTION_PACKET_LENGTH 0 = some v
      ∧ ((truncToInt v) % 2 ^ 32).toNat = 37 := by
  refine ⟨_, trace_sample DISTRIBUTION_PACKET_LENGTH 12 0 0 5 (5928446 / 10 ^ 7)
    (by omega) (by norm_num) (by simp [traceDraw])
    (by rw [Int.floor_eq_iff]; constructor <;> norm_num) (by norm_num), ?_⟩
  have hv : truncToInt ((35 : ℚ) + (40 - 35) * (5928446 / 10 ^ 7)) = 37 := by
    rw [truncToInt_of_nonneg (by norm_num), Int.floor_eq_iff]
    constructor <;> norm_num
  show ((truncToInt ((35 : ℚ) + (40 - 35) * (5928446 / 10 ^ 7))) % 2 ^ 32).toNat = 37
  rw [hv]
  rfl

/-- The example run reaches `traceState`. -/
theorem trace_run (bernoulliDraw : Nat → Bool) :
    run traceDraw bernoulliDraw traceActions (init 12 0 0 none) = some traceState := by
  obtain ⟨w, hw, htc⟩ := trace_wait
  obtain ⟨v, hv, hsize⟩ := trace_length
  have hr := traceRate_bounds
  exact trace_short_write traceDraw bernoulliDraw 12 0 37 w traceRate traceDuration v 1 (-1)
    hw trace_rate (by linarith [hr.1]) trace_duration hv hsize (by decide) htc
    traceDuration_bounds.1

/-- In `traceState` the simulator takes the stop of the flow next. -/
theorem trace_next :
    traceState.sim.next
      = some (⟨1 + traceDuration, 4, Callback.StopSending, false⟩,
          ⟨1 + traceDuration, 6,
            [⟨1 + 1 / traceRate + 1 / traceRate, 5, Callback.SendPacket, false⟩]⟩) := by
  refine Simulator.next_pick _ [] [_] _ rfl (fun x hx => (List.not_mem_nil x hx).elim) ?_
  intro x hx
  rw [List.mem_singleton] at hx
  subst hx
  refine ⟨Simulator.before_of_lt _ _ ?_, ?_⟩
  · show 1 + traceDuration < 1 + 1 / traceRate + 1 / traceRate
    linarith [traceDuration_bounds.2]
  · show (5 : Nat) ≠ 4
    decide

end TraceValues

end LegitimateTrafficApplication
namespace LegitimateTrafficApplication

section FireLemmas

variable {K : Type} [LinearOrderedField K] [FloorRing K]

set_option linter.unusedSectionVars false

theorem fire_cancelled (firstDraw : Nat → K) (bernoulliDraw : Nat → Bool) (actual : Int)
    (st : State K) (e : Event K Callback) (sim : Simulator K Callback)
    (hnext : st.sim.next = some (e, sim)) (hc : e.cancelled = true) :
    step firstDraw bernoulliDraw (Action.fire actual) st = some { st with sim := sim } := by
  simp only [step, hnext, hc, if_true]

theorem fire_idle (firstDraw : Nat → K) (bernoulliDraw : Nat → Bool) (actual : Int)
    (st : State K) (hnext : st.sim.next = none) :
    step firstDraw bernoulliDraw (Action.fire actual) st = some st := by
  simp only [step, hnext]

/-- With the events tracked, a turn of the simulator never aborts: the
samplers return a value and the assertion of `SendPacket` holds. -/
theorem fire_total (firstDraw : Nat → K) (bernoulliDraw : Nat → Bool)
    (hdraw : ∀ s, 0 ≤ firstDraw s ∧ firstDraw s < 1) (st : State K) (h : EventsTracked st)
    (actual : Int) : ∃ st', step firstDraw bernoulliDraw (Action.fire actual) st = some st' := by
  cases hn : st.sim.next with
  | none => exact ⟨st, fire_idle _ _ _ _ hn⟩
  | some p =>
    obtain ⟨e, sim⟩ := p
    cases hc : e.cancelled with
    | true => exact ⟨_, fire_cancelled _ _ _ _ _ _ hn hc⟩
    | false =>
      rw [fire_live _ _ _ _ _ _ hn hc]
      cases hcb : e.callback with
      | StartApplication => exact startApplication_total firstDraw hdraw _
      | StopApplication => exact ⟨_, rfl⟩
      | StartSending => exact startSending_total firstDraw hdraw _
      | StopSending => exact stopSending_total firstDraw bernoulliDraw hdraw _
      | SendPacket =>
        exact sendPacket_total firstDraw hdraw actual _
          (fired_send st e sim h hn hc hcb).2.2.2.2

theorem pending_schedule_same (c : Callback) (sim : Simulator K Callback) (d : K)
    (h : NoLive c sim.events) :
    pending c (sim.Schedule d c).1.events = [⟨sim.now + d, sim.uid, c, false⟩] := by
  simp only [Simulator.Schedule, pending_append, pending_nil_of_noLive c _ h, List.nil_append]
  simp [pending]

theorem pending_schedule_other (c c' : Callback) (sim : Simulator K Callback) (d : K)
    (hne : c' ≠ c) (h : NoLive c sim.events) :
    pending c (sim.Schedule d c').1.events = [] :=
  pending_nil_of_noLive c _ (noLive_schedule_other c c' sim d hne h)

end FireLemmas

/-- C30: in every state that the application reaches from its initial state
by turns of the simulator (with any return values of `Socket::Send`) and
connection-success callbacks (each answering a call of `Socket::Connect`), at
most one live send event is pending, a further turn of the simulator does not
abort, and if that turn calls `SendPacket` then `m_sendEvent` is expired, as
the assertion of `SendPacket` demands. -/
theorem C30_at_most_one_send_event {K : Type} [LinearOrderedField K] [FloorRing K]
    (firstDraw : Nat → K) (bernoulliDraw : Nat → Bool)
    (hdraw : ∀ s, 0 ≤ firstDraw s ∧ firstDraw s < 1) (m_seed m_pktSize : Nat) (startTime : K)
    (stopTime : Option K) (acts : List (Action K)) (st : State K)
    (hrun : run firstDraw bernoulliDraw acts (init m_seed m_pktSize startTime stopTime)
      = some st) :
    (pending Callback.SendPacket st.sim.events).length ≤ 1
      ∧ (∀ actual, ∃ st', step firstDraw bernoulliDraw (Action.fire actual) st = some st')
      ∧ ∀ e sim, st.sim.next = some (e, sim) → e.cancelled = false →
          e.callback = Callback.SendPacket → IsExpired sim st.m_sendEvent = true := by
  have h := eventsTracked_run firstDraw bernoulliDraw acts _ st
    (eventsTracked_init m_seed m_pktSize startTime stopTime) hrun
  exact ⟨pending_length_le_one _ _ _ h.send h.uids.2,
    fun actual => fire_total firstDraw bernoulliDraw hdraw st h actual,
    fun e sim hn hc hcb => (fired_send st e sim h hn hc hcb).2.2.2.2⟩

/-- Witness of C30: the example run of the application of seed 12, after its
first send. -/
theorem C30_at_most_one_send_event_witness :
    (∀ s, (0 : ℚ) ≤ traceDraw s ∧ traceDraw s < 1)
      ∧ run traceDraw (fun _ => false) traceActions (init 12 0 0 none) = some traceState
      ∧ (pending Callback.SendPacket traceState.sim.events).length ≤ 1
      ∧ (∀ actual, ∃ st', step traceDraw (fun _ => false) (Action.fire actual) traceState
          = some st')
      ∧ ∀ e sim, traceState.sim.next = some (e, sim) → e.cancelled = false →
          e.callback = Callback.SendPacket → IsExpired sim traceState.m_sendEvent = true :=
  ⟨traceDraw_range, trace_run _,
    C30_at_most_one_send_event traceDraw (fun _ => false) traceDraw_range 12 0 0 none
      traceActions traceState (trace_run _)⟩

/-- C26: when, in a state that the application reaches, the simulator calls
`StopSending`, the application is left with no live send event, no live stop
event and exactly one live start event, scheduled after the delay sampled from
`DISTRIBUTION_TIME_BETWEEN_FLOWS` with the seed `m_flowsStarted * m_seed`, and
tracked by `m_startStopEvent`; the socket, connected before, is closed and
`m_connected` cleared exactly when the Bernoulli draw seeded with the time in
milliseconds times `m_seed` is true.  And `StartSending` returns and increments
`m_flowsStarted` by one. -/
theorem C26_flow_stop_reschedules {K : Type} [LinearOrderedField K] [FloorRing K]
    (firstDraw : Nat → K) (bernoulliDraw : Nat → Bool)
    (hdraw : ∀ s, 0 ≤ firstDraw s ∧ firstDraw s < 1) (m_seed m_pktSize : Nat) (startTime : K)
    (stopTime : Option K) (acts : List (Action K)) (st : State K)
    (hrun : run firstDraw bernoulliDraw acts (init m_seed m_pktSize startTime stopTime)
      = some st)
    (actual : Int) (e : Event K Callback) (sim : Simulator K Callback)
    (hn : st.sim.next = some (e, sim)) (hc : e.cancelled = false)
    (hcb : e.callback = Callback.StopSending) :
    (∃ (st' : State K) (d : K),
        step firstDraw bernoulliDraw (Action.fire actual) st = some st'
          ∧ GetRandomDistributionNumber firstDraw st.m_seed DISTRIBUTION_TIME_BETWEEN_FLOWS
              st.m_flowsStarted = some d
          ∧ pending Callback.SendPacket st'.sim.events = []
          ∧ pending Callback.StopSending st'.sim.events = []
          ∧ pending Callback.StartSending st'.sim.events
              = [⟨e.ts + d, st.sim.uid, Callback.StartSending, false⟩]
          ∧ st'.m_startStopEvent = some st.sim.uid
          ∧ st.m_connected = true
          ∧ st'.m_connected
              = !bernoulliDraw (((truncToInt (e.ts * 1000) * (st.m_seed : Int)) % 2 ^ 32).toNat)
          ∧ st'.closes
              = if bernoulliDraw (((truncToInt (e.ts * 1000) * (st.m_seed : Int)) % 2 ^ 32).toNat)
                then st.closes ++ [e.ts] else st.closes)
      ∧ (∀ s : State K, ∃ s', StartSending firstDraw s = some s'
          ∧ s'.m_flowsStarted = (s.m_flowsStarted + 1) % 2 ^ 32) := by
  have h := eventsTracked_run firstDraw bernoulliDraw acts _ st
    (eventsTracked_init m_seed m_pktSize startTime stopTime) hrun
  constructor
  · have h1 := eventsTracked_next st e sim h hn
    obtain ⟨-, -, hconn, hsock⟩ := fired_stop st e sim h hn hc hcb
    obtain ⟨st', hst⟩ := stopSending_total firstDraw bernoulliDraw hdraw { st with sim := sim }
    obtain ⟨d, hd, hshape⟩ := stopSending_shape firstDraw bernoulliDraw _ _ hst
    have hsim := (Simulator.next_some _ _ _ hn).2
    have hnow : (CancelEvents { st with sim := sim }).sim.now = e.ts := by
      simp only [CancelEvents, Simulator.cancel_now, hsim]
    have huid : (CancelEvents { st with sim := sim }).sim.uid = st.sim.uid := by
      simp only [CancelEvents, Simulator.cancel_uid, hsim]
    have hseed : stopSeed (CancelEvents { st with sim := sim })
        = ((truncToInt (e.ts * 1000) * (st.m_seed : Int)) % 2 ^ 32).toNat := by
      simp only [stopSeed, hnow]
      rfl
    have hs := cancelEvents_send _ h1.send
    have hstart := cancelEvents_startStop _ _ h1.start
    have hstop := cancelEvents_startStop _ _ h1.stop
    refine ⟨st', d, ?_, hd, ?_, ?_, ?_, ?_, hconn, ?_, ?_⟩
    · rw [fire_live _ _ _ _ _ _ hn hc, hcb]
      exact hst
    · rw [hshape]
      exact pending_schedule_other _ _ _ _ (by decide) hs
    · rw [hshape]
      exact pending_schedule_other _ _ _ _ (by decide) hstop
    · rw [hshape]
      have := pending_schedule_same Callback.StartSending
        (CancelEvents { st with sim := sim }).sim d hstart
      rw [hnow, huid] at this
      exact this
    · rw [hshape]
      show some (CancelEvents { st with sim := sim }).sim.uid = some st.sim.uid
      rw [huid]
    · rw [hshape]
      show (if bernoulliDraw (stopSeed (CancelEvents { st with sim := sim })) = true
          ∧ st.m_socket = true then false else st.m_connected) = _
      rw [hseed, hconn]
      cases bernoulliDraw (((truncToInt (e.ts * 1000) * (st.m_seed : Int)) % 2 ^ 32).toNat)
      · simp
      · simp [hsock]
    · rw [hshape]
      show (if bernoulliDraw (stopSeed (CancelEvents { st with sim := sim })) = true
          ∧ st.m_socket = true then st.closes ++ [(CancelEvents { st with sim := sim }).sim.now]
          else st.closes) = _
      rw [hseed, hnow]
      cases bernoulliDraw (((truncToInt (e.ts * 1000) * (st.m_seed : Int)) % 2 ^ 32).toNat)
      · simp
      · simp [hsock]
  · intro s
    obtain ⟨s', hs'⟩ := startSending_total firstDraw hdraw s
    refine ⟨s', hs', ?_⟩
    rcases startSending_shape firstDraw _ _ hs' with ⟨-, rfl⟩ | ⟨-, d1, d2, rfl⟩ <;> rfl

/-- Witness of C26: the example run of the application of seed 12, whose next
event is the stop of the first flow. -/
theorem C26_flow_stop_reschedules_witness :
    (∀ s, (0 : ℚ) ≤ traceDraw s ∧ traceDraw s < 1)
      ∧ run traceDraw (fun _ => false) traceActions (init 12 0 0 none) = some traceState
      ∧ traceState.sim.next
          = some (⟨1 + traceDuration, 4, Callback.StopSending, false⟩,
              ⟨1 + traceDuration, 6,
                [⟨1 + 1 / traceRate + 1 / traceRate, 5, Callback.SendPacket, false⟩]⟩)
      ∧ (∃ (st' : State ℚ) (d : ℚ),
          step traceDraw (fun _ => false) (Action.fire 0) traceState = some st'
            ∧ GetRandomDistributionNumber traceDraw traceState.m_seed
                DISTRIBUTION_TIME_BETWEEN_FLOWS traceState.m_flowsStarted = some d
            ∧ pending Callback.SendPacket st'.sim.events = []
            ∧ pending Callback.StopSending st'.sim.events = []
            ∧ pending Callback.StartSending st'.sim.events
                = [⟨1 + traceDuration + d, traceState.sim.uid, Callback.StartSending, false⟩]
            ∧ st'.m_startStopEvent = some traceState.sim.uid
            ∧ traceState.m_connected = true
            ∧ st'.m_connected
                = !(fun _ : Nat => false)
                    (((truncToInt ((1 + traceDuration) * 1000)
                        * (traceState.m_seed : Int)) % 2 ^ 32).toNat)
            ∧ st'.closes
                = if (fun _ : Nat => false)
                    (((truncToInt ((1 + traceDuration) * 1000)
                        * (traceState.m_seed : Int)) % 2 ^ 32).toNat)
                  then traceState.closes ++ [1 + traceDuration] else traceState.closes)
      ∧ (∀ s : State ℚ, ∃ s', StartSending traceDraw s = some s'
          ∧ s'.m_flowsStarted = (s.m_flowsStarted + 1) % 2 ^ 32) :=
  ⟨traceDraw_range, trace_run _, trace_next,
    C26_flow_stop_reschedules traceDraw (fun _ => false) traceDraw_range 12 0 0 none
      traceActions traceState (trace_run _) 0 _ _ trace_next rfl rfl⟩

/-- C16, counterexample: the application of seed 12 is connected at time 1;
its first send is short, so that the packet of uid 0 is cached; the stop of the
flow comes before the next send, and `StopSending` drops the cached packet: no
packet is cached afterwards, and in no continuation of the run is the packet
of uid 0 handed to the socket again. -/
theorem C16_flow_stop_drops_cached_packet :
    run traceDraw (fun _ => false) traceActions (init 12 0 0 none) = some traceState
      ∧ traceState.m_unsentPacket = some ⟨0, 37⟩
      ∧ traceState.handed = [(1 + 1 / traceRate, ⟨0, 37⟩, false)]
      ∧ (∃ sim, traceState.sim.next
          = some (⟨1 + traceDuration, 4, Callback.StopSending, false⟩, sim))
      ∧ ∃ st5, step traceDraw (fun _ => false) (Action.fire 0) traceState = some st5
          ∧ st5.m_unsentPacket = none
          ∧ ∀ acts st', run traceDraw (fun _ => false) acts st5 = some st' →
              ∃ more, st'.handed = traceState.handed ++ more ∧ ∀ h ∈ more, h.2.1.uid ≠ 0 := by
  refine ⟨trace_run _, rfl, rfl, ⟨_, trace_next⟩, ?_⟩
  obtain ⟨st5, hst⟩ := fire_total traceDraw (fun _ => false) traceDraw_range traceState
    (eventsTracked_run traceDraw (fun _ => false) traceActions _ _
      (eventsTracked_init 12 0 0 none) (trace_run _)) 0
  refine ⟨st5, hst, ?_⟩
  obtain ⟨-, hcase⟩ := step_packets traceDraw (fun _ => false) _ _ _ hst
  have hdrop : st5.handed = traceState.handed ∧ st5.packets = traceState.packets
      ∧ st5.m_unsentPacket = none := by
    rcases hcase with ⟨-, -, e0, -⟩ | ⟨e1, e2, e3, -⟩ | ⟨actual, e, sim, -, hn, -, hcb, -⟩
    · exfalso
      rw [fire_live _ _ _ _ _ _ trace_next rfl] at hst
      obtain ⟨d, -, hshape⟩ := stopSending_shape traceDraw (fun _ => false) _ _ hst
      have h1 : st5.m_unsentPacket = none := by rw [hshape]; rfl
      have h2 : st5.m_unsentPacket = traceState.m_unsentPacket := e0
      rw [h1] at h2
      cases h2
    · exact ⟨e1, e2, e3⟩
    · exfalso
      rw [trace_next] at hn
      simp only [Option.some.injEq, Prod.mk.injEq] at hn
      rw [← hn.1] at hcb
      cases hcb
  obtain ⟨e1, e2, e3⟩ := hdrop
  refine ⟨e3, ?_⟩
  intro acts st' hr
  have := dropped_never_handed traceDraw (fun _ => false) 0 acts st5 st' hr
    (by rw [e2]; exact Nat.one_pos) (fun q hq => by rw [e3] at hq; cases hq)
  rw [e1] at this
  exact this

/-- C16, amended: in every state that the application reaches, the socket took
no packet whole twice; a cached packet has the size that the next send
samples; and an action either leaves it cached and hands nothing to the
socket, or takes a live event that calls `StartApplication`, `StopApplication`
or `StopSending`, whose `CancelEvents` drops it, or is the next send, which
hands this very packet to the socket, with `m_pktSize` equal to its size, and
keeps it cached exactly when the write is short again.  And every call of
`SendPacket` hands one packet to the socket, which after a short write is
cached with `m_pktSent` as before and after a full write is not. -/
theorem C16_short_write_retried_unless_cancelled {K : Type} [LinearOrderedField K]
    [FloorRing K] (firstDraw : Nat → K) (bernoulliDraw : Nat → Bool) (m_seed m_pktSize : Nat)
    (startTime : K) (stopTime : Option K) (acts : List (Action K)) (st : State K)
    (hrun : run firstDraw bernoulliDraw acts (init m_seed m_pktSize startTime stopTime)
      = some st) :
    ((delivered st).map fun p => p.uid).Nodup
      ∧ (∀ p, st.m_unsentPacket = some p →
          samplePktSize firstDraw st = some p.size
            ∧ ∀ a st', step firstDraw bernoulliDraw a st = some st' →
                (st'.handed = st.handed ∧ st'.m_unsentPacket = some p)
                  ∨ (st'.handed = st.handed ∧ st'.m_unsentPacket = none
                      ∧ ∃ actual e sim, a = Action.fire actual ∧ st.sim.next = some (e, sim)
                          ∧ e.cancelled = false
                          ∧ (e.callback = Callback.StartApplication
                              ∨ e.callback = Callback.StopApplication
                              ∨ e.callback = Callback.StopSending))
                  ∨ (∃ (t : K) (full : Bool), st'.handed = st.handed ++ [(t, p, full)]
                      ∧ st'.m_pktSize = p.size
                      ∧ st'.m_unsentPacket = if full then none else some p))
      ∧ (∀ (s s' : State K) (actual : Int), SendPacket firstDraw actual s = some s' →
          ∃ (p : Packet) (full : Bool), s'.handed = s.handed ++ [(s.sim.now, p, full)]
            ∧ full = decide ((actual % 2 ^ 32).toNat = s'.m_pktSize)
            ∧ (full = false → s'.m_unsentPacket = some p ∧ s'.m_pktSent = s.m_pktSent)
            ∧ (full = true → s'.m_unsentPacket = none)) := by
  have h := packetsOk_run firstDraw bernoulliDraw acts _ st
    (packetsOk_init firstDraw m_seed m_pktSize startTime stopTime) hrun
  refine ⟨h.2.2, ?_, ?_⟩
  · intro p hp
    refine ⟨(h.2.1 p hp).2.1, ?_⟩
    intro a st' hst
    obtain ⟨-, hcase⟩ := step_packets firstDraw bernoulliDraw a st st' hst
    rcases hcase with ⟨e1, -, e3, -⟩ | ⟨e1, -, e3, -, hev⟩ | ⟨actual, e, sim, -, -, -, -, hsend⟩
    · exact Or.inl ⟨e1, e3.trans hp⟩
    · exact Or.inr (Or.inl ⟨e1, e3, hev⟩)
    · right
      right
      obtain ⟨q, full, n, hn, -, hsz, hh, hq, hshort, hfull, -, -⟩ :=
        sendPacket_packets firstDraw actual _ _ hsend
      have hq' : (st.m_unsentPacket = some q ∧ st'.packets = st.packets)
          ∨ (st.m_unsentPacket = none ∧ q = ⟨st.packets, n⟩
              ∧ st'.packets = st.packets + 1) := hq
      have hqp : q = p := by
        rcases hq' with ⟨g1, -⟩ | ⟨g1, -⟩
        · rw [hp, Option.some.injEq] at g1
          exact g1.symm
        · rw [hp] at g1
          cases g1
      subst hqp
      have hn' : samplePktSize firstDraw st = some n := hn
      rw [(h.2.1 q hp).2.1, Option.some.injEq] at hn'
      refine ⟨sim.now, full, hh, hsz.trans hn'.symm, ?_⟩
      cases hf : full with
      | false => exact (hshort hf).1
      | true => exact (hfull hf).1
  · intro s s' actual hs
    obtain ⟨p, full, n, -, hfull, hsz, hh, -, h1, h2, -, -⟩ :=
      sendPacket_packets firstDraw actual _ _ hs
    exact ⟨p, full, hh, by rw [hsz]; exact hfull, h1, fun hf => (h2 hf).1⟩

/-- Witness of C16, amended: the example run of the application of seed 12,
after its first send, with the packet of uid 0 cached. -/
theorem C16_short_write_retried_unless_cancelled_witness :
    run traceDraw (fun _ => false) traceActions (init 12 0 0 none) = some traceState
      ∧ ((delivered traceState).map fun p => p.uid).Nodup
      ∧ (∀ p, traceState.m_unsentPacket = some p →
          samplePktSize traceDraw traceState = some p.size
            ∧ ∀ a st', step traceDraw (fun _ => false) a traceState = some st' →
                (st'.handed = traceState.handed ∧ st'.m_unsentPacket = some p)
                  ∨ (st'.handed = traceState.handed ∧ st'.m_unsentPacket = none
                      ∧ ∃ actual e sim, a = Action.fire actual
                          ∧ traceState.sim.next = some (e, sim)
                          ∧ e.cancelled = false
                          ∧ (e.callback = Callback.StartApplication
                              ∨ e.callback = Callback.StopApplication
                              ∨ e.callback = Callback.StopSending))
                  ∨ (∃ (t : ℚ) (full : Bool), st'.handed = traceState.handed ++ [(t, p, full)]
                      ∧ st'.m_pktSize = p.size
                      ∧ st'.m_unsentPacket = if full then none else some p))
      ∧ (∀ (s s' : State ℚ) (actual : Int), SendPacket traceDraw actual s = some s' →
          ∃ (p : Packet) (full : Bool), s'.handed = s.handed ++ [(s.sim.now, p, full)]
            ∧ full = decide ((actual % 2 ^ 32).toNat = s'.m_pktSize)
            ∧ (full = false → s'.m_unsentPacket = some p ∧ s'.m_pktSent = s.m_pktSent)
            ∧ (full = true → s'.m_unsentPacket = none)) :=
  ⟨trace_run _,
    C16_short_write_retried_unless_cancelled traceDraw (fun _ => false) 12 0 0 none
      traceActions traceState (trace_run _)⟩

end LegitimateTrafficApplication

/-! ## Topology synthesizer: subnets -/

section SubnetLemmas

variable {K : Type} [LinearOrderedField K] [FloorRing K]

set_option linter.unusedSectionVars false

theorem subnetNumberOfNodes_pos (networkFactor : K) (area nodeServiceArea : Nat) :
    1 ≤ subnetNumberOfNodes networkFactor area nodeServiceArea := by
  unfold subnetNumberOfNodes
  have h : (1 : Int) ≤ max (roundHalfAway (((area / nodeServiceArea : Nat) : K) * networkFactor))
      1 := le_max_right _ _
  omega

theorem accessNetNumberOfClients_pos (clientFactor density : K) :
    1 ≤ accessNetNumberOfClients clientFactor density := by
  unfold accessNetNumberOfClients
  have h : (1 : Int) ≤ max (roundHalfAway (density * clientFactor)) 1 := le_max_right _ _
  omega

/-- A property kept by the body of a loop is kept by the loop. -/
theorem forLoop_rel {S : Type} (body : Nat → S → Option S) (R : S → S → Prop)
    (hrefl : ∀ s, R s s) (htrans : ∀ a b c, R a b → R b c → R a c)
    (hbody : ∀ i s s', body i s = some s' → R s s') :
    ∀ (count start : Nat) (s s' : S), forLoop body start count s = some s' → R s s' := by
  intro count
  induction count with
  | zero =>
    intro start s s' h
    simp only [forLoop, Option.some.injEq] at h
    exact h ▸ hrefl s
  | succ n ih =>
    intro start s s' h
    simp only [forLoop] at h
    cases hb : body start s with
    | none => rw [hb] at h; cases h
    | some s1 =>
      rw [hb] at h
      exact htrans _ _ _ (hbody _ _ _ hb) (ih _ _ _ h)

/-- A loop whose body returns, returns. -/
theorem forLoop_total {S : Type} (body : Nat → S → Option S)
    (hbody : ∀ i s, ∃ s', body i s = some s') :
    ∀ (count start : Nat) (s : S), ∃ s', forLoop body start count s = some s' := by
  intro count
  induction count with
  | zero => intro start s; exact ⟨s, rfl⟩
  | succ n ih =>
    intro start s
    obtain ⟨s1, h1⟩ := hbody start s
    obtain ⟨s2, h2⟩ := ih (start + 1) s1
    exact ⟨s2, by simp only [forLoop, h1, h2]⟩

/-- The first turn of a loop with at least one turn. -/
theorem forLoop_first {S : Type} (body : Nat → S → Option S) (count start : Nat) (s s' : S)
    (h : forLoop body start (count + 1) s = some s') :
    ∃ s1, body start s = some s1 ∧ forLoop body (start + 1) count s1 = some s' := by
  simp only [forLoop] at h
  cases hb : body start s with
  | none => rw [hb] at h; cases h
  | some s1 =>
    rw [hb] at h
    exact ⟨s1, rfl, h⟩

theorem subnetGrows_refl (density : K) (maxLevel : Nat) (b : Build K) :
    SubnetGrows density maxLevel b b :=
  ⟨rfl, rfl, rfl, rfl, rfl, rfl, ⟨[], by simp, fun e he => (List.not_mem_nil e he).elim⟩,
    ⟨[], by simp, fun e he => (List.not_mem_nil e he).elim⟩, fun _ => rfl, fun h => h,
    le_refl _⟩

theorem subnetGrows_trans (density : K) (maxLevel : Nat) (a b c : Build K)
    (h1 : SubnetGrows density maxLevel a b) (h2 : SubnetGrows density maxLevel b c) :
    SubnetGrows density maxLevel a c := by
  obtain ⟨s1, hs1, hp1⟩ := h1.creations
  obtain ⟨s2, hs2, hp2⟩ := h2.creations
  obtain ⟨r1, hr1, hq1⟩ := h1.accessNets
  obtain ⟨r2, hr2, hq2⟩ := h2.accessNets
  refine ⟨h2.systemId.trans h1.systemId, h2.networkFactor.trans h1.networkFactor,
    h2.clientFactor.trans h1.clientFactor, h2.countries.trans h1.countries,
    h2.parentLinks.trans h1.parentLinks, h2.neighbourCalls.trans h1.neighbourCalls,
    ⟨s1 ++ s2, by rw [hs2, hs1, List.append_assoc], ?_⟩,
    ⟨r1 ++ r2, by rw [hr2, hr1, List.append_assoc], ?_⟩, ?_, fun h => h2.targetInv (h1.targetInv h),
    le_trans h1.nodeList h2.nodeList⟩
  · intro e he
    rcases List.mem_append.mp he with he | he
    · exact hp1 e he
    · have := hp2 e he
      rw [h1.networkFactor, h1.clientFactor, h1.countries, h1.systemId] at this
      exact this
  · intro r hr
    rcases List.mem_append.mp hr with hr | hr
    · exact hq1 r hr
    · exact hq2 r hr
  · intro h
    have e1 := h1.targetKept h
    rw [h2.targetKept (by rw [e1]; exact h), e1]

theorem subnetGrows_mono (density : K) (m n : Nat) (hmn : m ≤ n) (b b' : Build K)
    (h : SubnetGrows density m b b') : SubnetGrows density n b b' := by
  obtain ⟨s, hs, hp⟩ := h.creations
  refine ⟨h.systemId, h.networkFactor, h.clientFactor, h.countries, h.parentLinks,
    h.neighbourCalls, ⟨s, hs, ?_⟩, h.accessNets, h.targetKept, h.targetInv, h.nodeList⟩
  intro e he
  obtain ⟨h1, h2, h3, h4⟩ := hp e he
  refine ⟨h1, h2, h3, ?_⟩
  rcases h4 with ⟨l, a, n', g1, g0, g2, g3⟩ | h4
  · exact Or.inl ⟨l, a, n', g1, g0, le_trans g2 hmn, g3⟩
  · exact Or.inr h4

end SubnetLemmas

section AccessNetOf

variable {K : Type} [LinearOrderedField K] [FloorRing K]

set_option linter.unusedSectionVars false

/-- The counters that `BuildAccessNet` returns: with fewer than `2 ^ 32`
clients, every client but the target is counted once. -/
theorem buildAccessNet_counts (draws : Nat → Nat → K) (firstAddress : Nat → Nat) (f : K)
    (n parentNode : Nat) (st st' : TopologyState) (res : NodesCounter)
    (h : BuildAccessNet draws firstAddress f n parentNode st = some (st', res))
    (hn : n < 2 ^ 32) :
    res.attackingClients + res.legitimateClients
      = n - (if decide (st.m_targetAddress = 0) = true then 1 else 0) := by
  by_cases h0 : st.m_targetAddress = 0
  · cases n with
    | zero => simp [BuildAccessNet, h0] at h
    | succ m =>
      rw [buildAccessNet_unset draws firstAddress f m parentNode st h0] at h
      simp only [Option.some.injEq, Prod.mk.injEq] at h
      obtain ⟨-, hres⟩ := h
      obtain ⟨att, leg, -, h2, hperm⟩ := classifyClients_spec f (draws parentNode)
        (List.range' (st.nodeListSize + 1) m) 0
        { st with nodeListSize := st.nodeListSize + (m + 1),
                  addressNetwork := st.addressNetwork + (m + 1),
                  m_targetAddress := firstAddress st.addressNetwork,
                  m_targetNode := some st.nodeListSize } 0 0
        (by simp only [List.length_range']; omega)
      have hlen := hperm.length_eq
      simp only [List.length_append, List.length_range'] at hlen
      rw [← hres]
      simp only [h2, h0, decide_True, if_true]
      omega
  · rw [buildAccessNet_set draws firstAddress f n parentNode st h0] at h
    simp only [Option.some.injEq, Prod.mk.injEq] at h
    obtain ⟨-, hres⟩ := h
    obtain ⟨att, leg, -, h2, hperm⟩ := classifyClients_spec f (draws parentNode)
      (List.range' st.nodeListSize n) 0
      { st with nodeListSize := st.nodeListSize + n,
                addressNetwork := st.addressNetwork + n } 0 0
      (by simp only [List.length_range']; omega)
    have hlen := hperm.length_eq
    simp only [List.length_append, List.length_range'] at hlen
    rw [← hres]
    simp only [h2, h0, decide_False, Bool.false_eq_true, if_false]
    omega

/-- A call of `BuildAccessNet` from `BuildSubnet` returns. -/
theorem buildAccessNetOf_total (draws : Nat → Nat → K) (firstAddress : Nat → Nat) (f : K)
    (n parentNode : Nat) (hn : 1 ≤ n) (b : Build K) :
    ∃ b', buildAccessNetOf draws firstAddress f n parentNode b = some b' := by
  obtain ⟨st', res, h⟩ := buildAccessNet_returns draws firstAddress f n parentNode
    b.creator.state (Or.inl hn)
  simp only [buildAccessNetOf, h]
  exact ⟨_, rfl⟩

/-- What a call of `BuildAccessNet` from `BuildSubnet` adds to the build. -/
theorem buildAccessNetOf_grows (draws : Nat → Nat → K) (firstAddress : Nat → Nat)
    (hfa : ∀ w, firstAddress w ≠ 0) (f density : K) (maxLevel parentNode : Nat)
    (b b' : Build K)
    (h : buildAccessNetOf draws firstAddress f
      (accessNetNumberOfClients b.creator.m_client_representation_factor density) parentNode b
        = some b') :
    SubnetGrows density maxLevel b b' ∧ b'.creator.state.m_targetAddress ≠ 0 := by
  unfold buildAccessNetOf at h
  cases hb : BuildAccessNet draws firstAddress f
      (accessNetNumberOfClients b.creator.m_client_representation_factor density) parentNode
      b.creator.state with
  | none => rw [hb] at h; cases h
  | some p =>
    obtain ⟨st, res⟩ := p
    rw [hb] at h
    simp only [Option.some.injEq] at h
    subst h
    obtain ⟨f1, -, -, f4, f5⟩ := buildAccessNet_frame draws firstAddress f _ parentNode _ _ _ hb
    have hpos := accessNetNumberOfClients_pos b.creator.m_client_representation_factor density
    have htarget : st.m_targetAddress ≠ 0 := by
      by_cases h0 : b.creator.state.m_targetAddress = 0
      · rw [(f5 h0).1]
        exact hfa _
      · rw [(f4 h0).1]
        exact h0
    refine ⟨⟨rfl, rfl, rfl, rfl, rfl, rfl, ⟨_, rfl, ?_⟩, ⟨_, rfl, ?_⟩, fun h0 => (f4 h0).1, ?_, ?_⟩,
      htarget⟩
    · intro e he
      rw [List.mem_singleton] at he
      subst he
      exact ⟨rfl, rfl, hpos, Or.inr ⟨rfl, rfl⟩⟩
    · intro r hr
      rw [List.mem_singleton] at hr
      subst hr
      exact ⟨hpos, fun hlt => buildAccessNet_counts draws firstAddress f _ parentNode _ _ _ hb hlt⟩
    · intro hinv
      right
      refine ⟨htarget, ?_⟩
      rcases hinv with ⟨h0, hnil⟩ | ⟨h0, hone⟩
      · show ((b.accessNets ++ [(⟨_, _, _, _⟩ : AccessNetRecord)]).filter
          fun r : AccessNetRecord => r.includesTarget).length = 1
        rw [hnil]
        simp [h0]
      · show ((b.accessNets ++ [(⟨_, _, _, _⟩ : AccessNetRecord)]).filter
          fun r : AccessNetRecord => r.includesTarget).length = 1
        rw [List.filter_append, List.length_append, hone]
        simp [h0]
    · show b.creator.state.nodeListSize ≤ st.nodeListSize
      rw [f1]
      exact Nat.le_add_right _ _

end AccessNetOf

section SubnetBuild

variable {K : Type} [LinearOrderedField K] [FloorRing K]

set_option linter.unusedSectionVars false

theorem createNodes_router_grows (density : K) (maxLevel level area nodeServiceArea : Nat)
    (hl1 : 1 ≤ level) (hl : level ≤ maxLevel) (b : Build K) :
    SubnetGrows density maxLevel b
      (createNodes (NodeKind.router level)
        (subnetNumberOfNodes b.creator.m_network_representation_factor area nodeServiceArea) b) := by
  refine ⟨rfl, rfl, rfl, rfl, rfl, rfl, ⟨_, rfl, ?_⟩, ⟨[], by simp [createNodes], ?_⟩,
    fun _ => rfl, fun h => h, Nat.le_add_right _ _⟩
  · intro e he
    rw [List.mem_singleton] at he
    subst he
    exact ⟨rfl, rfl, subnetNumberOfNodes_pos _ _ _,
      Or.inl ⟨level, area, nodeServiceArea, rfl, hl1, hl, rfl⟩⟩
  · intro r hr
    exact (List.not_mem_nil r hr).elim

theorem newNetworks_grows (density : K) (maxLevel count : Nat) (b : Build K) :
    SubnetGrows density maxLevel b (newNetworks count b) :=
  ⟨rfl, rfl, rfl, rfl, rfl, rfl, ⟨[], by simp [newNetworks], fun e he => (List.not_mem_nil e he).elim⟩,
    ⟨[], by simp [newNetworks], fun e he => (List.not_mem_nil e he).elim⟩, fun _ => rfl,
    fun h => h, le_refl _⟩

/-- The loop of a local subnet over its routers: an access net each. -/
theorem accessNetLoop (draws : Nat → Nat → K) (firstAddress : Nat → Nat)
    (hfa : ∀ w, firstAddress w ≠ 0) (f density : K) (maxLevel first : Nat) :
    ∀ (count start : Nat) (b : Build K),
      ∃ b', forLoop
          (fun i b =>
            buildAccessNetOf draws firstAddress f
              (accessNetNumberOfClients b.creator.m_client_representation_factor density)
              (first + i) b) start count b = some b'
        ∧ SubnetGrows density maxLevel b b'
        ∧ (1 ≤ count → b'.creator.state.m_targetAddress ≠ 0) := by
  intro count
  induction count with
  | zero =>
    intro start b
    exact ⟨b, rfl, subnetGrows_refl _ _ _, fun h => absurd h (by decide)⟩
  | succ n ih =>
    intro start b
    obtain ⟨b1, h1⟩ := buildAccessNetOf_total draws firstAddress f
      (accessNetNumberOfClients b.creator.m_client_representation_factor density) (first + start)
      (accessNetNumberOfClients_pos _ _) b
    obtain ⟨g1, t1⟩ := buildAccessNetOf_grows draws firstAddress hfa f density maxLevel _ _ _ h1
    obtain ⟨b2, h2, g2, -⟩ := ih (start + 1) b1
    refine ⟨b2, by simp only [forLoop, h1, h2], subnetGrows_trans _ _ _ _ _ g1 g2, fun _ => ?_⟩
    rw [g2.targetKept t1]
    exact t1

/-- A local subnet: `BuildSubnet` with `level = 1` returns; it makes the
routers first, then the clients of one access net for each router, and sets
the target if it was not set. -/
theorem buildSubnet_local (sqrt : K → K) (coords : Nat → K → Nat → Vector2D K)
    (draws : Nat → Nat → K) (firstAddress : Nat → Nat) (hfa : ∀ w, firstAddress w ≠ 0)
    (f density : K) (area nodeServiceArea parentNode : Nat) (b : Build K) :
    ∃ b', BuildSubnet sqrt coords draws firstAddress f density 1 area nodeServiceArea
          parentNode b = some b'
      ∧ SubnetGrows density 1
          (createNodes (NodeKind.router 1)
            (subnetNumberOfNodes b.creator.m_network_representation_factor area nodeServiceArea)
            b) b'
      ∧ (∀ e ∈ b'.creations.drop (b.creations.length + 1), e.kind = NodeKind.client)
      ∧ b'.creator.state.m_targetAddress ≠ 0 := by
  obtain ⟨b2, h2, g2, t2⟩ := accessNetLoop draws firstAddress hfa f density 0
    b.creator.state.nodeListSize
    (subnetNumberOfNodes b.creator.m_network_representation_factor area nodeServiceArea) 0
    (createNodes (NodeKind.router 1)
      (subnetNumberOfNodes b.creator.m_network_representation_factor area nodeServiceArea) b)
  have hunf : ∃ count, BuildSubnet sqrt coords draws firstAddress f density 1 area
      nodeServiceArea parentNode b = some (newNetworks count b2) := by
    rw [BuildSubnet]
    simp only [show ¬ ((1 : Nat) = 2) by decide, dite_false, if_true]
    rw [h2]
    exact ⟨_, rfl⟩
  obtain ⟨count, hunf⟩ := hunf
  refine ⟨newNetworks count b2, hunf, ?_, ?_, ?_⟩
  · exact subnetGrows_trans _ _ _ _ _ (subnetGrows_mono _ 0 1 (by decide) _ _ g2)
      (newNetworks_grows _ _ _ _)
  · obtain ⟨seg, hseg, hp⟩ := g2.creations
    intro e he
    have hc : (newNetworks count b2).creations = b2.creations := rfl
    rw [hc, hseg] at he
    simp only [createNodes, List.append_assoc, List.singleton_append] at he
    rw [List.drop_append_eq_append_drop, List.drop_of_length_le (by omega), List.nil_append] at he
    simp only [Nat.add_sub_cancel_left, List.drop_one, List.tail_cons] at he
    obtain ⟨-, -, -, hk⟩ := hp e he
    rcases hk with ⟨l, a, n, -, hl1, hl, -⟩ | ⟨hk, -⟩
    · omega
    · exact hk
  · show b2.creator.state.m_targetAddress ≠ 0
    exact t2 (subnetNumberOfNodes_pos _ _ _)

/-- The loop of a regional subnet over its routers: a local subnet each. -/
theorem localSubnetLoop (sqrt : K → K) (coords : Nat → K → Nat → Vector2D K)
    (draws : Nat → Nat → K) (firstAddress : Nat → Nat) (hfa : ∀ w, firstAddress w ≠ 0)
    (f density : K) (area numberOfNodes first : Nat) :
    ∀ (count start : Nat) (b : Build K),
      ∃ b', forLoop
          (fun i b =>
            BuildSubnet sqrt coords draws firstAddress f density 1
              (Nat.floor ((area : K)
                / ((numberOfNodes : K) / b.creator.m_network_representation_factor)))
              4 (first + i) b) start count b = some b'
        ∧ SubnetGrows density 1 b b'
        ∧ (1 ≤ count → b'.creator.state.m_targetAddress ≠ 0) := by
  intro count
  induction count with
  | zero =>
    intro start b
    exact ⟨b, rfl, subnetGrows_refl _ _ _, fun h => absurd h (by decide)⟩
  | succ n ih =>
    intro start b
    obtain ⟨b1, h1, g1, -, t1⟩ := buildSubnet_local sqrt coords draws firstAddress hfa f density
      (Nat.floor ((area : K)
        / ((numberOfNodes : K) / b.creator.m_network_representation_factor)))
      4 (first + start) b
    have g1' : SubnetGrows density 1 b b1 :=
      subnetGrows_trans _ _ _ _ _
        (createNodes_router_grows density 1 1 _ 4 (le_refl _) (le_refl _) b) g1
    obtain ⟨b2, h2, g2, -⟩ := ih (start + 1) b1
    refine ⟨b2, by simp only [forLoop, h1, h2], subnetGrows_trans _ _ _ _ _ g1' g2, fun _ => ?_⟩
    rw [g2.targetKept t1]
    exact t1

/-- A regional subnet: `BuildSubnet` with `level = 2` returns; it makes the
routers first, then a local subnet for each router, and sets the target if it
was not set. -/
theorem buildSubnet_regional (sqrt : K → K) (coords : Nat → K → Nat → Vector2D K)
    (draws : Nat → Nat → K) (firstAddress : Nat → Nat) (hfa : ∀ w, firstAddress w ≠ 0)
    (f density : K) (area nodeServiceArea parentNode : Nat) (b : Build K) :
    ∃ b', BuildSubnet sqrt coords draws firstAddress f density 2 area nodeServiceArea
          parentNode b = some b'
      ∧ SubnetGrows density 1
          (createNodes (NodeKind.router 2)
            (subnetNumberOfNodes b.creator.m_network_representation_factor area nodeServiceArea)
            b) b'
      ∧ b'.creator.state.m_targetAddress ≠ 0 := by
  obtain ⟨b2, h2, g2, t2⟩ := localSubnetLoop sqrt coords draws firstAddress hfa f density area
    (subnetNumberOfNodes b.creator.m_network_representation_factor area nodeServiceArea)
    b.creator.state.nodeListSize
    (subnetNumberOfNodes b.creator.m_network_representation_factor area nodeServiceArea) 0
    (createNodes (NodeKind.router 2)
      (subnetNumberOfNodes b.creator.m_network_representation_factor area nodeServiceArea) b)
  have hunf : ∃ count, BuildSubnet sqrt coords draws firstAddress f density 2 area
      nodeServiceArea parentNode b = some (newNetworks count b2) := by
    rw [BuildSubnet]
    simp only [dite_true, show ¬ ((2 : Nat) = 1) by decide, if_false]
    rw [h2]
    exact ⟨_, rfl⟩
  obtain ⟨count, hunf⟩ := hunf
  refine ⟨newNetworks count b2, hunf, ?_, ?_⟩
  · exact subnetGrows_trans _ _ _ _ _ g2 (newNetworks_grows _ _ _ _)
  · show b2.creator.state.m_targetAddress ≠ 0
    exact t2 (subnetNumberOfNodes_pos _ _ _)

/-- A regional subnet adds to the build of its country. -/
theorem buildSubnet_regional_grows (sqrt : K → K) (coords : Nat → K → Nat → Vector2D K)
    (draws : Nat → Nat → K) (firstAddress : Nat → Nat) (hfa : ∀ w, firstAddress w ≠ 0)
    (f density : K) (area nodeServiceArea parentNode : Nat) (b : Build K) :
    ∃ b', BuildSubnet sqrt coords draws firstAddress f density 2 area nodeServiceArea
          parentNode b = some b'
      ∧ SubnetGrows density 2 b b' ∧ b'.creator.state.m_targetAddress ≠ 0 := by
  obtain ⟨b', h, g, t⟩ := buildSubnet_regional sqrt coords draws firstAddress hfa f density area
    nodeServiceArea parentNode b
  exact ⟨b', h, subnetGrows_trans _ _ _ _ _
    (createNodes_router_grows density 2 2 area nodeServiceArea (by decide) (le_refl _) b)
    (subnetGrows_mono _ 1 2 (by decide) _ _ g), t⟩

/-- The loop of a country over its backbone nodes: a regional subnet each. -/
theorem regionalSubnetLoop (sqrt : K → K) (coords : Nat → K → Nat → Vector2D K)
    (draws : Nat → Nat → K) (firstAddress : Nat → Nat) (hfa : ∀ w, firstAddress w ≠ 0)
    (f density : K) (area first : Nat) :
    ∀ (count start : Nat) (b : Build K),
      ∃ b', forLoop
          (fun i b =>
            BuildSubnet sqrt coords draws firstAddress f density 2 area 900 (first + i) b)
          start count b = some b'
        ∧ SubnetGrows density 2 b b'
        ∧ (1 ≤ count → b'.creator.state.m_targetAddress ≠ 0) := by
  intro count
  induction count with
  | zero =>
    intro start b
    exact ⟨b, rfl, subnetGrows_refl _ _ _, fun h => absurd h (by decide)⟩
  | succ n ih =>
    intro start b
    obtain ⟨b1, h1, g1, t1⟩ := buildSubnet_regional_grows sqrt coords draws firstAddress hfa f
      density area 900 (first + start) b
    obtain ⟨b2, h2, g2, -⟩ := ih (start + 1) b1
    refine ⟨b2, by simp only [forLoop, h1, h2], subnetGrows_trans _ _ _ _ _ g1 g2, fun _ => ?_⟩
    rw [g2.targetKept t1]
    exact t1

end SubnetBuild

section SelectionLength

variable {K : Type} [LinearOrderedField K]

set_option linter.unusedSectionVars false

theorem greedyLoop_length (sqrt : K → K) (borderNodes : List (PositionedNode K)) :
    ∀ (n : Nat) (used : List Bool) (selected result : List (PositionedNode K)),
      greedyLoop sqrt borderNodes n used selected = some result →
      result.length = selected.length + n := by
  intro n
  induction n with
  | zero =>
    intro used selected result h
    simp only [greedyLoop, Option.some.injEq] at h
    rw [← h]
    rfl
  | succ n ih =>
    intro used selected result h
    simp only [greedyLoop] at h
    split at h
    · split at h
      · have := ih _ _ _ h
        rw [this, List.length_append, List.length_singleton]
        omega
      · cases h
    · cases h

theorem selectAllLoop_length (borderNodes : List (PositionedNode K)) :
    ∀ (k : Nat) (selected selected' : List (PositionedNode K)) (k' : Nat),
      selectAllLoop borderNodes selected k = some (selected', k') →
      selected'.length + k' = selected.length + k ∧ (1 ≤ k → 1 ≤ k') := by
  intro k
  induction k using Nat.strong_induction_on with
  | _ k ih =>
    intro selected selected' k' h
    rw [selectAllLoop] at h
    by_cases hgt : k > borderNodes.length
    · rw [dif_pos hgt] at h
      by_cases h0 : borderNodes.length = 0
      · rw [dif_pos h0] at h
        cases h
      · rw [dif_neg h0] at h
        obtain ⟨h1, h2⟩ := ih (k - borderNodes.length) (by omega) _ _ _ h
        rw [List.length_append] at h1
        exact ⟨by omega, fun _ => h2 (by omega)⟩
    · rw [dif_neg hgt] at h
      simp only [Option.some.injEq, Prod.mk.injEq] at h
      obtain ⟨rfl, rfl⟩ := h
      exact ⟨rfl, fun h => h⟩

/-- When `FindFurthestApartNodes` returns, it returns as many entries as
connections were asked for. -/
theorem findFurthestApartNodes_length (sqrt : K → K) (borderNodes : List (PositionedNode K))
    (k : Nat) (result : List (PositionedNode K))
    (h : FindFurthestApartNodes sqrt borderNodes k = some result) : result.length = k := by
  unfold FindFurthestApartNodes at h
  by_cases hk : k = 0
  · rw [if_pos hk] at h
    simp only [Option.some.injEq] at h
    rw [← h, hk]
    rfl
  · rw [if_neg hk] at h
    cases hs : selectAllLoop borderNodes [] k with
    | none => rw [hs] at h; cases h
    | some p =>
      obtain ⟨selected, k'⟩ := p
      rw [hs] at h
      obtain ⟨h1, h2⟩ := selectAllLoop_length borderNodes k [] selected k' hs
      cases borderNodes with
      | nil => cases h
      | cons first rest =>
        simp only at h
        have := greedyLoop_length sqrt _ _ _ _ _ h
        rw [this, List.length_append, List.length_singleton]
        have := h2 (by omega)
        simp only [List.length_nil] at h1
        omega

theorem scanLoop_ne_nil : ∀ (sorted stack : List (PositionedNode K)), stack ≠ [] →
    scanLoop stack sorted ≠ [] := by
  intro sorted
  induction sorted with
  | nil => intro stack h; simpa [scanLoop] using h
  | cons node rest ih =>
    intro stack _
    simp only [scanLoop]
    exact ih _ (List.cons_ne_nil _ _)

/-- On at least one node `FindBorderNodes` returns at least one border
node. -/
theorem findBorderNodes_ne_nil (nodes : List (PositionedNode K)) (hne : nodes ≠ []) :
    ∃ border, FindBorderNodes nodes = some border ∧ border ≠ [] := by
  cases nodes with
  | nil => exact absurd rfl hne
  | cons first rest =>
    refine ⟨_, rfl, ?_⟩
    simp only [grahamScan, ne_eq, List.reverse_eq_nil_iff]
    exact scanLoop_ne_nil _ _ (List.cons_ne_nil _ _)

/-- On at least one border node `FindFurthestApartNodes` returns. -/
theorem findFurthestApartNodes_total {sqrt : K → K} (hs : IsSqrt sqrt)
    (borderNodes : List (PositionedNode K)) (hne : borderNodes ≠ []) (k : Nat) :
    ∃ result, FindFurthestApartNodes sqrt borderNodes k = some result := by
  by_cases hk : k = 0
  · exact ⟨[], by simp [FindFurthestApartNodes, hk]⟩
  · obtain ⟨m, r, result, cyc, idxs, h, -⟩ :=
      findFurthestApartNodes_spec hs borderNodes hne k (by omega)
    exact ⟨result, h⟩

end SelectionLength

section CountryStepLemmas

variable {K : Type} [LinearOrderedField K] [FloorRing K]

theorem positionNodesRandomly_length (coords : Nat → K → Nat → Vector2D K) (n : Nat) (area : K)
    (seed : Nat) : (PositionNodesRandomly coords n area seed).length = n := by
  simp [PositionNodesRandomly]

/-- A country without backbone nodes makes `ConnectCountries` read the first of
no nodes. -/
theorem connectCountries_zero (sqrt : K → K) (coords : Nat → K → Nat → Vector2D K)
    (draws : Nat → Nat → K) (firstAddress : Nat → Nat) (mpiSize : Nat) (name : String)
    (area population : K) (pcap : Bool) (f : K) (neighbors : List (Country K))
    (prev : Option Nat) (b : Build K) :
    ConnectCountries sqrt coords draws firstAddress mpiSize
      (Country.mk name 0 area population pcap f neighbors) prev b = none := by
  rw [ConnectCountries]
  rfl

/-- The subnets of a country, built in the state `bl` that the creation of the
backbone nodes and the link to the previous country leave. -/
theorem countryStep_of_linked (sqrt : K → K)
    (coords : Nat → K → Nat → Vector2D K) (draws : Nat → Nat → K) (firstAddress : Nat → Nat)
    (hfa : ∀ w, firstAddress w ≠ 0) (mpiSize : Nat) (name : String) (nodesCount : Nat)
    (density : K) (area : Nat) (f : K) (prev : Option Nat) (b bl : Build K) (hn : 1 ≤ nodesCount)
    (l1 : bl.countries = b.countries ++ [name])
    (l2 : bl.neighbourCalls = b.neighbourCalls)
    (l3 : ∃ seg, bl.parentLinks = b.parentLinks ++ seg
          ∧ (∀ l ∈ seg, l.country = b.countries.length ∧ l.borderEntry = 0)
          ∧ seg.length = parentOffset prev)
    (l4 : bl.creations = b.creations
          ++ [⟨NodeKind.backbone, b.countries.length, b.creator.state.nodeListSize, nodesCount,
              b.creator.m_current_system_id⟩])
    (l5 : bl.creator.m_current_system_id = b.creator.m_current_system_id)
    (l6 : bl.creator.m_network_representation_factor = b.creator.m_network_representation_factor)
    (l7 : bl.creator.m_client_representation_factor = b.creator.m_client_representation_factor)
    (l8 : bl.accessNets = b.accessNets)
    (l9 : bl.creator.state.m_targetAddress = b.creator.state.m_targetAddress) :
    ∃ b2, forLoop
          (fun i s =>
            BuildSubnet sqrt coords draws firstAddress f density 2 area 900
              (b.creator.state.nodeListSize + i) s)
          0 nodesCount bl = some b2
      ∧ b2.countries.length - 1 = b.countries.length
      ∧ CountryStep mpiSize name nodesCount density prev b
          { b2 with creator := { b2.creator with
              m_current_system_id := nextSystemId mpiSize b2.creator.m_current_system_id } } := by
  obtain ⟨b2, h2, g2, t2⟩ := regionalSubnetLoop sqrt coords draws firstAddress hfa f
    density area b.creator.state.nodeListSize nodesCount 0 bl
  have hj : bl.countries.length - 1 = b.countries.length := by
    rw [l1, List.length_append, List.length_singleton]
    omega
  refine ⟨b2, h2, by rw [g2.countries]; exact hj, ?_⟩
  obtain ⟨seg, hseg, hp⟩ := g2.creations
  obtain ⟨rs, hrs, hq⟩ := g2.accessNets
  refine ⟨g2.countries.trans l1, g2.neighbourCalls.trans l2, ?_, ⟨seg, ?_, ?_⟩, ?_,
    g2.networkFactor.trans l6, g2.clientFactor.trans l7, ⟨rs, ?_, hq⟩, t2 hn, ?_⟩
  · obtain ⟨ls, hls, hl1, hl2⟩ := l3
    exact ⟨ls, g2.parentLinks.trans hls, hl1, hl2⟩
  · show b2.creations = _
    rw [hseg, l4, List.append_assoc]
    rfl
  · intro e he
    have := hp e he
    rw [l5, l6, l7, hj] at this
    exact this
  · show nextSystemId mpiSize b2.creator.m_current_system_id = _
    rw [g2.systemId, l5]
  · show b2.accessNets = _
    rw [hrs, l8]
  · intro hinv
    have hbl : TargetInv bl := by
      unfold TargetInv at hinv ⊢
      rw [l8, l9]
      exact hinv
    exact g2.targetInv hbl

/-- A country with a backbone node reaches the loop over its neighbours, with
as many selected border nodes as it has neighbours and a previous country. -/
theorem connectCountries_step {sqrt : K → K} (hs : IsSqrt sqrt)
    (coords : Nat → K → Nat → Vector2D K) (draws : Nat → Nat → K) (firstAddress : Nat → Nat)
    (hfa : ∀ w, firstAddress w ≠ 0) (mpiSize : Nat) (name : String) (nodesCount : Nat)
    (area population : K) (pcap : Bool) (f : K) (neighbors : List (Country K))
    (prev : Option Nat) (b : Build K) (hn : 1 ≤ nodesCount) :
    ∃ connecting b3, connecting.length = neighbors.length + parentOffset prev
      ∧ CountryStep mpiSize name nodesCount (population / area) prev b b3
      ∧ ConnectCountries sqrt coords draws firstAddress mpiSize
          (Country.mk name nodesCount area population pcap f neighbors) prev b
        = neighbourLoop sqrt coords draws firstAddress mpiSize b.creator.state.nodeListSize
            connecting b.countries.length (parentOffset prev) (parentOffset prev) neighbors b3 := by
  have hlen := positionNodesRandomly_length coords nodesCount area (Nat.floor population % 2 ^ 32)
  have hne : PositionNodesRandomly coords nodesCount area (Nat.floor population % 2 ^ 32) ≠ [] := by
    intro h0
    rw [h0] at hlen
    simp only [List.length_nil] at hlen
    omega
  obtain ⟨border, hb, hbne⟩ := findBorderNodes_ne_nil _ hne
  obtain ⟨connecting, hc⟩ := findFurthestApartNodes_total hs border hbne
    (neighbors.length + parentOffset prev)
  have hcl := findFurthestApartNodes_length sqrt border _ connecting hc
  cases prev with
  | none =>
    obtain ⟨b2, h2, hj, hstep⟩ := countryStep_of_linked sqrt coords draws firstAddress hfa mpiSize
      name nodesCount (population / area) (Nat.floor (area / (nodesCount : K))) f none b
      (newNetworks
        (CreateGabrielGraph sqrt
          (PositionNodesRandomly coords nodesCount area (Nat.floor population % 2 ^ 32))).length
        (createNodes NodeKind.backbone
          (PositionNodesRandomly coords nodesCount area (Nat.floor population % 2 ^ 32)).length
          { b with countries := b.countries ++ [name] })) hn rfl rfl
      ⟨[], (List.append_nil _).symm, fun l hl => (List.not_mem_nil l hl).elim, rfl⟩
      (by simp only [newNetworks, createNodes, hlen, List.length_append, List.length_singleton,
            Nat.add_sub_cancel])
      rfl rfl rfl rfl rfl
    refine ⟨connecting, _, hcl, hstep, ?_⟩
    rw [ConnectCountries]
    simp only [parentOffset, Option.isSome_none, Bool.false_eq_true, if_false] at hc ⊢
    simp only [hb, hc]
    have h2' := h2
    simp only [newNetworks, createNodes] at h2'
    simp only [newNetworks, createNodes]
    rw [h2']
    simp only [hj]
  | some p =>
    have h0 : 0 < connecting.length := by
      rw [hcl]
      simp [parentOffset]
    obtain ⟨b2, h2, hj, hstep⟩ := countryStep_of_linked sqrt coords draws firstAddress hfa mpiSize
      name nodesCount (population / area) (Nat.floor (area / (nodesCount : K))) f (some p) b
      (newNetworks 1
        { (newNetworks
            (CreateGabrielGraph sqrt
              (PositionNodesRandomly coords nodesCount area (Nat.floor population % 2 ^ 32))).length
            (createNodes NodeKind.backbone
              (PositionNodesRandomly coords nodesCount area (Nat.floor population % 2 ^ 32)).length
              { b with countries := b.countries ++ [name] })) with
          parentLinks := b.parentLinks ++
            [⟨(b.countries ++ [name]).length - 1, 0,
              b.creator.state.nodeListSize + ((connecting.get ⟨0, h0⟩).id % 2 ^ 32).toNat, p⟩] })
      hn rfl rfl
      ⟨[_], rfl, fun l hl => by
        rw [List.mem_singleton] at hl
        subst hl
        exact ⟨by simp only [List.length_append, List.length_singleton, Nat.add_sub_cancel], rfl⟩,
        rfl⟩
      (by simp only [newNetworks, createNodes, hlen, List.length_append, List.length_singleton,
            Nat.add_sub_cancel])
      rfl rfl rfl rfl rfl
    refine ⟨connecting, _, hcl, hstep, ?_⟩
    rw [ConnectCountries]
    simp only [parentOffset, Option.isSome_some, if_true] at hc ⊢
    simp only [hb, hc]
    have hget : connecting[0]? = some (connecting.get ⟨0, h0⟩) := List.getElem?_eq_getElem h0
    simp only [hget]
    have h2' := h2
    simp only [newNetworks, createNodes] at h2'
    simp only [newNetworks, createNodes]
    rw [h2']
    simp only [hj]

end CountryStepLemmas

section TreeLemmas

variable {K : Type} [LinearOrderedField K] [FloorRing K]

set_option linter.unusedSectionVars false

/-- The update of the partition counter is the successor modulo the number of
partitions. -/
theorem nextSystemId_mod (P j : Nat) (h1 : 1 ≤ P) (h2 : P < 2 ^ 32) :
    nextSystemId P (j % P) = (j + 1) % P := by
  have hlt : j % P < P := Nat.mod_lt _ (by omega)
  have hP : (P + 2 ^ 32 - 1) % 2 ^ 32 = P - 1 := by
    norm_num at h2 ⊢
    omega
  unfold nextSystemId
  rw [hP, Nat.add_mod j 1 P]
  by_cases hj : j % P = P - 1
  · rw [if_pos hj]
    by_cases hP1 : P = 1
    · subst hP1
      simp [Nat.mod_one]
    · have h1m : 1 % P = 1 := Nat.mod_eq_of_lt (by omega)
      have hPP : P - 1 + 1 = P := by omega
      rw [h1m, hj, hPP, Nat.mod_self]
  · rw [if_neg hj]
    have h1m : 1 % P = 1 := Nat.mod_eq_of_lt (by omega)
    rw [h1m, Nat.mod_eq_of_lt (show j % P + 1 < P by omega)]
    apply Nat.mod_eq_of_lt
    norm_num at h2 ⊢
    omega

theorem neighbourLoop_done (sqrt : K → K) (coords : Nat → K → Nat → Vector2D K)
    (draws : Nat → Nat → K) (firstAddress : Nat → Nat) (mpiSize first : Nat)
    (connecting : List (PositionedNode K)) (self offset i : Nat) (rest : List (Country K))
    (b : Build K) (h : ¬ i < connecting.length) :
    neighbourLoop sqrt coords draws firstAddress mpiSize first connecting self offset i rest b
      = some b := by
  rw [neighbourLoop.eq_def]
  simp only [if_neg h]

theorem neighbourLoop_cons (sqrt : K → K) (coords : Nat → K → Nat → Vector2D K)
    (draws : Nat → Nat → K) (firstAddress : Nat → Nat) (mpiSize first : Nat)
    (connecting : List (PositionedNode K)) (self offset i : Nat) (c : Country K)
    (cs : List (Country K)) (b : Build K) (h : i < connecting.length) :
    neighbourLoop sqrt coords draws firstAddress mpiSize first connecting self offset i
        (c :: cs) b
      = (ConnectCountries sqrt coords draws firstAddress mpiSize c
          (some (first + ((connecting.get ⟨i, h⟩).id % 2 ^ 32).toNat))
          { b with neighbourCalls := b.neighbourCalls ++ [⟨self, i - offset, i⟩] }).bind
        fun b1 => neighbourLoop sqrt coords draws firstAddress mpiSize first connecting self
          offset (i + 1) cs b1 := by
  rw [neighbourLoop.eq_def]
  simp only [if_pos h]
  have hget : connecting[i]? = some (connecting.get ⟨i, h⟩) := List.getElem?_eq_getElem h
  simp only [hget]
  cases ConnectCountries sqrt coords draws firstAddress mpiSize c
      (some (first + ((connecting.get ⟨i, h⟩).id % 2 ^ 32).toNat))
      { b with neighbourCalls := b.neighbourCalls ++ [⟨self, i - offset, i⟩] } with
  | none => rfl
  | some b1 => rfl

theorem treeGrows_refl (mpiSize own ownOffset : Nat) (ownLink : Prop) (lo : Nat) (b : Build K) :
    TreeGrows mpiSize own ownOffset ownLink lo b b :=
  ⟨⟨[], (List.append_nil _).symm, fun x hx => (List.not_mem_nil x hx).elim⟩,
    ⟨[], (List.append_nil _).symm, fun x hx => (List.not_mem_nil x hx).elim⟩,
    ⟨[], (List.append_nil _).symm, fun x hx => (List.not_mem_nil x hx).elim⟩,
    fun _ _ h => h,
    ⟨[], (List.append_nil _).symm, fun x hx => (List.not_mem_nil x hx).elim⟩,
    fun h => h, fun h => h, le_refl _⟩

/-- The step of a country followed by its loop over the neighbours. -/
theorem treeGrows_of_step (mpiSize : Nat) (name : String) (nodes : Nat) (density : K)
    (prev : Option Nat) (b b3 b' : Build K)
    (hstep : CountryStep mpiSize name nodes density prev b b3)
    (hg : TreeGrows mpiSize b.countries.length (parentOffset prev) False
      (b.countries.length + 1) b3 b') :
    TreeGrows mpiSize b.countries.length (parentOffset prev) (prev.isSome = true)
      (b.countries.length + 1) b b' := by
  obtain ⟨cs, hcs, hcp⟩ := hg.neighbourCalls
  obtain ⟨ls, hls, hlp⟩ := hg.parentLinks
  obtain ⟨es, hes, hep⟩ := hg.creations
  obtain ⟨rs, hrs, hrp⟩ := hg.accessNets
  obtain ⟨ls0, hls0, hlp0, hlen0⟩ := hstep.parentLinks
  obtain ⟨es0, hes0, hep0⟩ := hstep.creations
  obtain ⟨rs0, hrs0, hrp0⟩ := hstep.accessNets
  have hlen3 : b3.countries.length = b.countries.length + 1 := by
    rw [hstep.countries, List.length_append, List.length_singleton]
  have hle := hg.countriesLe
  have hsid : 1 ≤ mpiSize → mpiSize < 2 ^ 32 →
      b.creator.m_current_system_id = b.countries.length % mpiSize →
      b3.creator.m_current_system_id = b3.countries.length % mpiSize := by
    intro h1 h2 h
    rw [hstep.systemId, h, hlen3]
    exact nextSystemId_mod _ _ h1 h2
  refine ⟨⟨cs, by rw [hcs, hstep.neighbourCalls], hcp⟩, ⟨ls0 ++ ls, ?_, ?_⟩,
    ⟨(⟨NodeKind.backbone, b.countries.length, b.creator.state.nodeListSize, nodes,
        b.creator.m_current_system_id⟩ :: es0) ++ es, ?_, ?_⟩, ?_, ⟨rs0 ++ rs, ?_, ?_⟩,
    fun _ => hg.targetKept hstep.targetSet, fun h => hg.targetInv (hstep.targetInv h),
    by omega⟩
  · rw [hls, hls0, List.append_assoc]
  · intro l hl
    rcases List.mem_append.1 hl with hl | hl
    · obtain ⟨h1, h2⟩ := hlp0 l hl
      refine ⟨h2, Or.inl ⟨h1, ?_⟩⟩
      have hpos : 0 < ls0.length := List.length_pos_of_mem hl
      rw [hlen0] at hpos
      unfold parentOffset at hpos
      by_cases hp : prev.isSome = true
      · exact hp
      · rw [if_neg hp] at hpos
        exact (Nat.lt_irrefl 0 hpos).elim
    · obtain ⟨h1, h2⟩ := hlp l hl
      refine ⟨h1, ?_⟩
      rcases h2 with ⟨_, hf⟩ | h2
      · exact hf.elim
      · exact Or.inr h2
  · rw [hes, hes0, List.append_assoc]
  · intro e he
    rcases List.mem_append.1 he with he | he
    · have hfacts : e.country = b.countries.length
          ∧ e.systemId = b.creator.m_current_system_id := by
        rcases List.mem_cons.1 he with he | he
        · subst he
          exact ⟨rfl, rfl⟩
        · exact ⟨(hep0 e he).1, (hep0 e he).2.1⟩
      refine ⟨by omega, fun _ _ h => ?_⟩
      rw [hfacts.2, hfacts.1, h]
    · obtain ⟨h1, h2⟩ := hep e he
      exact ⟨h1, fun p1 p2 h => h2 p1 p2 (hsid p1 p2 h)⟩
  · intro p1 p2 h
    exact hg.systemId p1 p2 (hsid p1 p2 h)
  · rw [hrs, hrs0, List.append_assoc]
  · intro r hr
    rcases List.mem_append.1 hr with hr | hr
    · exact hrp0 r hr
    · exact hrp r hr

/-- A turn of the loop over the neighbours followed by the rest of the loop. -/
theorem treeGrows_loop_cons (mpiSize self offset i : Nat) (b b1 b' : Build K)
    (hoff : offset ≤ i)
    (h1 : TreeGrows mpiSize b.countries.length 1 True (b.countries.length + 1)
      { b with neighbourCalls := b.neighbourCalls ++ [⟨self, i - offset, i⟩] } b1)
    (h2 : TreeGrows mpiSize self offset False b1.countries.length b1 b') :
    TreeGrows mpiSize self offset False b.countries.length b b' := by
  obtain ⟨cs1, hcs1, hcp1⟩ := h1.neighbourCalls
  obtain ⟨ls1, hls1, hlp1⟩ := h1.parentLinks
  obtain ⟨es1, hes1, hep1⟩ := h1.creations
  obtain ⟨rs1, hrs1, hrp1⟩ := h1.accessNets
  obtain ⟨cs2, hcs2, hcp2⟩ := h2.neighbourCalls
  obtain ⟨ls2, hls2, hlp2⟩ := h2.parentLinks
  obtain ⟨es2, hes2, hep2⟩ := h2.creations
  obtain ⟨rs2, hrs2, hrp2⟩ := h2.accessNets
  have hle1 : b.countries.length ≤ b1.countries.length := h1.countriesLe
  have hle2 := h2.countriesLe
  refine ⟨⟨[⟨self, i - offset, i⟩] ++ cs1 ++ cs2, ?_, ?_⟩, ⟨ls1 ++ ls2, ?_, ?_⟩,
    ⟨es1 ++ es2, ?_, ?_⟩, ?_, ⟨rs1 ++ rs2, ?_, ?_⟩,
    fun h => h2.targetKept (h1.targetKept h), fun h => h2.targetInv (h1.targetInv h),
    by omega⟩
  · rw [hcs2, hcs1]
    simp only [List.append_assoc]
  · intro x hx
    rcases List.mem_append.1 hx with hx | hx
    · rcases List.mem_append.1 hx with hx | hx
      · rw [List.mem_singleton] at hx
        subst hx
        exact Or.inl ⟨rfl, (Nat.sub_add_cancel hoff).symm⟩
      · rcases hcp1 x hx with ⟨g1, g2⟩ | ⟨g1, g2⟩
        · exact Or.inr ⟨by omega, g2⟩
        · exact Or.inr ⟨by omega, g2⟩
    · rcases hcp2 x hx with g | ⟨g1, g2⟩
      · exact Or.inl g
      · exact Or.inr ⟨by omega, g2⟩
  · rw [hls2, hls1, List.append_assoc]
  · intro l hl
    rcases List.mem_append.1 hl with hl | hl
    · obtain ⟨g0, g⟩ := hlp1 l hl
      refine ⟨g0, Or.inr ?_⟩
      rcases g with ⟨g, _⟩ | g
      · omega
      · omega
    · obtain ⟨g0, g⟩ := hlp2 l hl
      refine ⟨g0, ?_⟩
      rcases g with g | g
      · exact Or.inl g
      · exact Or.inr (by omega)
  · rw [hes2, hes1, List.append_assoc]
  · intro e he
    rcases List.mem_append.1 he with he | he
    · obtain ⟨g1, g2⟩ := hep1 e he
      exact ⟨by omega, g2⟩
    · obtain ⟨g1, g2⟩ := hep2 e he
      exact ⟨g1, fun p1 p2 h => g2 p1 p2 (h1.systemId p1 p2 h)⟩
  · intro p1 p2 h
    exact h2.systemId p1 p2 (h1.systemId p1 p2 h)
  · rw [hrs2, hrs1, List.append_assoc]
  · intro r hr
    rcases List.mem_append.1 hr with hr | hr
    · exact hrp1 r hr
    · exact hrp2 r hr

end TreeLemmas

section TreeInduction

variable {K : Type} [LinearOrderedField K] [FloorRing K]

mutual

/-- A call of `ConnectCountries` that returns has numbered the countries of
the tree in pre-order, and has added to the build what `TreeGrows` tells; the
country has a backbone node, and the target is set. -/
theorem connectCountries_grows {sqrt : K → K} (hs : IsSqrt sqrt)
    (coords : Nat → K → Nat → Vector2D K) (draws : Nat → Nat → K) (firstAddress : Nat → Nat)
    (hfa : ∀ w, firstAddress w ≠ 0) (mpiSize : Nat) :
    ∀ (c : Country K) (prev : Option Nat) (b b' : Build K),
      ConnectCountries sqrt coords draws firstAddress mpiSize c prev b = some b' →
      b'.countries = b.countries ++ Country.preorder c
        ∧ TreeGrows mpiSize b.countries.length (parentOffset prev) (prev.isSome = true)
            (b.countries.length + 1) b b'
        ∧ b'.creator.state.m_targetAddress ≠ 0 ∧ 1 ≤ Country.nodes c
  | Country.mk name n area population pcap f neighbors, prev, b, b', h => by
    cases n with
    | zero =>
      rw [connectCountries_zero] at h
      cases h
    | succ m =>
      obtain ⟨connecting, b3, hcl, hstep, heq⟩ := connectCountries_step hs coords draws
        firstAddress hfa mpiSize name (m + 1) area population pcap f neighbors prev b
        (Nat.succ_le_succ (Nat.zero_le m))
      rw [heq] at h
      have hlen3 : b3.countries.length = b.countries.length + 1 := by
        rw [hstep.countries, List.length_append, List.length_singleton]
      obtain ⟨hc, hg⟩ := neighbourLoop_grows hs coords draws firstAddress hfa mpiSize neighbors
        connecting b.creator.state.nodeListSize b.countries.length (parentOffset prev)
        (parentOffset prev) b3 b' (le_refl _) (by omega) (by omega) h
      rw [hlen3] at hg
      refine ⟨?_, treeGrows_of_step mpiSize name (m + 1) (population / area) prev b b3 b'
        hstep hg, hg.targetKept hstep.targetSet, Nat.succ_le_succ (Nat.zero_le m)⟩
      rw [hc, hstep.countries, List.append_assoc]
      simp only [Country.preorder, List.singleton_append]

/-- The loop over the neighbours, when it returns, has numbered the countries
of the trees of the neighbours that were left, tree after tree. -/
theorem neighbourLoop_grows {sqrt : K → K} (hs : IsSqrt sqrt)
    (coords : Nat → K → Nat → Vector2D K) (draws : Nat → Nat → K) (firstAddress : Nat → Nat)
    (hfa : ∀ w, firstAddress w ≠ 0) (mpiSize : Nat) :
    ∀ (rest : List (Country K)) (connecting : List (PositionedNode K))
      (first self offset i : Nat) (b b' : Build K),
      offset ≤ i → i + rest.length = connecting.length → self < b.countries.length →
      neighbourLoop sqrt coords draws firstAddress mpiSize first connecting self offset i rest b
        = some b' →
      b'.countries = b.countries ++ Country.preorderList rest
        ∧ TreeGrows mpiSize self offset False b.countries.length b b'
  | [], connecting, first, self, offset, i, b, b', _, hlen, _, h => by
    rw [neighbourLoop_done _ _ _ _ _ _ _ _ _ _ _ _
      (by simp only [List.length_nil] at hlen; omega)] at h
    cases h
    exact ⟨by simp only [Country.preorderList, List.append_nil], treeGrows_refl _ _ _ _ _ _⟩
  | c :: cs, connecting, first, self, offset, i, b, b', hoff, hlen, hself, h => by
    have hi : i < connecting.length := by
      simp only [List.length_cons] at hlen
      omega
    rw [neighbourLoop_cons _ _ _ _ _ _ _ _ _ _ _ _ _ hi] at h
    cases h1 : ConnectCountries sqrt coords draws firstAddress mpiSize c
        (some (first + ((connecting.get ⟨i, hi⟩).id % 2 ^ 32).toNat))
        { b with neighbourCalls := b.neighbourCalls ++ [⟨self, i - offset, i⟩] } with
    | none =>
      rw [h1] at h
      cases h
    | some b1 =>
      rw [h1] at h
      simp only [Option.bind] at h
      obtain ⟨c1, g1, -, -⟩ := connectCountries_grows hs coords draws firstAddress hfa mpiSize
        c _ _ b1 h1
      have hle1 : b.countries.length ≤ b1.countries.length := g1.countriesLe
      obtain ⟨c2, g2⟩ := neighbourLoop_grows hs coords draws firstAddress hfa mpiSize cs
        connecting first self offset (i + 1) b1 b' (by omega)
        (by simp only [List.length_cons] at hlen; omega) (by omega) h
      refine ⟨?_, treeGrows_loop_cons mpiSize self offset i b b1 b' hoff ?_ g2⟩
      · rw [c2, c1]
        simp only [Country.preorderList, List.append_assoc]
      · have : parentOffset (some (first + ((connecting.get ⟨i, hi⟩).id % 2 ^ 32).toNat)) = 1 := rfl
        rw [this] at g1
        refine ⟨g1.neighbourCalls, ?_, g1.creations, g1.systemId, g1.accessNets, g1.targetKept,
          g1.targetInv, g1.countriesLe⟩
        obtain ⟨ls, hls, hlp⟩ := g1.parentLinks
        refine ⟨ls, hls, fun l hl => ⟨(hlp l hl).1, ?_⟩⟩
        rcases (hlp l hl).2 with ⟨q, _⟩ | q
        · exact Or.inl ⟨q, trivial⟩
        · exact Or.inr q

end

mutual

/-- On a tree whose countries all have a backbone node `ConnectCountries`
returns. -/
theorem connectCountries_total {sqrt : K → K} (hs : IsSqrt sqrt)
    (coords : Nat → K → Nat → Vector2D K) (draws : Nat → Nat → K) (firstAddress : Nat → Nat)
    (hfa : ∀ w, firstAddress w ≠ 0) (mpiSize : Nat) :
    ∀ (c : Country K), Country.AllHaveNodes c → ∀ (prev : Option Nat) (b : Build K),
      ∃ b', ConnectCountries sqrt coords draws firstAddress mpiSize c prev b = some b'
  | Country.mk name n area population pcap f neighbors, hall, prev, b => by
    simp only [Country.AllHaveNodes] at hall
    obtain ⟨connecting, b3, hcl, -, heq⟩ := connectCountries_step hs coords draws
      firstAddress hfa mpiSize name n area population pcap f neighbors prev b hall.1
    rw [heq]
    exact neighbourLoop_total hs coords draws firstAddress hfa mpiSize neighbors hall.2
      connecting b.creator.state.nodeListSize b.countries.length (parentOffset prev)
      (parentOffset prev) b3 (by omega)

/-- The loop over the neighbours returns when the selection has an entry for
each neighbour that is left. -/
theorem neighbourLoop_total {sqrt : K → K} (hs : IsSqrt sqrt)
    (coords : Nat → K → Nat → Vector2D K) (draws : Nat → Nat → K) (firstAddress : Nat → Nat)
    (hfa : ∀ w, firstAddress w ≠ 0) (mpiSize : Nat) :
    ∀ (rest : List (Country K)), Country.AllHaveNodesList rest →
      ∀ (connecting : List (PositionedNode K)) (first self offset i : Nat) (b : Build K),
      i + rest.length = connecting.length →
      ∃ b', neighbourLoop sqrt coords draws firstAddress mpiSize first connecting self offset i
        rest b = some b'
  | [], _, connecting, first, self, offset, i, b, hlen => by
    exact ⟨b, neighbourLoop_done _ _ _ _ _ _ _ _ _ _ _ _
      (by simp only [List.length_nil] at hlen; omega)⟩
  | c :: cs, hall, connecting, first, self, offset, i, b, hlen => by
    simp only [Country.AllHaveNodesList] at hall
    have hi : i < connecting.length := by
      simp only [List.length_cons] at hlen
      omega
    rw [neighbourLoop_cons _ _ _ _ _ _ _ _ _ _ _ _ _ hi]
    obtain ⟨b1, h1⟩ := connectCountries_total hs coords draws firstAddress hfa mpiSize c hall.1
      (some (first + ((connecting.get ⟨i, hi⟩).id % 2 ^ 32).toNat))
      { b with neighbourCalls := b.neighbourCalls ++ [⟨self, i - offset, i⟩] }
    rw [h1]
    exact neighbourLoop_total hs coords draws firstAddress hfa mpiSize cs hall.2 connecting first
      self offset (i + 1) b1 (by simp only [List.length_cons] at hlen; omega)

end

end TreeInduction

/-! ## Topology synthesizer: the claims on subnets and countries -/

section TopologyClaims

variable {K : Type} [LinearOrderedField K] [FloorRing K]

/-- C22: on a tree whose countries all have a backbone node, `ConnectCountries`
called for the root returns, so that no access to the selection or to the
neighbours is out of range; it has processed the countries of the tree in
pre-order, each once; every link to a previous country reads entry 0 of the
selection and none is made by the root; the call for the neighbour `j` reads
the entry `j` at the root and the entry `j + 1` at every other country. -/
theorem C22_countries_in_preorder {sqrt : K → K} (hs : IsSqrt sqrt)
    (coords : Nat → K → Nat → Vector2D K) (draws : Nat → Nat → K) (firstAddress : Nat → Nat)
    (hfa : ∀ w, firstAddress w ≠ 0) (mpiSize : Nat) (root : Country K)
    (hall : Country.AllHaveNodes root) (b : Build K) :
    ∃ b', ConnectCountries sqrt coords draws firstAddress mpiSize root none b = some b'
      ∧ b'.countries = b.countries ++ Country.preorder root
      ∧ (∃ links, b'.parentLinks = b.parentLinks ++ links
          ∧ ∀ l ∈ links, l.borderEntry = 0 ∧ b.countries.length < l.country)
      ∧ (∃ calls, b'.neighbourCalls = b.neighbourCalls ++ calls
          ∧ ∀ x ∈ calls, b.countries.length ≤ x.country
              ∧ x.borderEntry
                = x.neighbour + (if x.country = b.countries.length then 0 else 1)) := by
  obtain ⟨b', h⟩ := connectCountries_total hs coords draws firstAddress hfa mpiSize root hall
    none b
  obtain ⟨hc, hg, -, -⟩ := connectCountries_grows hs coords draws firstAddress hfa mpiSize root
    none b b' h
  obtain ⟨ls, hls, hlp⟩ := hg.parentLinks
  obtain ⟨cs, hcs, hcp⟩ := hg.neighbourCalls
  refine ⟨b', h, hc, ⟨ls, hls, fun l hl => ⟨(hlp l hl).1, ?_⟩⟩, ⟨cs, hcs, fun x hx => ?_⟩⟩
  · rcases (hlp l hl).2 with ⟨-, q⟩ | q
    · exact Bool.noConfusion q
    · exact q
  · rcases hcp x hx with ⟨q1, q2⟩ | ⟨q1, q2⟩
    · refine ⟨by omega, ?_⟩
      rw [if_pos q1, q2]
      rfl
    · refine ⟨by omega, ?_⟩
      rw [if_neg (by omega), q2]

/-- C22 on a country with one neighbour. -/
theorem C22_countries_in_preorder_witness :
    IsSqrt Real.sqrt ∧ (∀ w : Nat, w + 1 ≠ 0) ∧ Country.AllHaveNodes (twoCountries ℝ)
      ∧ ∃ b', ConnectCountries Real.sqrt (fun _ _ _ => ⟨0, 0⟩) (fun _ _ => 0) (fun w => w + 1) 2
            (twoCountries ℝ) none (Build.new Creator.new) = some b'
          ∧ b'.countries
            = (Build.new (Creator.new : Creator ℝ)).countries
              ++ Country.preorder (twoCountries ℝ) :=
  ⟨fun x hx => ⟨Real.sqrt_nonneg x, Real.mul_self_sqrt hx⟩, fun w => Nat.succ_ne_zero w,
    by simp [twoCountries, Country.AllHaveNodes, Country.AllHaveNodesList],
    let ⟨b', h, hc, _⟩ := C22_countries_in_preorder
      (fun x hx => ⟨Real.sqrt_nonneg x, Real.mul_self_sqrt hx⟩) (fun _ _ _ => ⟨0, 0⟩)
      (fun _ _ => 0) (fun w => w + 1) (fun w => Nat.succ_ne_zero w) 2 (twoCountries ℝ)
      (by simp [twoCountries, Country.AllHaveNodes, Country.AllHaveNodesList])
      (Build.new Creator.new)
    ⟨b', h, hc⟩⟩

/-- C23: with `1 ≤ mpiSize < 2 ^ 32` partitions and a partition counter that
is the number of the countries processed so far modulo `mpiSize`, as at the
start, `ConnectCountries` on a tree whose countries all have a backbone node
returns; every creation of backbone nodes, routers or clients made for the
country number `j` is made on the partition `j % mpiSize`, which is below
`mpiSize`; and in the end the counter is again the number of the countries
processed modulo `mpiSize`: it has advanced by one, modulo `mpiSize`, for each
country. -/
theorem C23_partition_round_robin {sqrt : K → K} (hs : IsSqrt sqrt)
    (coords : Nat → K → Nat → Vector2D K) (draws : Nat → Nat → K) (firstAddress : Nat → Nat)
    (hfa : ∀ w, firstAddress w ≠ 0) (mpiSize : Nat) (h1 : 1 ≤ mpiSize) (h2 : mpiSize < 2 ^ 32)
    (root : Country K) (hall : Country.AllHaveNodes root) (b : Build K)
    (hb : b.creator.m_current_system_id = b.countries.length % mpiSize) :
    ∃ b', ConnectCountries sqrt coords draws firstAddress mpiSize root none b = some b'
      ∧ b'.countries.length = b.countries.length + (Country.preorder root).length
      ∧ b'.creator.m_current_system_id
          = (b.countries.length + (Country.preorder root).length) % mpiSize
      ∧ b'.creator.m_current_system_id < mpiSize
      ∧ ∃ seg, b'.creations = b.creations ++ seg
          ∧ ∀ e ∈ seg, e.country < b'.countries.length
              ∧ e.systemId = e.country % mpiSize ∧ e.systemId < mpiSize := by
  obtain ⟨b', h⟩ := connectCountries_total hs coords draws firstAddress hfa mpiSize root hall
    none b
  obtain ⟨hc, hg, -, -⟩ := connectCountries_grows hs coords draws firstAddress hfa mpiSize root
    none b b' h
  obtain ⟨es, hes, hep⟩ := hg.creations
  have hlen : b'.countries.length = b.countries.length + (Country.preorder root).length := by
    rw [hc, List.length_append]
  have hsid := hg.systemId h1 h2 hb
  rw [hlen] at hsid
  refine ⟨b', h, hlen, hsid, ?_, es, hes, fun e he => ?_⟩
  · rw [hsid]
    exact Nat.mod_lt _ (by omega)
  · obtain ⟨q1, q2⟩ := hep e he
    refine ⟨q1, q2 h1 h2 hb, ?_⟩
    rw [q2 h1 h2 hb]
    exact Nat.mod_lt _ (by omega)

/-- C23 on a country with one neighbour and two partitions. -/
theorem C23_partition_round_robin_witness :
    IsSqrt Real.sqrt ∧ (∀ w : Nat, w + 1 ≠ 0) ∧ (1 : Nat) ≤ 2 ∧ (2 : Nat) < 2 ^ 32
      ∧ Country.AllHaveNodes (twoCountries ℝ)
      ∧ (Build.new (Creator.new : Creator ℝ)).creator.m_current_system_id
          = (Build.new (Creator.new : Creator ℝ)).countries.length % 2
      ∧ ∃ b', ConnectCountries Real.sqrt (fun _ _ _ => ⟨0, 0⟩) (fun _ _ => 0) (fun w => w + 1) 2
            (twoCountries ℝ) none (Build.new Creator.new) = some b'
          ∧ b'.countries.length
            = (Build.new (Creator.new : Creator ℝ)).countries.length
              + (Country.preorder (twoCountries ℝ)).length :=
  ⟨fun x hx => ⟨Real.sqrt_nonneg x, Real.mul_self_sqrt hx⟩, fun w => Nat.succ_ne_zero w,
    by decide, by norm_num,
    by simp [twoCountries, Country.AllHaveNodes, Country.AllHaveNodesList], rfl,
    let ⟨b', h, hc, _⟩ := C23_partition_round_robin
      (fun x hx => ⟨Real.sqrt_nonneg x, Real.mul_self_sqrt hx⟩) (fun _ _ _ => ⟨0, 0⟩)
      (fun _ _ => 0) (fun w => w + 1) (fun w => Nat.succ_ne_zero w) 2 (by decide) (by norm_num)
      (twoCountries ℝ) (by simp [twoCountries, Country.AllHaveNodes, Country.AllHaveNodesList])
      (Build.new Creator.new) rfl
    ⟨b', h, hc⟩⟩

end TopologyClaims

section CreateNetworkClaims

variable {K : Type} [LinearOrderedField K] [FloorRing K]

set_option linter.unusedSectionVars false

theorem targetInv_new (c : Creator K) (hc : c.state.m_targetAddress = 0) :
    TargetInv (Build.new c) :=
  Or.inl ⟨hc, rfl⟩

/-- When the target is set and every access net is well counted, one access
net includes the target and its classified clients are its other clients. -/
theorem targetNet_of_inv (b : Build K) (hinv : TargetInv b)
    (ht : b.creator.state.m_targetAddress ≠ 0) (hok : ∀ r ∈ b.accessNets, RecordOk r) :
    TargetNet b := by
  rcases hinv with ⟨h0, -⟩ | ⟨-, hlen⟩
  · exact absurd h0 ht
  · obtain ⟨r, hr⟩ := List.length_eq_one.1 hlen
    have hmem : r ∈ b.accessNets.filter fun r => r.includesTarget := by
      rw [hr]
      exact List.mem_singleton_self r
    obtain ⟨hm, hinc⟩ := List.mem_filter.1 hmem
    obtain ⟨h1, h2⟩ := hok r hm
    refine ⟨r, hr, h1, fun hlt => ?_⟩
    have := h2 hlt
    rw [hinc] at this
    exact this

/-- A call of `ConnectCountries` from `CreateNetwork` that returns leaves the
target set, and `CreateNetwork` returns its build. -/
theorem createNetwork_of_returns {sqrt : K → K} (hs : IsSqrt sqrt)
    (coords : Nat → K → Nat → Vector2D K) (draws : Nat → Nat → K) (firstAddress : Nat → Nat)
    (hfa : ∀ w, firstAddress w ≠ 0) (mpiSize : Nat) (c : Creator K)
    (hc : c.state.m_targetAddress = 0) (root : Country K) (b : Build K)
    (h : ConnectCountries sqrt coords draws firstAddress mpiSize root none (Build.new c)
      = some b) :
    CreateNetwork sqrt coords draws firstAddress mpiSize root c = Except.ok b
      ∧ TargetNet b ∧ b.accessNets ≠ [] := by
  obtain ⟨-, hg, ht, -⟩ := connectCountries_grows hs coords draws firstAddress hfa mpiSize root
    none (Build.new c) b h
  obtain ⟨rs, hrs, hrp⟩ := hg.accessNets
  have hnet : TargetNet b := by
    refine targetNet_of_inv b (hg.targetInv (targetInv_new c hc)) ht ?_
    intro r hr
    rw [hrs] at hr
    exact hrp r (by simpa [Build.new] using hr)
  refine ⟨?_, hnet, ?_⟩
  · unfold CreateNetwork
    rw [h]
    simp only [ne_eq, ht, not_false_eq_true, if_true]
  · obtain ⟨r, hr, -⟩ := hnet
    intro hnil
    rw [hnil] at hr
    cases hr

/-- A country without neighbours and with one backbone node: `ConnectCountries`
returns, having created the backbone node and then the routers of one
regional subnet, followed by what the local subnets of this subnet add. -/
theorem connectCountries_single {sqrt : K → K} (hs : IsSqrt sqrt)
    (coords : Nat → K → Nat → Vector2D K) (draws : Nat → Nat → K) (firstAddress : Nat → Nat)
    (hfa : ∀ w, firstAddress w ≠ 0) (mpiSize : Nat) (name : String) (area population : K)
    (pcap : Bool) (f : K) (b : Build K) :
    ∃ b' seg, ConnectCountries sqrt coords draws firstAddress mpiSize
          (Country.mk name 1 area population pcap f []) none b = some b'
      ∧ b'.creations = b.creations
          ++ ⟨NodeKind.backbone, b.countries.length, b.creator.state.nodeListSize, 1,
              b.creator.m_current_system_id⟩
          :: ⟨NodeKind.router 2, b.countries.length, b.creator.state.nodeListSize + 1,
              subnetNumberOfNodes b.creator.m_network_representation_factor
                (Nat.floor (area / ((1 : Nat) : K))) 900,
              b.creator.m_current_system_id⟩ :: seg
      ∧ ∀ e ∈ seg, e.kind = NodeKind.router 1 ∨ e.kind = NodeKind.client := by
  have hlen := positionNodesRandomly_length coords 1 area (Nat.floor population % 2 ^ 32)
  have hne : PositionNodesRandomly coords 1 area (Nat.floor population % 2 ^ 32) ≠ [] := by
    intro h0
    rw [h0] at hlen
    cases hlen
  obtain ⟨border, hb, hbne⟩ := findBorderNodes_ne_nil _ hne
  obtain ⟨connecting, hc⟩ := findFurthestApartNodes_total hs border hbne 0
  have hcl := findFurthestApartNodes_length sqrt border _ connecting hc
  obtain ⟨b2, h2, g2, -⟩ := buildSubnet_regional sqrt coords draws firstAddress hfa f
    (population / area) (Nat.floor (area / ((1 : Nat) : K))) 900 (b.creator.state.nodeListSize + 0)
    (newNetworks
      (CreateGabrielGraph sqrt
        (PositionNodesRandomly coords 1 area (Nat.floor population % 2 ^ 32))).length
      (createNodes NodeKind.backbone
        (PositionNodesRandomly coords 1 area (Nat.floor population % 2 ^ 32)).length
        { b with countries := b.countries ++ [name] }))
  obtain ⟨seg, hseg, hp⟩ := g2.creations
  refine ⟨{ b2 with creator := { b2.creator with
      m_current_system_id := nextSystemId mpiSize b2.creator.m_current_system_id } }, seg,
    ?_, ?_, ?_⟩
  · rw [ConnectCountries]
    simp only [Option.isSome_none, Bool.false_eq_true, if_false, List.length_nil,
      Nat.add_zero] at hc ⊢
    simp only [hb, hc]
    have h2' := h2
    simp only [newNetworks, createNodes] at h2'
    simp only [newNetworks, createNodes, forLoop]
    rw [h2']
    simp only []
    exact neighbourLoop_done _ _ _ _ _ _ _ _ _ _ _ _ (by rw [hcl]; exact Nat.lt_irrefl 0)
  · show b2.creations = _
    rw [hseg]
    simp only [newNetworks, createNodes, hlen, List.length_append, List.length_singleton,
      Nat.add_sub_cancel, List.append_assoc, List.singleton_append]
    rfl
  · intro e he
    obtain ⟨-, -, -, h4⟩ := hp e he
    rcases h4 with ⟨l, a, s, g1, g2', g3, -⟩ | ⟨h4, -⟩
    · have hl1 : l = 1 := by omega
      subst hl1
      exact Or.inl g1
    · exact Or.inr h4

/-- C13: on a fresh creator (no target yet) and with addresses other than
`0.0.0.0`, `CreateNetwork` never fails with "No target defined"; on a country
tree whose countries all have a backbone node it returns, and exactly one
access net of its build includes the target, with attacking and legitimate
clients that number the clients of this access net but one (the counters being
`uint32_t`, for fewer than `2 ^ 32` clients); on a single country with one
backbone node and no neighbour the build moreover has exactly one creation of
backbone nodes, of 1 node, and exactly one creation of regional routers, of at
least 1 router; the assertion fails exactly when `ConnectCountries` returns
without any access net built; and a root without backbone nodes makes
`ConnectCountries` read the first of no nodes, before the assertion. -/
theorem C13_target_defined {sqrt : K → K} (hs : IsSqrt sqrt)
    (coords : Nat → K → Nat → Vector2D K) (draws : Nat → Nat → K) (firstAddress : Nat → Nat)
    (hfa : ∀ w, firstAddress w ≠ 0) (mpiSize : Nat) (c : Creator K)
    (hc : c.state.m_targetAddress = 0) :
    (∀ root : Country K,
        CreateNetwork sqrt coords draws firstAddress mpiSize root c
          ≠ Except.error CreateFault.noTarget)
      ∧ (∀ root : Country K, Country.AllHaveNodes root →
          ∃ b, CreateNetwork sqrt coords draws firstAddress mpiSize root c = Except.ok b
            ∧ TargetNet b)
      ∧ (∀ (name : String) (area population : K) (pcap : Bool) (f : K),
          ∃ b backbone regional,
            CreateNetwork sqrt coords draws firstAddress mpiSize
                (Country.mk name 1 area population pcap f []) c = Except.ok b
              ∧ (b.creations.filter fun e => decide (e.kind = NodeKind.backbone)) = [backbone]
              ∧ backbone.count = 1
              ∧ (b.creations.filter fun e => decide (e.kind = NodeKind.router 2)) = [regional]
              ∧ 1 ≤ regional.count
              ∧ TargetNet b)
      ∧ (∀ root : Country K,
          CreateNetwork sqrt coords draws firstAddress mpiSize root c
              = Except.error CreateFault.noTarget
            ↔ ∃ b, ConnectCountries sqrt coords draws firstAddress mpiSize root none
                  (Build.new c) = some b
                ∧ b.accessNets = [])
      ∧ (∀ (name : String) (area population : K) (pcap : Bool) (f : K)
          (neighbors : List (Country K)),
          CreateNetwork sqrt coords draws firstAddress mpiSize
              (Country.mk name 0 area population pcap f neighbors) c
            = Except.error CreateFault.fault) := by
  have hnever : ∀ root : Country K,
      CreateNetwork sqrt coords draws firstAddress mpiSize root c
        ≠ Except.error CreateFault.noTarget := by
    intro root hno
    cases h : ConnectCountries sqrt coords draws firstAddress mpiSize root none (Build.new c) with
    | none =>
      unfold CreateNetwork at hno
      rw [h] at hno
      cases hno
    | some b =>
      rw [(createNetwork_of_returns hs coords draws firstAddress hfa mpiSize c hc root b h).1]
        at hno
      cases hno
  refine ⟨hnever, ?_, ?_, ?_, ?_⟩
  · intro root hall
    obtain ⟨b, h⟩ := connectCountries_total hs coords draws firstAddress hfa mpiSize root hall
      none (Build.new c)
    obtain ⟨h1, h2, -⟩ := createNetwork_of_returns hs coords draws firstAddress hfa mpiSize c hc
      root b h
    exact ⟨b, h1, h2⟩
  · intro name area population pcap f
    obtain ⟨b, seg, h, hcr, hseg⟩ := connectCountries_single hs coords draws firstAddress hfa
      mpiSize name area population pcap f (Build.new c)
    obtain ⟨h1, h2, -⟩ := createNetwork_of_returns hs coords draws firstAddress hfa mpiSize c hc
      _ b h
    have hb : (seg.filter fun e => decide (e.kind = NodeKind.backbone)) = [] := by
      rw [List.filter_eq_nil_iff]
      intro e he
      rcases hseg e he with q | q
      · rw [q]
        decide
      · rw [q]
        decide
    have hr : (seg.filter fun e => decide (e.kind = NodeKind.router 2)) = [] := by
      rw [List.filter_eq_nil_iff]
      intro e he
      rcases hseg e he with q | q
      · rw [q]
        decide
      · rw [q]
        decide
    refine ⟨b,
      ⟨NodeKind.backbone, (Build.new c).countries.length,
        (Build.new c).creator.state.nodeListSize, 1, (Build.new c).creator.m_current_system_id⟩,
      ⟨NodeKind.router 2, (Build.new c).countries.length,
        (Build.new c).creator.state.nodeListSize + 1,
        subnetNumberOfNodes (Build.new c).creator.m_network_representation_factor
          (Nat.floor (area / ((1 : Nat) : K))) 900,
        (Build.new c).creator.m_current_system_id⟩,
      h1, ?_, ?_, ?_, subnetNumberOfNodes_pos
      (Build.new c).creator.m_network_representation_factor
      (Nat.floor (area / ((1 : Nat) : K))) 900, h2⟩
    · rw [hcr]
      have : (Build.new c).creations = [] := rfl
      rw [this, List.nil_append]
      simp [List.filter_cons, hb]
    · rfl
    · rw [hcr]
      have : (Build.new c).creations = [] := rfl
      rw [this, List.nil_append]
      simp [List.filter_cons, hr]
  · intro root
    constructor
    · intro hno
      exact absurd hno (hnever root)
    · rintro ⟨b, h, hnil⟩
      exact absurd hnil
        (createNetwork_of_returns hs coords draws firstAddress hfa mpiSize c hc root b h).2.2
  · intro name area population pcap f neighbors
    unfold CreateNetwork
    rw [connectCountries_zero]

/-- C13 on the country "A" with one backbone node and no neighbour. -/
theorem C13_target_defined_witness :
    IsSqrt Real.sqrt ∧ (∀ w : Nat, w + 1 ≠ 0)
      ∧ (Creator.new : Creator ℝ).state.m_targetAddress = 0
      ∧ ∃ b backbone regional,
          CreateNetwork Real.sqrt (fun _ _ _ => ⟨0, 0⟩) (fun _ _ => 0) (fun w => w + 1) 1
              (Country.mk "A" 1 1000 5000 false (1 / 2) []) (Creator.new : Creator ℝ)
            = Except.ok b
          ∧ (b.creations.filter fun e => decide (e.kind = NodeKind.backbone)) = [backbone]
          ∧ backbone.count = 1
          ∧ (b.creations.filter fun e => decide (e.kind = NodeKind.router 2)) = [regional]
          ∧ 1 ≤ regional.count
          ∧ TargetNet b :=
  ⟨fun x hx => ⟨Real.sqrt_nonneg x, Real.mul_self_sqrt hx⟩, fun w => Nat.succ_ne_zero w, rfl,
    (C13_target_defined (fun x hx => ⟨Real.sqrt_nonneg x, Real.mul_self_sqrt hx⟩)
      (fun _ _ _ => ⟨0, 0⟩) (fun _ _ => 0) (fun w => w + 1) (fun w => Nat.succ_ne_zero w) 1
      (Creator.new : Creator ℝ) rfl).2.2.1 "A" 1000 5000 false (1 / 2)⟩

end CreateNetworkClaims

/-! ## Exact arithmetic next to `double` arithmetic: the Gabriel graph -/

section ExactGabriel

variable {F : Type} [Add F] [Sub F] [Mul F] [Div F] [OfNat F 2] [LE F]
  [DecidableRel (fun a b : F => a ≤ b)]

variable {K : Type} [LinearOrderedField K]

set_option linter.unusedSectionVars false

/-- When the disc test comes out for `a`, `b` and every other node as the test
on their values does, `IsGabrielEdge` gives the same on both. -/
theorem isGabrielEdge_exact (sqrtF : F → F) (sqrtK : K → K) (val : F → K)
    (a b : PositionedNode F) (nodes : List (PositionedNode F))
    (h : ∀ c ∈ nodes, c.id ≠ a.id → c.id ≠ b.id →
      (InDiameterDisc sqrtF a b c
        ↔ InDiameterDisc sqrtK (exactNode val a) (exactNode val b) (exactNode val c))) :
    IsGabrielEdge sqrtF a b nodes
      = IsGabrielEdge sqrtK (exactNode val a) (exactNode val b) (nodes.map (exactNode val)) := by
  rw [Bool.eq_iff_iff, isGabrielEdge_iff, isGabrielEdge_iff]
  constructor
  · intro hF node hnode hna hnb
    obtain ⟨c, hc, rfl⟩ := List.mem_map.1 hnode
    exact fun hd => hF c hc hna hnb ((h c hc hna hnb).2 hd)
  · intro hK c hc hna hnb hd
    exact hK (exactNode val c) (List.mem_map_of_mem _ hc) hna hnb ((h c hc hna hnb).1 hd)

theorem gabrielLoop_exact (sqrtF : F → F) (sqrtK : K → K) (val : F → K)
    (nodes : List (PositionedNode F))
    (h : ∀ a ∈ nodes, ∀ b ∈ nodes, ∀ c ∈ nodes, c.id ≠ a.id → c.id ≠ b.id →
      (InDiameterDisc sqrtF a b c
        ↔ InDiameterDisc sqrtK (exactNode val a) (exactNode val b) (exactNode val c))) :
    ∀ l : List (PositionedNode F), (∀ x ∈ l, x ∈ nodes) →
      gabrielLoop sqrtF nodes l
        = gabrielLoop sqrtK (nodes.map (exactNode val)) (l.map (exactNode val)) := by
  intro l
  induction l with
  | nil => intro _; rfl
  | cons a rest ih =>
    intro hsub
    have ha := hsub a (List.mem_cons_self _ _)
    have hrest : ∀ x ∈ rest, x ∈ nodes := fun x hx => hsub x (List.mem_cons_of_mem _ hx)
    simp only [gabrielLoop, List.map_cons]
    rw [ih hrest]
    congr 1
    rw [List.filter_map, List.map_map]
    have hf : rest.filter (fun b => IsGabrielEdge sqrtF a b nodes)
        = rest.filter ((fun b => IsGabrielEdge sqrtK (exactNode val a) b
            (nodes.map (exactNode val))) ∘ exactNode val) := by
      apply List.filter_congr
      intro b hb
      exact isGabrielEdge_exact sqrtF sqrtK val a b nodes
        (fun c hc => h a ha b (hrest b hb) c hc)
    rw [hf]
    rfl

/-- When every disc test on the nodes comes out as the test on their values
does, `CreateGabrielGraph` returns the same edges for both. -/
theorem createGabrielGraph_exact (sqrtF : F → F) (sqrtK : K → K) (val : F → K)
    (nodes : List (PositionedNode F))
    (h : ∀ a ∈ nodes, ∀ b ∈ nodes, ∀ c ∈ nodes, c.id ≠ a.id → c.id ≠ b.id →
      (InDiameterDisc sqrtF a b c
        ↔ InDiameterDisc sqrtK (exactNode val a) (exactNode val b) (exactNode val c))) :
    CreateGabrielGraph sqrtF nodes = CreateGabrielGraph sqrtK (nodes.map (exactNode val)) :=
  gabrielLoop_exact sqrtF sqrtK val nodes h nodes (fun _ hx => hx)

theorem graphConnected_exact (val : F → K) (nodes : List (PositionedNode F))
    (edges : List (Int × Int)) (h : GraphConnected (nodes.map (exactNode val)) edges) :
    GraphConnected nodes edges :=
  fun a ha b hb =>
    h (exactNode val a) (List.mem_map_of_mem _ ha) (exactNode val b) (List.mem_map_of_mem _ hb)

/-- With an exact square root the disc test of `IsGabrielEdge` is the test of
the closed diameter disc. -/
theorem inDiameterDisc_iff_closed {sqrt : K → K} (hs : IsSqrt sqrt) (a b c : PositionedNode K) :
    InDiameterDisc sqrt a b c ↔ InClosedDisc a b c := by
  unfold InDiameterDisc InClosedDisc CalculateDistance
  have hu := distanceSquared_nonneg c.position (midPointOf a b)
  have hv := distanceSquared_nonneg a.position b.position
  obtain ⟨u0, u1⟩ := hs _ hu
  obtain ⟨v0, v1⟩ := hs _ hv
  generalize sqrt (CalculateDistanceSquared c.position (midPointOf a b)) = su at u0 u1 ⊢
  generalize sqrt (CalculateDistanceSquared a.position b.position) = sv at v0 v1 ⊢
  rw [← u1, ← v1]
  constructor
  · intro h
    nlinarith
  · intro h
    by_contra hlt
    push_neg at hlt
    nlinarith

/-- The test of the closed diameter disc on rational values is the same on
their images in the real numbers. -/
theorem inClosedDisc_cast (val : F → ℚ) (a b c : PositionedNode F) :
    InClosedDisc (exactNode (fun x => ((val x : ℚ) : ℝ)) a)
        (exactNode (fun x => ((val x : ℚ) : ℝ)) b) (exactNode (fun x => ((val x : ℚ) : ℝ)) c)
      ↔ InClosedDisc (exactNode val a) (exactNode val b) (exactNode val c) := by
  simp only [InClosedDisc, CalculateDistanceSquared, midPointOf, exactNode]
  norm_cast

/-- No path of the graph with the one edge `(0, 1)` leads from `0` to `2`. -/
theorem not_reachable_two : ¬ Reachable [(0, 1)] (0 : Int) 2 := by
  intro h02
  have key : ∀ v : Int, Reachable [(0, 1)] (0 : Int) v → v = 0 ∨ v = 1 := by
    intro v hv
    induction hv with
    | refl => exact Or.inl rfl
    | tail _ hl ih =>
      simp only [Linked, List.mem_singleton, Prod.mk.injEq] at hl
      rcases hl with ⟨-, h2⟩ | ⟨h2, -⟩
      · exact Or.inr h2
      · exact Or.inl h2
  rcases key 2 h02 with h | h <;> omega

end ExactGabriel

/-! ## Exact arithmetic next to `double` arithmetic: the border scan -/

section ScanMembership

variable {F : Type} [OfNat F 0] [Add F] [Sub F] [Mul F] [LE F] [LT F] [DecidableEq F]
  [DecidableRel (fun a b : F => a ≤ b)] [DecidableRel (fun a b : F => a < b)]

set_option linter.unusedSectionVars false

end ScanMembership

section ExactScan

variable {F : Type} [OfNat F 0] [Add F] [Sub F] [Mul F] [LE F] [LT F] [DecidableEq F]
  [DecidableRel (fun a b : F => a ≤ b)] [DecidableRel (fun a b : F => a < b)]

variable {K : Type} [LinearOrderedField K]

set_option linter.unusedSectionVars false

end ExactScan

/-! ### Claims on the Gabriel graph and on the border nodes, in `double` arithmetic -/

/-- C4, as stated, fails in `double` arithmetic.  The three nodes of `nearNodes`
have coordinates that are `double` values and distinct ids.  No third node lies
in the closed disc whose diameter joins the nodes 1 and 2: the node 0 is at the
distance `(1 + 2 ^ (-60)) / 2` from the midpoint and the radius is
`(1 - 2 ^ (-60)) / 2`.  But the sum `2 ^ (-60) + 1` and the difference
`1 - 2 ^ (-60)` are both rounded to 1, the test on `double` values succeeds,
and `CreateGabrielGraph` returns the pair `(0, 1)` only. -/
theorem C4_rounded_disc_counterexample :
    (∀ n ∈ nearNodes, Binary64.IsValue n.position.x.val ∧ Binary64.IsValue n.position.y.val)
      ∧ (nearNodes.map fun n => n.id).Nodup
      ∧ CreateGabrielGraph Binary64.sqrt nearNodes = [(0, 1)]
      ∧ ∀ a ∈ nearNodes, ∀ b ∈ nearNodes, a.id = 1 → b.id = 2 →
          ∀ c ∈ nearNodes, c.id ≠ a.id → c.id ≠ b.id →
            InDiameterDisc Binary64.sqrt a b c
              ∧ ¬ InClosedDisc (exactNode Binary64.val a) (exactNode Binary64.val b)
                  (exactNode Binary64.val c)
              ∧ ¬ InDiameterDisc Real.sqrt (exactNode (fun x => ((x.val : ℚ) : ℝ)) a)
                  (exactNode (fun x => ((x.val : ℚ) : ℝ)) b)
                  (exactNode (fun x => ((x.val : ℚ) : ℝ)) c) := by
  have hq : ∀ a ∈ nearNodes, ∀ b ∈ nearNodes, a.id = 1 → b.id = 2 →
      ∀ c ∈ nearNodes, c.id ≠ a.id → c.id ≠ b.id →
        InDiameterDisc Binary64.sqrt a b c
          ∧ ¬ InClosedDisc (exactNode Binary64.val a) (exactNode Binary64.val b)
              (exactNode Binary64.val c) := by decide!
  refine ⟨by decide!, by decide!, by decide!, ?_⟩
  intro a ha b hb h1 h2 c hc hca hcb
  obtain ⟨q1, q2⟩ := hq a ha b hb h1 h2 c hc hca hcb
  refine ⟨q1, q2, fun hr => q2 ?_⟩
  have hs : IsSqrt Real.sqrt := fun x hx => ⟨Real.sqrt_nonneg x, Real.mul_self_sqrt hx⟩
  exact (inClosedDisc_cast Binary64.val a b c).1 ((inDiameterDisc_iff_closed hs _ _ _).1 hr)

/-- C4, amended: for nodes with pairwise distinct ids, in whatever arithmetic
the coordinates are computed with, `CreateGabrielGraph` returns exactly the
pairs `(nodes[i].id, nodes[j].id)` with `i < j` such that no third node
`nodes[k]` passes the test of `IsGabrielEdge`, which compares the computed
distance to the computed midpoint with half the computed distance from
`nodes[i]` to `nodes[j]`; each pair is returned once; one node gives no edge
and two nodes give exactly one edge.  When every such test comes out as the
test of the closed diameter disc on the values of the coordinates does, as in
exact arithmetic, these are the pairs for which no third node lies in the closed
diameter disc. -/
theorem C4_gabriel_graph_edges {K : Type} [Add K] [Sub K] [Mul K] [Div K] [OfNat K 2] [LE K]
    [DecidableRel (fun a b : K => a ≤ b)] (sqrt : K → K)
    (nodes : List (PositionedNode K)) (hid : (nodes.map fun n => n.id).Nodup) :
    (∀ e : Int × Int, e ∈ CreateGabrielGraph sqrt nodes ↔
        ∃ i j : Nat, ∃ (hij : i < j) (hj : j < nodes.length),
          e = (nodes[i].id, nodes[j].id)
            ∧ ∀ k : Nat, ∀ hk : k < nodes.length, k ≠ i → k ≠ j →
                ¬ InDiameterDisc sqrt nodes[i] nodes[j] nodes[k])
      ∧ (CreateGabrielGraph sqrt nodes).Nodup
      ∧ (nodes.length = 1 → CreateGabrielGraph sqrt nodes = [])
      ∧ (nodes.length = 2 → (CreateGabrielGraph sqrt nodes).length = 1)
      ∧ ∀ {L : Type} [LinearOrderedField L] (val : K → L), DiscTestsExact sqrt val nodes →
          ∀ e : Int × Int, e ∈ CreateGabrielGraph sqrt nodes ↔
            ∃ i j : Nat, ∃ (hij : i < j) (hj : j < nodes.length),
              e = (nodes[i].id, nodes[j].id)
                ∧ ∀ k : Nat, ∀ hk : k < nodes.length, k ≠ i → k ≠ j →
                    ¬ InClosedDisc (exactNode val nodes[i]) (exactNode val nodes[j])
                        (exactNode val nodes[k]) := by
  have hmem : ∀ e : Int × Int, e ∈ CreateGabrielGraph sqrt nodes ↔
      ∃ i j : Nat, ∃ (hij : i < j) (hj : j < nodes.length),
        e = (nodes[i].id, nodes[j].id)
          ∧ ∀ k : Nat, ∀ hk : k < nodes.length, k ≠ i → k ≠ j →
              ¬ InDiameterDisc sqrt nodes[i] nodes[j] nodes[k] := by
    intro e
    rw [CreateGabrielGraph, mem_gabrielLoop]
    constructor
    · rintro ⟨i, j, hij, hj, he, hg⟩
      exact ⟨i, j, hij, hj, he, (isGabrielEdge_index sqrt nodes hid i j (by omega) hj).mp hg⟩
    · rintro ⟨i, j, hij, hj, he, hg⟩
      exact ⟨i, j, hij, hj, he, (isGabrielEdge_index sqrt nodes hid i j (by omega) hj).mpr hg⟩
  have hinj : ∀ (k i : Nat) (hk : k < nodes.length) (hi : i < nodes.length), k ≠ i →
      nodes[k].id ≠ nodes[i].id := by
    intro k i hk hi hki heq
    apply hki
    have hk' : k < (nodes.map fun n => n.id).length := by rw [List.length_map]; exact hk
    have hi' : i < (nodes.map fun n => n.id).length := by rw [List.length_map]; exact hi
    have : (nodes.map fun n => n.id)[k] = (nodes.map fun n => n.id)[i] := by
      rw [List.getElem_map, List.getElem_map]
      exact heq
    exact (List.Nodup.getElem_inj_iff hid).1 this
  refine ⟨hmem, gabrielLoop_nodup sqrt nodes nodes hid, ?_, ?_, ?_⟩
  · intro h1
    match nodes, h1 with
    | [a], _ => simp [CreateGabrielGraph, gabrielLoop]
  · intro h2
    match nodes, h2 with
    | [a, b], _ =>
      have hg : IsGabrielEdge sqrt a b [a, b] = true := by
        rw [isGabrielEdge_iff]
        intro node hmem hna hnb
        simp only [List.mem_cons, List.mem_singleton, List.not_mem_nil, or_false] at hmem
        rcases hmem with rfl | rfl
        · exact absurd rfl hna
        · exact absurd rfl hnb
      simp [CreateGabrielGraph, gabrielLoop, hg]
  · intro L _ val hex e
    rw [hmem e]
    constructor
    · rintro ⟨i, j, hij, hj, he, hg⟩
      refine ⟨i, j, hij, hj, he, fun k hk hki hkj hd => hg k hk hki hkj ?_⟩
      exact (hex nodes[i] (List.getElem_mem _) nodes[j] (List.getElem_mem _) nodes[k]
        (List.getElem_mem _) (hinj k i hk (by omega) hki) (hinj k j hk hj hkj)).2 hd
    · rintro ⟨i, j, hij, hj, he, hg⟩
      refine ⟨i, j, hij, hj, he, fun k hk hki hkj hd => hg k hk hki hkj ?_⟩
      exact (hex nodes[i] (List.getElem_mem _) nodes[j] (List.getElem_mem _) nodes[k]
        (List.getElem_mem _) (hinj k i hk (by omega) hki) (hinj k j hk hj hkj)).1 hd

/-- C4, amended, at the three nodes of `lineNodes` in `double` arithmetic,
where every test comes out as in exact arithmetic. -/
theorem C4_gabriel_graph_edges_witness :
    (lineNodes.map fun n => n.id).Nodup
      ∧ DiscTestsExact Binary64.sqrt Binary64.val lineNodes
      ∧ (CreateGabrielGraph Binary64.sqrt lineNodes).Nodup
      ∧ ∀ e : Int × Int, e ∈ CreateGabrielGraph Binary64.sqrt lineNodes ↔
          ∃ i j : Nat, ∃ (hij : i < j) (hj : j < lineNodes.length),
            e = (lineNodes[i].id, lineNodes[j].id)
              ∧ ∀ k : Nat, ∀ hk : k < lineNodes.length, k ≠ i → k ≠ j →
                  ¬ InClosedDisc (exactNode Binary64.val lineNodes[i])
                      (exactNode Binary64.val lineNodes[j])
                      (exactNode Binary64.val lineNodes[k]) :=
  ⟨by decide!, by decide!,
    (C4_gabriel_graph_edges Binary64.sqrt lineNodes (by decide!)).2.1,
    (C4_gabriel_graph_edges Binary64.sqrt lineNodes (by decide!)).2.2.2.2 Binary64.val
      (by decide!)⟩

/-- C5, as stated, fails, also for nodes at pairwise different places: in
`double` arithmetic the three nodes of `nearNodes`, with distinct ids and
pairwise different positions, get the one edge `(0, 1)`, and the node 2 cannot
be reached. -/
theorem C5_rounded_graph_disconnected :
    nearNodes ≠ []
      ∧ (∀ n ∈ nearNodes, Binary64.IsValue n.position.x.val ∧ Binary64.IsValue n.position.y.val)
      ∧ (nearNodes.map fun n => n.id).Nodup
      ∧ ((nearNodes.map (exactNode Binary64.val)).map fun n => n.position).Nodup
      ∧ CreateGabrielGraph Binary64.sqrt nearNodes = [(0, 1)]
      ∧ ¬ GraphConnected nearNodes (CreateGabrielGraph Binary64.sqrt nearNodes) := by
  have hg : CreateGabrielGraph Binary64.sqrt nearNodes = [(0, 1)] := by decide!
  refine ⟨by decide!, by decide!, by decide!, by decide!, hg, ?_⟩
  rw [hg]
  intro h
  exact not_reachable_two
    (h ⟨0, ⟨⟨0⟩, ⟨0⟩⟩⟩ (by decide!) ⟨2, ⟨⟨1⟩, ⟨0⟩⟩⟩ (by decide!))

/-- C5, amended: for a non-empty list of nodes with pairwise distinct ids whose
positions have pairwise different values, the graph that `CreateGabrielGraph`
returns is connected whenever every disc test of `IsGabrielEdge` on the nodes
comes out as the test of the closed diameter disc does on the rational values
of the coordinates, as it does in exact arithmetic. -/
theorem C5_gabriel_connected_when_exact {F : Type} [Add F] [Sub F] [Mul F] [Div F]
    [OfNat F 2] [LE F] [DecidableRel (fun a b : F => a ≤ b)] (sqrt : F → F) (val : F → ℚ)
    (nodes : List (PositionedNode F)) (_hne : nodes ≠ [])
    (_hid : (nodes.map fun n => n.id).Nodup)
    (hpos : ((nodes.map (exactNode val)).map fun n => n.position).Nodup)
    (hdisc : DiscTestsExact sqrt val nodes) :
    GraphConnected nodes (CreateGabrielGraph sqrt nodes) := by
  have hs : IsSqrt Real.sqrt := fun x hx => ⟨Real.sqrt_nonneg x, Real.mul_self_sqrt hx⟩
  have hreal : ∀ a ∈ nodes, ∀ b ∈ nodes, ∀ c ∈ nodes, c.id ≠ a.id → c.id ≠ b.id →
      (InDiameterDisc sqrt a b c
        ↔ InDiameterDisc Real.sqrt (exactNode (fun x => ((val x : ℚ) : ℝ)) a)
            (exactNode (fun x => ((val x : ℚ) : ℝ)) b)
            (exactNode (fun x => ((val x : ℚ) : ℝ)) c)) := by
    intro a ha b hb c hc hca hcb
    rw [hdisc a ha b hb c hc hca hcb, inDiameterDisc_iff_closed hs, inClosedDisc_cast]
  rw [createGabrielGraph_exact sqrt Real.sqrt (fun x => ((val x : ℚ) : ℝ)) nodes hreal]
  apply graphConnected_exact (fun x => ((val x : ℚ) : ℝ))
  apply gabriel_connected hs
  have hmap : ((nodes.map (exactNode (fun x => ((val x : ℚ) : ℝ)))).map fun n => n.position)
      = (((nodes.map (exactNode val)).map fun n => n.position).map
          fun p : Vector2D ℚ => (⟨(p.x : ℝ), (p.y : ℝ)⟩ : Vector2D ℝ)) := by
    simp only [List.map_map]
    rfl
  rw [hmap]
  apply List.Nodup.map _ hpos
  intro p q hpq
  cases p
  cases q
  simp only [Vector2D.mk.injEq, Rat.cast_inj] at hpq
  simp only [Vector2D.mk.injEq]
  exact hpq

/-- C5, amended, at the three nodes of `lineNodes` in `double` arithmetic. -/
theorem C5_gabriel_connected_when_exact_witness :
    lineNodes ≠ []
      ∧ (lineNodes.map fun n => n.id).Nodup
      ∧ ((lineNodes.map (exactNode Binary64.val)).map fun n => n.position).Nodup
      ∧ DiscTestsExact Binary64.sqrt Binary64.val lineNodes
      ∧ GraphConnected lineNodes (CreateGabrielGraph Binary64.sqrt lineNodes) :=
  ⟨by decide!, by decide!, by decide!, by decide!,
    C5_gabriel_connected_when_exact Binary64.sqrt Binary64.val lineNodes (by decide!)
      (by decide!) (by decide!) (by decide!)⟩

end EDDD
